import Mathlib

/-! Descriptor rings and reset state machine of the alx Ethernet driver.

A shallow embedding of the ring engine of `if_alx.c`: the TX submission path
(`alx_tpd_req`, `alx_tpd_avail`, `alx_tso`, `alx_tx_csum`, `alx_tx_map`,
`alx_start_xmit_ring`), TX reclaim (`alx_txbuf_unmap_and_free`,
`alx_clean_tx_irq`, `alx_free_txring_buf`), RX refill and dispatch
(`alx_alloc_rxring_buf`, `alx_free_rxring_buf`, `alx_dispatch_skb`), the
reset path (`alx_halt`, `alx_activate`, `alx_reinit_rings`, `alx_reinit`), the
link check and the deferred task (`alx_check_link`, `alx_task`,
`alx_handle_intr_misc`), the NAPI poll (`alx_poll`), the entry of the
submission path (`alx_start_xmit`) and the FreeBSD attachment
(`alx_init_tx_ring`, `alx_encap`, `alx_start_locked`).

Conventions of the embedding.

* C structures become Lean structures with the field names of the source; the
  arrays `bf_info`, `tpd_hdr`, `rfd_hdr`, `rrd_hdr` are lists indexed by slot.
* Variables the source declares `u16` are truncated with `u16` where the source
  assigns or increments them.
* Calls into collaborators outside the file (DMA unmap, `dev_kfree_skb`,
  register writes, netif calls, MAC routines) are recorded as `Event`s, returned
  by each function in program order.
* Answers of collaborators (DMA mapping, buffer allocation, register reads) are
  explicit arguments.
* Bit fields of hardware descriptors, whose shift and mask macros live in the
  absent header `alx_hw.h`, are named record fields.
-/

namespace Alx

/-- Truncation to the C type `u16`. -/
def u16 (n : Nat) : Nat := n % 65536

/-- Truncation to the C type `u8`. -/
def u8 (n : Nat) : Nat := n % 256

/-- The idiom `if (++p == count) p = 0;` on a `u16` index `p`. -/
def ring_inc (count p : Nat) : Nat :=
  if u16 (p + 1) = count then 0 else u16 (p + 1)

/-- A received packet as handed to `alx_skb_queue_tail`: the buffer handle
(`none` is a NULL `skb`), the length given to `skb_put`, whether `ip_summed`
was set to `CHECKSUM_UNNECESSARY`, and the VLAN tag if one was attached. -/
structure rx_skb where
  id : Option Nat
  len : Nat
  csum_unnecessary : Bool
  vlan : Option Nat
deriving DecidableEq, Repr

/-- Calls into collaborators outside `if_alx.c`, in program order. In
`skb_queue_tail` the target is `none` for the ring itself and `some q` for
`adpt->qnapi[q]->rxq`. -/
inductive Event where
  | skb_queue_tail (target : Option Nat) (skb : rx_skb)
  | dma_unmap_rx (dma size : Nat)
  | dma_unmap_single (dma size : Nat)
  | dma_unmap_page (dma size : Nat)
  | kfree_skb (skb : Nat)
  | wmb
  | mem_w16 (reg val : Nat)
  | isr_write_clear
  | netif_tx_stop_queue
  | netif_tx_wake_queue
  | netdev_tx_sent_queue (bytes : Nat)
  | netdev_tx_completed_queue (pkts : Nat)
  | netdev_tx_reset_queue (qidx : Nat)
  | schedule_work
  | cancel_work
  | netif_carrier_off
  | netif_tx_disable
  | napi_disable (i : Nat)
  | reset_mac
  | enable_aspm (l0s l1 : Bool)
  | irq_disable
  | irq_enable
  | init_ring_ptrs
  | configure_basic
  | configure_rss (en : Bool)
  | set_rx_mode
  | set_vlan_mode
  | msleep (ms : Nat)
  | netif_err_si_nor
  | netdev_warn
  | clear_phy_intr
  | get_phy_link
  | mem_w32_imr (val : Nat)
  | show_speed (speed : Nat)
  | post_phy_link (speed : Nat) (az : Bool)
  | start_mac
  | netif_tx_wake_all_queues
  | napi_enable (i : Nat)
  | netif_carrier_on
  | netif_err_reset_mac
  | update_hw_stats
  | napi_complete
  | napi_gro_receive (skb : rx_skb)
  | mask_msix (vec : Nat) (mask : Bool)
  | mem_flush
  | dump_state
deriving DecidableEq, Repr

/-- The slot record `struct alx_buffer`: attached `skb` handle, DMA address,
mapped length (`dma_unmap_len(.., size)`) and the `ALX_BUF_TX_FIRSTFRAG` bit of
`flags`, the only flag bit the file uses. -/
structure alx_buffer where
  skb : Option Nat
  dma : Nat
  size : Nat
  firstfrag : Bool
deriving DecidableEq, Repr

/-- A zero-filled slot record, as left by `memset(.., 0, ..)`. -/
def alx_buffer.zero : alx_buffer := ⟨none, 0, 0, false⟩

instance : Inhabited alx_buffer := ⟨alx_buffer.zero⟩

/-- Fields of `tpd_desc.word0`: `TPD_BUFLEN` and `TPD_VLTAG`. -/
structure tpd_word0 where
  buflen : Nat
  vltag : Nat
deriving DecidableEq, Repr

/-- Fields of `tpd_desc.word1`, one record field per `TPD_*` macro the file
uses. -/
structure tpd_word1 where
  cxsumstart : Nat
  cxsumoffset : Nat
  l4hdroffset : Nat
  mss : Nat
  cxsum_en : Bool
  ip_xsum : Bool
  tcp_xsum : Bool
  lso_en : Bool
  lso_v2 : Bool
  vltagged : Bool
  ins_vltag : Bool
  ipv4 : Bool
  ethtype : Bool
  eop : Bool
deriving DecidableEq, Repr

/-- The union `tpd_desc.adrl`: a buffer address, or the packet length of the
leading LSOv2 descriptor. -/
inductive tpd_adrl where
  | addr (a : Nat)
  | pkt_len (n : Nat)
deriving DecidableEq, Repr

/-- The hardware TX descriptor `struct tpd_desc`. -/
structure tpd_desc where
  adrl : tpd_adrl
  word0 : tpd_word0
  word1 : tpd_word1
deriving DecidableEq, Repr

/-- Zero value of `word0`. -/
def tpd_word0.zero : tpd_word0 := ⟨0, 0⟩

/-- Zero value of `word1`. -/
def tpd_word1.zero : tpd_word1 :=
  ⟨0, 0, 0, 0, false, false, false, false, false, false, false, false, false, false⟩

/-- A zero-filled descriptor, as left by `memset(first, 0, ..)`. -/
def tpd_desc.zero : tpd_desc := ⟨tpd_adrl.addr 0, tpd_word0.zero, tpd_word1.zero⟩

instance : Inhabited tpd_desc := ⟨tpd_desc.zero⟩

/-- The TX queue `struct alx_tx_queue`. -/
structure alx_tx_queue where
  qidx : Nat
  p_reg : Nat
  c_reg : Nat
  count : Nat
  pidx : Nat
  cidx : Nat
  bf_info : List alx_buffer
  tpd_hdr : List tpd_desc
deriving DecidableEq, Repr

/-- The fields of an outbound `struct sk_buff` the TX path reads. `frags` lists
`skb_frag_size` of each fragment, so `nr_frags` is its length; `protocol` is
`ntohs(skb->protocol)`; `expand_head_err` is what `pskb_expand_head` returns
for this packet. -/
structure sk_buff where
  id : Nat
  len : Nat
  headlen : Nat
  frags : List Nat
  ip_summed : Nat
  gso_size : Nat
  gso_type_tcpv6 : Bool
  protocol : Nat
  header_cloned : Bool
  expand_head_err : Int
  network_offset : Nat
  transport_offset : Nat
  tcp_hdrlen : Nat
  csum_start_offset : Nat
  csum_offset : Nat
  vlan_tag : Option Nat
deriving DecidableEq, Repr

/-- Kernel constant `CHECKSUM_PARTIAL`. -/
def CHECKSUM_PARTIAL_VAL : Nat := 3

/-- Kernel constant `ETH_P_IP`. -/
def ETH_P_IP : Nat := 0x0800

/-- Kernel constant `ETH_P_8021Q`. -/
def ETH_P_8021Q : Nat := 0x8100

/-- Kernel constant `ETH_HLEN`. -/
def ETH_HLEN : Nat := 14

/-- Kernel helper `skb_is_gso`: `gso_size` is non-zero. -/
def skb_is_gso (skb : sk_buff) : Bool := skb.gso_size != 0

/-- Kernel helper `skb_is_gso_v6`: `gso_type & SKB_GSO_TCPV6`. -/
def skb_is_gso_v6 (skb : sk_buff) : Bool := skb.gso_type_tcpv6

/-- Return values of the submission path. -/
inductive netdev_tx_t where
  | NETDEV_TX_OK
  | NETDEV_TX_BUSY
deriving DecidableEq, Repr

/-- Constants of the absent header `if_alxvar.h`, taken as parameters. -/
structure alx_params where
  ALX_DEFAULT_TX_WORK : Int
  ALX_TX_WAKEUP_THRESH : alx_tx_queue → Int
  ALX_RX_ALLOC_THRESH : Nat

/-! ## TX ring -/

/-- Source `alx_txbuf_unmap_and_free`: unmap the slot if it holds a mapping,
free its `skb` if it holds one, set the mapped length to zero. -/
def alx_txbuf_unmap_and_free (txq : alx_tx_queue) (entry : Nat) :
    alx_tx_queue × List Event :=
  let txb := txq.bf_info.getD entry alx_buffer.zero
  let r1 : alx_buffer × List Event :=
    if txb.size ≠ 0 ∧ txb.firstfrag = true then
      ({ txb with firstfrag := false }, [Event.dma_unmap_single txb.dma txb.size])
    else if txb.size ≠ 0 then
      (txb, [Event.dma_unmap_page txb.dma txb.size])
    else (txb, [])
  let r2 : alx_buffer × List Event :=
    match r1.1.skb with
    | some s => ({ r1.1 with skb := none }, [Event.kfree_skb s])
    | none => (r1.1, [])
  ({ txq with bf_info := txq.bf_info.set entry { r2.1 with size := 0 } }, r1.2 ++ r2.2)

/-- The loop `for (i = 0; i < txq->count; i++) alx_txbuf_unmap_and_free(txq, i)`. -/
def alx_free_txring_loop : Nat → Nat → alx_tx_queue → List Event → alx_tx_queue × List Event
  | 0, _, txq, ev => (txq, ev)
  | n + 1, i, txq, ev =>
    let r := alx_txbuf_unmap_and_free txq i
    alx_free_txring_loop n (i + 1) r.1 (ev ++ r.2)

/-- Source `alx_free_txring_buf` on an allocated ring (`bf_info` non-null, arrays
of `count` entries): release every slot, zero both arrays, reset both indices. -/
def alx_free_txring_buf (txq : alx_tx_queue) : alx_tx_queue × List Event :=
  let r := alx_free_txring_loop txq.count 0 txq []
  ({ r.1 with
      bf_info := List.replicate txq.count alx_buffer.zero
      tpd_hdr := List.replicate txq.count tpd_desc.zero
      pidx := 0
      cidx := 0 },
   r.2 ++ [Event.netdev_tx_reset_queue txq.qidx])

/-- Source `alx_tpd_avail`, in C `int` arithmetic on the promoted operands. -/
def alx_tpd_avail (txq : alx_tx_queue) : Int :=
  let cidx := u16 txq.cidx
  if txq.pidx ≥ cidx then
    (txq.count : Int) + cidx - txq.pidx - 1
  else
    (cidx : Int) - txq.pidx - 1

/-- Source `alx_tpd_req`. -/
def alx_tpd_req (skb : sk_buff) : Int :=
  let num : Int := skb.frags.length + 1
  if skb_is_gso skb && skb.gso_type_tcpv6 then num + 1 else num

/-- Source `alx_tx_csum`: custom checksum offload parameters written into the
first descriptor. Negative: drop; zero: none; positive: offload requested. -/
def alx_tx_csum (skb : sk_buff) (first : tpd_desc) : Int × tpd_desc :=
  if skb.ip_summed ≠ CHECKSUM_PARTIAL_VAL then (0, first)
  else
    let cso := u8 skb.csum_start_offset
    if cso % 2 = 1 then (-1, first)
    else
      let css := u8 (cso + skb.csum_offset)
      (1, { first with word1 := { first.word1 with
              cxsumstart := first.word1.cxsumstart ||| (cso / 2)
              cxsumoffset := first.word1.cxsumoffset ||| (css / 2)
              cxsum_en := true } })

/-- Source `alx_tso`: segmentation fields written into the first descriptor.
The rewriting of the IP and TCP headers inside the packet is not represented.
Each `TPD_*` field is a record field of its own and holds the value handed to
`FIELDX` as it is: the widths and positions of the fields, and which of them
share bits of `word1`, are fixed by masks and shifts of the absent header. -/
def alx_tso (skb : sk_buff) (first : tpd_desc) : Int × tpd_desc :=
  if skb.ip_summed ≠ CHECKSUM_PARTIAL_VAL ∨ skb_is_gso skb = false then (0, first)
  else if skb.header_cloned = true ∧ skb.expand_head_err ≠ 0 then (skb.expand_head_err, first)
  else
    let hdr_len := skb.transport_offset + skb.tcp_hdrlen
    if skb.protocol = ETH_P_IP then
      let w := { first.word1 with
                  ipv4 := true
                  l4hdroffset := first.word1.l4hdroffset ||| skb.transport_offset }
      if skb.len = hdr_len then
        (0, { first with word1 := { w with ip_xsum := true, tcp_xsum := true } })
      else
        (1, { first with word1 := { w with lso_en := true, mss := w.mss ||| skb.gso_size } })
    else if skb_is_gso_v6 skb = true then
      let w := { first.word1 with
                  l4hdroffset := first.word1.l4hdroffset ||| skb.transport_offset }
      if skb.len = hdr_len then
        (0, { first with word1 := { w with ip_xsum := true, tcp_xsum := true } })
      else
        (1, { first with
                adrl := tpd_adrl.pkt_len skb.len
                word1 := { w with lso_en := true, lso_v2 := true, mss := w.mss ||| skb.gso_size } })
    else (1, first)

/-- The unwinding loop at label `err_dma` of `alx_tx_map`:
`for (f = txq->pidx; f != producer;) { alx_txbuf_unmap_and_free(txq, f); if (++f == txq->count) f = 0; }`.
The first argument bounds the number of iterations. -/
def alx_tx_map_unwind (producer : Nat) :
    Nat → Nat → alx_tx_queue → List Event → alx_tx_queue × List Event
  | 0, _, txq, ev => (txq, ev)
  | fuel + 1, f, txq, ev =>
    if f = producer then (txq, ev)
    else
      let r := alx_txbuf_unmap_and_free txq f
      alx_tx_map_unwind producer fuel (ring_inc txq.count f) r.1 (ev ++ r.2)

/-- The two assignments `tpd->word0 = first_tpd->word0; tpd->word1 = first_tpd->word1;`
of `alx_tx_map`, for the descriptor at `producer`. -/
def alx_tx_map_copy (txq : alx_tx_queue) (first producer : Nat) : alx_tx_queue :=
  let first_tpd := txq.tpd_hdr.getD first tpd_desc.zero
  let tpd : tpd_desc :=
    { txq.tpd_hdr.getD producer tpd_desc.zero with
        word0 := first_tpd.word0, word1 := first_tpd.word1 }
  { txq with tpd_hdr := txq.tpd_hdr.set producer tpd }

/-- The four statements of `alx_tx_map` after a successful mapping:
`dma_unmap_len_set(buf, size, maplen)`, `dma_unmap_addr_set(buf, dma, dma)`,
`tpd->adrl.addr = dma` and `FIELD_SET32(tpd->word0, TPD_BUFLEN, maplen)`. -/
def alx_tx_map_store (txq : alx_tx_queue) (producer maplen dma : Nat) : alx_tx_queue :=
  let buf := txq.bf_info.getD producer alx_buffer.zero
  let tpd := txq.tpd_hdr.getD producer tpd_desc.zero
  let buf1 : alx_buffer := { buf with size := maplen, dma := dma }
  let tpd1 : tpd_desc :=
    { tpd with adrl := tpd_adrl.addr dma, word0 := { tpd.word0 with buflen := maplen } }
  { txq with bf_info := txq.bf_info.set producer buf1, tpd_hdr := txq.tpd_hdr.set producer tpd1 }

/-- The start of `alx_tx_map`: when the first descriptor carries `TPD_LSO_V2`
the producer steps to the next slot, whose descriptor receives the control
words of the first. Returns the ring and `producer`. -/
def alx_tx_map_lso (txq : alx_tx_queue) : alx_tx_queue × Nat :=
  let producer := u16 txq.pidx
  if (txq.tpd_hdr.getD producer tpd_desc.zero).word1.lso_v2 = true then
    let p := ring_inc txq.count producer
    (alx_tx_map_copy txq producer p, p)
  else (txq, producer)

/-- The end of `alx_tx_map` on success: end-of-packet bit in the last
descriptor, `ALX_BUF_TX_FIRSTFRAG` in the first slot record, the packet
attached to the last slot record, `pidx` moved past the last slot. -/
def alx_tx_map_last (txq : alx_tx_queue) (skb : sk_buff) (first last : Nat) : alx_tx_queue :=
  let tpd := txq.tpd_hdr.getD last tpd_desc.zero
  let hdr := txq.tpd_hdr.set last { tpd with word1 := { tpd.word1 with eop := true } }
  let producer := ring_inc txq.count last
  let first_buf := txq.bf_info.getD first alx_buffer.zero
  let bf1 := txq.bf_info.set first { first_buf with firstfrag := true }
  let buf := bf1.getD last alx_buffer.zero
  let bf2 := bf1.set last { buf with skb := some skb.id }
  { txq with tpd_hdr := hdr, bf_info := bf2, pidx := producer }

/-- The fragment loop of `alx_tx_map`. `dma_map k` is the answer of the DMA
mapping service for the head (`k = 0`) or for fragment `k - 1`; `none` is a
mapping error. Returns whether every fragment was mapped, the ring, and the
value of `producer` (the last slot written, or the failing slot). -/
def alx_tx_map_frags (dma_map : Nat → Option Nat) (first : Nat) :
    List Nat → Nat → alx_tx_queue → Nat → Bool × alx_tx_queue × Nat
  | [], _, txq, producer => (true, txq, producer)
  | frag :: rest, f, txq, producer =>
    let producer := ring_inc txq.count producer
    let txq := alx_tx_map_copy txq first producer
    let maplen := u16 frag
    match dma_map (f + 1) with
    | none => (false, txq, producer)
    | some dma =>
      alx_tx_map_frags dma_map first rest (f + 1) (alx_tx_map_store txq producer maplen dma) producer

/-- Source `alx_tx_map`: returns `0` and the advanced ring, or `-1` after
unwinding the slots written for this packet. -/
def alx_tx_map (txq : alx_tx_queue) (skb : sk_buff) (dma_map : Nat → Option Nat) :
    Int × alx_tx_queue × List Event :=
  let first := u16 txq.pidx
  let s1 := alx_tx_map_lso txq
  let maplen := u16 skb.headlen
  let fuel := skb.frags.length + 2
  match dma_map 0 with
  | none =>
    let r := alx_tx_map_unwind s1.2 fuel (u16 s1.1.pidx) s1.1 []
    (-1, r.1, r.2)
  | some dma =>
    let fr := alx_tx_map_frags dma_map first skb.frags 0 (alx_tx_map_store s1.1 s1.2 maplen dma) s1.2
    if fr.1 = true then (0, alx_tx_map_last fr.2.1 skb first fr.2.2, [])
    else
      let r := alx_tx_map_unwind fr.2.2 fuel (u16 fr.2.1.pidx) fr.2.1 []
      (-1, r.1, r.2)

/-- What `alx_start_xmit_ring` returns and leaves behind: the return value, the
ring, the stopped state of the netdev queue, and the calls it made. -/
structure xmit_result where
  ret : netdev_tx_t
  txq : alx_tx_queue
  stopped : Bool
  ev : List Event
deriving DecidableEq, Repr

/-- Kernel helper `htons` on a little-endian host: the two bytes of a 16-bit
value are swapped. -/
def htons (x : Nat) : Nat := (u16 x % 256) * 256 + u16 x / 256

/-- The first descriptor as `alx_start_xmit_ring` prepares it between the
`memset` and the call of `alx_tso`: VLAN insertion (the tag stored as
`htons(vlan_tx_tag_get(skb))`), VLAN-tagged and Ethernet-type bits. -/
def alx_xmit_first (skb : sk_buff) : tpd_desc :=
  let d0 := tpd_desc.zero
  let d1 : tpd_desc :=
    match skb.vlan_tag with
    | some tag =>
      { d0 with word1 := { d0.word1 with ins_vltag := true }
                word0 := { d0.word0 with vltag := d0.word0.vltag ||| htons tag } }
    | none => d0
  let d2 : tpd_desc :=
    if skb.protocol = ETH_P_8021Q then { d1 with word1 := { d1.word1 with vltagged := true } } else d1
  if skb.network_offset ≠ ETH_HLEN then { d2 with word1 := { d2.word1 with ethtype := true } } else d2

/-- The offload step of `alx_start_xmit_ring`: `alx_tso`, then `alx_tx_csum`
when `alx_tso` returned zero. Returns whether the packet is to be dropped and
the first descriptor. -/
def alx_xmit_offload (skb : sk_buff) : Bool × tpd_desc :=
  let tso := alx_tso skb (alx_xmit_first skb)
  if tso.1 < 0 then (true, tso.2)
  else if tso.1 = 0 then
    let cs := alx_tx_csum skb tso.2
    (decide (cs.1 < 0), cs.2)
  else (false, tso.2)

/-- Label `drop` of `alx_start_xmit_ring`: zero the first descriptor, free the
packet, report success. -/
def alx_xmit_drop (txq : alx_tx_queue) (first : Nat) (stopped : Bool) (skb : sk_buff)
    (ev : List Event) : xmit_result :=
  { ret := netdev_tx_t.NETDEV_TX_OK
    txq := { txq with tpd_hdr := txq.tpd_hdr.set first tpd_desc.zero }
    stopped := stopped
    ev := ev ++ [Event.kfree_skb skb.id] }

/-- The part of `alx_start_xmit_ring` from label `tx_conti` on. `ev` holds the
calls made before the label. -/
def alx_start_xmit_ring_conti (txq : alx_tx_queue) (stopped : Bool) (skb : sk_buff)
    (dma_map : Nat → Option Nat) (ev : List Event) : xmit_result :=
  let first := txq.pidx
  let off := alx_xmit_offload skb
  let txq1 := { txq with tpd_hdr := txq.tpd_hdr.set first off.2 }
  if off.1 = true then alx_xmit_drop txq1 first stopped skb ev
  else
    let m := alx_tx_map txq1 skb dma_map
    if m.1 < 0 then alx_xmit_drop m.2.1 first stopped skb (ev ++ m.2.2)
    else
      { ret := netdev_tx_t.NETDEV_TX_OK
        txq := m.2.1
        stopped := stopped
        ev := ev ++ m.2.2 ++
          [Event.netdev_tx_sent_queue skb.len, Event.wmb, Event.mem_w16 txq.p_reg m.2.1.pidx] }

/-- Source `alx_start_xmit_ring`. `stopped` is `netif_tx_queue_stopped(netque)`
for the netdev queue of this ring. -/
def alx_start_xmit_ring (txq : alx_tx_queue) (stopped : Bool) (skb : sk_buff)
    (dma_map : Nat → Option Nat) : xmit_result :=
  let tpdreq := alx_tpd_req skb
  let budget := alx_tpd_avail txq
  if budget < tpdreq then
    if stopped = false then
      let budget := alx_tpd_avail txq
      if budget ≥ tpdreq then
        alx_start_xmit_ring_conti txq false skb dma_map
          [Event.netif_tx_stop_queue, Event.netif_tx_wake_queue]
      else
        { ret := netdev_tx_t.NETDEV_TX_BUSY, txq := txq, stopped := true,
          ev := [Event.netif_tx_stop_queue] }
    else
      { ret := netdev_tx_t.NETDEV_TX_BUSY, txq := txq, stopped := stopped, ev := [] }
  else alx_start_xmit_ring_conti txq stopped skb dma_map []

/-- The reclaim loop of `alx_clean_tx_irq`:
`while (sw_cidx != hw_cidx && budget > 0) { .. }`. The first argument bounds
the number of iterations; `none` means the bound was reached with the loop
condition still true. Returns `sw_cidx`, `total_packets`, the ring and the
calls made. -/
def alx_clean_tx_loop (hw_cidx : Nat) :
    Nat → Nat → Int → Nat → alx_tx_queue → List Event →
      Option (Nat × Nat × alx_tx_queue × List Event)
  | 0, sw_cidx, budget, total_packets, txq, ev =>
    if sw_cidx ≠ hw_cidx ∧ budget > 0 then none
    else some (sw_cidx, total_packets, txq, ev)
  | fuel + 1, sw_cidx, budget, total_packets, txq, ev =>
    if sw_cidx ≠ hw_cidx ∧ budget > 0 then
      let has_skb := (txq.bf_info.getD sw_cidx alx_buffer.zero).skb.isSome
      let r := alx_txbuf_unmap_and_free txq sw_cidx
      alx_clean_tx_loop hw_cidx fuel (ring_inc txq.count sw_cidx)
        (if has_skb then budget - 1 else budget)
        (if has_skb then total_packets + 1 else total_packets)
        r.1 (ev ++ r.2)
    else some (sw_cidx, total_packets, txq, ev)

/-- What `alx_clean_tx_irq` returns and leaves behind. -/
structure clean_result where
  ret : Bool
  txq : alx_tx_queue
  stopped : Bool
  ev : List Event
deriving DecidableEq, Repr

/-- Source `alx_clean_tx_irq`. `halt` is `ALX_FLAG(adpt, HALT)`, `carrier_ok` is
`netif_carrier_ok(adpt->netdev)`, `hw_cidx` the value read from the consumer
register `txq->c_reg`, `stopped` the state of the netdev queue of this ring.
`none` means the reclaim loop did not end within `fuel` iterations. -/
def alx_clean_tx_irq (P : alx_params) (fuel : Nat) (halt carrier_ok : Bool) (hw_cidx : Nat)
    (txq : alx_tx_queue) (stopped : Bool) : Option clean_result :=
  if halt = true then some { ret := true, txq := txq, stopped := stopped, ev := [] }
  else
    let sw_cidx := u16 txq.cidx
    let hw_cidx := u16 hw_cidx
    let walked : Option (Nat × alx_tx_queue × List Event) :=
      if sw_cidx ≠ hw_cidx then
        match alx_clean_tx_loop hw_cidx fuel sw_cidx P.ALX_DEFAULT_TX_WORK 0 txq [] with
        | none => none
        | some (sw, pk, t, e) =>
          some (sw, { t with cidx := sw }, e ++ [Event.netdev_tx_completed_queue pk])
      else some (sw_cidx, txq, [])
    match walked with
    | none => none
    | some (sw, t, e) =>
      if stopped = true ∧ carrier_ok = true ∧ alx_tpd_avail t > P.ALX_TX_WAKEUP_THRESH t
          ∧ halt = false then
        some { ret := decide (sw = hw_cidx), txq := t, stopped := false,
               ev := e ++ [Event.netif_tx_wake_queue] }
      else
        some { ret := decide (sw = hw_cidx), txq := t, stopped := stopped, ev := e }

/-! ## RX ring -/

/-- Protocol identifier `RRD_PID` of a result entry: the four values the
checksum switch of `alx_dispatch_skb` names, or any other value. -/
inductive rrd_pid where
  | RRD_PID_IPV6UDP
  | RRD_PID_IPV4UDP
  | RRD_PID_IPV4TCP
  | RRD_PID_IPV6TCP
  | other (v : Nat)
deriving DecidableEq, Repr

/-- Fields of `rrd_desc.word3` the file reads. -/
structure rrd_word3 where
  updated : Bool
  err_res : Bool
  err_len : Bool
  err_l4 : Bool
  err_ipv4 : Bool
  vltagged : Bool
  pktlen : Nat
deriving DecidableEq, Repr

/-- Zero value of `word3`, as written by `rrd->word3 = 0`. -/
def rrd_word3.zero : rrd_word3 := ⟨false, false, false, false, false, false, 0⟩

/-- The RX result entry `struct rrd_desc`: `RRD_SI` and `RRD_NOR` of `word0`,
`RRD_RSSQ`, `RRD_PID` and `RRD_VLTAG` of `word2`, and `word3`. -/
structure rrd_desc where
  si : Nat
  nor : Nat
  rssq : Nat
  pid : rrd_pid
  vltag : Nat
  word3 : rrd_word3
deriving DecidableEq, Repr

/-- A zero-filled result entry. -/
def rrd_desc.zero : rrd_desc := ⟨0, 0, 0, rrd_pid.other 0, 0, rrd_word3.zero⟩

instance : Inhabited rrd_desc := ⟨rrd_desc.zero⟩

/-- The RX queue `struct alx_rx_queue`. `rfd_hdr` holds the `addr` of each free
descriptor, `flag_using` is bit `ALX_RQ_USING` of `flag`, `list` the queue of
packets waiting for delivery. -/
structure alx_rx_queue where
  qidx : Nat
  p_reg : Nat
  count : Nat
  pidx : Nat
  cidx : Nat
  rrd_cidx : Nat
  bf_info : List alx_buffer
  rfd_hdr : List Nat
  rrd_hdr : List rrd_desc
  flag_using : Bool
  list : List rx_skb
deriving DecidableEq, Repr

/-- One answer of the buffer allocator and the DMA mapping service to a refill
request: `dev_alloc_skb` fails, or it returns `skb` and the mapping fails, or
both succeed. -/
inductive rx_alloc where
  | alloc_fail
  | map_fail (skb : Nat)
  | ok (skb dma : Nat)
deriving DecidableEq, Repr

/-- The four statements of `alx_alloc_rxring_buf` that post a mapped buffer
into slot `cur`: `cur_buf->skb = skb`, the two `dma_unmap_*_set` and
`rfd->addr = dma`. -/
def alx_rx_post (rxbuf_size : Nat) (rxq : alx_rx_queue) (cur skb dma : Nat) : alx_rx_queue :=
  let cur_buf := rxq.bf_info.getD cur alx_buffer.zero
  let buf1 : alx_buffer := { cur_buf with skb := some skb, size := rxbuf_size, dma := dma }
  { rxq with bf_info := rxq.bf_info.set cur buf1, rfd_hdr := rxq.rfd_hdr.set cur dma }

/-- The refill loop of `alx_alloc_rxring_buf`. The list holds the answers to the
successive requests; an exhausted list answers with an allocation failure.
Returns `cur`, `count`, the ring, the calls made and the unused answers. -/
def alx_alloc_rxring_loop (rxbuf_size : Nat) :
    List rx_alloc → Nat → Nat → Nat → alx_rx_queue → List Event →
      Nat × Nat × alx_rx_queue × List Event × List rx_alloc
  | [], cur, next, count, rxq, ev =>
    if (rxq.bf_info.getD cur alx_buffer.zero).skb = none ∧ next ≠ rxq.cidx then
      (cur, count, rxq, ev ++ [Event.netdev_warn], [])
    else (cur, count, rxq, ev, [])
  | o :: rest, cur, next, count, rxq, ev =>
    if (rxq.bf_info.getD cur alx_buffer.zero).skb = none ∧ next ≠ rxq.cidx then
      match o with
      | rx_alloc.alloc_fail => (cur, count, rxq, ev ++ [Event.netdev_warn], rest)
      | rx_alloc.map_fail skb =>
        (cur, count, rxq, ev ++ [Event.netdev_warn, Event.kfree_skb skb], rest)
      | rx_alloc.ok skb dma =>
        alx_alloc_rxring_loop rxbuf_size rest next (ring_inc rxq.count next) (u16 (count + 1))
          (alx_rx_post rxbuf_size rxq cur skb dma) ev
    else (cur, count, rxq, ev, o :: rest)

/-- Source `alx_alloc_rxring_buf`: returns the number of buffers posted, the
ring, the calls made and the unused allocator answers. -/
def alx_alloc_rxring_buf (rxbuf_size : Nat) (rxq : alx_rx_queue) (oracle : List rx_alloc) :
    Nat × alx_rx_queue × List Event × List rx_alloc :=
  let cur := u16 rxq.pidx
  let next := ring_inc rxq.count cur
  let r := alx_alloc_rxring_loop rxbuf_size oracle cur next 0 rxq []
  if r.2.1 ≠ 0 then
    (r.2.1, { r.2.2.1 with pidx := r.1 },
      r.2.2.2.1 ++ [Event.wmb, Event.mem_w16 rxq.p_reg r.1], r.2.2.2.2)
  else (r.2.1, r.2.2.1, r.2.2.2.1, r.2.2.2.2)

/-- The slot loop of `alx_free_rxring_buf`. -/
def alx_free_rxring_loop : Nat → Nat → alx_rx_queue → List Event → alx_rx_queue × List Event
  | 0, _, rxq, ev => (rxq, ev)
  | n + 1, i, rxq, ev =>
    let cur_buf := rxq.bf_info.getD i alx_buffer.zero
    match cur_buf.skb with
    | some s =>
      alx_free_rxring_loop n (i + 1)
        { rxq with bf_info := rxq.bf_info.set i { cur_buf with skb := none, size := 0, dma := 0 } }
        (ev ++ [Event.dma_unmap_rx cur_buf.dma cur_buf.size, Event.kfree_skb s])
    | none => alx_free_rxring_loop n (i + 1) rxq ev

/-- The calls freeing the packets still pending in `rxq->list`; a NULL entry
frees nothing. -/
def free_pending (l : List rx_skb) : List Event :=
  l.filterMap (fun p => p.id.map Event.kfree_skb)

/-- Source `alx_free_rxring_buf` on a non-null queue. -/
def alx_free_rxring_buf (rxq : alx_rx_queue) : alx_rx_queue × List Event :=
  let r := alx_free_rxring_loop rxq.count 0 rxq []
  ({ r.1 with list := [], pidx := 0, cidx := 0, rrd_cidx := 0 }, r.2 ++ free_pending rxq.list)

/-- What `alx_dispatch_skb` reads from the adapter. -/
structure rx_env where
  rxbuf_size : Nat
  rxcsum : Bool
  cap_mrq : Bool
  nr_rxq : Nat
  halt : Bool

/-- Kernel constant `ETH_FCS_LEN`. -/
def ETH_FCS_LEN : Nat := 4

/-- Source `alx_schedule_work`: schedule the task unless `HALT` is set. -/
def alx_schedule_work (halt : Bool) : List Event :=
  if halt = true then [] else [Event.schedule_work]

/-- State of the loop of `alx_dispatch_skb`. -/
structure dispatch_state where
  rxq : alx_rx_queue
  rfd_cleaned : Nat
  oracle : List rx_alloc
  ev : List Event
deriving DecidableEq, Repr

/-- The loop `while (1)` of `alx_dispatch_skb`. The first argument bounds the
number of iterations (`none`: bound reached). The Boolean of the result is
true when the loop was left by the `return true` of the SI/NOR check, false
when it was left by `break`. -/
def alx_dispatch_loop (P : alx_params) (E : rx_env) :
    Nat → dispatch_state → Option (Bool × dispatch_state)
  | 0, _ => none
  | fuel + 1, s =>
    let rxq := s.rxq
    let rrd := rxq.rrd_hdr.getD rxq.rrd_cidx rrd_desc.zero
    if rrd.word3.updated = false then some (false, s)
    else
      let rrd1 := { rrd with word3 := { rrd.word3 with updated := false } }
      let rxq1 := { rxq with rrd_hdr := rxq.rrd_hdr.set rxq.rrd_cidx rrd1 }
      if rrd1.si ≠ rxq1.cidx ∨ rrd1.nor ≠ 1 then
        some (true, { s with rxq := rxq1
                             ev := s.ev ++ [Event.netif_err_si_nor] ++ alx_schedule_work E.halt })
      else
        let rxb := rxq1.bf_info.getD rxq1.cidx alx_buffer.zero
        let ev1 := s.ev ++ [Event.dma_unmap_rx rxb.dma rxb.size]
        let skb := rxb.skb
        let rxq2 := { rxq1 with
                        bf_info := rxq1.bf_info.set rxq1.cidx { rxb with size := 0, skb := none } }
        let r3 : alx_rx_queue × List Event :=
          if rrd1.word3.err_res = true ∨ rrd1.word3.err_len = true then
            ({ rxq2 with rrd_hdr := rxq2.rrd_hdr.set rxq2.rrd_cidx { rrd1 with word3 := rrd_word3.zero } },
             ev1 ++ [Event.netdev_warn] ++ (match skb with
                                            | some b => [Event.kfree_skb b]
                                            | none => []))
          else
            let length := u16 (rrd1.word3.pktlen + 65536 - ETH_FCS_LEN)
            let l4 : Bool :=
              match rrd1.pid with
              | rrd_pid.other _ => false
              | _ => true
            let csum_err : Bool := rrd1.word3.err_l4 || rrd1.word3.err_ipv4
            let pkt : rx_skb :=
              { id := skb
                len := length
                csum_unnecessary := E.rxcsum && l4 && !csum_err
                vlan := if rrd1.word3.vltagged = true then some (u16 rrd1.vltag) else none }
            let qnum := rrd1.rssq % E.nr_rxq
            let warn : List Event := if E.rxcsum && l4 && csum_err then [Event.netdev_warn] else []
            if E.cap_mrq = true then
              ({ rxq2 with list := rxq2.list ++ [pkt] }, ev1 ++ warn ++ [Event.skb_queue_tail none pkt])
            else
              (rxq2, ev1 ++ warn ++ [Event.skb_queue_tail (some qnum) pkt])
        let rxq4 := { r3.1 with cidx := ring_inc r3.1.count r3.1.cidx
                                rrd_cidx := ring_inc r3.1.count r3.1.rrd_cidx }
        let cleaned := u16 (s.rfd_cleaned + 1)
        if cleaned > P.ALX_RX_ALLOC_THRESH then
          let a := alx_alloc_rxring_buf E.rxbuf_size rxq4 s.oracle
          alx_dispatch_loop P E fuel
            { rxq := a.2.1, rfd_cleaned := u16 (cleaned + 65536 - a.1 % 65536),
              oracle := a.2.2.2, ev := r3.2 ++ a.2.2.1 }
        else
          alx_dispatch_loop P E fuel
            { rxq := rxq4, rfd_cleaned := cleaned, oracle := s.oracle, ev := r3.2 }

/-- What `alx_dispatch_skb` returns and leaves behind; `task_reset` tells
whether `ALX_FLAG_SET(adpt, TASK_RESET)` was executed. -/
structure dispatch_result where
  ret : Bool
  rxq : alx_rx_queue
  task_reset : Bool
  oracle : List rx_alloc
  ev : List Event
deriving DecidableEq, Repr

/-- Source `alx_dispatch_skb`. `none` means the loop did not end within `fuel`
iterations. -/
def alx_dispatch_skb (P : alx_params) (E : rx_env) (fuel : Nat) (rxq : alx_rx_queue)
    (oracle : List rx_alloc) : Option dispatch_result :=
  if rxq.flag_using = true then
    some { ret := false, rxq := rxq, task_reset := false, oracle := oracle, ev := [] }
  else
    let rxq0 := { rxq with flag_using := true }
    match alx_dispatch_loop P E fuel { rxq := rxq0, rfd_cleaned := 0, oracle := oracle, ev := [] } with
    | none => none
    | some (true, s) =>
      some { ret := true, rxq := s.rxq, task_reset := true, oracle := s.oracle, ev := s.ev }
    | some (false, s) =>
      let a : Nat × alx_rx_queue × List Event × List rx_alloc :=
        if s.rfd_cleaned ≠ 0 then alx_alloc_rxring_buf E.rxbuf_size s.rxq s.oracle
        else (0, s.rxq, [], s.oracle)
      some { ret := true, rxq := { a.2.1 with flag_using := false }, task_reset := false,
             oracle := a.2.2.2, ev := s.ev ++ a.2.2.1 }

/-! ## Adapter, halt and reset -/

/-- The fields of `struct alx_hw` the file itself assigns. -/
structure alx_hw where
  link_up : Bool
  link_speed : Nat
  link_duplex : Nat
  imask : Nat
deriving DecidableEq, Repr

/-- The bits of `adpt->flags`. -/
structure alx_flags where
  HALT : Bool
  RESETING : Bool
  TASK_PENDING : Bool
  TASK_RESET : Bool
  TASK_CHK_LINK : Bool
  TASK_UPDATE_SMB : Bool
  USING_MSIX : Bool
  USING_MSI : Bool
deriving DecidableEq, Repr

/-- The state of `struct net_device` the file reads or writes: `trans_start`,
the carrier, the stopped state of each TX queue, and the feature bit
`NETIF_F_RXCSUM`. -/
structure net_device where
  trans_start : Nat
  carrier_ok : Bool
  tx_stopped : List Bool
  rxcsum : Bool
deriving DecidableEq, Repr

/-- The adapter `struct alx_adapter` with its rings allocated: `txq` lists
`qnapi[i]->txq` for `i < nr_txq`, `rxq` lists `qnapi[i]->rxq` for
`i < nr_hwrxq`. -/
structure alx_adapter where
  flags : alx_flags
  hw : alx_hw
  netdev : net_device
  nr_rxq : Nat
  nr_napi : Nat
  rxbuf_size : Nat
  cap_mrq : Bool
  txq : List alx_tx_queue
  rxq : List alx_rx_queue
deriving DecidableEq, Repr

/-- Kernel constant `SPEED_0` of the absent header. -/
def SPEED_0 : Nat := 0

/-- Kernel constant `ENOMEM`. -/
def ENOMEM : Int := 12

/-- Source `alx_cancel_work`. -/
def alx_cancel_work : List Event := [Event.cancel_work]

/-- Source `alx_netif_stop`; `jiffies` is the current value of the kernel tick
counter. -/
def alx_netif_stop (a : alx_adapter) (jiffies : Nat) : alx_adapter × List Event :=
  let nd := { a.netdev with trans_start := jiffies }
  if nd.carrier_ok = true then
    ({ a with netdev := { nd with carrier_ok := false, tx_stopped := nd.tx_stopped.map (fun _ => true) } },
     [Event.netif_carrier_off, Event.netif_tx_disable] ++
       (List.range a.nr_napi).map Event.napi_disable)
  else ({ a with netdev := nd }, [])

/-- Source `alx_configure`; the four routines it calls only program the MAC. -/
def alx_configure (a : alx_adapter) : List Event :=
  [Event.configure_basic, Event.configure_rss (decide (a.nr_rxq > 1)), Event.set_rx_mode,
   Event.set_vlan_mode]

/-- The first loop of `alx_free_all_rings_buf`, over the TX queues. -/
def alx_free_all_txrings : List alx_tx_queue → List alx_tx_queue × List Event
  | [] => ([], [])
  | q :: qs =>
    let r := alx_free_txring_buf q
    let rs := alx_free_all_txrings qs
    (r.1 :: rs.1, r.2 ++ rs.2)

/-- The second loop of `alx_free_all_rings_buf`, over the hardware RX queues. -/
def alx_free_all_rxrings : List alx_rx_queue → List alx_rx_queue × List Event
  | [] => ([], [])
  | q :: qs =>
    let r := alx_free_rxring_buf q
    let rs := alx_free_all_rxrings qs
    (r.1 :: rs.1, r.2 ++ rs.2)

/-- Source `alx_free_all_rings_buf`. -/
def alx_free_all_rings_buf (a : alx_adapter) : alx_adapter × List Event :=
  let t := alx_free_all_txrings a.txq
  let r := alx_free_all_rxrings a.rxq
  ({ a with txq := t.1, rxq := r.1 }, t.2 ++ r.2)

/-- The refill loop of `alx_reinit_rings`: stops with `-ENOMEM` at the first
queue that got no buffer. -/
def alx_reinit_rings_loop (rxbuf_size : Nat) :
    List alx_rx_queue → List rx_alloc → Int × List alx_rx_queue × List Event × List rx_alloc
  | [], o => (0, [], [], o)
  | q :: qs, o =>
    let r := alx_alloc_rxring_buf rxbuf_size q o
    if r.1 = 0 then (-ENOMEM, r.2.1 :: qs, r.2.2.1, r.2.2.2)
    else
      let rs := alx_reinit_rings_loop rxbuf_size qs r.2.2.2
      (rs.1, r.2.1 :: rs.2.1, r.2.2.1 ++ rs.2.2.1, rs.2.2.2)

/-- Source `alx_reinit_rings`. -/
def alx_reinit_rings (a : alx_adapter) (oracle : List rx_alloc) :
    Int × alx_adapter × List Event × List rx_alloc :=
  let f := alx_free_all_rings_buf a
  let r := alx_reinit_rings_loop a.rxbuf_size f.1.rxq oracle
  (r.1, { f.1 with rxq := r.2.1 }, f.2 ++ [Event.init_ring_ptrs] ++ r.2.2.1, r.2.2.2)

/-- Source `alx_halt`. -/
def alx_halt (a : alx_adapter) (in_task : Bool) (jiffies : Nat) : alx_adapter × List Event :=
  let a1 := { a with flags := { a.flags with HALT := true } }
  let ev1 : List Event := if in_task = false then alx_cancel_work else []
  let s := alx_netif_stop a1 jiffies
  let a2 := { s.1 with hw := { s.1.hw with link_up := false, link_speed := SPEED_0 } }
  let f := alx_free_all_rings_buf a2
  (f.1, ev1 ++ s.2 ++ [Event.reset_mac, Event.enable_aspm false false, Event.irq_disable] ++ f.2)

/-- Source `alx_activate`. -/
def alx_activate (a : alx_adapter) (oracle : List rx_alloc) :
    alx_adapter × List Event × List rx_alloc :=
  let r := alx_reinit_rings a oracle
  let a1 := r.2.1
  let a2 := { a1 with flags := { a1.flags with HALT := false } }
  let a3 := { a2 with flags := { a2.flags with TASK_CHK_LINK := true } }
  (a3, r.2.2.1 ++ alx_configure a1 ++ [Event.isr_write_clear, Event.irq_enable] ++
         alx_schedule_work a3.flags.HALT, r.2.2.2)

/-- Source `alx_reinit`. The first argument bounds the iterations of
`while (test_and_set_bit(ALX_FLAG_RESETING, ..)) msleep(20);`; `none` means
the flag was still set when the bound was reached. -/
def alx_reinit : Nat → alx_adapter → Bool → Nat → List rx_alloc →
    Option (alx_adapter × List Event × List rx_alloc)
  | 0, _, _, _, _ => none
  | fuel + 1, a, in_task, jiffies, oracle =>
    if a.flags.RESETING = true then
      (alx_reinit fuel a in_task jiffies oracle).map
        (fun r => (r.1, Event.msleep 20 :: r.2.1, r.2.2))
    else
      let a0 := { a with flags := { a.flags with RESETING := true } }
      if a0.flags.HALT = true then some (a0, [], oracle)
      else
        let h := alx_halt a0 in_task jiffies
        let r := alx_activate h.1 oracle
        some ({ r.1 with flags := { r.1.flags with RESETING := false } }, h.2 ++ r.2.1, r.2.2)

/-! ## Well-formed rings -/

/-- The ring invariant of a TX queue: indices inside the ring, the ring size
representable in the `u16` fields, both arrays of `count` entries. -/
def tx_wf (txq : alx_tx_queue) : Prop :=
  1 ≤ txq.count ∧ txq.count < 65536 ∧ txq.pidx < txq.count ∧ txq.cidx < txq.count ∧
    txq.bf_info.length = txq.count ∧ txq.tpd_hdr.length = txq.count

instance (txq : alx_tx_queue) : Decidable (tx_wf txq) := by
  unfold tx_wf; infer_instance

/-- The ring invariant of an RX queue. -/
def rx_wf (rxq : alx_rx_queue) : Prop :=
  1 ≤ rxq.count ∧ rxq.count < 65536 ∧ rxq.pidx < rxq.count ∧ rxq.cidx < rxq.count ∧
    rxq.rrd_cidx < rxq.count ∧
    rxq.bf_info.length = rxq.count ∧ rxq.rfd_hdr.length = rxq.count ∧
    rxq.rrd_hdr.length = rxq.count

instance (rxq : alx_rx_queue) : Decidable (rx_wf rxq) := by
  unfold rx_wf; infer_instance

/-- Number of slots in flight: `(pidx - cidx) mod count`. -/
def tx_in_flight (txq : alx_tx_queue) : Int :=
  ((txq.pidx : Int) - txq.cidx) % txq.count

/-- Two TX queues agree on everything but the indices and the contents of the
two arrays. -/
def tx_same_shape (a b : alx_tx_queue) : Prop :=
  b.count = a.count ∧ b.qidx = a.qidx ∧ b.p_reg = a.p_reg ∧ b.c_reg = a.c_reg ∧
    b.bf_info.length = a.bf_info.length ∧ b.tpd_hdr.length = a.tpd_hdr.length

/-- The slot record `i` of a TX queue. -/
def tx_slot (txq : alx_tx_queue) (i : Nat) : alx_buffer :=
  txq.bf_info.getD i alx_buffer.zero

/-- The descriptor `i` of a TX queue. -/
def tx_desc (txq : alx_tx_queue) (i : Nat) : tpd_desc :=
  txq.tpd_hdr.getD i tpd_desc.zero

/-- A slot record is empty: no mapping and no attached packet. -/
def slot_empty (b : alx_buffer) : Prop := b.size = 0 ∧ b.skb = none

instance (b : alx_buffer) : Decidable (slot_empty b) := by
  unfold slot_empty; infer_instance

/-- The submission was accepted: `alx_start_xmit_ring` reached the write
barrier that precedes the write of the producer register. -/
def xmit_accepted (r : xmit_result) : Prop := Event.wmb ∈ r.ev

instance (r : xmit_result) : Decidable (xmit_accepted r) := by
  unfold xmit_accepted; infer_instance

/-- One when the descriptor at `pidx` carries `TPD_LSO_V2`, else zero: the
extra leading slot `alx_tx_map` then uses. -/
def tx_lso (txq : alx_tx_queue) : Nat :=
  if (tx_desc txq (u16 txq.pidx)).word1.lso_v2 = true then 1 else 0

/-- Number of ring slots `alx_tx_map` uses for a packet: `nr_frags + 1`, plus
one when `alx_tso` set `TPD_LSO_V2` in the first descriptor. -/
def xmit_slots (skb : sk_buff) : Nat :=
  skb.frags.length + 1 +
    (if (alx_tso skb (alx_xmit_first skb)).2.word1.lso_v2 = true then 1 else 0)

/-- One when `alx_tso` set `TPD_LSO_V2` in the first descriptor of the packet,
else zero. -/
def xmit_lso (skb : sk_buff) : Nat :=
  if (alx_tso skb (alx_xmit_first skb)).2.word1.lso_v2 = true then 1 else 0

/-- A call that releases a buffer: a DMA unmap or `dev_kfree_skb`. -/
def Event.is_release : Event → Bool
  | Event.dma_unmap_single _ _ => true
  | Event.dma_unmap_page _ _ => true
  | Event.kfree_skb _ => true
  | _ => false

/-- Slot index `k` steps after `p` in ring order. -/
def ring_pos (count p k : Nat) : Nat := (p + k) % count

/-- Number of slot records holding a packet among the `d` slots from `sw` on,
in ring order. -/
def pkt_slots (txq : alx_tx_queue) : Nat → Nat → Nat
  | _, 0 => 0
  | sw, d + 1 =>
    (if (tx_slot txq sw).skb.isSome = true then 1 else 0) +
      pkt_slots txq (ring_inc txq.count sw) d

/-- Number of steps from slot `a` forward to slot `b` in ring order. -/
def ring_dist (count a b : Nat) : Nat := (b + count - a) % count

/-! ## Sequences of submissions and reclaim passes on one TX ring -/

/-- A TX ring together with the stopped state of its netdev queue and the calls
made so far. -/
structure tx_world where
  txq : alx_tx_queue
  stopped : Bool
  trace : List Event

/-- One call on a TX ring: a submission `alx_start_xmit_ring` of a packet with
the answers of the DMA mapping service, or a reclaim pass `alx_clean_tx_irq`
with the adapter flags it reads and the value of the consumer register. -/
inductive tx_op where
  | xmit (skb : sk_buff) (dma_map : Nat → Option Nat)
  | clean (fuel : Nat) (halt carrier_ok : Bool) (hw_cidx : Nat)

/-- The effect of one call; `none` when the reclaim loop did not end within the
given number of iterations. -/
def tx_step (P : alx_params) (w : tx_world) : tx_op → Option tx_world
  | tx_op.xmit skb dma_map =>
    let r := alx_start_xmit_ring w.txq w.stopped skb dma_map
    some ⟨r.txq, r.stopped, w.trace ++ r.ev⟩
  | tx_op.clean fuel halt carrier_ok hw_cidx =>
    match alx_clean_tx_irq P fuel halt carrier_ok hw_cidx w.txq w.stopped with
    | none => none
    | some r => some ⟨r.txq, r.stopped, w.trace ++ r.ev⟩

/-- The effect of a sequence of calls. -/
def tx_run (P : alx_params) : tx_world → List tx_op → Option tx_world
  | w, [] => some w
  | w, op :: ops =>
    match tx_step P w op with
    | none => none
    | some w2 => tx_run P w2 ops

/-- The hardware consumer index `hw` lies between the software `cidx` and
`pidx` in ring order. -/
def hw_cidx_between (txq : alx_tx_queue) (hw : Nat) : Prop :=
  hw < txq.count ∧ ring_dist txq.count txq.cidx hw ≤ ring_dist txq.count txq.cidx txq.pidx

instance (txq : alx_tx_queue) (hw : Nat) : Decidable (hw_cidx_between txq hw) := by
  unfold hw_cidx_between; infer_instance

/-- A reclaim pass is admissible when the consumer register holds an index
between `cidx` and `pidx` and the iteration bound covers the ring. -/
def tx_op_ok (w : tx_world) : tx_op → Prop
  | tx_op.xmit _ _ => True
  | tx_op.clean fuel _ _ hw_cidx => w.txq.count ≤ fuel ∧ hw_cidx_between w.txq hw_cidx

/-- Every call of the sequence is admissible in the state it is made in. -/
def tx_ops_ok (P : alx_params) : tx_world → List tx_op → Prop
  | _, [] => True
  | w, op :: ops =>
    tx_op_ok w op ∧
      match tx_step P w op with
      | none => True
      | some w2 => tx_ops_ok P w2 ops

instance (w : tx_world) (op : tx_op) : Decidable (tx_op_ok w op) := by
  cases op <;> (unfold tx_op_ok; infer_instance)

/-- Admissibility of a call sequence can be checked by running it. -/
def tx_ops_ok_dec (P : alx_params) : ∀ (w : tx_world) (ops : List tx_op),
    Decidable (tx_ops_ok P w ops)
  | _, [] => isTrue trivial
  | w, op :: ops =>
    match h : tx_step P w op with
    | none => decidable_of_iff (tx_op_ok w op) (by simp [tx_ops_ok, h])
    | some w2 =>
      have := tx_ops_ok_dec P w2 ops
      decidable_of_iff (tx_op_ok w op ∧ tx_ops_ok P w2 ops) (by simp [tx_ops_ok, h])

instance (P : alx_params) (w : tx_world) (ops : List tx_op) : Decidable (tx_ops_ok P w ops) :=
  tx_ops_ok_dec P w ops

/-- The state left by `alx_free_txring_buf`, with no calls recorded. -/
def tx_reset_world (q : alx_tx_queue) (stopped : Bool) : tx_world :=
  ⟨(alx_free_txring_buf q).1, stopped, []⟩

/-- The slot record `i` of an RX queue. -/
def rx_slot (rxq : alx_rx_queue) (i : Nat) : alx_buffer :=
  rxq.bf_info.getD i alx_buffer.zero

/-- The buffer address in free descriptor `i` of an RX queue. -/
def rx_rfd (rxq : alx_rx_queue) (i : Nat) : Nat :=
  rxq.rfd_hdr.getD i 0

/-- Two RX queues agree on everything but `pidx` and the contents of `bf_info`
and `rfd_hdr`. -/
def rx_same_shape (a b : alx_rx_queue) : Prop :=
  b.count = a.count ∧ b.qidx = a.qidx ∧ b.p_reg = a.p_reg ∧ b.cidx = a.cidx ∧
    b.rrd_cidx = a.rrd_cidx ∧ b.rrd_hdr = a.rrd_hdr ∧ b.flag_using = a.flag_using ∧
    b.list = a.list ∧ b.bf_info.length = a.bf_info.length ∧
    b.rfd_hdr.length = a.rfd_hdr.length

/-- The answer of the allocator is a success. -/
def rx_alloc.is_ok : rx_alloc → Bool
  | rx_alloc.ok _ _ => true
  | _ => false

/-- The calls the refill loop makes when request `m` fails: a warning, and the
release of the buffer when only its mapping failed. -/
def rx_alloc_fail_events : Option rx_alloc → List Event
  | some (rx_alloc.map_fail s) => [Event.netdev_warn, Event.kfree_skb s]
  | _ => [Event.netdev_warn]

/-- A slot record as `alx_free_rxring_buf` leaves it: a held buffer is
released and the record zeroed but for its flags; an empty record is kept. -/
def rx_clear (b : alx_buffer) : alx_buffer :=
  match b.skb with
  | some _ => { b with skb := none, size := 0, dma := 0 }
  | none => b

/-- An RX queue in the state `alx_free_rxring_buf` leaves: no buffer in any
slot, no pending packet, all three indices zero. -/
def rx_clean (q : alx_rx_queue) : Prop :=
  (∀ x, (rx_slot q x).skb = none) ∧ q.pidx = 0 ∧ q.cidx = 0 ∧ q.rrd_cidx = 0 ∧ q.list = []

/-- Two RX queues that the refill loop cannot tell apart: equal but for the
contents of `bf_info` and `rfd_hdr`, where each slot holds a buffer in both
or in neither and carries the same flags. -/
def rx_parallel (q q2 : alx_rx_queue) : Prop :=
  q2.count = q.count ∧ q2.qidx = q.qidx ∧ q2.p_reg = q.p_reg ∧ q2.pidx = q.pidx ∧
    q2.cidx = q.cidx ∧ q2.rrd_cidx = q.rrd_cidx ∧ q2.rrd_hdr = q.rrd_hdr ∧
    q2.flag_using = q.flag_using ∧ q2.list = q.list ∧
    q2.bf_info.length = q.bf_info.length ∧ q2.rfd_hdr.length = q.rfd_hdr.length ∧
    (∀ x, (rx_slot q2 x).skb = none ↔ (rx_slot q x).skb = none) ∧
    (∀ x, (rx_slot q2 x).firstfrag = (rx_slot q x).firstfrag)

/-- The state of `net_device` after `alx_netif_stop` at tick `jiffies`. -/
def netdev_stopped (nd : net_device) (jiffies : Nat) : net_device :=
  if nd.carrier_ok = true then
    { nd with trans_start := jiffies, carrier_ok := false
              tx_stopped := nd.tx_stopped.map (fun _ => true) }
  else { nd with trans_start := jiffies }

/-- The adapter state a completed `alx_reinit` leaves, as a function of the
state it started from, the tick read by `alx_netif_stop` and the answers of
the buffer allocator. -/
def reinit_state (a : alx_adapter) (jiffies : Nat) (oracle : List rx_alloc) : alx_adapter :=
  { flags := { a.flags with RESETING := false, HALT := false, TASK_CHK_LINK := true }
    hw := { a.hw with link_up := false, link_speed := SPEED_0 }
    netdev := netdev_stopped a.netdev jiffies
    nr_rxq := a.nr_rxq
    nr_napi := a.nr_napi
    rxbuf_size := a.rxbuf_size
    cap_mrq := a.cap_mrq
    txq := a.txq.map (fun q => (alx_free_txring_buf (alx_free_txring_buf q).1).1)
    rxq := (alx_reinit_rings_loop a.rxbuf_size
      (a.rxq.map (fun q => (alx_free_rxring_buf (alx_free_rxring_buf q).1).1)) oracle).2.1 }

/-! ## Concrete rings and packets -/

/-- Parameters with a reclaim budget of 128 slots, a wake threshold of a
quarter of the ring and a refill threshold of 32. -/
def ex_params : alx_params := ⟨128, fun t => (t.count : Int) / 4, 32⟩

/-- A slot record holding a mapped single-descriptor packet. -/
def ex_pkt_slot (id : Nat) : alx_buffer := ⟨some id, 4096, 60, true⟩

/-- The head slot record of a two-descriptor packet: mapped, first fragment,
no packet handle. -/
def ex_head_slot : alx_buffer := ⟨none, 8192, 100, true⟩

/-- The last slot record of a two-descriptor packet: a mapped page fragment
with the packet handle. -/
def ex_tail_slot (id : Nat) : alx_buffer := ⟨some id, 12288, 700, false⟩

/-- An empty TX ring of eight slots with both indices at `i`. -/
def ex_ring8 (i : Nat) : alx_tx_queue :=
  { qidx := 0, p_reg := 5616, c_reg := 5618, count := 8, pidx := i, cidx := i
    bf_info := List.replicate 8 alx_buffer.zero
    tpd_hdr := List.replicate 8 tpd_desc.zero }

/-- A ring of eight slots with five single-descriptor packets in flight: two
slots are available. -/
def ex_ring8_busy : alx_tx_queue :=
  { qidx := 0, p_reg := 5616, c_reg := 5618, count := 8, pidx := 5, cidx := 0
    bf_info := (List.range 5).map ex_pkt_slot ++ List.replicate 3 alx_buffer.zero
    tpd_hdr := List.replicate 8 tpd_desc.zero }

/-- A ring of 256 slots: 128 single-descriptor packets in flight, followed by
a two-descriptor packet whose handle sits in its second slot. -/
def ex_ring256 : alx_tx_queue :=
  { qidx := 0, p_reg := 5616, c_reg := 5618, count := 256, pidx := 130, cidx := 0
    bf_info := (List.range 128).map ex_pkt_slot ++ [ex_head_slot, ex_tail_slot 128] ++
      List.replicate 126 alx_buffer.zero
    tpd_hdr := List.replicate 256 tpd_desc.zero }

/-- A plain IPv4 packet with a head of 100 bytes and two fragments. -/
def ex_skb (id : Nat) : sk_buff :=
  { id := id, len := 1500, headlen := 100, frags := [700, 700], ip_summed := 0, gso_size := 0
    gso_type_tcpv6 := false, protocol := ETH_P_IP, header_cloned := false, expand_head_err := 0
    network_offset := 14, transport_offset := 34, tcp_hdrlen := 20, csum_start_offset := 0
    csum_offset := 0, vlan_tag := none }

/-- A TCP over IPv6 packet asking for segmentation (LSOv2): one head of 3000
bytes and one fragment. -/
def ex_skb_lso (id : Nat) : sk_buff :=
  { id := id, len := 4000, headlen := 3000, frags := [1000], ip_summed := CHECKSUM_PARTIAL_VAL
    gso_size := 1440, gso_type_tcpv6 := true, protocol := 34525, header_cloned := false
    expand_head_err := 0, network_offset := 14, transport_offset := 54, tcp_hdrlen := 20
    csum_start_offset := 54, csum_offset := 16, vlan_tag := none }

/-- A DMA mapping service that maps every buffer. -/
def ex_dma_ok : Nat → Option Nat := fun k => some (65536 * (k + 1))

/-- A DMA mapping service that fails on the second fragment. -/
def ex_dma_fail : Nat → Option Nat := fun k => if k = 2 then none else some (65536 * (k + 1))

/-- A result entry with the updated bit set, sequence index `si` and one
consumed descriptor, reporting a frame of 64 bytes. -/
def ex_rrd (si : Nat) : rrd_desc :=
  { si := si, nor := 1, rssq := 0, pid := rrd_pid.other 0, vltag := 0
    word3 := { updated := true, err_res := false, err_len := false, err_l4 := false
               err_ipv4 := false, vltagged := false, pktlen := 64 } }

/-- An RX ring of eight slots whose consumer index is 4 while the result entry
at `rrd_cidx` carries sequence index 5; `using` is bit `ALX_RQ_USING`. -/
def ex_rxq_desync (using_bit : Bool) : alx_rx_queue :=
  { qidx := 0, p_reg := 5600, count := 8, pidx := 3, cidx := 4, rrd_cidx := 4
    bf_info := (List.range 8).map (fun i => (⟨some (100 + i), 4096 * i, 1536, false⟩ : alx_buffer))
    rfd_hdr := (List.range 8).map (fun i => 4096 * i)
    rrd_hdr := List.replicate 4 rrd_desc.zero ++ [ex_rrd 5] ++ List.replicate 3 rrd_desc.zero
    flag_using := using_bit
    list := [] }

/-- The adapter settings `alx_dispatch_skb` reads, for a single-queue adapter
that is not halted. -/
def ex_rx_env : rx_env := ⟨1536, true, false, 1, false⟩

/-- An empty RX ring of four slots. -/
def ex_rxq4 : alx_rx_queue :=
  { qidx := 0, p_reg := 5600, count := 4, pidx := 0, cidx := 0, rrd_cidx := 0
    bf_info := List.replicate 4 alx_buffer.zero
    rfd_hdr := List.replicate 4 0
    rrd_hdr := List.replicate 4 rrd_desc.zero
    flag_using := false
    list := [] }

/-- Allocator answers: three buffers, then a mapping failure. -/
def ex_oracle : List rx_alloc :=
  [rx_alloc.ok 1 4096, rx_alloc.ok 2 8192, rx_alloc.ok 3 12288, rx_alloc.map_fail 4]

/-- A running single-queue adapter with the link up, five packets in flight on
the TX ring and a posted RX ring. -/
def ex_adapter : alx_adapter :=
  { flags := ⟨false, false, false, true, false, false, false, true⟩
    hw := ⟨true, 1000, 1, 0⟩
    netdev := ⟨0, true, [false], true⟩
    nr_rxq := 1, nr_napi := 1, rxbuf_size := 1536, cap_mrq := false
    txq := [ex_ring8_busy]
    rxq := [(alx_alloc_rxring_buf 1536 ex_rxq4 ex_oracle).2.1] }

/-- A sequence of calls on one ring: a three-slot packet, a reclaim pass up to
slot 3, an LSOv2 packet, a submission whose mapping fails, a halted pass. -/
def ex_ops : List tx_op :=
  [tx_op.xmit (ex_skb 1) ex_dma_ok, tx_op.clean 8 false true 3,
   tx_op.xmit (ex_skb_lso 2) ex_dma_ok, tx_op.xmit (ex_skb 3) ex_dma_fail,
   tx_op.clean 8 true true 5]

/-- A DMA unmap call of the TX path. -/
def Event.is_unmap : Event → Bool
  | Event.dma_unmap_single _ _ => true
  | Event.dma_unmap_page _ _ => true
  | _ => false

/-- Number of slot records of a TX ring that hold a mapping. -/
def mapped_records (txq : alx_tx_queue) : Nat :=
  txq.bf_info.countP (fun b => b.size != 0)

/-! ## Traces: flag writes and calls in program order -/

/-- The bits of `adpt->flags` written by the reset, task and interrupt paths. -/
inductive flag_bit where
  | HALT
  | RESETING
  | TASK_PENDING
  | TASK_RESET
  | TASK_CHK_LINK
  | TASK_UPDATE_SMB
deriving DecidableEq, Repr

/-- Functions of `if_alx.c` whose calls are recorded in a trace. -/
inductive alx_fn where
  | alx_netif_stop
  | alx_netif_start
  | alx_free_all_rings_buf
  | alx_alloc_rxring_buf (i : Nat)
  | alx_configure
  | alx_reinit_rings
  | alx_reinit
  | alx_update_stats
  | alx_check_link
  | alx_clean_tx_irq
  | alx_clean_rx_irq
  | alx_start_xmit_ring
deriving DecidableEq, Repr

/-- One entry of a trace: a bit of `adpt->flags` set (`ALX_FLAG_SET`, or
`test_and_set_bit` that found it clear) or cleared (`ALX_FLAG_CLEAR`, or
`test_and_clear_bit` that found it set), the entry into a function of this
file, or a call into a collaborator. -/
inductive Effect where
  | flag_set (b : flag_bit)
  | flag_clear (b : flag_bit)
  | enter (f : alx_fn)
  | ext (e : Event)
deriving DecidableEq, Repr

/-- The collaborator call recorded by a trace entry, if it is one. -/
def Effect.event : Effect → Option Event
  | Effect.ext e => some e
  | _ => none

/-- The statements of `alx_halt` in program order. -/
def alx_halt_trace (a : alx_adapter) (in_task : Bool) (jiffies : Nat) : List Effect :=
  let a1 := { a with flags := { a.flags with HALT := true } }
  let s := alx_netif_stop a1 jiffies
  let a2 := { s.1 with hw := { s.1.hw with link_up := false, link_speed := SPEED_0 } }
  [Effect.flag_set flag_bit.HALT] ++
    (if in_task = false then alx_cancel_work.map Effect.ext else []) ++
    [Effect.enter alx_fn.alx_netif_stop] ++ s.2.map Effect.ext ++
    [Effect.ext Event.reset_mac, Effect.ext (Event.enable_aspm false false),
     Effect.ext Event.irq_disable, Effect.enter alx_fn.alx_free_all_rings_buf] ++
    (alx_free_all_rings_buf a2).2.map Effect.ext

/-- The refill loop of `alx_reinit_rings` in program order; `i` is the loop
counter. -/
def alx_reinit_rings_loop_trace (rxbuf_size : Nat) :
    Nat → List alx_rx_queue → List rx_alloc → List Effect
  | _, [], _ => []
  | i, q :: qs, o =>
    let r := alx_alloc_rxring_buf rxbuf_size q o
    [Effect.enter (alx_fn.alx_alloc_rxring_buf i)] ++ r.2.2.1.map Effect.ext ++
      (if r.1 = 0 then [] else alx_reinit_rings_loop_trace rxbuf_size (i + 1) qs r.2.2.2)

/-- The statements of `alx_reinit_rings` in program order. -/
def alx_reinit_rings_trace (a : alx_adapter) (oracle : List rx_alloc) : List Effect :=
  let f := alx_free_all_rings_buf a
  [Effect.enter alx_fn.alx_reinit_rings, Effect.enter alx_fn.alx_free_all_rings_buf] ++
    f.2.map Effect.ext ++ [Effect.ext Event.init_ring_ptrs] ++
    alx_reinit_rings_loop_trace a.rxbuf_size 0 f.1.rxq oracle

/-- The statements of `alx_activate` in program order. -/
def alx_activate_trace (a : alx_adapter) (oracle : List rx_alloc) : List Effect :=
  let r := alx_reinit_rings a oracle
  let a1 := r.2.1
  let a2 := { a1 with flags := { a1.flags with HALT := false } }
  let a3 := { a2 with flags := { a2.flags with TASK_CHK_LINK := true } }
  alx_reinit_rings_trace a oracle ++
    [Effect.enter alx_fn.alx_configure] ++ (alx_configure a1).map Effect.ext ++
    [Effect.flag_clear flag_bit.HALT, Effect.ext Event.isr_write_clear,
     Effect.ext Event.irq_enable, Effect.flag_set flag_bit.TASK_CHK_LINK] ++
    (alx_schedule_work a3.flags.HALT).map Effect.ext

/-- The statements of `alx_reinit` in program order; the first argument bounds
the wait loop as in `alx_reinit`. -/
def alx_reinit_trace : Nat → alx_adapter → Bool → Nat → List rx_alloc → Option (List Effect)
  | 0, _, _, _, _ => none
  | fuel + 1, a, in_task, jiffies, oracle =>
    if a.flags.RESETING = true then
      (alx_reinit_trace fuel a in_task jiffies oracle).map
        (fun t => Effect.ext (Event.msleep 20) :: t)
    else
      let a0 := { a with flags := { a.flags with RESETING := true } }
      if a0.flags.HALT = true then some [Effect.flag_set flag_bit.RESETING]
      else
        let h := alx_halt a0 in_task jiffies
        some ([Effect.flag_set flag_bit.RESETING] ++ alx_halt_trace a0 in_task jiffies ++
          alx_activate_trace h.1 oracle ++ [Effect.flag_clear flag_bit.RESETING])

/-- The stages of a reset. -/
inductive reset_stage where
  | set_halt
  | stop_traffic
  | reset_mac
  | free_buffers
  | ring_ptrs
  | post_rx
  | configure
  | clear_halt
  | irq_enable
deriving DecidableEq, Repr

/-- The stage a trace entry opens: `HALT` set, entry into `alx_netif_stop`,
`alx_reset_mac`, entry into `alx_free_all_rings_buf`, `alx_init_ring_ptrs`,
entry into `alx_alloc_rxring_buf`, entry into `alx_configure`, `HALT` cleared,
`alx_irq_enable`; `none` for every other entry. -/
def Effect.stage : Effect → Option reset_stage
  | Effect.flag_set flag_bit.HALT => some reset_stage.set_halt
  | Effect.enter alx_fn.alx_netif_stop => some reset_stage.stop_traffic
  | Effect.ext Event.reset_mac => some reset_stage.reset_mac
  | Effect.enter alx_fn.alx_free_all_rings_buf => some reset_stage.free_buffers
  | Effect.ext Event.init_ring_ptrs => some reset_stage.ring_ptrs
  | Effect.enter (alx_fn.alx_alloc_rxring_buf _) => some reset_stage.post_rx
  | Effect.enter alx_fn.alx_configure => some reset_stage.configure
  | Effect.flag_clear flag_bit.HALT => some reset_stage.clear_halt
  | Effect.ext Event.irq_enable => some reset_stage.irq_enable
  | _ => none

/-- Calls made while buffers are released or posted: DMA unmaps, buffer
frees, the producer register write with its barrier, queue accounting and the
allocation warning. -/
def Event.is_buffer_call : Event → Bool
  | Event.dma_unmap_rx _ _ => true
  | Event.dma_unmap_single _ _ => true
  | Event.dma_unmap_page _ _ => true
  | Event.kfree_skb _ => true
  | Event.wmb => true
  | Event.mem_w16 _ _ => true
  | Event.netdev_warn => true
  | Event.netdev_tx_reset_queue _ => true
  | _ => false

/-! ## Link check, deferred task and interrupt classification -/

/-- Truncation to the C type `u32`. -/
def u32 (n : Nat) : Nat := n % 4294967296

/-- The C expression `~m` on a `u32`. -/
def u32_not (m : Nat) : Nat := 4294967295 ^^^ u32 m

/-- Bit masks of the interrupt status word, defined in the absent header
`alx_hw.h` and taken as parameters. -/
structure alx_isr where
  ALX_ISR_FATAL : Nat
  ALX_ISR_ALERT : Nat
  ALX_ISR_SMB : Nat
  ALX_ISR_PHY : Nat
  ALX_ISR_TX_Q0 : Nat
  ALX_ISR_RX_Q0 : Nat

/-- The capabilities `ALX_CAP(hw, AZ)`, `ALX_CAP(hw, L0S)` and `ALX_CAP(hw, L1)`. -/
structure alx_caps where
  AZ : Bool
  L0S : Bool
  L1 : Bool

/-- What the hardware answers during one link check: the return value of
`alx_get_phy_link` with the link state and speed it stores, and the return
value of `alx_reset_mac`; `jiffies` is the kernel tick counter. -/
structure link_env where
  phy_err : Int
  phy_link_up : Bool
  phy_speed : Nat
  reset_mac_err : Int
  jiffies : Nat

/-- Kernel constant `EIO`. -/
def EIO : Int := 5

/-- Source `alx_netif_start`. -/
def alx_netif_start (a : alx_adapter) : alx_adapter × List Event :=
  ({ a with netdev := { a.netdev with tx_stopped := a.netdev.tx_stopped.map (fun _ => false)
                                      carrier_ok := true } },
   [Event.netif_tx_wake_all_queues] ++ (List.range a.nr_napi).map Event.napi_enable ++
     [Event.netif_carrier_on])

/-- The label `out:` of `alx_check_link`: a non-zero `err` sets `TASK_RESET`
and schedules the task. -/
def alx_check_link_out (a : alx_adapter) (tr : List Effect) (err : Int)
    (oracle : List rx_alloc) : alx_adapter × List Effect × List rx_alloc :=
  if err ≠ 0 then
    ({ a with flags := { a.flags with TASK_RESET := true } },
     tr ++ [Effect.flag_set flag_bit.TASK_RESET] ++
       (alx_schedule_work a.flags.HALT).map Effect.ext, oracle)
  else (a, tr, oracle)

/-- The branch of `alx_check_link` for a reading with the link up, entered
after the same-speed test failed. -/
def alx_check_link_up (C : alx_caps) (a : alx_adapter) (tr : List Effect) (speed : Nat)
    (old_link_up : Bool) (oracle : List rx_alloc) : alx_adapter × List Effect × List rx_alloc :=
  let duplex := speed % 10
  let hw1 := { a.hw with link_duplex := duplex }
  let hw2 := { hw1 with link_speed := speed - hw1.link_duplex }
  let hw3 := { hw2 with link_up := true }
  let a1 := { a with hw := hw3 }
  let tr1 := tr ++ [Effect.ext (Event.show_speed speed),
    Effect.ext (Event.post_phy_link hw3.link_speed C.AZ),
    Effect.ext (Event.enable_aspm C.L0S C.L1), Effect.ext Event.start_mac]
  if old_link_up = true then alx_check_link_out a1 tr1 0 oracle
  else
    let s := alx_netif_start a1
    alx_check_link_out s.1 (tr1 ++ [Effect.enter alx_fn.alx_netif_start] ++ s.2.map Effect.ext)
      0 oracle

/-- The branch of `alx_check_link` for a link that went from up to down. -/
def alx_check_link_down (C : alx_caps) (E : link_env) (a : alx_adapter) (tr : List Effect)
    (oracle : List rx_alloc) : alx_adapter × List Effect × List rx_alloc :=
  let s := alx_netif_stop a E.jiffies
  let a1 := { s.1 with hw := { s.1.hw with link_up := false, link_speed := SPEED_0 } }
  let tr1 := tr ++ [Effect.enter alx_fn.alx_netif_stop] ++ s.2.map Effect.ext ++
    [Effect.ext Event.reset_mac]
  if E.reset_mac_err ≠ 0 then
    alx_check_link_out a1 (tr1 ++ [Effect.ext Event.netif_err_reset_mac]) (- EIO) oracle
  else
    let r := alx_reinit_rings a1 oracle
    let tr2 := tr1 ++ [Effect.ext Event.irq_disable] ++ alx_reinit_rings_trace a1 oracle
    if r.1 ≠ 0 then alx_check_link_out r.2.1 tr2 r.1 r.2.2.2
    else
      alx_check_link_out r.2.1
        (tr2 ++ [Effect.enter alx_fn.alx_configure] ++ (alx_configure r.2.1).map Effect.ext ++
          [Effect.ext (Event.enable_aspm false C.L1), Effect.ext (Event.post_phy_link SPEED_0 C.AZ),
           Effect.ext Event.irq_enable])
        0 r.2.2.2

/-- Source `alx_check_link`: the adapter afterwards, the trace and the unused
allocator answers. -/
def alx_check_link (B : alx_isr) (C : alx_caps) (E : link_env) (a : alx_adapter)
    (oracle : List rx_alloc) : alx_adapter × List Effect × List rx_alloc :=
  if a.flags.HALT = true then (a, [], oracle)
  else
    let tr0 := [Effect.ext Event.clear_phy_intr, Effect.ext Event.get_phy_link]
    if E.phy_err ≠ 0 then alx_check_link_out a tr0 E.phy_err oracle
    else
      let link_up := E.phy_link_up
      let speed := u16 E.phy_speed
      let a1 := { a with hw := { a.hw with imask := u32 (a.hw.imask ||| B.ALX_ISR_PHY) } }
      let tr1 := tr0 ++ [Effect.ext (Event.mem_w32_imr a1.hw.imask)]
      if link_up = false ∧ a1.hw.link_up = false then alx_check_link_out a1 tr1 0 oracle
      else
        let old_speed := u16 (a1.hw.link_speed + a1.hw.link_duplex)
        let old_link_up := a1.hw.link_up
        if link_up = true then
          if old_link_up = true ∧ old_speed = speed then alx_check_link_out a1 tr1 0 oracle
          else alx_check_link_up C a1 tr1 speed old_link_up oracle
        else alx_check_link_down C E a1 tr1 oracle

/-- Trace entries made while rings are released, programmed and refilled. -/
def Effect.is_ring_step : Effect → Bool
  | Effect.ext _ => true
  | Effect.enter alx_fn.alx_reinit_rings => true
  | Effect.enter alx_fn.alx_free_all_rings_buf => true
  | Effect.enter (alx_fn.alx_alloc_rxring_buf _) => true
  | _ => false

/-- The adapter on which the link-down branch of `alx_check_link` calls
`alx_reinit_rings`: `ALX_ISR_PHY` opened in `imask`, `alx_netif_stop` done,
`link_up` false and `link_speed` `SPEED_0`. -/
def link_down_state (B : alx_isr) (E : link_env) (a : alx_adapter) : alx_adapter :=
  let a1 := { a with hw := { a.hw with imask := u32 (a.hw.imask ||| B.ALX_ISR_PHY) } }
  let s := alx_netif_stop a1 E.jiffies
  { s.1 with hw := { s.1.hw with link_up := false, link_speed := SPEED_0 } }

/-- Sample interrupt masks: PCIe link down and the two DMA errors as fatal
bits, four alert bits, the statistics timer, the PHY and the first TX and RX
queue. -/
def ex_isr : alx_isr := ⟨67110400, 408, 1, 4096, 32768, 65536⟩

/-- A device with all three power-saving capabilities. -/
def ex_caps : alx_caps := ⟨true, true, true⟩

/-- A successful PHY read reporting the link up at 1000 Mb/s full duplex. -/
def ex_link_up_env : link_env := ⟨0, true, 1001, 0, 50⟩

/-- A successful PHY read reporting the link down; `err` is what
`alx_reset_mac` returns. -/
def ex_link_down_env (err : Int) : link_env := ⟨0, false, 0, err, 50⟩

/-- The sample adapter with the stored link down. -/
def ex_adapter_down : alx_adapter :=
  { ex_adapter with hw := ⟨false, 0, 0, 0⟩ }

/-- The sample adapter halted, with the stored link down. -/
def ex_adapter_halted : alx_adapter :=
  { ex_adapter_down with flags := ⟨true, false, false, true, false, false, false, true⟩ }

/-- Source `alx_handle_intr_misc` on the status word `intr`: the return value,
the adapter afterwards and the trace. -/
def alx_handle_intr_misc (B : alx_isr) (a : alx_adapter) (intr : Nat) :
    Bool × alx_adapter × List Effect :=
  if intr &&& B.ALX_ISR_FATAL ≠ 0 then
    (true, { a with flags := { a.flags with TASK_RESET := true } },
     [Effect.flag_set flag_bit.TASK_RESET] ++ (alx_schedule_work a.flags.HALT).map Effect.ext)
  else
    let t1 : List Effect :=
      if intr &&& B.ALX_ISR_ALERT ≠ 0 then [Effect.ext Event.netdev_warn] else []
    let s2 : alx_adapter × List Effect :=
      if intr &&& B.ALX_ISR_SMB ≠ 0 then
        ({ a with flags := { a.flags with TASK_UPDATE_SMB := true } },
         [Effect.flag_set flag_bit.TASK_UPDATE_SMB] ++
           (alx_schedule_work a.flags.HALT).map Effect.ext)
      else (a, [])
    let s3 : alx_adapter × List Effect :=
      if intr &&& B.ALX_ISR_PHY ≠ 0 then
        let a3 := { s2.1 with hw := { s2.1.hw with imask := s2.1.hw.imask &&& u32_not B.ALX_ISR_PHY } }
        ({ a3 with flags := { a3.flags with TASK_CHK_LINK := true } },
         [Effect.ext (Event.mem_w32_imr a3.hw.imask), Effect.flag_set flag_bit.TASK_CHK_LINK] ++
           (alx_schedule_work a3.flags.HALT).map Effect.ext)
      else (s2.1, [])
    (false, s3.1, t1 ++ s2.2 ++ s3.2)

/-- Source `alx_tx_timeout`. -/
def alx_tx_timeout (a : alx_adapter) : alx_adapter × List Effect :=
  ({ a with flags := { a.flags with TASK_RESET := true } },
   [Effect.ext Event.dump_state, Effect.flag_set flag_bit.TASK_RESET] ++
     (alx_schedule_work a.flags.HALT).map Effect.ext)

/-- The first subtask of `alx_task`:
`if (test_and_clear_bit(ALX_FLAG_TASK_RESET, ..)) alx_reinit(adpt, true);`.
`rfuel` bounds the wait loop of `alx_reinit`. -/
def alx_task_reset (rfuel : Nat) (E : link_env) (a : alx_adapter) (oracle : List rx_alloc) :
    Option (alx_adapter × List Effect × List rx_alloc) :=
  if a.flags.TASK_RESET = true then
    let a1 := { a with flags := { a.flags with TASK_RESET := false } }
    match alx_reinit rfuel a1 true E.jiffies oracle,
      alx_reinit_trace rfuel a1 true E.jiffies oracle with
    | some r, some t =>
      some (r.1, [Effect.flag_clear flag_bit.TASK_RESET, Effect.enter alx_fn.alx_reinit] ++ t,
        r.2.2)
    | _, _ => none
  else some (a, [], oracle)

/-- Source `alx_update_hw_stats`: the counters are read
(`__alx_update_hw_stats`, recorded as `update_hw_stats`) unless `HALT` or
`RESETING` is set. -/
def alx_update_hw_stats (a : alx_adapter) : List Event :=
  if a.flags.HALT = true ∨ a.flags.RESETING = true then [] else [Event.update_hw_stats]

/-- The second subtask of `alx_task`:
`if (test_and_clear_bit(ALX_FLAG_TASK_UPDATE_SMB, ..)) alx_update_stats(adpt);`. -/
def alx_task_smb (a : alx_adapter) : alx_adapter × List Effect :=
  if a.flags.TASK_UPDATE_SMB = true then
    let a1 := { a with flags := { a.flags with TASK_UPDATE_SMB := false } }
    (a1,
     [Effect.flag_clear flag_bit.TASK_UPDATE_SMB, Effect.enter alx_fn.alx_update_stats] ++
      (alx_update_hw_stats a1).map Effect.ext)
  else (a, [])

/-- The third subtask of `alx_task`:
`if (test_and_clear_bit(ALX_FLAG_TASK_CHK_LINK, ..)) alx_check_link(adpt);`. -/
def alx_task_link (B : alx_isr) (C : alx_caps) (E : link_env) (a : alx_adapter)
    (oracle : List rx_alloc) : alx_adapter × List Effect × List rx_alloc :=
  if a.flags.TASK_CHK_LINK = true then
    let a1 := { a with flags := { a.flags with TASK_CHK_LINK := false } }
    let r := alx_check_link B C E a1 oracle
    (r.1, [Effect.flag_clear flag_bit.TASK_CHK_LINK, Effect.enter alx_fn.alx_check_link] ++ r.2.1,
      r.2.2)
  else (a, [], oracle)

/-- Source `alx_task`. The first number bounds the iterations of
`while (test_and_set_bit(ALX_FLAG_TASK_PENDING, ..)) msleep(20);`, the second
the wait loop of `alx_reinit`; `none` means a bound was reached. -/
def alx_task (B : alx_isr) (C : alx_caps) :
    Nat → Nat → link_env → alx_adapter → List rx_alloc →
      Option (alx_adapter × List Effect × List rx_alloc)
  | 0, _, _, _, _ => none
  | fuel + 1, rfuel, E, a, oracle =>
    if a.flags.TASK_PENDING = true then
      (alx_task B C fuel rfuel E a oracle).map
        (fun r => (r.1, Effect.ext (Event.msleep 20) :: r.2.1, r.2.2))
    else
      let a0 := { a with flags := { a.flags with TASK_PENDING := true } }
      if a0.flags.HALT = true then
        some ({ a0 with flags := { a0.flags with TASK_PENDING := false } },
          [Effect.flag_set flag_bit.TASK_PENDING, Effect.flag_clear flag_bit.TASK_PENDING], oracle)
      else
        match alx_task_reset rfuel E a0 oracle with
        | none => none
        | some s1 =>
          let s2 := alx_task_smb s1.1
          let s3 := alx_task_link B C E s2.1 s1.2.2
          some ({ s3.1 with flags := { s3.1.flags with TASK_PENDING := false } },
            [Effect.flag_set flag_bit.TASK_PENDING] ++ s1.2.1 ++ s2.2 ++ s3.2.1 ++
              [Effect.flag_clear flag_bit.TASK_PENDING], s3.2.2)

/-- A request for a reset: `alx_handle_intr_misc` on a status word, the SI/NOR
fault path of `alx_dispatch_skb`, which leaves the RX rings as `rxq`, or
`alx_tx_timeout`. -/
inductive reset_request where
  | intr_misc (intr : Nat)
  | rx_desync (rxq : List alx_rx_queue)
  | tx_timeout
deriving DecidableEq, Repr

/-- The adapter after a reset request. -/
def request_reset (B : alx_isr) (a : alx_adapter) : reset_request → alx_adapter
  | reset_request.intr_misc intr => (alx_handle_intr_misc B a intr).2.1
  | reset_request.rx_desync rxq =>
    { a with rxq := rxq, flags := { a.flags with TASK_RESET := true } }
  | reset_request.tx_timeout => (alx_tx_timeout a).1

/-- A status word asks for a reset when it has a fatal bit. -/
def reset_request.fatal (B : alx_isr) : reset_request → Prop
  | reset_request.intr_misc intr => intr &&& B.ALX_ISR_FATAL ≠ 0
  | _ => True

/-- The adapter after a sequence of reset requests. -/
def after_requests (B : alx_isr) (a : alx_adapter) (reqs : List reset_request) : alx_adapter :=
  reqs.foldl (request_reset B) a

instance (B : alx_isr) (q : reset_request) : Decidable (q.fatal B) := by
  cases q <;> unfold reset_request.fatal <;> infer_instance

/-- The sample adapter with no task flag set. -/
def ex_adapter_idle : alx_adapter :=
  { ex_adapter with flags := ⟨false, false, false, false, false, false, false, true⟩ }

/-- Three reset requests: a status word with the DMA write error bit, a TX
timeout and an RX ring fault. -/
def ex_requests : List reset_request :=
  [reset_request.intr_misc 1024, reset_request.tx_timeout,
   reset_request.rx_desync ex_adapter.rxq]

/-- Every slot record outside the in-flight range `cidx .. pidx` is empty. -/
def tx_outside_empty (txq : alx_tx_queue) : Prop :=
  ∀ x, (∀ i, i < ring_dist txq.count txq.cidx txq.pidx → x ≠ ring_pos txq.count txq.cidx i) →
    slot_empty (tx_slot txq x)

/-- A sequence of calls that ends with an empty ring: a three-slot packet, a
submission whose mapping fails, a reclaim pass up to slot 3. -/
def ex_ops_drain : List tx_op :=
  [tx_op.xmit (ex_skb 1) ex_dma_ok, tx_op.xmit (ex_skb 3) ex_dma_fail,
   tx_op.clean 8 false true 3]

/-! ## NAPI poll -/

/-- The loop of `alx_skb_dequeue_n`:
`while (count < max_pkts || max_pkts == -1) { skb = __skb_dequeue(..); if (skb) { .. count++; } else break; }`.
Returns what is left of `rxq->list` and the packets moved to `list`. -/
def alx_skb_dequeue_loop (max_pkts : Int) :
    List rx_skb → Int → List rx_skb → List rx_skb × List rx_skb
  | [], _, acc => ([], acc)
  | p :: rest, count, acc =>
    if count < max_pkts ∨ max_pkts = -1 then
      alx_skb_dequeue_loop max_pkts rest (count + 1) (acc ++ [p])
    else (p :: rest, acc)

/-- Source `alx_skb_dequeue_n`: whether `rxq->list` is empty afterwards, the
queue, and the packets taken. -/
def alx_skb_dequeue_n (rxq : alx_rx_queue) (max_pkts : Int) :
    Bool × alx_rx_queue × List rx_skb :=
  let r := alx_skb_dequeue_loop max_pkts rxq.list 0 []
  (r.1.isEmpty, { rxq with list := r.1 }, r.2)

/-- The packets a pass of `alx_dispatch_skb` queued with `alx_skb_queue_tail`
on `adpt->qnapi[qidx]->rxq`. -/
def queued_on (qidx : Nat) (ev : List Event) : List rx_skb :=
  ev.filterMap (fun e =>
    match e with
    | Event.skb_queue_tail (some q) p => if q = qidx then some p else none
    | _ => none)

/-- What `alx_clean_rx_irq` returns and leaves behind. `hwq` is the ring
`alx_hw_rxq(rxq)` when that is another ring than `rxq`. -/
structure rx_pass where
  empty : Bool
  rxq : alx_rx_queue
  hwq : Option alx_rx_queue
  task_reset : Bool
  oracle : List rx_alloc
  ev : List Event
deriving DecidableEq, Repr

/-- Source `alx_clean_rx_irq`. The helper `alx_hw_rxq` lives in an absent
header; its result is a parameter: `hwq = none` when `alx_hw_rxq(rxq)` is
`rxq` itself, `some h` when it is another ring `h`. `none` as a result means
the loop of `alx_dispatch_skb` did not end within `fuel` iterations. -/
def alx_clean_rx_irq (P : alx_params) (E : rx_env) (fuel : Nat) (rxq : alx_rx_queue)
    (hwq : Option alx_rx_queue) (budget : Int) (oracle : List rx_alloc) : Option rx_pass :=
  match alx_dispatch_skb P E fuel (hwq.getD rxq) oracle with
  | none => none
  | some d =>
    let own : alx_rx_queue :=
      match hwq with
      | none => d.rxq
      | some _ => rxq
    let q1 := { own with list := own.list ++ queued_on own.qidx d.ev }
    let r := alx_skb_dequeue_n q1 budget
    some { empty := r.1
           rxq := r.2.1
           hwq := hwq.map (fun _ => d.rxq)
           task_reset := d.task_reset
           oracle := d.oracle
           ev := d.ev ++ r.2.2.map Event.napi_gro_receive }

/-- The NAPI context `struct alx_napi`: its TX and RX queue, either of which
may be NULL, and its interrupt vector. -/
structure alx_napi where
  txq : Option alx_tx_queue
  rxq : Option alx_rx_queue
  vec_idx : Nat
deriving DecidableEq, Repr

/-- What `alx_poll` reads besides the rings: `USING_MSIX`, the carrier, the
value of the TX consumer register and the bounds for the two loops. -/
structure poll_env where
  using_msix : Bool
  carrier_ok : Bool
  hw_cidx : Nat
  tx_fuel : Nat
  rx_fuel : Nat

/-- The state `alx_poll` works on: the NAPI context, the ring `alx_hw_rxq`
yields when it is another ring, `hw->imask`, the stopped state of the TX
queue, flag `TASK_RESET` and the allocator answers. -/
structure poll_state where
  np : alx_napi
  hwq : Option alx_rx_queue
  imask : Nat
  tx_stopped : Bool
  task_reset : Bool
  oracle : List rx_alloc
deriving DecidableEq, Repr

/-- What `alx_poll` returns and leaves behind. -/
structure poll_result where
  ret : Int
  st : poll_state
  tr : List Effect
deriving DecidableEq, Repr

/-- The statement `if (np->txq) complete = alx_clean_tx_irq(np->txq);` of
`alx_poll`: the value of `complete`, the state and the trace. -/
def alx_poll_tx (P : alx_params) (E : rx_env) (V : poll_env) (s : poll_state) :
    Option (Bool × poll_state × List Effect) :=
  match s.np.txq with
  | none => some (true, s, [])
  | some t =>
    match alx_clean_tx_irq P V.tx_fuel E.halt V.carrier_ok V.hw_cidx t s.tx_stopped with
    | none => none
    | some r =>
      some (r.ret, { s with np := { s.np with txq := some r.txq }, tx_stopped := r.stopped },
        [Effect.enter alx_fn.alx_clean_tx_irq] ++ r.ev.map Effect.ext)

/-- The statement `if (np->rxq) complete &= alx_clean_rx_irq(np->rxq, budget);`
of `alx_poll`. -/
def alx_poll_rx (P : alx_params) (E : rx_env) (V : poll_env) (s : poll_state) (budget : Int)
    (complete : Bool) : Option (Bool × poll_state × List Effect) :=
  match s.np.rxq with
  | none => some (complete, s, [])
  | some q =>
    match alx_clean_rx_irq P E V.rx_fuel q s.hwq budget s.oracle with
    | none => none
    | some r =>
      some (complete && r.empty,
        { s with np := { s.np with rxq := some r.rxq }, hwq := r.hwq,
                 task_reset := s.task_reset || r.task_reset, oracle := r.oracle },
        [Effect.enter alx_fn.alx_clean_rx_irq] ++ r.ev.map Effect.ext)

/-- The end of `alx_poll` once `complete` is true: `napi_complete` and, with
`HALT` clear, the unmasking of the queue interrupts. -/
def alx_poll_complete (B : alx_isr) (E : rx_env) (V : poll_env) (s : poll_state) :
    poll_state × List Effect :=
  if E.halt = true then (s, [Effect.ext Event.napi_complete])
  else if V.using_msix = true then
    (s, [Effect.ext Event.napi_complete, Effect.ext (Event.mask_msix s.np.vec_idx false),
         Effect.ext Event.mem_flush])
  else
    let imask := u32 (s.imask ||| (B.ALX_ISR_TX_Q0 ||| B.ALX_ISR_RX_Q0))
    ({ s with imask := imask },
     [Effect.ext Event.napi_complete, Effect.ext (Event.mem_w32_imr imask),
      Effect.ext Event.mem_flush])

/-- Source `alx_poll`. `none` means a loop of one of the two passes did not
end within its bound. -/
def alx_poll (P : alx_params) (B : alx_isr) (E : rx_env) (V : poll_env) (s : poll_state)
    (budget : Int) : Option poll_result :=
  match alx_poll_tx P E V s with
  | none => none
  | some t =>
    match alx_poll_rx P E V t.2.1 budget t.1 with
    | none => none
    | some r =>
      if r.1 = false then some { ret := budget, st := r.2.1, tr := t.2.2 ++ r.2.2 }
      else
        let c := alx_poll_complete B E V r.2.1
        some { ret := 0, st := c.1, tr := t.2.2 ++ r.2.2 ++ c.2 }

/-! ## NAPI poll: bounds and examples -/

/-- Number of result entries of an RX ring with the updated bit set. -/
def rrd_pending (q : alx_rx_queue) : Nat :=
  q.rrd_hdr.countP (fun d => d.word3.updated)


/-- The calls `alx_poll` itself makes after the two passes. -/
def Event.is_poll_end : Event → Bool
  | Event.napi_complete => true
  | Event.mask_msix _ _ => true
  | Event.mem_w32_imr _ => true
  | Event.mem_flush => true
  | _ => false


/-- Kernel helper `rounddown_pow_of_two` on a positive argument: `p` is doubled
while `2 * p` does not exceed `n`; the first argument bounds the doublings. -/
def rounddown_pow_of_two_from (n : Nat) : Nat → Nat → Nat
  | 0, p => p
  | fuel + 1, p => if 2 * p ≤ n then rounddown_pow_of_two_from n fuel (2 * p) else p

/-- Kernel helper `rounddown_pow_of_two`. -/
def rounddown_pow_of_two (n : Nat) : Nat := rounddown_pow_of_two_from n n 1

/-- The queue and vector counts of the adapter: `nr_txq`, `nr_rxq`, `nr_vec`,
`nr_napi` and `nr_hwrxq`. -/
structure queue_counts where
  nr_txq : Nat
  nr_rxq : Nat
  nr_vec : Nat
  nr_napi : Nat
  nr_hwrxq : Nat
deriving DecidableEq, Repr

/-- Source `alx_enable_msix`. `cpus` is `num_online_cpus()`; `max_txq` and
`max_rxq` are `ALX_MAX_TX_QUEUES` and `ALX_MAX_RX_QUEUES` of the absent
header; `alloc_ok` and `msix_ok` tell whether `kcalloc` and `pci_enable_msix`
succeed; `cap_mrq` is `ALX_CAP(hw, MRQ)`. `none` is the return value false,
which stores no count. -/
def alx_enable_msix (cpus max_txq max_rxq : Nat) (alloc_ok msix_ok cap_mrq : Bool) :
    Option queue_counts :=
  let nr_txq := min cpus max_txq
  let nr_rxq := rounddown_pow_of_two (min cpus max_rxq)
  let vec_req := max nr_txq nr_rxq + 1
  if vec_req ≤ 2 then none
  else if alloc_ok = false then none
  else if msix_ok = false then none
  else
    some { nr_txq := nr_txq, nr_rxq := nr_rxq, nr_vec := vec_req, nr_napi := vec_req - 1
           nr_hwrxq := if cap_mrq = true then nr_rxq else 1 }

/-- Source `alx_init_intr` with `USING_MSIX` clear on entry: whether
`USING_MSIX` is set afterwards, and the counts. `cap_mtq`, `cap_rss` and
`cap_msix` are the capability bits `MTQ`, `RSS` and `MSIX`. -/
def alx_init_intr (cap_mtq cap_rss cap_msix : Bool) (cpus max_txq max_rxq : Nat)
    (alloc_ok msix_ok cap_mrq : Bool) : Bool × queue_counts :=
  let m : Option queue_counts :=
    if (cap_mtq || cap_rss) && cap_msix then
      alx_enable_msix cpus max_txq max_rxq alloc_ok msix_ok cap_mrq
    else none
  match m with
  | some c => (true, c)
  | none => (false, { nr_txq := 1, nr_rxq := 1, nr_vec := 1, nr_napi := 1, nr_hwrxq := 1 })

/-- What the set-up decides about context `adpt->qnapi[i]`: whether it has a TX
ring, whether it has an RX ring, the `qidx` of its rings and its `vec_idx`. -/
structure napi_layout where
  has_txq : Bool
  has_rxq : Bool
  qidx : Nat
  vec_idx : Nat
deriving DecidableEq, Repr

/-- Source `alx_alloc_napis` and `alx_request_msix`, for context `i` of the
`nr_napi` contexts: the loop `for (i = 0; i < adpt->nr_txq; i++)` gives
`qnapi[i]` a TX ring with `qidx = i`, the loop over `nr_rxq` an RX ring with
`qidx = i`, and `alx_request_msix` sets `np->vec_idx` to `i + 1`; without
MSI-X that field keeps the zero of `kzalloc`. -/
def alx_napi_layout (using_msix : Bool) (c : queue_counts) (i : Nat) : napi_layout :=
  { has_txq := decide (i < c.nr_txq), has_rxq := decide (i < c.nr_rxq), qidx := i
    vec_idx := if using_msix = true then i + 1 else 0 }

/-- The layout of a NAPI context of the model. -/
def alx_napi.layout (np : alx_napi) : Bool × Option Nat × Option Nat × Nat :=
  (np.txq.isSome, np.txq.map (fun t => t.qidx), np.rxq.map (fun q => q.qidx), np.vec_idx)

/-- An RX ring of four slots with index `qidx`, posted by
`alx_alloc_rxring_buf` (three buffers) and without received frames. -/
def ex_rxq_posted (qidx : Nat) : alx_rx_queue :=
  (alx_alloc_rxring_buf 1536 { ex_rxq4 with qidx := qidx } ex_oracle).2.1

/-- The only NAPI context of an adapter without MSI-X: both rings with
`qidx` 0, five packets in flight on the TX ring, `vec_idx` 0. -/
def ex_napi : alx_napi := ⟨some ex_ring8_busy, some (ex_rxq_posted 0), 0⟩

/-- Context 4 of an adapter under MSI-X with four TX and eight RX queues: it
serves RX ring 4 only (`np->txq` is NULL) on vector 5. -/
def ex_napi_rx : alx_napi := ⟨none, some (ex_rxq_posted 4), 5⟩

/-- Legacy interrupts, carrier up, the TX consumer register reads `hw`. -/
def ex_poll_env (hw : Nat) : poll_env := ⟨false, true, hw, 8, 8⟩

/-- MSI-X, carrier up. -/
def ex_poll_env_msix : poll_env := ⟨true, true, 0, 8, 8⟩

/-- The adapter settings `alx_dispatch_skb` reads on a running adapter with
eight RX queues and the `MRQ` capability. -/
def ex_rx_env_msix : rx_env := ⟨1536, true, true, 8, false⟩

/-- The poll state of context `np` with the queue interrupts masked out of
`hw->imask`, as `alx_intr_1` leaves it; `alx_hw_rxq` yields the ring of the
context itself. -/
def ex_poll_state (np : alx_napi) : poll_state := ⟨np, none, 4096, false, false, ex_oracle⟩

/-- The poll state of context `np` under MSI-X: `hw->imask` still holds the
queue bits `alx_alloc_napis` set (those of queue 0 are the ones `ex_isr`
names), and with `MRQ` `alx_hw_rxq` yields the ring of the context itself. -/
def ex_poll_state_msix (np : alx_napi) : poll_state :=
  ⟨np, none, 102400, false, false, ex_oracle⟩

/-! ## Entry of the submission path -/

/-- What `alx_start_xmit` returns and leaves behind: the return value, the ring
`alx_tx_queue_mapping` selected, the stopped state of its netdev queue, and the
trace. -/
structure start_xmit_result where
  ret : netdev_tx_t
  txq : alx_tx_queue
  stopped : Bool
  tr : List Effect
deriving DecidableEq, Repr

/-- Source `alx_start_xmit`. `halt` is `ALX_FLAG(adpt, HALT)` and `txq` the
ring `alx_tx_queue_mapping(adpt, skb)` yields; `dev_kfree_skb_any` is recorded
as `kfree_skb`. -/
def alx_start_xmit (halt : Bool) (txq : alx_tx_queue) (stopped : Bool) (skb : sk_buff)
    (dma_map : Nat → Option Nat) : start_xmit_result :=
  if halt = true then
    { ret := netdev_tx_t.NETDEV_TX_OK, txq := txq, stopped := stopped,
      tr := [Effect.ext (Event.kfree_skb skb.id)] }
  else if skb.len ≤ 0 then
    { ret := netdev_tx_t.NETDEV_TX_OK, txq := txq, stopped := stopped,
      tr := [Effect.ext (Event.kfree_skb skb.id)] }
  else
    let r := alx_start_xmit_ring txq stopped skb dma_map
    { ret := r.ret, txq := r.txq, stopped := r.stopped,
      tr := [Effect.enter alx_fn.alx_start_xmit_ring] ++ r.ev.map Effect.ext }

/-- A packet of length zero. -/
def ex_skb_empty (id : Nat) : sk_buff := { ex_skb id with len := 0 }

/-! ## RX examples: error, short and valid entries -/

/-- A result entry like `ex_rrd si` with `RRD_ERR_LEN` set. -/
def ex_rrd_err (si : Nat) : rrd_desc :=
  { ex_rrd si with word3 := { (ex_rrd si).word3 with err_len := true } }

/-- A result entry like `ex_rrd si` reporting a frame of `n` bytes. -/
def ex_rrd_len (si n : Nat) : rrd_desc :=
  { ex_rrd si with word3 := { (ex_rrd si).word3 with pktlen := n } }

/-- An RX ring of four slots, three of them posted, whose result entries are
`first` for slot 0 and a valid frame of 64 bytes for slot 1. -/
def ex_rxq_two (first : rrd_desc) : alx_rx_queue :=
  { qidx := 0, p_reg := 5600, count := 4, pidx := 3, cidx := 0, rrd_cidx := 0
    bf_info := (List.range 3).map (fun i => (⟨some (200 + i), 4096 * (i + 1), 1536, false⟩ : alx_buffer))
      ++ [alx_buffer.zero]
    rfd_hdr := [4096, 8192, 12288, 0]
    rrd_hdr := [first, ex_rrd 1, rrd_desc.zero, rrd_desc.zero]
    flag_using := false
    list := [] }

/-- The loop state in which `alx_dispatch_skb` enters its loop on `rxq`. -/
def ex_dispatch_start (rxq : alx_rx_queue) : dispatch_state :=
  { rxq := { rxq with flag_using := true }, rfd_cleaned := 0, oracle := ex_oracle, ev := [] }

/-- The loop state at an entry that reports a length error. -/
def ex_err_state : dispatch_state := ex_dispatch_start (ex_rxq_two (ex_rrd_err 0))

/-- The loop state at a valid entry that reports 64 bytes. -/
def ex_valid_state : dispatch_state := ex_dispatch_start (ex_rxq_two (ex_rrd 0))

/-- The length of the packet a call of `alx_skb_queue_tail` hands on. -/
def Event.queued_len : Event → Option Nat
  | Event.skb_queue_tail _ p => some p.len
  | _ => none

/-! ## Reclaim: packets freed in a pass -/

/-- The call frees a packet (`dev_kfree_skb`). -/
def Event.is_kfree_skb : Event → Bool
  | Event.kfree_skb _ => true
  | _ => false

/-! ## FreeBSD attachment: TX ring set-up, packet encoding and the start routine -/

/-- FreeBSD error number `EFBIG`. -/
def EFBIG : Int := 27

/-- FreeBSD error number `ENOBUFS`. -/
def ENOBUFS : Int := 55

/-- Registers `alx_init_tx_ring` writes; their numbers live in the absent
header `alx_hw.h`. -/
inductive alx_reg where
  | ALX_TPD_RING_SZ
  | ALX_TPD_PRI0_ADDR_LO
  | ALX_TX_BASE_ADDR_HI
deriving DecidableEq, Repr

/-- Calls of the FreeBSD path into the kernel and the hardware, in program
order; a packet (`struct mbuf *`) is named by a number. -/
inductive bsd_call where
  | mem_w32 (reg : alx_reg) (val : Nat)
  | dmamap_load (m : Nat)
  | m_collapse (m : Nat)
  | m_freem (m : Nat)
  | dmamap_unload
  | ifq_prepend (m : Nat)
  | bpf_mtap (m : Nat)
deriving DecidableEq, Repr

/-- The fields of `struct alx_softc` the TX path uses. `tpd_dma` is the field
`tpd_dma` of `sc->alx_tx_queue`, which the record `alx_tx_queue` above does not
carry. -/
structure alx_softc where
  tx_ringsz : Nat
  tpd_dma : Nat
  alx_tx_queue : Alx.alx_tx_queue
deriving DecidableEq, Repr

/-- Source `alx_init_tx_ring`: the three assignments to the ring and the three
register writes (`ALX_MEM_W32` writes the low 32 bits of its argument). -/
def alx_init_tx_ring (sc : alx_softc) : alx_softc × List bsd_call :=
  ({ sc with alx_tx_queue := { sc.alx_tx_queue with pidx := 0, cidx := 0, count := 0 } },
   [bsd_call.mem_w32 alx_reg.ALX_TPD_RING_SZ (u32 sc.tx_ringsz),
    bsd_call.mem_w32 alx_reg.ALX_TPD_PRI0_ADDR_LO (u32 sc.tpd_dma),
    bsd_call.mem_w32 alx_reg.ALX_TX_BASE_ADDR_HI (u32 (sc.tpd_dma >>> 32))])

/-- One answer of `bus_dmamap_load_mbuf_sg`: the error code, the number of
segments and the segment `seg` it filled in. -/
structure load_result where
  error : Int
  nsegs : Int
  ds_addr : Nat
  ds_len : Nat
deriving DecidableEq, Repr

/-- What `alx_encap` returns and leaves behind: the return value, `*m_head`
(`none` is NULL), the ring and the calls made. -/
structure encap_result where
  ret : Int
  m_head : Option Nat
  txq : alx_tx_queue
  ev : List bsd_call
deriving DecidableEq, Repr

/-- Source `alx_encap` from label `retry` on. `load k m` is the answer of
`bus_dmamap_load_mbuf_sg` at attempt `k` for packet `m`, `collapse k m` the
answer of `m_collapse` after that attempt (`none` is NULL). The first argument
bounds the number of attempts; `none` means the bound was reached with
`goto retry` still taken. Every path of
`if (error == EFBIG) { .. goto retry; } else return (error);` returns or jumps
back, so the function ends here: the statements after it are
`alx_encap_tail` below. -/
def alx_encap_retry (load : Nat → Nat → load_result) (collapse : Nat → Nat → Option Nat)
    (txq : alx_tx_queue) : Nat → Nat → Nat → List bsd_call → Option encap_result
  | 0, _, _, _ => none
  | fuel + 1, k, m, ev =>
    let r := load k m
    let ev1 := ev ++ [bsd_call.dmamap_load m]
    if r.error = EFBIG then
      match collapse k m with
      | none =>
        some { ret := ENOBUFS, m_head := none, txq := txq,
               ev := ev1 ++ [bsd_call.m_collapse m, bsd_call.m_freem m] }
      | some m2 =>
        alx_encap_retry load collapse txq fuel (k + 1) m2 (ev1 ++ [bsd_call.m_collapse m])
    else some { ret := r.error, m_head := some m, txq := txq, ev := ev1 }

/-- Source `alx_encap` on packet `m`. -/
def alx_encap (load : Nat → Nat → load_result) (collapse : Nat → Nat → Option Nat)
    (txq : alx_tx_queue) (fuel : Nat) (m : Nat) : Option encap_result :=
  alx_encap_retry load collapse txq fuel 0 m []

/-- The loop `for (i = 0; i < nsegs; i++)` at the end of `alx_encap`: each
round writes `seg` into the descriptor at `pidx`. -/
def alx_encap_fill (r : load_result) : Nat → alx_tx_queue → alx_tx_queue
  | 0, txq => txq
  | n + 1, txq =>
    let first := txq.pidx
    let td := txq.tpd_hdr.getD first tpd_desc.zero
    let td1 : tpd_desc :=
      { td with adrl := tpd_adrl.addr r.ds_addr, word0 := { td.word0 with buflen := r.ds_len } }
    alx_encap_fill r n { txq with tpd_hdr := txq.tpd_hdr.set first td1 }

/-- The statements of `alx_encap` after
`if (error == EFBIG) { .. } else return (error);`, which no execution reaches
and `alx_encap_retry` therefore never calls: the check of `nsegs == 0`, the
check against `count - 2`, and the loop over the segments. -/
def alx_encap_tail (txq : alx_tx_queue) (m : Nat) (r : load_result) : encap_result :=
  if r.nsegs = 0 then { ret := EIO, m_head := none, txq := txq, ev := [bsd_call.m_freem m] }
  else if r.nsegs > (txq.count : Int) - 2 then
    { ret := ENOBUFS, m_head := some m, txq := txq, ev := [bsd_call.dmamap_unload] }
  else { ret := 0, m_head := some m, txq := alx_encap_fill r r.nsegs.toNat txq, ev := [] }

/-- What `alx_start_locked` leaves behind: the send queue `ifp->if_snd`, the
ring and the calls made. -/
structure start_result where
  if_snd : List Nat
  txq : alx_tx_queue
  ev : List bsd_call
deriving DecidableEq, Repr

/-- The loop `while (!IFQ_DRV_IS_EMPTY(&ifp->if_snd))` of `alx_start_locked`.
`fuel` bounds the attempts of each `alx_encap`; `none` means one of them did
not return. -/
def alx_start_locked_loop (load : Nat → Nat → load_result) (collapse : Nat → Nat → Option Nat)
    (fuel : Nat) : List Nat → alx_tx_queue → List bsd_call → Option start_result
  | [], txq, ev => some { if_snd := [], txq := txq, ev := ev }
  | m :: rest, txq, ev =>
    match alx_encap load collapse txq fuel m with
    | none => none
    | some r =>
      if r.ret ≠ 0 then
        match r.m_head with
        | some m2 =>
          some { if_snd := m2 :: rest, txq := r.txq, ev := ev ++ r.ev ++ [bsd_call.ifq_prepend m2] }
        | none => some { if_snd := rest, txq := r.txq, ev := ev ++ r.ev }
      else
        alx_start_locked_loop load collapse fuel rest r.txq
          (ev ++ r.ev ++ r.m_head.toList.map bsd_call.bpf_mtap)

/-- Source `alx_start_locked`. `running` and `oactive` are the bits
`IFF_DRV_RUNNING` and `IFF_DRV_OACTIVE` of `ifp->if_drv_flags`. -/
def alx_start_locked (load : Nat → Nat → load_result) (collapse : Nat → Nat → Option Nat)
    (fuel : Nat) (running oactive : Bool) (if_snd : List Nat) (txq : alx_tx_queue) :
    Option start_result :=
  if running = true ∧ oactive = false then alx_start_locked_loop load collapse fuel if_snd txq []
  else some { if_snd := if_snd, txq := txq, ev := [] }

/-- A softc with a ring size of 256 and the ring as allocated, with `count`
still unset. -/
def ex_softc : alx_softc := ⟨256, 1048576, { ex_ring256 with pidx := 7, cidx := 3 }⟩

/-- A load service that maps every packet into one segment of 60 bytes. -/
def ex_load_ok : Nat → Nat → load_result := fun _ m => ⟨0, 1, 4096 * (m + 1), 60⟩

/-- A load service that answers `EFBIG` at every attempt. -/
def ex_load_efbig : Nat → Nat → load_result := fun _ _ => ⟨EFBIG, 0, 0, 0⟩

/-- A load service that fails with `ENOMEM` (12) at every attempt. -/
def ex_load_nomem : Nat → Nat → load_result := fun _ _ => ⟨12, 0, 0, 0⟩

/-- A collapse service that always succeeds and hands back the same packet. -/
def ex_collapse_ok : Nat → Nat → Option Nat := fun _ m => some m

/-- A collapse service that always fails. -/
def ex_collapse_fail : Nat → Nat → Option Nat := fun _ _ => none

/-- A packet with eight fragments: nine descriptors. -/
def ex_skb_wide (id : Nat) : sk_buff :=
  { ex_skb id with frags := [100, 100, 100, 100, 100, 100, 100, 100] }

/-! ## Theorems -/

/-! ### Lists as arrays -/

theorem getD_set_self {α : Type} (l : List α) (i : Nat) (v d : α) (h : i < l.length) :
    (l.set i v).getD i d = v := by
  simp [List.getD_eq_getElem?_getD, List.getElem?_set, h]

theorem getD_set_other {α : Type} (l : List α) (i j : Nat) (v d : α) (h : i ≠ j) :
    (l.set i v).getD j d = l.getD j d := by
  simp [List.getD_eq_getElem?_getD, List.getElem?_set, h]

theorem getD_set_cases {α : Type} (l : List α) (i j : Nat) (v d : α) :
    (l.set i v).getD j d = v ∨ (l.set i v).getD j d = l.getD j d := by
  by_cases h : i = j
  · subst h
    by_cases hl : i < l.length
    · left; exact getD_set_self l i v d hl
    · right; rw [List.set_eq_of_length_le (by omega)]
  · right; exact getD_set_other l i j v d h

theorem slot_of_mem (txq : alx_tx_queue) (Q : alx_buffer → Prop) (h0 : Q alx_buffer.zero)
    (h : ∀ b ∈ txq.bf_info, Q b) : ∀ x, Q (tx_slot txq x) := by
  intro x
  unfold tx_slot
  by_cases hx : x < txq.bf_info.length
  · rw [List.getD_eq_getElem _ _ hx]
    exact h _ (List.getElem_mem hx)
  · rw [List.getD_eq_getElem?_getD, List.getElem?_eq_none (by omega)]
    exact h0

/-! ### Ring arithmetic -/

theorem u16_of_lt {n : Nat} (h : n < 65536) : u16 n = n := by
  unfold u16; omega

theorem ring_inc_of_lt {count p : Nat} (h16 : count < 65536) (hp : p < count) :
    ring_inc count p = if p + 1 = count then 0 else p + 1 := by
  unfold ring_inc
  rw [u16_of_lt (by omega)]

theorem ring_inc_lt {count p : Nat} (h16 : count < 65536) (hp : p < count) :
    ring_inc count p < count := by
  rw [ring_inc_of_lt h16 hp]
  split_ifs <;> omega

theorem mod_wrap {x n : Nat} (h : x < 2 * n) :
    x % n = if x < n then x else x - n := by
  split_ifs with h1
  · exact Nat.mod_eq_of_lt h1
  · rw [Nat.mod_eq_sub_mod (by omega)]
    exact Nat.mod_eq_of_lt (by omega)

theorem ring_inc_mod {count p : Nat} (h16 : count < 65536) (hp : p < count) :
    ring_inc count p = (p + 1) % count := by
  rw [ring_inc_of_lt h16 hp, mod_wrap (by omega)]
  split_ifs <;> omega

theorem ring_inc_iterate {count : Nat} (h16 : count < 65536) :
    ∀ (k p : Nat), p < count → (ring_inc count)^[k] p = (p + k) % count := by
  intro k
  induction k with
  | zero => intro p hp; simp [Nat.mod_eq_of_lt hp]
  | succ k ih =>
    intro p hp
    rw [Function.iterate_succ_apply, ih _ (ring_inc_lt h16 hp), ring_inc_mod h16 hp]
    rw [Nat.mod_add_mod]
    congr 1
    omega

/-- With `cidx` in range `alx_tpd_avail` is the two-branch difference of the
indices. -/
theorem tpd_avail_closed (txq : alx_tx_queue) (h16 : txq.count < 65536)
    (hci : txq.cidx < txq.count) :
    alx_tpd_avail txq =
      (if txq.pidx ≥ txq.cidx then (txq.count : Int) + txq.cidx - txq.pidx - 1
       else (txq.cidx : Int) - txq.pidx - 1) := by
  have hu : u16 txq.cidx = txq.cidx := by unfold u16; omega
  unfold alx_tpd_avail
  simp only [hu]

/-- A ring whose indices coincide has `count - 1` slots available. -/
theorem tpd_avail_empty (txq : alx_tx_queue) (h16 : txq.count < 65536)
    (hci : txq.cidx < txq.count) (h : txq.pidx = txq.cidx) :
    alx_tpd_avail txq = (txq.count : Int) - 1 := by
  have hcl := tpd_avail_closed txq h16 hci
  rw [if_pos (by omega)] at hcl
  rw [hcl]
  omega

/-- C2. For a ring with `count >= 1` and both indices in `[0, count)`,
`alx_tpd_avail` returns `count + cidx - pidx - 1` when `pidx >= cidx` and
`cidx - pidx - 1` otherwise; the result equals `(cidx - pidx - 1) mod count`,
lies in `[0, count - 1]`, and equals `count - 1` exactly when `pidx = cidx`. -/
theorem alx_tpd_avail_spec (txq : alx_tx_queue)
    (hc : 1 ≤ txq.count) (h16 : txq.count < 65536)
    (hp : txq.pidx < txq.count) (hci : txq.cidx < txq.count) :
    alx_tpd_avail txq =
        (if txq.pidx ≥ txq.cidx then (txq.count : Int) + txq.cidx - txq.pidx - 1
         else (txq.cidx : Int) - txq.pidx - 1) ∧
      alx_tpd_avail txq = ((txq.cidx : Int) - txq.pidx - 1) % txq.count ∧
      0 ≤ alx_tpd_avail txq ∧ alx_tpd_avail txq ≤ (txq.count : Int) - 1 ∧
      (alx_tpd_avail txq = (txq.count : Int) - 1 ↔ txq.pidx = txq.cidx) := by
  have hcl := tpd_avail_closed txq h16 hci
  refine ⟨hcl, ?_⟩
  by_cases h : txq.pidx ≥ txq.cidx
  · rw [if_pos h] at hcl
    rw [hcl]
    refine ⟨?_, by omega, by omega, by omega⟩
    have : ((txq.cidx : Int) - txq.pidx - 1) % txq.count
        = (txq.count : Int) + txq.cidx - txq.pidx - 1 := by
      rw [show ((txq.cidx : Int) - txq.pidx - 1) =
        ((txq.count : Int) + txq.cidx - txq.pidx - 1) + (-1) * txq.count by ring]
      rw [Int.add_mul_emod_self]
      exact Int.emod_eq_of_lt (by omega) (by omega)
    exact this.symm
  · rw [if_neg h] at hcl
    rw [hcl]
    refine ⟨?_, by omega, by omega, by omega⟩
    exact (Int.emod_eq_of_lt (by omega) (by omega)).symm

/-! ### Releasing one TX slot -/

theorem tx_same_shape_refl (a : alx_tx_queue) : tx_same_shape a a := by
  simp [tx_same_shape]

theorem tx_same_shape_trans {a b c : alx_tx_queue} (h1 : tx_same_shape a b)
    (h2 : tx_same_shape b c) : tx_same_shape a c := by
  unfold tx_same_shape at *
  obtain ⟨a1, a2, a3, a4, a5, a6⟩ := h1
  obtain ⟨b1, b2, b3, b4, b5, b6⟩ := h2
  exact ⟨by omega, by omega, by omega, by omega, by omega, by omega⟩

theorem unmap_shape (txq : alx_tx_queue) (entry : Nat) :
    tx_same_shape txq (alx_txbuf_unmap_and_free txq entry).1 ∧
      (alx_txbuf_unmap_and_free txq entry).1.pidx = txq.pidx ∧
      (alx_txbuf_unmap_and_free txq entry).1.cidx = txq.cidx ∧
      (alx_txbuf_unmap_and_free txq entry).1.tpd_hdr = txq.tpd_hdr := by
  simp [alx_txbuf_unmap_and_free, tx_same_shape]

theorem unmap_slot_other (txq : alx_tx_queue) (entry j : Nat) (h : entry ≠ j) :
    tx_slot (alx_txbuf_unmap_and_free txq entry).1 j = tx_slot txq j := by
  unfold tx_slot alx_txbuf_unmap_and_free
  exact getD_set_other _ _ _ _ _ h

theorem unmap_slot_self (txq : alx_tx_queue) (entry : Nat) (h : entry < txq.bf_info.length) :
    slot_empty (tx_slot (alx_txbuf_unmap_and_free txq entry).1 entry) := by
  unfold tx_slot alx_txbuf_unmap_and_free
  dsimp only
  rw [getD_set_self _ _ _ _ h]
  unfold slot_empty
  refine ⟨rfl, ?_⟩
  dsimp only
  split <;> simp_all

/-! ### The mapping step `alx_tx_map` -/

theorem unwind_shape (producer : Nat) :
    ∀ (fuel f : Nat) (txq : alx_tx_queue) (ev : List Event),
      tx_same_shape txq (alx_tx_map_unwind producer fuel f txq ev).1 ∧
        (alx_tx_map_unwind producer fuel f txq ev).1.pidx = txq.pidx ∧
        (alx_tx_map_unwind producer fuel f txq ev).1.cidx = txq.cidx ∧
        (alx_tx_map_unwind producer fuel f txq ev).1.tpd_hdr = txq.tpd_hdr := by
  intro fuel
  induction fuel with
  | zero => intro f txq ev; simp [alx_tx_map_unwind, tx_same_shape_refl]
  | succ n ih =>
    intro f txq ev
    unfold alx_tx_map_unwind
    by_cases h : f = producer
    · simp [h, tx_same_shape_refl]
    · simp only [h, if_false]
      have hu := unmap_shape txq f
      have hi := ih (ring_inc txq.count f) (alx_txbuf_unmap_and_free txq f).1
        (ev ++ (alx_txbuf_unmap_and_free txq f).2)
      exact ⟨tx_same_shape_trans hu.1 hi.1, by rw [hi.2.1, hu.2.1], by rw [hi.2.2.1, hu.2.2.1],
        by rw [hi.2.2.2, hu.2.2.2]⟩

theorem copy_shape (txq : alx_tx_queue) (first producer : Nat) :
    tx_same_shape txq (alx_tx_map_copy txq first producer) ∧
      (alx_tx_map_copy txq first producer).pidx = txq.pidx ∧
      (alx_tx_map_copy txq first producer).cidx = txq.cidx ∧
      (alx_tx_map_copy txq first producer).bf_info = txq.bf_info := by
  simp [alx_tx_map_copy, tx_same_shape]

theorem store_shape (txq : alx_tx_queue) (producer maplen dma : Nat) :
    tx_same_shape txq (alx_tx_map_store txq producer maplen dma) ∧
      (alx_tx_map_store txq producer maplen dma).pidx = txq.pidx ∧
      (alx_tx_map_store txq producer maplen dma).cidx = txq.cidx := by
  simp [alx_tx_map_store, tx_same_shape]

theorem lso_shape (txq : alx_tx_queue) :
    tx_same_shape txq (alx_tx_map_lso txq).1 ∧
      (alx_tx_map_lso txq).1.pidx = txq.pidx ∧
      (alx_tx_map_lso txq).1.cidx = txq.cidx ∧
      (alx_tx_map_lso txq).1.bf_info = txq.bf_info ∧
      (alx_tx_map_lso txq).2 = (ring_inc txq.count)^[tx_lso txq] (u16 txq.pidx) := by
  unfold alx_tx_map_lso tx_lso tx_desc
  dsimp only
  split_ifs
  · have := copy_shape txq (u16 txq.pidx) (ring_inc txq.count (u16 txq.pidx))
    exact ⟨this.1, this.2.1, this.2.2.1, this.2.2.2, rfl⟩
  · exact ⟨tx_same_shape_refl _, rfl, rfl, rfl, rfl⟩

theorem last_shape (txq : alx_tx_queue) (skb : sk_buff) (first last : Nat) :
    tx_same_shape txq (alx_tx_map_last txq skb first last) ∧
      (alx_tx_map_last txq skb first last).pidx = ring_inc txq.count last ∧
      (alx_tx_map_last txq skb first last).cidx = txq.cidx := by
  simp [alx_tx_map_last, tx_same_shape]

theorem frags_shape (dma_map : Nat → Option Nat) (first : Nat) :
    ∀ (frags : List Nat) (f : Nat) (txq : alx_tx_queue) (producer : Nat),
      tx_same_shape txq (alx_tx_map_frags dma_map first frags f txq producer).2.1 ∧
        (alx_tx_map_frags dma_map first frags f txq producer).2.1.pidx = txq.pidx ∧
        (alx_tx_map_frags dma_map first frags f txq producer).2.1.cidx = txq.cidx := by
  intro frags
  induction frags with
  | nil => intro f txq producer; simp [alx_tx_map_frags, tx_same_shape_refl]
  | cons a rest ih =>
    intro f txq producer
    unfold alx_tx_map_frags
    dsimp only
    have hc := copy_shape txq first (ring_inc txq.count producer)
    cases hd : dma_map (f + 1) with
    | none => exact ⟨hc.1, hc.2.1, hc.2.2.1⟩
    | some dma =>
      dsimp only
      have hs := store_shape (alx_tx_map_copy txq first (ring_inc txq.count producer))
        (ring_inc txq.count producer) (u16 a) dma
      have hi := ih (f + 1) (alx_tx_map_store (alx_tx_map_copy txq first (ring_inc txq.count producer))
        (ring_inc txq.count producer) (u16 a) dma) (ring_inc txq.count producer)
      exact ⟨tx_same_shape_trans hc.1 (tx_same_shape_trans hs.1 hi.1),
        by rw [hi.2.1, hs.2.1, hc.2.1], by rw [hi.2.2, hs.2.2, hc.2.2.1]⟩

theorem frags_producer (dma_map : Nat → Option Nat) (first : Nat) :
    ∀ (frags : List Nat) (f : Nat) (txq : alx_tx_queue) (producer : Nat),
      ((alx_tx_map_frags dma_map first frags f txq producer).1 = true →
        (alx_tx_map_frags dma_map first frags f txq producer).2.2 =
            (ring_inc txq.count)^[frags.length] producer ∧
          ∀ i, i < frags.length → (dma_map (f + 1 + i)).isSome = true) ∧
      ((alx_tx_map_frags dma_map first frags f txq producer).1 = false →
        ∃ k, k < frags.length ∧
          (alx_tx_map_frags dma_map first frags f txq producer).2.2 =
            (ring_inc txq.count)^[k + 1] producer ∧
          dma_map (f + 1 + k) = none ∧
          ∀ i, i < k → (dma_map (f + 1 + i)).isSome = true) := by
  intro frags
  induction frags with
  | nil => intro f txq producer; simp [alx_tx_map_frags]
  | cons a rest ih =>
    intro f txq producer
    unfold alx_tx_map_frags
    dsimp only
    cases hd : dma_map (f + 1) with
    | none =>
      dsimp only
      refine ⟨by simp, fun _ => ⟨0, by simp, by simp, by simpa using hd, by simp⟩⟩
    | some dma =>
      dsimp only
      constructor
      · intro h
        obtain ⟨h1, h2⟩ := (ih _ _ _).1 h
        refine ⟨by rw [h1]; simp [Function.iterate_succ_apply, alx_tx_map_store, alx_tx_map_copy], ?_⟩
        intro i hi
        cases i with
        | zero => simp [hd]
        | succ j =>
          have := h2 j (by simpa using hi)
          rw [show f + 1 + (j + 1) = f + 1 + 1 + j by omega]
          exact this
      · intro h
        obtain ⟨k, hk, h1, h2, h3⟩ := (ih _ _ _).2 h
        refine ⟨k + 1, by simpa using hk,
          by rw [h1]; simp [Function.iterate_succ_apply, alx_tx_map_store, alx_tx_map_copy], ?_, ?_⟩
        · rw [show f + 1 + (k + 1) = f + 1 + 1 + k by omega]
          exact h2
        · intro i hi
          cases i with
          | zero => simp [hd]
          | succ j =>
            have := h3 j (by omega)
            rw [show f + 1 + (j + 1) = f + 1 + 1 + j by omega]
            exact this

theorem tx_map_index (txq : alx_tx_queue) (skb : sk_buff) (dma_map : Nat → Option Nat) :
    tx_same_shape txq (alx_tx_map txq skb dma_map).2.1 ∧
      (alx_tx_map txq skb dma_map).2.1.cidx = txq.cidx ∧
      (((alx_tx_map txq skb dma_map).1 = 0 ∧ (alx_tx_map txq skb dma_map).2.2 = [] ∧
          (alx_tx_map txq skb dma_map).2.1.pidx =
            (ring_inc txq.count)^[skb.frags.length + 1 + tx_lso txq] (u16 txq.pidx) ∧
          ∀ k, k ≤ skb.frags.length → (dma_map k).isSome = true) ∨
        ((alx_tx_map txq skb dma_map).1 = -1 ∧
          (alx_tx_map txq skb dma_map).2.1.pidx = txq.pidx ∧
          ∃ k, k ≤ skb.frags.length ∧ dma_map k = none ∧
            ∀ i, i < k → (dma_map i).isSome = true)) := by
  have hl := lso_shape txq
  unfold alx_tx_map
  dsimp only
  cases hd : dma_map 0 with
  | none =>
    dsimp only
    have hu := unwind_shape (alx_tx_map_lso txq).2 (skb.frags.length + 2)
      (u16 (alx_tx_map_lso txq).1.pidx) (alx_tx_map_lso txq).1 []
    refine ⟨tx_same_shape_trans hl.1 hu.1, by rw [hu.2.2.1, hl.2.2.1],
      Or.inr ⟨rfl, by rw [hu.2.1, hl.2.1], 0, by omega, hd, by simp⟩⟩
  | some dma =>
    dsimp only
    have hs := store_shape (alx_tx_map_lso txq).1 (alx_tx_map_lso txq).2 (u16 skb.headlen) dma
    have hf := frags_shape dma_map (u16 txq.pidx) skb.frags 0
      (alx_tx_map_store (alx_tx_map_lso txq).1 (alx_tx_map_lso txq).2 (u16 skb.headlen) dma)
      (alx_tx_map_lso txq).2
    have hp := frags_producer dma_map (u16 txq.pidx) skb.frags 0
      (alx_tx_map_store (alx_tx_map_lso txq).1 (alx_tx_map_lso txq).2 (u16 skb.headlen) dma)
      (alx_tx_map_lso txq).2
    have hsh := tx_same_shape_trans hl.1 (tx_same_shape_trans hs.1 hf.1)
    have hcount : (alx_tx_map_frags dma_map (u16 txq.pidx) skb.frags 0
        (alx_tx_map_store (alx_tx_map_lso txq).1 (alx_tx_map_lso txq).2 (u16 skb.headlen) dma)
        (alx_tx_map_lso txq).2).2.1.count = txq.count := hsh.1
    have hcount2 : (alx_tx_map_store (alx_tx_map_lso txq).1 (alx_tx_map_lso txq).2
        (u16 skb.headlen) dma).count = txq.count := (tx_same_shape_trans hl.1 hs.1).1
    split_ifs with hok
    · dsimp only
      have hls := last_shape (alx_tx_map_frags dma_map (u16 txq.pidx) skb.frags 0
        (alx_tx_map_store (alx_tx_map_lso txq).1 (alx_tx_map_lso txq).2 (u16 skb.headlen) dma)
        (alx_tx_map_lso txq).2).2.1 skb (u16 txq.pidx)
        (alx_tx_map_frags dma_map (u16 txq.pidx) skb.frags 0
        (alx_tx_map_store (alx_tx_map_lso txq).1 (alx_tx_map_lso txq).2 (u16 skb.headlen) dma)
        (alx_tx_map_lso txq).2).2.2
      obtain ⟨hp1, hp2⟩ := hp.1 hok
      refine ⟨tx_same_shape_trans hsh hls.1, by rw [hls.2.2, hf.2.2, hs.2.2, hl.2.2.1],
        Or.inl ⟨rfl, rfl, ?_, ?_⟩⟩
      · rw [hls.2.1, hp1, hcount, hcount2, hl.2.2.2.2, Function.iterate_add_apply,
          Function.iterate_succ_apply']
      · intro k hk
        cases k with
        | zero => simp [hd]
        | succ j =>
          have := hp2 j (by omega)
          rw [show 0 + 1 + j = j + 1 by omega] at this
          exact this
    · dsimp only
      have hok2 : (alx_tx_map_frags dma_map (u16 txq.pidx) skb.frags 0
        (alx_tx_map_store (alx_tx_map_lso txq).1 (alx_tx_map_lso txq).2 (u16 skb.headlen) dma)
        (alx_tx_map_lso txq).2).1 = false := by simpa using hok
      obtain ⟨k, hk, _, hk2, hk3⟩ := hp.2 hok2
      have hu := unwind_shape (alx_tx_map_frags dma_map (u16 txq.pidx) skb.frags 0
        (alx_tx_map_store (alx_tx_map_lso txq).1 (alx_tx_map_lso txq).2 (u16 skb.headlen) dma)
        (alx_tx_map_lso txq).2).2.2 (skb.frags.length + 2)
        (u16 (alx_tx_map_frags dma_map (u16 txq.pidx) skb.frags 0
        (alx_tx_map_store (alx_tx_map_lso txq).1 (alx_tx_map_lso txq).2 (u16 skb.headlen) dma)
        (alx_tx_map_lso txq).2).2.1.pidx)
        (alx_tx_map_frags dma_map (u16 txq.pidx) skb.frags 0
        (alx_tx_map_store (alx_tx_map_lso txq).1 (alx_tx_map_lso txq).2 (u16 skb.headlen) dma)
        (alx_tx_map_lso txq).2).2.1 []
      refine ⟨tx_same_shape_trans hsh hu.1, by rw [hu.2.2.1, hf.2.2, hs.2.2, hl.2.2.1],
        Or.inr ⟨rfl, by rw [hu.2.1, hf.2.1, hs.2.1, hl.2.1], k + 1, by omega, ?_, ?_⟩⟩
      · rw [show 0 + 1 + k = k + 1 by omega] at hk2; exact hk2
      · intro i hi
        cases i with
        | zero => simp [hd]
        | succ j =>
          have := hk3 j (by omega)
          rw [show 0 + 1 + j = j + 1 by omega] at this
          exact this

/-! ### The submission path `alx_start_xmit_ring` -/

theorem first_lso (skb : sk_buff) : (alx_xmit_first skb).word1.lso_v2 = false := by
  unfold alx_xmit_first
  dsimp only
  split_ifs <;> split <;> rfl

theorem tso_lso (skb : sk_buff) (d : tpd_desc) (h : d.word1.lso_v2 = false)
    (h2 : (alx_tso skb d).2.word1.lso_v2 = true) :
    skb_is_gso skb = true ∧ skb.gso_type_tcpv6 = true := by
  unfold alx_tso at h2
  dsimp only at h2
  split_ifs at h2 <;> simp_all [skb_is_gso_v6]

theorem csum_lso (skb : sk_buff) (d : tpd_desc) :
    (alx_tx_csum skb d).2.word1.lso_v2 = d.word1.lso_v2 := by
  unfold alx_tx_csum
  dsimp only
  split_ifs <;> rfl

theorem offload_lso (skb : sk_buff) :
    (alx_xmit_offload skb).2.word1.lso_v2 =
      (alx_tso skb (alx_xmit_first skb)).2.word1.lso_v2 := by
  unfold alx_xmit_offload
  dsimp only
  split_ifs
  · rfl
  · exact csum_lso _ _
  · rfl

theorem xmit_slots_le_req (skb : sk_buff) : (xmit_slots skb : Int) ≤ alx_tpd_req skb := by
  unfold xmit_slots alx_tpd_req
  dsimp only
  by_cases h : (alx_tso skb (alx_xmit_first skb)).2.word1.lso_v2 = true
  · obtain ⟨h1, h2⟩ := tso_lso skb _ (first_lso skb) h
    simp [h, h1, h2]
  · rw [if_neg h]
    split_ifs <;> push_cast <;> omega

theorem unmap_events (txq : alx_tx_queue) (entry : Nat) :
    ∀ e ∈ (alx_txbuf_unmap_and_free txq entry).2, e.is_release = true := by
  unfold alx_txbuf_unmap_and_free
  dsimp only
  intro e he
  rw [List.mem_append] at he
  rcases he with he | he
  · split_ifs at he <;> simp_all [Event.is_release]
  · split at he <;> simp_all [Event.is_release]

theorem unwind_events (producer : Nat) :
    ∀ (fuel f : Nat) (txq : alx_tx_queue) (ev : List Event),
      (∀ e ∈ ev, e.is_release = true) →
      ∀ e ∈ (alx_tx_map_unwind producer fuel f txq ev).2, e.is_release = true := by
  intro fuel
  induction fuel with
  | zero => intro f txq ev h; simpa [alx_tx_map_unwind] using h
  | succ n ih =>
    intro f txq ev h
    unfold alx_tx_map_unwind
    split_ifs
    · exact h
    · apply ih
      intro e he
      rw [List.mem_append] at he
      rcases he with he | he
      · exact h e he
      · exact unmap_events _ _ e he

theorem tx_map_events (txq : alx_tx_queue) (skb : sk_buff) (dma_map : Nat → Option Nat) :
    ∀ e ∈ (alx_tx_map txq skb dma_map).2.2, e.is_release = true := by
  unfold alx_tx_map
  dsimp only
  cases dma_map 0 with
  | none => exact unwind_events _ _ _ _ _ (by simp)
  | some dma =>
    dsimp only
    split_ifs
    · simp
    · exact unwind_events _ _ _ _ _ (by simp)

theorem conti_cases (txq : alx_tx_queue) (stopped : Bool) (skb : sk_buff)
    (dma_map : Nat → Option Nat) (ev0 : List Event) (hwf : tx_wf txq)
    (h0 : Event.wmb ∉ ev0) :
    (alx_start_xmit_ring_conti txq stopped skb dma_map ev0).ret = netdev_tx_t.NETDEV_TX_OK ∧
      (alx_start_xmit_ring_conti txq stopped skb dma_map ev0).stopped = stopped ∧
      tx_same_shape txq (alx_start_xmit_ring_conti txq stopped skb dma_map ev0).txq ∧
      (alx_start_xmit_ring_conti txq stopped skb dma_map ev0).txq.cidx = txq.cidx ∧
      ((¬ xmit_accepted (alx_start_xmit_ring_conti txq stopped skb dma_map ev0) ∧
          (alx_start_xmit_ring_conti txq stopped skb dma_map ev0).txq.pidx = txq.pidx) ∨
        (xmit_accepted (alx_start_xmit_ring_conti txq stopped skb dma_map ev0) ∧
          (alx_start_xmit_ring_conti txq stopped skb dma_map ev0).txq.pidx =
            (txq.pidx + xmit_slots skb) % txq.count ∧
          ∀ k, k ≤ skb.frags.length → (dma_map k).isSome = true)) := by
  obtain ⟨hc1, hc16, hp, hci, hbl, htl⟩ := hwf
  unfold alx_start_xmit_ring_conti
  dsimp only
  split_ifs with hoff hm
  · refine ⟨rfl, rfl, by simp [alx_xmit_drop, tx_same_shape], rfl, Or.inl ⟨?_, rfl⟩⟩
    simp [xmit_accepted, alx_xmit_drop, h0]
  · have hi := tx_map_index { txq with tpd_hdr := txq.tpd_hdr.set txq.pidx (alx_xmit_offload skb).2 }
      skb dma_map
    have he := tx_map_events { txq with tpd_hdr := txq.tpd_hdr.set txq.pidx (alx_xmit_offload skb).2 }
      skb dma_map
    obtain ⟨hs, hcx, hcase⟩ := hi
    refine ⟨rfl, rfl, ?_, ?_, Or.inl ⟨?_, ?_⟩⟩
    · have : tx_same_shape txq { txq with tpd_hdr := txq.tpd_hdr.set txq.pidx (alx_xmit_offload skb).2 } := by
        simp [tx_same_shape]
      have h2 := tx_same_shape_trans this hs
      unfold tx_same_shape at h2 ⊢
      simpa [alx_xmit_drop] using h2
    · simpa [alx_xmit_drop] using hcx
    · simp only [xmit_accepted, alx_xmit_drop, List.mem_append, List.mem_singleton, not_or]
      refine ⟨⟨h0, ?_⟩, by simp⟩
      intro hw
      have := he _ hw
      simp [Event.is_release] at this
    · rcases hcase with ⟨h1, _⟩ | ⟨_, h2, _⟩
      · omega
      · simpa [alx_xmit_drop] using h2
  · have hi := tx_map_index { txq with tpd_hdr := txq.tpd_hdr.set txq.pidx (alx_xmit_offload skb).2 }
      skb dma_map
    obtain ⟨hs, hcx, hcase⟩ := hi
    have : tx_same_shape txq { txq with tpd_hdr := txq.tpd_hdr.set txq.pidx (alx_xmit_offload skb).2 } := by
      simp [tx_same_shape]
    refine ⟨rfl, rfl, tx_same_shape_trans this hs, hcx, Or.inr ⟨?_, ?_⟩⟩
    · simp [xmit_accepted]
    · rcases hcase with ⟨_, _, h3, h4⟩ | ⟨h1, _⟩
      · refine ⟨?_, h4⟩
        rw [h3]
        dsimp only
        rw [u16_of_lt (by omega), ring_inc_iterate hc16 _ _ hp]
        congr 2
        unfold tx_lso tx_desc xmit_slots
        dsimp only
        rw [u16_of_lt (by omega), getD_set_self _ _ _ _ (by omega), offload_lso]
      · omega

theorem xmit_cases (txq : alx_tx_queue) (stopped : Bool) (skb : sk_buff)
    (dma_map : Nat → Option Nat) (hwf : tx_wf txq) :
    tx_same_shape txq (alx_start_xmit_ring txq stopped skb dma_map).txq ∧
      (alx_start_xmit_ring txq stopped skb dma_map).txq.cidx = txq.cidx ∧
      ((alx_tpd_avail txq < alx_tpd_req skb ∧
          (alx_start_xmit_ring txq stopped skb dma_map).ret = netdev_tx_t.NETDEV_TX_BUSY ∧
          (alx_start_xmit_ring txq stopped skb dma_map).txq = txq ∧
          (alx_start_xmit_ring txq stopped skb dma_map).stopped = true ∧
          ¬ xmit_accepted (alx_start_xmit_ring txq stopped skb dma_map)) ∨
        (alx_tpd_req skb ≤ alx_tpd_avail txq ∧
          (alx_start_xmit_ring txq stopped skb dma_map).ret = netdev_tx_t.NETDEV_TX_OK ∧
          (alx_start_xmit_ring txq stopped skb dma_map).stopped = stopped ∧
          ((¬ xmit_accepted (alx_start_xmit_ring txq stopped skb dma_map) ∧
              (alx_start_xmit_ring txq stopped skb dma_map).txq.pidx = txq.pidx) ∨
            (xmit_accepted (alx_start_xmit_ring txq stopped skb dma_map) ∧
              (alx_start_xmit_ring txq stopped skb dma_map).txq.pidx =
                (txq.pidx + xmit_slots skb) % txq.count ∧
              ∀ k, k ≤ skb.frags.length → (dma_map k).isSome = true)))) := by
  unfold alx_start_xmit_ring
  dsimp only
  by_cases hb : alx_tpd_avail txq < alx_tpd_req skb
  · rw [if_pos hb]
    have hge : ¬ (alx_tpd_avail txq ≥ alx_tpd_req skb) := by omega
    rw [if_neg hge]
    cases stopped with
    | false =>
      rw [if_pos rfl]
      exact ⟨tx_same_shape_refl _, rfl, Or.inl ⟨hb, rfl, rfl, rfl, by simp [xmit_accepted]⟩⟩
    | true =>
      rw [if_neg (by simp)]
      exact ⟨tx_same_shape_refl _, rfl, Or.inl ⟨hb, rfl, rfl, rfl, by simp [xmit_accepted]⟩⟩
  · rw [if_neg hb]
    obtain ⟨h1, h2, h3, h4, h5⟩ := conti_cases txq stopped skb dma_map [] hwf (by simp)
    exact ⟨h3, h4, Or.inr ⟨by omega, h1, h2, h5⟩⟩

theorem avail_advance (txq txq2 : alx_tx_queue) (m : Nat) (hwf : tx_wf txq)
    (hm : (m : Int) ≤ alx_tpd_avail txq) (hc : txq2.count = txq.count)
    (hci : txq2.cidx = txq.cidx) (hp : txq2.pidx = (txq.pidx + m) % txq.count) :
    txq2.pidx < txq2.count ∧ alx_tpd_avail txq2 = alx_tpd_avail txq - m ∧
      tx_in_flight txq2 = tx_in_flight txq + m ∧
      (1 ≤ m → txq2.pidx ≠ txq2.cidx) := by
  obtain ⟨hc1, hc16, hpl, hcl, _, _⟩ := hwf
  have hu : u16 txq.cidx = txq.cidx := u16_of_lt (by omega)
  unfold alx_tpd_avail at hm ⊢
  unfold tx_in_flight
  simp only [hu, hci, hc] at hm ⊢
  have hlt : txq.pidx + m < 2 * txq.count := by
    split_ifs at hm <;> omega
  rw [hp, mod_wrap hlt]
  have e1 : ∀ (x : Int), 0 ≤ x → x < txq.count → x % (txq.count : Int) = x :=
    fun x h1 h2 => Int.emod_eq_of_lt h1 h2
  have e2 : ∀ (x : Int), -(txq.count : Int) ≤ x → x < 0 →
      x % (txq.count : Int) = x + txq.count := by
    intro x h1 h2
    rw [show x = (x + txq.count) + (-1) * txq.count by ring, Int.add_mul_emod_self]
    rw [Int.emod_eq_of_lt (by omega) (by omega)]
    ring
  by_cases hw : txq.pidx + m < txq.count
  · simp only [hw, if_true]
    by_cases hq : txq.pidx ≥ txq.cidx
    · have hq2 : txq.pidx + m ≥ txq.cidx := by omega
      simp only [hq, hq2, if_true] at hm ⊢
      refine ⟨trivial, by push_cast; omega, ?_, by omega⟩
      rw [e1 _ (by push_cast; omega) (by push_cast; omega), e1 _ (by omega) (by omega)]
      push_cast; omega
    · simp only [hq, if_false] at hm
      have hq2 : ¬ (txq.pidx + m ≥ txq.cidx) := by omega
      simp only [hq2, if_false]
      refine ⟨trivial, by push_cast; omega, ?_, by omega⟩
      rw [e2 _ (by push_cast; omega) (by push_cast; omega), e2 _ (by omega) (by omega)]
      push_cast; omega
  · simp only [hw, if_false]
    have hq : txq.pidx ≥ txq.cidx := by
      by_contra hq
      simp only [hq, if_false] at hm
      omega
    simp only [hq, if_true] at hm
    have hq2 : ¬ (txq.pidx + m - txq.count ≥ txq.cidx) := by omega
    simp only [hq2, if_false]
    refine ⟨by omega, by omega, ?_, by omega⟩
    rw [e2 _ (by omega) (by omega), e1 _ (by omega) (by omega)]
    omega

/-! ### Positions on the ring -/

theorem ring_pos_lt {count p k : Nat} (hc : 1 ≤ count) : ring_pos count p k < count :=
  Nat.mod_lt _ (by omega)

theorem ring_pos_zero {count p : Nat} (hp : p < count) : ring_pos count p 0 = p := by
  simp [ring_pos, Nat.mod_eq_of_lt hp]

theorem ring_pos_inj {count p i j : Nat} (hp : p < count) (hi : i < count) (hj : j < count)
    (h : ring_pos count p i = ring_pos count p j) : i = j := by
  unfold ring_pos at h
  rw [mod_wrap (by omega), mod_wrap (by omega)] at h
  split_ifs at h <;> omega

theorem ring_inc_pos {count p k : Nat} (h16 : count < 65536) (hc : 1 ≤ count) :
    ring_inc count (ring_pos count p k) = ring_pos count p (k + 1) := by
  rw [ring_inc_mod h16 (ring_pos_lt hc)]
  unfold ring_pos
  rw [Nat.mod_add_mod]
  rfl

theorem ring_pos_succ {count p k : Nat} (h16 : count < 65536) (hp : p < count) :
    ring_pos count p (k + 1) = ring_pos count (ring_inc count p) k := by
  unfold ring_pos
  rw [ring_inc_mod h16 hp, Nat.mod_add_mod]
  congr 1
  omega

/-! ### The unwinding loop of `alx_tx_map` -/

theorem unwind_spec (count : Nat) (h16 : count < 65536) :
    ∀ (d fuel f : Nat) (txq : alx_tx_queue) (ev : List Event),
      txq.count = count → txq.bf_info.length = count → f < count → d < count → d ≤ fuel →
      (∀ i, i < d → slot_empty
          (tx_slot (alx_tx_map_unwind (ring_pos count f d) fuel f txq ev).1 (ring_pos count f i))) ∧
      (∀ x, (∀ i, i < d → x ≠ ring_pos count f i) →
          tx_slot (alx_tx_map_unwind (ring_pos count f d) fuel f txq ev).1 x = tx_slot txq x) ∧
      (∀ e ∈ (alx_tx_map_unwind (ring_pos count f d) fuel f txq ev).2,
          e ∈ ev ∨ (e.is_release = true ∧
            ∀ s, e = Event.kfree_skb s → ∃ x, (tx_slot txq x).skb = some s)) := by
  intro d
  induction d with
  | zero =>
    intro fuel f txq ev _ _ hf _ _
    rw [ring_pos_zero hf]
    cases fuel with
    | zero =>
      simp only [alx_tx_map_unwind]
      exact ⟨by simp, by simp, fun e he => Or.inl he⟩
    | succ n =>
      simp only [alx_tx_map_unwind, if_true]
      exact ⟨by simp, by simp, fun e he => Or.inl he⟩
  | succ d ih =>
    intro fuel f txq ev hcnt hlen hf hd hfuel
    cases fuel with
    | zero => omega
    | succ n =>
      unfold alx_tx_map_unwind
      have hne : f ≠ ring_pos count f (d + 1) := by
        intro h
        have h0 : ring_pos count f 0 = ring_pos count f (d + 1) := by
          rw [ring_pos_zero hf]; exact h
        have := ring_pos_inj hf (by omega) hd h0
        omega
      rw [if_neg hne]
      dsimp only
      have hu := unmap_shape txq f
      have hcnt1 : (alx_txbuf_unmap_and_free txq f).1.count = count := by rw [hu.1.1, hcnt]
      have hlen1 : (alx_txbuf_unmap_and_free txq f).1.bf_info.length = count := by
        rw [hu.1.2.2.2.2.1, hlen]
      have hf1 : ring_inc count f < count := ring_inc_lt h16 hf
      have hi := ih n (ring_inc count f) (alx_txbuf_unmap_and_free txq f).1
        (ev ++ (alx_txbuf_unmap_and_free txq f).2) hcnt1 hlen1 hf1 (by omega) (by omega)
      rw [← ring_pos_succ h16 hf] at hi
      rw [hcnt]
      obtain ⟨hi1, hi2, hi3⟩ := hi
      refine ⟨?_, ?_, ?_⟩
      · intro i hid
        cases i with
        | zero =>
          rw [ring_pos_zero hf]
          rw [hi2 f]
          · exact unmap_slot_self txq f (by omega)
          · intro j hj h
            rw [← ring_pos_succ h16 hf] at h
            have h0 : ring_pos count f 0 = ring_pos count f (j + 1) := by
              rw [ring_pos_zero hf]; exact h
            have := ring_pos_inj hf (by omega) (by omega) h0
            omega
        | succ j =>
          have := hi1 j (by omega)
          rw [← ring_pos_succ h16 hf] at this
          exact this
      · intro x hx
        rw [hi2 x]
        · apply unmap_slot_other
          have := hx 0 (by omega)
          rw [ring_pos_zero hf] at this
          exact fun h => this h.symm
        · intro j hj
          rw [← ring_pos_succ h16 hf]
          exact hx (j + 1) (by omega)
      · intro e he
        rcases hi3 e he with h | ⟨h1, h2⟩
        · rw [List.mem_append] at h
          rcases h with h | h
          · exact Or.inl h
          · right
            refine ⟨unmap_events _ _ e h, ?_⟩
            intro s hs
            subst hs
            refine ⟨f, ?_⟩
            unfold alx_txbuf_unmap_and_free at h
            dsimp only at h
            rw [List.mem_append] at h
            rcases h with h | h
            · split_ifs at h <;> simp at h
            · unfold tx_slot
              split at h
              · rename_i s2 heq
                simp at h
                subst h
                split_ifs at heq <;> simpa using heq
              · simp at h
        · right
          refine ⟨h1, ?_⟩
          intro s hs
          obtain ⟨x, hx⟩ := h2 s hs
          by_cases hxf : f = x
          · subst hxf
            have := unmap_slot_self txq f (by omega)
            rw [this.2] at hx
            simp at hx
          · rw [unmap_slot_other txq f x hxf] at hx
            exact ⟨x, hx⟩

/-! ### Slot records written by `alx_tx_map` -/

theorem copy_slot (txq : alx_tx_queue) (first producer x : Nat) :
    tx_slot (alx_tx_map_copy txq first producer) x = tx_slot txq x := by
  simp [tx_slot, alx_tx_map_copy]

theorem store_slot_other (txq : alx_tx_queue) (p maplen dma x : Nat) (h : p ≠ x) :
    tx_slot (alx_tx_map_store txq p maplen dma) x = tx_slot txq x := by
  unfold tx_slot alx_tx_map_store
  exact getD_set_other _ _ _ _ _ h

theorem store_slot_self (txq : alx_tx_queue) (p maplen dma : Nat) (h : p < txq.bf_info.length) :
    tx_slot (alx_tx_map_store txq p maplen dma) p =
      { tx_slot txq p with size := maplen, dma := dma } := by
  unfold tx_slot alx_tx_map_store
  exact getD_set_self _ _ _ _ h

theorem store_slot_keeps (txq : alx_tx_queue) (p maplen dma x : Nat) :
    (tx_slot (alx_tx_map_store txq p maplen dma) x).skb = (tx_slot txq x).skb ∧
      (tx_slot (alx_tx_map_store txq p maplen dma) x).firstfrag = (tx_slot txq x).firstfrag := by
  by_cases h : p = x
  · subst h
    by_cases hl : p < txq.bf_info.length
    · rw [store_slot_self txq p maplen dma hl]
      exact ⟨rfl, rfl⟩
    · unfold tx_slot alx_tx_map_store
      dsimp only
      rw [List.set_eq_of_length_le (by omega)]
      exact ⟨rfl, rfl⟩
  · rw [store_slot_other txq p maplen dma x h]
    exact ⟨rfl, rfl⟩

theorem frags_spec (dma_map : Nat → Option Nat) (first count : Nat) (h16 : count < 65536) :
    ∀ (frags : List Nat) (f : Nat) (txq : alx_tx_queue) (b : Nat),
      txq.count = count → txq.bf_info.length = count → b < count → frags.length < count →
      (∀ x, (tx_slot (alx_tx_map_frags dma_map first frags f txq b).2.1 x).skb = (tx_slot txq x).skb ∧
        (tx_slot (alx_tx_map_frags dma_map first frags f txq b).2.1 x).firstfrag =
          (tx_slot txq x).firstfrag) ∧
      ((alx_tx_map_frags dma_map first frags f txq b).1 = true →
        (alx_tx_map_frags dma_map first frags f txq b).2.2 = ring_pos count b frags.length ∧
        (∀ x, (∀ i, i < frags.length → x ≠ ring_pos count b (i + 1)) →
          tx_slot (alx_tx_map_frags dma_map first frags f txq b).2.1 x = tx_slot txq x) ∧
        (∀ i, i < frags.length →
          (tx_slot (alx_tx_map_frags dma_map first frags f txq b).2.1 (ring_pos count b (i + 1))).size
            = u16 (frags.getD i 0))) ∧
      ((alx_tx_map_frags dma_map first frags f txq b).1 = false →
        ∃ k, k < frags.length ∧
          (alx_tx_map_frags dma_map first frags f txq b).2.2 = ring_pos count b (k + 1) ∧
          dma_map (f + 1 + k) = none ∧
          (∀ i, i < k → (dma_map (f + 1 + i)).isSome = true) ∧
          (∀ x, (∀ i, i < k → x ≠ ring_pos count b (i + 1)) →
            tx_slot (alx_tx_map_frags dma_map first frags f txq b).2.1 x = tx_slot txq x)) := by
  intro frags
  induction frags with
  | nil =>
    intro f txq b _ _ hb _
    simp [alx_tx_map_frags, ring_pos_zero hb]
  | cons a rest ih =>
    intro f txq b hcnt hlen hb hl
    have hl2 : rest.length + 1 < count := by simpa using hl
    unfold alx_tx_map_frags
    dsimp only
    rw [hcnt]
    have hb1 : ring_inc count b < count := ring_inc_lt h16 hb
    have hp1 : ring_inc count b = ring_pos count b 1 := by
      rw [ring_pos_succ h16 hb, ring_pos_zero hb1]
    cases hd : dma_map (f + 1) with
    | none =>
      dsimp only
      refine ⟨fun x => by rw [copy_slot]; exact ⟨rfl, rfl⟩, by simp, fun _ => ?_⟩
      refine ⟨0, by simp, by rw [hp1], by simpa using hd, by simp, fun x _ => copy_slot _ _ _ _⟩
    | some dma =>
      dsimp only
      have hcs := copy_shape txq first (ring_inc count b)
      have hss := store_shape (alx_tx_map_copy txq first (ring_inc count b)) (ring_inc count b) (u16 a) dma
      have hcnt2 : (alx_tx_map_store (alx_tx_map_copy txq first (ring_inc count b))
          (ring_inc count b) (u16 a) dma).count = count := by
        rw [hss.1.1, hcs.1.1, hcnt]
      have hlen2 : (alx_tx_map_store (alx_tx_map_copy txq first (ring_inc count b))
          (ring_inc count b) (u16 a) dma).bf_info.length = count := by
        rw [hss.1.2.2.2.2.1, hcs.1.2.2.2.2.1, hlen]
      obtain ⟨ih1, ih2, ih3⟩ := ih (f + 1) _ (ring_inc count b) hcnt2 hlen2 hb1 (by omega)
      have hother : ∀ x, ring_inc count b ≠ x →
          tx_slot (alx_tx_map_store (alx_tx_map_copy txq first (ring_inc count b))
            (ring_inc count b) (u16 a) dma) x = tx_slot txq x := by
        intro x hx
        rw [store_slot_other _ _ _ _ _ hx, copy_slot]
      refine ⟨?_, ?_, ?_⟩
      · intro x
        have h1 := ih1 x
        have h2 := store_slot_keeps (alx_tx_map_copy txq first (ring_inc count b))
          (ring_inc count b) (u16 a) dma x
        rw [copy_slot] at h2
        exact ⟨h1.1.trans h2.1, h1.2.trans h2.2⟩
      · intro hok
        obtain ⟨h1, h2, h3⟩ := ih2 hok
        refine ⟨?_, ?_, ?_⟩
        · rw [h1, ← ring_pos_succ h16 hb]; rfl
        · intro x hx
          rw [h2 x]
          · apply hother
            have := hx 0 (by simp)
            rw [← hp1] at this
            exact fun h => this h.symm
          · intro i hi
            rw [← ring_pos_succ h16 hb]
            exact hx (i + 1) (by simpa using hi)
        · intro i hi
          cases i with
          | zero =>
            rw [← hp1, h2 _ ?_, store_slot_self _ _ _ _ (by rw [hcs.1.2.2.2.2.1, hlen]; exact hb1)]
            · simp
            · intro j hj h
              rw [← ring_pos_succ h16 hb, hp1] at h
              have := ring_pos_inj hb (by omega) (by omega) h
              omega
          | succ j =>
            have := h3 j (by simpa using hi)
            rw [← ring_pos_succ h16 hb] at this
            simpa using this
      · intro hok
        obtain ⟨k, hk, h1, h2, h3, h4⟩ := ih3 hok
        refine ⟨k + 1, by simpa using hk, ?_, ?_, ?_, ?_⟩
        · rw [h1, ← ring_pos_succ h16 hb]
        · rw [show f + 1 + (k + 1) = f + 1 + 1 + k by omega]; exact h2
        · intro i hi
          cases i with
          | zero => simp [hd]
          | succ j =>
            have := h3 j (by omega)
            rw [show f + 1 + (j + 1) = f + 1 + 1 + j by omega]
            exact this
        · intro x hx
          rw [h4 x]
          · apply hother
            have := hx 0 (by omega)
            rw [← hp1] at this
            exact fun h => this h.symm
          · intro i hi
            rw [← ring_pos_succ h16 hb]
            exact hx (i + 1) (by omega)

/-! ### The reclaim loop of `alx_clean_tx_irq` -/

theorem ring_pos_add {count p a b : Nat} :
    ring_pos count (ring_pos count p a) b = ring_pos count p (a + b) := by
  unfold ring_pos
  rw [Nat.mod_add_mod, Nat.add_assoc]

theorem pkt_slots_frame (count : Nat) (h16 : count < 65536) (t1 t2 : alx_tx_queue)
    (h1 : t1.count = count) (h2 : t2.count = count) :
    ∀ (d sw : Nat), sw < count →
      (∀ i, i < d → tx_slot t1 (ring_pos count sw i) = tx_slot t2 (ring_pos count sw i)) →
      pkt_slots t1 sw d = pkt_slots t2 sw d := by
  intro d
  induction d with
  | zero => intro sw _ _; rfl
  | succ d ih =>
    intro sw hsw h
    unfold pkt_slots
    have h0 := h 0 (by omega)
    rw [ring_pos_zero hsw] at h0
    rw [h0, h1, h2, ih (ring_inc count sw) (ring_inc_lt h16 hsw)]
    intro i hi
    have := h (i + 1) (by omega)
    rw [ring_pos_succ h16 hsw] at this
    exact this

theorem clean_loop_spec (count : Nat) (h16 : count < 65536) :
    ∀ (d fuel sw : Nat) (budget : Int) (pk : Nat) (txq : alx_tx_queue) (ev : List Event),
      txq.count = count → txq.bf_info.length = count → sw < count → d < count → d ≤ fuel →
      ∃ j pk2 t2 ev2,
        alx_clean_tx_loop (ring_pos count sw d) fuel sw budget pk txq ev =
            some (ring_pos count sw j, pk2, t2, ev2) ∧
          j ≤ d ∧ tx_same_shape txq t2 ∧ t2.pidx = txq.pidx ∧ t2.cidx = txq.cidx ∧
          t2.tpd_hdr = txq.tpd_hdr ∧
          (∀ i, i < j → slot_empty (tx_slot t2 (ring_pos count sw i))) ∧
          (∀ x, (∀ i, i < j → x ≠ ring_pos count sw i) → tx_slot t2 x = tx_slot txq x) ∧
          ((d = 0 ∨ (pkt_slots txq sw (d - 1) : Int) < budget) → j = d) ∧
          (∀ e ∈ ev2, e ∈ ev ∨ e.is_release = true) := by
  intro d
  induction d with
  | zero =>
    intro fuel sw budget pk txq ev _ _ hsw _ _
    refine ⟨0, pk, txq, ev, ?_, le_refl _, tx_same_shape_refl _, rfl, rfl, rfl, by simp,
      fun x _ => rfl, fun _ => rfl, fun e he => Or.inl he⟩
    rw [ring_pos_zero hsw]
    cases fuel <;> simp [alx_clean_tx_loop]
  | succ d ih =>
    intro fuel sw budget pk txq ev hcnt hlen hsw hd hfuel
    have hne : sw ≠ ring_pos count sw (d + 1) := by
      intro h
      have h0 : ring_pos count sw 0 = ring_pos count sw (d + 1) := by
        rw [ring_pos_zero hsw]; exact h
      have := ring_pos_inj hsw (by omega) hd h0
      omega
    cases fuel with
    | zero => omega
    | succ n =>
      by_cases hb : budget > 0
      · unfold alx_clean_tx_loop
        rw [if_pos ⟨hne, hb⟩]
        dsimp only
        have hu := unmap_shape txq sw
        have hcnt1 : (alx_txbuf_unmap_and_free txq sw).1.count = count := by rw [hu.1.1, hcnt]
        have hlen1 : (alx_txbuf_unmap_and_free txq sw).1.bf_info.length = count := by
          rw [hu.1.2.2.2.2.1, hlen]
        have hsw1 : ring_inc count sw < count := ring_inc_lt h16 hsw
        obtain ⟨j, pk2, t2, ev2, hres, hj, hsh, hpi, hci, htp, hempty, hframe, hfull, hev⟩ :=
          ih n (ring_inc count sw)
            (if (txq.bf_info.getD sw alx_buffer.zero).skb.isSome = true then budget - 1 else budget)
            (if (txq.bf_info.getD sw alx_buffer.zero).skb.isSome = true then pk + 1 else pk)
            (alx_txbuf_unmap_and_free txq sw).1 (ev ++ (alx_txbuf_unmap_and_free txq sw).2)
            hcnt1 hlen1 hsw1 (by omega) (by omega)
        rw [← ring_pos_succ h16 hsw] at hres
        rw [hcnt]
        refine ⟨j + 1, pk2, t2, ev2, ?_, by omega, tx_same_shape_trans hu.1 hsh,
          by rw [hpi, hu.2.1], by rw [hci, hu.2.2.1], by rw [htp, hu.2.2.2], ?_, ?_, ?_, ?_⟩
        · rw [hres, ← ring_pos_succ h16 hsw]
        · intro i hi
          cases i with
          | zero =>
            rw [ring_pos_zero hsw, hframe sw]
            · exact unmap_slot_self txq sw (by omega)
            · intro i2 hi2 h
              rw [← ring_pos_succ h16 hsw] at h
              have h0 : ring_pos count sw 0 = ring_pos count sw (i2 + 1) := by
                rw [ring_pos_zero hsw]; exact h
              have := ring_pos_inj hsw (by omega) (by omega) h0
              omega
          | succ i2 =>
            have := hempty i2 (by omega)
            rw [← ring_pos_succ h16 hsw] at this
            exact this
        · intro x hx
          rw [hframe x]
          · apply unmap_slot_other
            have := hx 0 (by omega)
            rw [ring_pos_zero hsw] at this
            exact fun h => this h.symm
          · intro i hi
            rw [← ring_pos_succ h16 hsw]
            exact hx (i + 1) (by omega)
        · intro hcond
          have hcond2 : (pkt_slots txq sw d : Int) < budget := by
            rcases hcond with h | h
            · omega
            · simpa using h
          have : j = d := by
            apply hfull
            cases d with
            | zero => exact Or.inl rfl
            | succ e =>
              right
              have hfr : pkt_slots (alx_txbuf_unmap_and_free txq sw).1 (ring_inc count sw) e =
                  pkt_slots txq (ring_inc count sw) e := by
                apply pkt_slots_frame count h16 _ _ hcnt1 hcnt _ _ hsw1
                intro i hi
                apply unmap_slot_other
                intro h
                rw [← ring_pos_succ h16 hsw] at h
                have h0 : ring_pos count sw 0 = ring_pos count sw (i + 1) := by
                  rw [ring_pos_zero hsw]; exact h
                have := ring_pos_inj hsw (by omega) (by omega) h0
                omega
              simp only [Nat.add_sub_cancel]
              rw [hfr]
              unfold pkt_slots at hcond2
              rw [hcnt] at hcond2
              unfold tx_slot at hcond2
              split_ifs at hcond2 ⊢ <;> push_cast at hcond2 <;> omega
          omega
        · intro e he
          rcases hev e he with h | h
          · rw [List.mem_append] at h
            rcases h with h | h
            · exact Or.inl h
            · exact Or.inr (unmap_events _ _ e h)
          · exact Or.inr h
      · refine ⟨0, pk, txq, ev, ?_, by omega, tx_same_shape_refl _, rfl, rfl, rfl, by simp,
          fun x _ => rfl, ?_, fun e he => Or.inl he⟩
        · rw [ring_pos_zero hsw]
          unfold alx_clean_tx_loop
          rw [if_neg (by intro h; exact hb h.2)]
        · intro hcond
          rcases hcond with h | h
          · omega
          · have : (0 : Int) ≤ pkt_slots txq sw (d + 1 - 1) := by positivity
            omega

theorem ring_dist_lt {count a b : Nat} (hc : 1 ≤ count) : ring_dist count a b < count :=
  Nat.mod_lt _ (by omega)

theorem ring_pos_dist {count a b : Nat} (ha : a < count) (hb : b < count) :
    ring_pos count a (ring_dist count a b) = b := by
  unfold ring_pos ring_dist
  rw [mod_wrap (x := b + count - a) (by omega)]
  split_ifs with h
  · rw [mod_wrap (by omega)]
    split_ifs <;> omega
  · rw [mod_wrap (by omega)]
    split_ifs <;> omega

theorem ring_dist_self {count a : Nat} (ha : a < count) : ring_dist count a a = 0 := by
  unfold ring_dist
  rw [show a + count - a = count by omega]
  exact Nat.mod_self _

theorem ring_dist_pos {count a k : Nat} (ha : a < count) (hk : k < count) :
    ring_dist count a (ring_pos count a k) = k := by
  unfold ring_pos ring_dist
  rw [mod_wrap (x := a + k) (by omega)]
  split_ifs with h
  · rw [mod_wrap (by omega)]
    split_ifs <;> omega
  · rw [mod_wrap (by omega)]
    split_ifs <;> omega

theorem clean_irq_spec (P : alx_params) (fuel : Nat) (carrier_ok : Bool) (hw : Nat)
    (txq : alx_tx_queue) (stopped : Bool) (hwf : tx_wf txq) (hhw : hw < txq.count)
    (hfuel : txq.count ≤ fuel) :
    ∃ r j, alx_clean_tx_irq P fuel false carrier_ok hw txq stopped = some r ∧
      j ≤ ring_dist txq.count txq.cidx hw ∧
      r.txq.cidx = ring_pos txq.count txq.cidx j ∧
      tx_same_shape txq r.txq ∧ r.txq.pidx = txq.pidx ∧ r.txq.tpd_hdr = txq.tpd_hdr ∧
      (∀ i, i < j → slot_empty (tx_slot r.txq (ring_pos txq.count txq.cidx i))) ∧
      (∀ x, (∀ i, i < j → x ≠ ring_pos txq.count txq.cidx i) → tx_slot r.txq x = tx_slot txq x) ∧
      ((ring_dist txq.count txq.cidx hw = 0 ∨
          (pkt_slots txq txq.cidx (ring_dist txq.count txq.cidx hw - 1) : Int)
            < P.ALX_DEFAULT_TX_WORK) → j = ring_dist txq.count txq.cidx hw) ∧
      (r.ret = true ↔ r.txq.cidx = hw) ∧
      (r.stopped = true → stopped = true) ∧
      (∀ e ∈ r.ev, e.is_release = true ∨ (∃ n, e = Event.netdev_tx_completed_queue n) ∨
        e = Event.netif_tx_wake_queue) := by
  obtain ⟨hc1, hc16, hp, hci, hbl, htl⟩ := hwf
  have hus : u16 txq.cidx = txq.cidx := u16_of_lt (by omega)
  have huh : u16 hw = hw := u16_of_lt (by omega)
  have hpd := ring_pos_dist hci hhw
  unfold alx_clean_tx_irq
  rw [if_neg (by simp)]
  dsimp only
  rw [hus, huh]
  by_cases heq : txq.cidx = hw
  · rw [if_neg (by simpa using heq)]
    dsimp only
    have hd0 : ring_dist txq.count txq.cidx hw = 0 := by rw [← heq]; exact ring_dist_self hci
    have hr0 : ring_pos txq.count txq.cidx 0 = txq.cidx := ring_pos_zero hci
    split_ifs
    · refine ⟨_, 0, rfl, by omega, hr0.symm, tx_same_shape_refl _, rfl, rfl, by simp,
        fun x _ => rfl, fun _ => hd0.symm, by simp [heq], by simp, by simp⟩
    · refine ⟨_, 0, rfl, by omega, hr0.symm, tx_same_shape_refl _, rfl, rfl, by simp,
        fun x _ => rfl, fun _ => hd0.symm, by simp [heq], by simp, by simp⟩
  · rw [if_pos (by simpa using heq)]
    obtain ⟨j, pk2, t2, ev2, hres, hj, hsh, hpi, hcx, htp, hempty, hframe, hfull, hev⟩ :=
      clean_loop_spec txq.count hc16 (ring_dist txq.count txq.cidx hw) fuel txq.cidx
        P.ALX_DEFAULT_TX_WORK 0 txq [] rfl hbl hci (ring_dist_lt hc1)
        (le_trans (le_of_lt (ring_dist_lt hc1)) hfuel)
    rw [hpd] at hres
    rw [hres]
    dsimp only
    have hret : ring_pos txq.count txq.cidx j = hw ↔ j = ring_dist txq.count txq.cidx hw := by
      constructor
      · intro h
        rw [← hpd] at h
        exact ring_pos_inj hci (lt_of_le_of_lt hj (ring_dist_lt hc1)) (ring_dist_lt hc1) h
      · intro h; rw [h, hpd]
    have hsh2 : tx_same_shape txq { t2 with cidx := ring_pos txq.count txq.cidx j } := by
      unfold tx_same_shape at hsh ⊢
      exact hsh
    have hev2 : ∀ e ∈ ev2 ++ [Event.netdev_tx_completed_queue pk2],
        e.is_release = true ∨ (∃ n, e = Event.netdev_tx_completed_queue n) ∨
          e = Event.netif_tx_wake_queue := by
      intro e he
      rw [List.mem_append] at he
      rcases he with he | he
      · rcases hev e he with h | h
        · simp at h
        · exact Or.inl h
      · right; left; exact ⟨pk2, by simpa using he⟩
    split_ifs
    · refine ⟨_, j, rfl, hj, rfl, hsh2, hpi, htp, hempty, hframe, hfull, by simp, by simp, ?_⟩
      intro e he
      rw [List.mem_append] at he
      rcases he with he | he
      · exact hev2 e he
      · right; right; simpa using he
    · exact ⟨_, j, rfl, hj, rfl, hsh2, hpi, htp, hempty, hframe, hfull, by simp, by simp, hev2⟩

/-! ### Invariant of the TX ring along call sequences -/

theorem free_txring_loop_shape :
    ∀ (n i : Nat) (txq : alx_tx_queue) (ev : List Event),
      tx_same_shape txq (alx_free_txring_loop n i txq ev).1 := by
  intro n
  induction n with
  | zero => intro i txq ev; exact tx_same_shape_refl _
  | succ n ih =>
    intro i txq ev
    unfold alx_free_txring_loop
    exact tx_same_shape_trans (unmap_shape txq i).1 (ih _ _ _)

theorem free_txring_wf (q : alx_tx_queue) (hc : 1 ≤ q.count) (h16 : q.count < 65536) :
    tx_wf (alx_free_txring_buf q).1 ∧ (alx_free_txring_buf q).1.count = q.count ∧
      (alx_free_txring_buf q).1.pidx = 0 ∧ (alx_free_txring_buf q).1.cidx = 0 ∧
      ∀ x, tx_slot (alx_free_txring_buf q).1 x = alx_buffer.zero := by
  have h := free_txring_loop_shape q.count 0 q []
  unfold alx_free_txring_buf
  dsimp only
  refine ⟨⟨?_, ?_, ?_, ?_, ?_, ?_⟩, h.1, rfl, rfl, ?_⟩
  · dsimp only; rw [h.1]; exact hc
  · dsimp only; rw [h.1]; exact h16
  · dsimp only; rw [h.1]; omega
  · dsimp only; rw [h.1]; omega
  · dsimp only; rw [h.1]; simp
  · dsimp only; rw [h.1]; simp
  · intro x
    unfold tx_slot
    dsimp only
    rw [List.getD_eq_getElem?_getD, List.getElem?_replicate]
    split_ifs <;> rfl

theorem wf_of_shape {a b : alx_tx_queue} (hwf : tx_wf a) (hs : tx_same_shape a b)
    (hp : b.pidx < a.count) (hc : b.cidx < a.count) : tx_wf b := by
  obtain ⟨h1, h2, _, _, h5, h6⟩ := hwf
  obtain ⟨s1, _, _, _, s5, s6⟩ := hs
  exact ⟨by omega, by omega, by omega, by omega, by omega, by omega⟩

theorem xmit_wf (txq : alx_tx_queue) (stopped : Bool) (skb : sk_buff)
    (dma_map : Nat → Option Nat) (hwf : tx_wf txq) :
    tx_wf (alx_start_xmit_ring txq stopped skb dma_map).txq ∧
      (alx_start_xmit_ring txq stopped skb dma_map).txq.count = txq.count := by
  obtain ⟨hs, hc, hcase⟩ := xmit_cases txq stopped skb dma_map hwf
  have hw := hwf
  obtain ⟨h1, h2, h3, h4, _, _⟩ := hw
  refine ⟨wf_of_shape hwf hs ?_ (by rw [hc]; exact h4), hs.1⟩
  rcases hcase with ⟨_, _, he, _, _⟩ | ⟨hreq, _, _, ⟨_, hp⟩ | ⟨_, hp, _⟩⟩
  · rw [he]; exact h3
  · rw [hp]; exact h3
  · rw [hp]; exact Nat.mod_lt _ (by omega)

theorem clean_wf (P : alx_params) (fuel : Nat) (halt carrier_ok : Bool) (hw : Nat)
    (txq : alx_tx_queue) (stopped : Bool) (hwf : tx_wf txq) (hhw : hw < txq.count)
    (hfuel : txq.count ≤ fuel) :
    ∃ r, alx_clean_tx_irq P fuel halt carrier_ok hw txq stopped = some r ∧
      tx_wf r.txq ∧ r.txq.count = txq.count := by
  cases halt with
  | true =>
    refine ⟨⟨true, txq, stopped, []⟩, ?_, hwf, rfl⟩
    simp [alx_clean_tx_irq]
  | false =>
    obtain ⟨r, j, hr, _, hc, hs, hp, _⟩ :=
      clean_irq_spec P fuel carrier_ok hw txq stopped hwf hhw hfuel
    refine ⟨r, hr, wf_of_shape hwf hs (by rw [hp]; exact hwf.2.2.1) ?_, hs.1⟩
    rw [hc]
    exact ring_pos_lt hwf.1

theorem tx_run_wf (P : alx_params) :
    ∀ (ops : List tx_op) (w : tx_world), tx_wf w.txq → tx_ops_ok P w ops →
      ∃ w2, tx_run P w ops = some w2 ∧ tx_wf w2.txq ∧ w2.txq.count = w.txq.count := by
  intro ops
  induction ops with
  | nil => intro w hwf _; exact ⟨w, rfl, hwf, rfl⟩
  | cons op ops ih =>
    intro w hwf hok
    obtain ⟨hop, hrest⟩ := hok
    cases op with
    | xmit skb dma_map =>
      have hx := xmit_wf w.txq w.stopped skb dma_map hwf
      have hstep : tx_step P w (tx_op.xmit skb dma_map) =
          some ⟨(alx_start_xmit_ring w.txq w.stopped skb dma_map).txq,
            (alx_start_xmit_ring w.txq w.stopped skb dma_map).stopped,
            w.trace ++ (alx_start_xmit_ring w.txq w.stopped skb dma_map).ev⟩ := rfl
      rw [hstep] at hrest
      obtain ⟨w2, h1, h2, h3⟩ := ih _ hx.1 hrest
      refine ⟨w2, ?_, h2, by rw [h3]; exact hx.2⟩
      unfold tx_run
      rw [hstep]
      exact h1
    | clean fuel halt carrier_ok hw =>
      obtain ⟨hfuel, hhw, _⟩ := hop
      obtain ⟨r, hr, hrw, hrc⟩ := clean_wf P fuel halt carrier_ok hw w.txq w.stopped hwf hhw hfuel
      have hstep : tx_step P w (tx_op.clean fuel halt carrier_ok hw) =
          some ⟨r.txq, r.stopped, w.trace ++ r.ev⟩ := by
        simp only [tx_step, hr]
      rw [hstep] at hrest
      obtain ⟨w2, h1, h2, h3⟩ := ih _ hrw hrest
      refine ⟨w2, ?_, h2, by rw [h3]; exact hrc⟩
      unfold tx_run
      rw [hstep]
      exact h1

theorem avail_plus_in_flight (txq : alx_tx_queue) (hwf : tx_wf txq) :
    alx_tpd_avail txq + tx_in_flight txq = (txq.count : Int) - 1 := by
  obtain ⟨hc1, hc16, hp, hc, _, _⟩ := hwf
  have hu : u16 txq.cidx = txq.cidx := u16_of_lt (by omega)
  unfold alx_tpd_avail tx_in_flight
  simp only [hu]
  by_cases h : txq.pidx ≥ txq.cidx
  · rw [if_pos h, Int.emod_eq_of_lt (by omega) (by omega)]
    omega
  · rw [if_neg h]
    rw [show ((txq.pidx : Int) - txq.cidx) =
      ((txq.pidx : Int) - txq.cidx + txq.count) + (-1) * txq.count by ring]
    rw [Int.add_mul_emod_self, Int.emod_eq_of_lt (by omega) (by omega)]
    omega

/-- C1. From the state left by `alx_free_txring_buf` on a ring with
`count >= 2`, after every finite sequence of `alx_start_xmit_ring` submissions
and `alx_clean_tx_irq` passes whose hardware consumer index lies between
`cidx` and `pidx`, every call returns, `pidx` and `cidx` are in `[0, count)`
and `alx_tpd_avail + ((pidx - cidx) mod count) = count - 1`. -/
theorem tx_ring_index_invariant (P : alx_params) (q : alx_tx_queue) (stopped : Bool)
    (hc : 2 ≤ q.count) (h16 : q.count < 65536) (ops : List tx_op)
    (hok : tx_ops_ok P (tx_reset_world q stopped) ops) :
    ∃ w, tx_run P (tx_reset_world q stopped) ops = some w ∧
      w.txq.count = q.count ∧ w.txq.pidx < w.txq.count ∧ w.txq.cidx < w.txq.count ∧
      alx_tpd_avail w.txq + tx_in_flight w.txq = (w.txq.count : Int) - 1 := by
  have h0 := free_txring_wf q (by omega) h16
  obtain ⟨w, h1, h2, h3⟩ := tx_run_wf P ops (tx_reset_world q stopped) h0.1 hok
  exact ⟨w, h1, by rw [h3]; exact h0.2.1, h2.2.2.1, h2.2.2.2.1, avail_plus_in_flight w.txq h2⟩

/-- An accepted submission passed the availability test and moved the producer
by `xmit_slots` while the consumer stayed. -/
theorem xmit_accepted_advance (txq : alx_tx_queue) (stopped : Bool) (skb : sk_buff)
    (dma_map : Nat → Option Nat) (hwf : tx_wf txq)
    (hacc : xmit_accepted (alx_start_xmit_ring txq stopped skb dma_map)) :
    alx_tpd_req skb ≤ alx_tpd_avail txq ∧
      (alx_start_xmit_ring txq stopped skb dma_map).txq.pidx =
        (txq.pidx + xmit_slots skb) % txq.count ∧
      (alx_start_xmit_ring txq stopped skb dma_map).txq.cidx = txq.cidx ∧
      (alx_start_xmit_ring txq stopped skb dma_map).txq.count = txq.count := by
  obtain ⟨hs, hc, hcase⟩ := xmit_cases txq stopped skb dma_map hwf
  rcases hcase with ⟨_, _, _, _, hn⟩ | ⟨hreq, _, _, ⟨hn, _⟩ | ⟨_, hp, _⟩⟩
  · exact absurd hacc hn
  · exact absurd hacc hn
  · exact ⟨hreq, hp, hc, hs.1⟩

/-- C3. For every packet accepted by `alx_start_xmit_ring` on a well-formed
ring, the number of slots `alx_tx_map` consumes (`nr_frags + 1`, plus one when
`alx_tso` set `TPD_LSO_V2` in the first descriptor) is at most `alx_tpd_req`,
which is at most `alx_tpd_avail`; the producer moves by that many slots and
afterwards `pidx != cidx`, at least one slot staying unused. -/
theorem xmit_accepted_keeps_one_slot (txq : alx_tx_queue) (stopped : Bool) (skb : sk_buff)
    (dma_map : Nat → Option Nat) (hwf : tx_wf txq)
    (hacc : xmit_accepted (alx_start_xmit_ring txq stopped skb dma_map)) :
    (xmit_slots skb : Int) ≤ alx_tpd_req skb ∧
      alx_tpd_req skb ≤ alx_tpd_avail txq ∧
      (alx_start_xmit_ring txq stopped skb dma_map).txq.pidx =
        (txq.pidx + xmit_slots skb) % txq.count ∧
      (alx_start_xmit_ring txq stopped skb dma_map).txq.cidx = txq.cidx ∧
      tx_in_flight (alx_start_xmit_ring txq stopped skb dma_map).txq =
        tx_in_flight txq + xmit_slots skb ∧
      (alx_start_xmit_ring txq stopped skb dma_map).txq.pidx ≠
        (alx_start_xmit_ring txq stopped skb dma_map).txq.cidx ∧
      tx_in_flight (alx_start_xmit_ring txq stopped skb dma_map).txq ≤ (txq.count : Int) - 1 ∧
      0 ≤ alx_tpd_avail (alx_start_xmit_ring txq stopped skb dma_map).txq := by
  obtain ⟨hreq, hp, hc, hs⟩ := xmit_accepted_advance txq stopped skb dma_map hwf hacc
  have hle := xmit_slots_le_req skb
  have hadv := avail_advance txq (alx_start_xmit_ring txq stopped skb dma_map).txq
    (xmit_slots skb) hwf (by omega) hs hc hp
  have hsum := avail_plus_in_flight txq hwf
  have h1 : 1 ≤ xmit_slots skb := by unfold xmit_slots; omega
  have h0 : 0 ≤ tx_in_flight txq := by
    unfold tx_in_flight
    exact Int.emod_nonneg _ (by have := hwf.1; omega)
  exact ⟨hle, hreq, hp, hc, hadv.2.2.1, hadv.2.2.2 h1, by omega, by omega⟩

/-- C4. When `alx_tpd_avail(txq) < alx_tpd_req(skb)`, `alx_start_xmit_ring`
returns `NETDEV_TX_BUSY` and leaves the whole ring (indices, descriptors, slot
records) unchanged; it makes no call but `netif_tx_stop_queue`, made when the
queue was not yet stopped, and the queue is stopped afterwards. -/
theorem xmit_busy_leaves_ring (txq : alx_tx_queue) (stopped : Bool) (skb : sk_buff)
    (dma_map : Nat → Option Nat) (h : alx_tpd_avail txq < alx_tpd_req skb) :
    (alx_start_xmit_ring txq stopped skb dma_map).ret = netdev_tx_t.NETDEV_TX_BUSY ∧
      (alx_start_xmit_ring txq stopped skb dma_map).txq = txq ∧
      (alx_start_xmit_ring txq stopped skb dma_map).stopped = true ∧
      (alx_start_xmit_ring txq stopped skb dma_map).ev =
        (if stopped = true then [] else [Event.netif_tx_stop_queue]) := by
  unfold alx_start_xmit_ring
  dsimp only
  rw [if_pos h]
  have hge : ¬ (alx_tpd_avail txq ≥ alx_tpd_req skb) := by omega
  rw [if_neg hge]
  cases stopped <;> simp

/-! ### Mapping failure inside `alx_tx_map` -/

theorem first_failure_unique (dma_map : Nat → Option Nat) (k1 k2 : Nat)
    (h1 : dma_map k1 = none) (p1 : ∀ i, i < k1 → (dma_map i).isSome = true)
    (h2 : dma_map k2 = none) (p2 : ∀ i, i < k2 → (dma_map i).isSome = true) : k1 = k2 := by
  rcases Nat.lt_trichotomy k1 k2 with h | h | h
  · have := p2 k1 h; rw [h1] at this; simp at this
  · exact h
  · have := p1 k2 h; rw [h2] at this; simp at this

theorem lso_slot (txq : alx_tx_queue) (x : Nat) :
    tx_slot (alx_tx_map_lso txq).1 x = tx_slot txq x := by
  unfold tx_slot
  rw [(lso_shape txq).2.2.2.1]

theorem tx_lso_le_one (txq : alx_tx_queue) : tx_lso txq ≤ 1 := by
  unfold tx_lso; split_ifs <;> omega

theorem tx_map_fail_spec (txq : alx_tx_queue) (skb : sk_buff) (dma_map : Nat → Option Nat)
    (hwf : tx_wf txq) (hfit : skb.frags.length + 1 + tx_lso txq < txq.count)
    (hfail : (alx_tx_map txq skb dma_map).1 = -1) :
    ∃ k, k ≤ skb.frags.length ∧ dma_map k = none ∧ (∀ i, i < k → (dma_map i).isSome = true) ∧
      (∀ i, i < tx_lso txq + k →
        slot_empty (tx_slot (alx_tx_map txq skb dma_map).2.1 (ring_pos txq.count txq.pidx i))) ∧
      (∀ x, (∀ i, i < tx_lso txq + k → x ≠ ring_pos txq.count txq.pidx i) →
        tx_slot (alx_tx_map txq skb dma_map).2.1 x = tx_slot txq x) ∧
      (∀ e ∈ (alx_tx_map txq skb dma_map).2.2, e.is_release = true ∧
        ∀ s, e = Event.kfree_skb s → ∃ x, (tx_slot txq x).skb = some s) := by
  obtain ⟨hc1, hc16, hp, hci, hbl, htl⟩ := hwf
  have hl := lso_shape txq
  have hL := tx_lso_le_one txq
  have hup : u16 txq.pidx = txq.pidx := u16_of_lt (by omega)
  have hlso : ∀ x, tx_slot (alx_tx_map_lso txq).1 x = tx_slot txq x := lso_slot txq
  unfold alx_tx_map at hfail ⊢
  dsimp only at hfail ⊢
  rw [hup, ring_inc_iterate hc16 _ _ hp] at hl
  rw [hup] at hfail ⊢
  generalize alx_tx_map_lso txq = s1 at hl hfail hlso ⊢
  obtain ⟨t1, b⟩ := s1
  obtain ⟨hsh1, hpi1, hci1, hbf1, hb⟩ := hl
  dsimp only at hsh1 hpi1 hci1 hbf1 hb hfail hlso ⊢
  change b = ring_pos txq.count txq.pidx (tx_lso txq) at hb
  subst hb
  have hcnt1 : t1.count = txq.count := hsh1.1
  have hlen1 : t1.bf_info.length = txq.count := by rw [hsh1.2.2.2.2.1, hbl]
  cases hd : dma_map 0 with
  | none =>
    rw [hd] at hfail
    dsimp only at hfail ⊢
    rw [hpi1, hup]
    obtain ⟨u1, u2, u3⟩ := unwind_spec txq.count hc16 (tx_lso txq) (skb.frags.length + 2)
      txq.pidx t1 [] hcnt1 hlen1 hp (by omega) (by omega)
    refine ⟨0, by omega, hd, by simp, ?_, ?_, ?_⟩
    · intro i hi; exact u1 i (by omega)
    · intro x hx
      rw [u2 x (fun i hi => hx i (by omega)), hlso]
    · intro e he
      rcases u3 e he with h | ⟨h1, h2⟩
      · simp at h
      · refine ⟨h1, fun s hs => ?_⟩
        obtain ⟨x, hx⟩ := h2 s hs
        rw [hlso] at hx
        exact ⟨x, hx⟩
  | some dma =>
    rw [hd] at hfail
    dsimp only at hfail ⊢
    have hss := store_shape t1 (ring_pos txq.count txq.pidx (tx_lso txq)) (u16 skb.headlen) dma
    have hcnt2 : (alx_tx_map_store t1 (ring_pos txq.count txq.pidx (tx_lso txq))
        (u16 skb.headlen) dma).count = txq.count := by rw [hss.1.1, hcnt1]
    have hlen2 : (alx_tx_map_store t1 (ring_pos txq.count txq.pidx (tx_lso txq))
        (u16 skb.headlen) dma).bf_info.length = txq.count := by rw [hss.1.2.2.2.2.1, hlen1]
    have hb : ring_pos txq.count txq.pidx (tx_lso txq) < txq.count := ring_pos_lt hc1
    obtain ⟨f1, f2, f3⟩ := frags_spec dma_map txq.pidx txq.count hc16 skb.frags 0
      (alx_tx_map_store t1 (ring_pos txq.count txq.pidx (tx_lso txq)) (u16 skb.headlen) dma)
      (ring_pos txq.count txq.pidx (tx_lso txq)) hcnt2 hlen2 hb (by omega)
    have hfs := frags_shape dma_map txq.pidx skb.frags 0
      (alx_tx_map_store t1 (ring_pos txq.count txq.pidx (tx_lso txq)) (u16 skb.headlen) dma)
      (ring_pos txq.count txq.pidx (tx_lso txq))
    generalize alx_tx_map_frags dma_map txq.pidx skb.frags 0
      (alx_tx_map_store t1 (ring_pos txq.count txq.pidx (tx_lso txq)) (u16 skb.headlen) dma)
      (ring_pos txq.count txq.pidx (tx_lso txq)) = fr at f1 f2 f3 hfs hfail ⊢
    obtain ⟨ok, t3, p3⟩ := fr
    dsimp only at f1 f2 f3 hfs hfail ⊢
    cases ok with
    | true => simp at hfail
    | false =>
      rw [if_neg (by simp)]
      dsimp only
      obtain ⟨k, hk, g1, g2, g3, g4⟩ := f3 rfl
      subst g1
      rw [hfs.2.1, hss.2.1, hpi1, hup, ring_pos_add]
      have hcnt3 : t3.count = txq.count := by rw [hfs.1.1, hcnt2]
      have hlen3 : t3.bf_info.length = txq.count := by rw [hfs.1.2.2.2.2.1, hlen2]
      obtain ⟨u1, u2, u3⟩ := unwind_spec txq.count hc16 (tx_lso txq + (k + 1))
        (skb.frags.length + 2) txq.pidx t3 [] hcnt3 hlen3 hp (by omega) (by omega)
      refine ⟨k + 1, by omega, ?_, ?_, u1, ?_, ?_⟩
      · rw [show 0 + 1 + k = k + 1 by omega] at g2; exact g2
      · intro i hi
        cases i with
        | zero => simp [hd]
        | succ j =>
          have := g3 j (by omega)
          rw [show 0 + 1 + j = j + 1 by omega] at this
          exact this
      · intro x hx
        rw [u2 x hx, g4 x ?_, store_slot_other _ _ _ _ _ ?_, hlso]
        · have := hx (tx_lso txq) (by omega)
          exact fun h => this h.symm
        · intro i hi
          rw [ring_pos_add]
          exact hx (tx_lso txq + (i + 1)) (by omega)
      · intro e he
        rcases u3 e he with h | ⟨h1, h2⟩
        · simp at h
        · refine ⟨h1, fun s hs => ?_⟩
          obtain ⟨x, hx⟩ := h2 s hs
          rw [(f1 x).1, (store_slot_keeps _ _ _ _ x).1, hlso] at hx
          exact ⟨x, hx⟩

theorem avail_le (txq : alx_tx_queue) (hwf : tx_wf txq) :
    alx_tpd_avail txq ≤ (txq.count : Int) - 1 := by
  have h := tpd_avail_closed txq hwf.2.1 hwf.2.2.2.1
  have hp := hwf.2.2.1
  have hci := hwf.2.2.2.1
  split_ifs at h <;> omega

theorem xmit_prepared (txq : alx_tx_queue) (skb : sk_buff) (hwf : tx_wf txq) :
    tx_wf { txq with tpd_hdr := txq.tpd_hdr.set txq.pidx (alx_xmit_offload skb).2 } ∧
      tx_lso { txq with tpd_hdr := txq.tpd_hdr.set txq.pidx (alx_xmit_offload skb).2 } =
        xmit_lso skb ∧
      ∀ x, tx_slot { txq with tpd_hdr := txq.tpd_hdr.set txq.pidx (alx_xmit_offload skb).2 } x =
        tx_slot txq x := by
  obtain ⟨hc1, hc16, hp, hci, hbl, htl⟩ := hwf
  refine ⟨⟨hc1, hc16, hp, hci, hbl, by simpa using htl⟩, ?_, fun x => rfl⟩
  unfold tx_lso tx_desc xmit_lso
  dsimp only
  rw [u16_of_lt (by omega), getD_set_self _ _ _ _ (by omega), offload_lso]

/-- C5. When the packet passes the capacity check and the offload step, and
DMA mapping fails at position `k` (the head for `k = 0`, fragment `k - 1`
otherwise) inside `alx_tx_map`, `alx_start_xmit_ring` returns `NETDEV_TX_OK`,
`pidx` and `cidx` keep their values, the slot records written for this packet
are empty again and every other slot record is unchanged, no slot record holds
the packet, the packet is freed exactly once, and the producer register is not
written. -/
theorem xmit_map_failure_drops (txq : alx_tx_queue) (stopped : Bool) (skb : sk_buff)
    (dma_map : Nat → Option Nat) (k : Nat) (hwf : tx_wf txq)
    (hreq : alx_tpd_req skb ≤ alx_tpd_avail txq)
    (hoff : (alx_xmit_offload skb).1 = false)
    (hk : k ≤ skb.frags.length) (hfail : dma_map k = none)
    (hprev : ∀ i, i < k → (dma_map i).isSome = true)
    (hnew : ∀ b ∈ txq.bf_info, b.skb ≠ some skb.id) :
    (alx_start_xmit_ring txq stopped skb dma_map).ret = netdev_tx_t.NETDEV_TX_OK ∧
      (alx_start_xmit_ring txq stopped skb dma_map).txq.pidx = txq.pidx ∧
      (alx_start_xmit_ring txq stopped skb dma_map).txq.cidx = txq.cidx ∧
      (∀ i, i < xmit_lso skb + k → slot_empty
        (tx_slot (alx_start_xmit_ring txq stopped skb dma_map).txq
          (ring_pos txq.count txq.pidx i))) ∧
      (∀ x, (∀ i, i < xmit_lso skb + k → x ≠ ring_pos txq.count txq.pidx i) →
        tx_slot (alx_start_xmit_ring txq stopped skb dma_map).txq x = tx_slot txq x) ∧
      (∀ x, (tx_slot (alx_start_xmit_ring txq stopped skb dma_map).txq x).skb ≠ some skb.id) ∧
      (alx_start_xmit_ring txq stopped skb dma_map).ev.count (Event.kfree_skb skb.id) = 1 ∧
      (∀ reg v, Event.mem_w16 reg v ∉ (alx_start_xmit_ring txq stopped skb dma_map).ev) := by
  have hfresh : ∀ x, (tx_slot txq x).skb ≠ some skb.id :=
    slot_of_mem txq (fun b => b.skb ≠ some skb.id) (by simp [alx_buffer.zero]) hnew
  obtain ⟨hpw, hpl, hps⟩ := xmit_prepared txq skb hwf
  have hav := avail_le txq hwf
  have hsl := xmit_slots_le_req skb
  have hfit : skb.frags.length + 1 +
      tx_lso { txq with tpd_hdr := txq.tpd_hdr.set txq.pidx (alx_xmit_offload skb).2 } <
        txq.count := by
    rw [hpl]
    unfold xmit_slots at hsl
    unfold xmit_lso
    omega
  obtain ⟨_, hcx, hcase⟩ :=
    tx_map_index { txq with tpd_hdr := txq.tpd_hdr.set txq.pidx (alx_xmit_offload skb).2 } skb dma_map
  have hret : (alx_tx_map { txq with tpd_hdr := txq.tpd_hdr.set txq.pidx (alx_xmit_offload skb).2 }
      skb dma_map).1 = -1 := by
    rcases hcase with ⟨_, _, _, h⟩ | ⟨h, _⟩
    · have := h k hk
      rw [hfail] at this
      simp at this
    · exact h
  have hpidx : (alx_tx_map { txq with tpd_hdr := txq.tpd_hdr.set txq.pidx (alx_xmit_offload skb).2 }
      skb dma_map).2.1.pidx = txq.pidx := by
    rcases hcase with ⟨h, _⟩ | ⟨_, h, _⟩
    · rw [hret] at h; simp at h
    · exact h
  obtain ⟨k2, _, hk2, hp2, hempty, hframe, hev⟩ := tx_map_fail_spec _ skb dma_map hpw hfit hret
  have hkk : k2 = k := first_failure_unique dma_map k2 k hk2 hp2 hfail hprev
  subst hkk
  rw [hpl] at hempty hframe
  have hrun : alx_start_xmit_ring txq stopped skb dma_map =
      alx_xmit_drop (alx_tx_map { txq with tpd_hdr := txq.tpd_hdr.set txq.pidx (alx_xmit_offload skb).2 }
        skb dma_map).2.1 txq.pidx stopped skb
        ([] ++ (alx_tx_map { txq with tpd_hdr := txq.tpd_hdr.set txq.pidx (alx_xmit_offload skb).2 }
        skb dma_map).2.2) := by
    unfold alx_start_xmit_ring
    dsimp only
    rw [if_neg (by omega)]
    unfold alx_start_xmit_ring_conti
    dsimp only
    rw [if_neg (by simp [hoff]), if_pos (by rw [hret]; decide)]
  rw [hrun]
  have hslot : ∀ (t : alx_tx_queue) (e : List Event) (x : Nat),
      tx_slot (alx_xmit_drop t txq.pidx stopped skb e).txq x = tx_slot t x := fun _ _ _ => rfl
  refine ⟨rfl, hpidx, hcx, ?_, ?_, ?_, ?_, ?_⟩
  · intro i hi; rw [hslot]; exact hempty i hi
  · intro x hx; rw [hslot, hframe x hx]; rfl
  · intro x
    rw [hslot]
    by_cases hin : ∀ i, i < xmit_lso skb + k2 → x ≠ ring_pos txq.count txq.pidx i
    · rw [hframe x hin]; exact hfresh x
    · push_neg at hin
      obtain ⟨i, hi, hxi⟩ := hin
      rw [hxi, (hempty i hi).2]
      simp
  · unfold alx_xmit_drop
    dsimp only
    rw [List.count_append, List.nil_append]
    have h0 : List.count (Event.kfree_skb skb.id)
        (alx_tx_map { txq with tpd_hdr := txq.tpd_hdr.set txq.pidx (alx_xmit_offload skb).2 }
          skb dma_map).2.2 = 0 := by
      rw [List.count_eq_zero]
      intro hmem
      obtain ⟨x, hx⟩ := (hev _ hmem).2 skb.id rfl
      exact hfresh x hx
    rw [h0]
    simp
  · intro reg v hmem
    unfold alx_xmit_drop at hmem
    dsimp only at hmem
    rw [List.nil_append, List.mem_append] at hmem
    rcases hmem with h | h
    · have := (hev _ h).1
      simp [Event.is_release] at this
    · simp at h

/-! ### Slot records after a successful `alx_tx_map` -/

theorem last_slot (txq : alx_tx_queue) (skb : sk_buff) (first last x : Nat)
    (hl : last < txq.bf_info.length) :
    (tx_slot (alx_tx_map_last txq skb first last) x).size = (tx_slot txq x).size ∧
      (tx_slot (alx_tx_map_last txq skb first last) x).skb =
        (if x = last then some skb.id else (tx_slot txq x).skb) := by
  unfold alx_tx_map_last tx_slot
  dsimp only
  by_cases h1 : last = x
  · subst h1
    rw [getD_set_self _ _ _ _ (by simpa using hl)]
    dsimp only
    refine ⟨?_, by simp⟩
    by_cases h2 : first = last
    · subst h2
      rw [getD_set_self _ _ _ _ hl]
    · rw [getD_set_other _ _ _ _ _ h2]
  · rw [getD_set_other _ _ _ _ _ h1, if_neg (fun h => h1 h.symm)]
    by_cases h2 : first = x
    · subst h2
      by_cases h3 : first < txq.bf_info.length
      · rw [getD_set_self _ _ _ _ h3]
        exact ⟨rfl, rfl⟩
      · rw [List.set_eq_of_length_le (by omega)]
        exact ⟨rfl, rfl⟩
    · rw [getD_set_other _ _ _ _ _ h2]
      exact ⟨rfl, rfl⟩

theorem tx_map_ok_spec (txq : alx_tx_queue) (skb : sk_buff) (dma_map : Nat → Option Nat)
    (hwf : tx_wf txq) (hfit : skb.frags.length + 1 + tx_lso txq < txq.count)
    (hok : (alx_tx_map txq skb dma_map).1 = 0) :
    (∀ x, (∀ i, i < skb.frags.length + 1 + tx_lso txq → x ≠ ring_pos txq.count txq.pidx i) →
        (tx_slot (alx_tx_map txq skb dma_map).2.1 x).size = (tx_slot txq x).size) ∧
      (∀ i, i < tx_lso txq →
        (tx_slot (alx_tx_map txq skb dma_map).2.1 (ring_pos txq.count txq.pidx i)).size =
          (tx_slot txq (ring_pos txq.count txq.pidx i)).size) ∧
      (tx_slot (alx_tx_map txq skb dma_map).2.1
          (ring_pos txq.count txq.pidx (tx_lso txq))).size = u16 skb.headlen ∧
      (∀ i, i < skb.frags.length →
        (tx_slot (alx_tx_map txq skb dma_map).2.1
          (ring_pos txq.count txq.pidx (tx_lso txq + (i + 1)))).size = u16 (skb.frags.getD i 0)) ∧
      (∀ x, (tx_slot (alx_tx_map txq skb dma_map).2.1 x).skb =
        (if x = ring_pos txq.count txq.pidx (tx_lso txq + skb.frags.length) then some skb.id
         else (tx_slot txq x).skb)) := by
  obtain ⟨hc1, hc16, hp, hci, hbl, htl⟩ := hwf
  have hl := lso_shape txq
  have hL := tx_lso_le_one txq
  have hup : u16 txq.pidx = txq.pidx := u16_of_lt (by omega)
  have hlso : ∀ x, tx_slot (alx_tx_map_lso txq).1 x = tx_slot txq x := lso_slot txq
  unfold alx_tx_map at hok ⊢
  dsimp only at hok ⊢
  rw [hup, ring_inc_iterate hc16 _ _ hp] at hl
  rw [hup] at hok ⊢
  generalize alx_tx_map_lso txq = s1 at hl hok hlso ⊢
  obtain ⟨t1, b⟩ := s1
  obtain ⟨hsh1, hpi1, hci1, hbf1, hb⟩ := hl
  dsimp only at hsh1 hpi1 hci1 hbf1 hb hok hlso ⊢
  change b = ring_pos txq.count txq.pidx (tx_lso txq) at hb
  subst hb
  have hcnt1 : t1.count = txq.count := hsh1.1
  have hlen1 : t1.bf_info.length = txq.count := by rw [hsh1.2.2.2.2.1, hbl]
  cases hd : dma_map 0 with
  | none =>
    rw [hd] at hok
    simp at hok
  | some dma =>
    rw [hd] at hok
    dsimp only at hok ⊢
    have hss := store_shape t1 (ring_pos txq.count txq.pidx (tx_lso txq)) (u16 skb.headlen) dma
    have hcnt2 : (alx_tx_map_store t1 (ring_pos txq.count txq.pidx (tx_lso txq))
        (u16 skb.headlen) dma).count = txq.count := by rw [hss.1.1, hcnt1]
    have hlen2 : (alx_tx_map_store t1 (ring_pos txq.count txq.pidx (tx_lso txq))
        (u16 skb.headlen) dma).bf_info.length = txq.count := by rw [hss.1.2.2.2.2.1, hlen1]
    have hb : ring_pos txq.count txq.pidx (tx_lso txq) < txq.count := ring_pos_lt hc1
    obtain ⟨f1, f2, f3⟩ := frags_spec dma_map txq.pidx txq.count hc16 skb.frags 0
      (alx_tx_map_store t1 (ring_pos txq.count txq.pidx (tx_lso txq)) (u16 skb.headlen) dma)
      (ring_pos txq.count txq.pidx (tx_lso txq)) hcnt2 hlen2 hb (by omega)
    have hfs := frags_shape dma_map txq.pidx skb.frags 0
      (alx_tx_map_store t1 (ring_pos txq.count txq.pidx (tx_lso txq)) (u16 skb.headlen) dma)
      (ring_pos txq.count txq.pidx (tx_lso txq))
    have hst_self := store_slot_self t1 (ring_pos txq.count txq.pidx (tx_lso txq))
      (u16 skb.headlen) dma (by rw [hlen1]; exact hb)
    have hst_other := store_slot_other t1 (ring_pos txq.count txq.pidx (tx_lso txq))
      (u16 skb.headlen) dma
    have hst_keep := store_slot_keeps t1 (ring_pos txq.count txq.pidx (tx_lso txq))
      (u16 skb.headlen) dma
    generalize alx_tx_map_frags dma_map txq.pidx skb.frags 0
      (alx_tx_map_store t1 (ring_pos txq.count txq.pidx (tx_lso txq)) (u16 skb.headlen) dma)
      (ring_pos txq.count txq.pidx (tx_lso txq)) = fr at f1 f2 f3 hfs hok ⊢
    obtain ⟨ok, t3, p3⟩ := fr
    dsimp only at f1 f2 f3 hfs hok ⊢
    cases ok with
    | false => simp at hok
    | true =>
      rw [if_pos rfl]
      dsimp only
      obtain ⟨g1, g2, g3⟩ := f2 rfl
      subst g1
      rw [ring_pos_add] at *
      have hlen3 : t3.bf_info.length = txq.count := by rw [hfs.1.2.2.2.2.1, hlen2]
      have hlast := last_slot t3 skb txq.pidx
        (ring_pos txq.count txq.pidx (tx_lso txq + skb.frags.length))
      have hlast2 := fun x => hlast x (by rw [hlen3]; exact ring_pos_lt hc1)
      have hfr_at_b : tx_slot t3 (ring_pos txq.count txq.pidx (tx_lso txq)) =
          tx_slot (alx_tx_map_store t1 (ring_pos txq.count txq.pidx (tx_lso txq))
            (u16 skb.headlen) dma) (ring_pos txq.count txq.pidx (tx_lso txq)) := by
        apply g2
        intro i hi h
        rw [ring_pos_add] at h
        have := ring_pos_inj hp (by omega) (by omega) h
        omega
      refine ⟨?_, ?_, ?_, ?_, ?_⟩
      · intro x hx
        rw [(hlast2 x).1, g2 x ?_, hst_other x ?_, hlso]
        · have := hx (tx_lso txq) (by omega)
          exact fun h => this h.symm
        · intro i hi
          rw [ring_pos_add]
          exact hx (tx_lso txq + (i + 1)) (by omega)
      · intro i hi
        rw [(hlast2 _).1, g2 _ ?_, hst_other _ ?_, hlso]
        · intro h
          have := ring_pos_inj hp (by omega) (by omega) h
          omega
        · intro i2 hi2 h
          rw [ring_pos_add] at h
          have := ring_pos_inj hp (by omega) (by omega) h
          omega
      · rw [(hlast2 _).1, hfr_at_b, hst_self]
      · intro i hi
        have := g3 i hi
        rw [ring_pos_add] at this
        rw [(hlast2 _).1, this]
      · intro x
        rw [(hlast2 x).2, (f1 x).1, (hst_keep x).1, hlso]

theorem pkt_slots_zero (count : Nat) (h16 : count < 65536) (t : alx_tx_queue)
    (hc : t.count = count) :
    ∀ (d sw : Nat), sw < count →
      (∀ i, i < d → (tx_slot t (ring_pos count sw i)).skb = none) → pkt_slots t sw d = 0 := by
  intro d
  induction d with
  | zero => intro sw _ _; rfl
  | succ d ih =>
    intro sw hsw h
    unfold pkt_slots
    have h0 := h 0 (by omega)
    rw [ring_pos_zero hsw] at h0
    rw [h0, hc, ih (ring_inc count sw) (ring_inc_lt h16 hsw)]
    · simp
    · intro i hi
      have := h (i + 1) (by omega)
      rw [ring_pos_succ h16 hsw] at this
      exact this

theorem xmit_accepted_eq (txq : alx_tx_queue) (stopped : Bool) (skb : sk_buff)
    (dma_map : Nat → Option Nat) (hwf : tx_wf txq)
    (hacc : xmit_accepted (alx_start_xmit_ring txq stopped skb dma_map)) :
    (alx_tx_map { txq with tpd_hdr := txq.tpd_hdr.set txq.pidx (alx_xmit_offload skb).2 }
        skb dma_map).1 = 0 ∧
      (alx_start_xmit_ring txq stopped skb dma_map).txq =
        (alx_tx_map { txq with tpd_hdr := txq.tpd_hdr.set txq.pidx (alx_xmit_offload skb).2 }
          skb dma_map).2.1 ∧
      (alx_start_xmit_ring txq stopped skb dma_map).stopped = stopped ∧
      alx_tpd_req skb ≤ alx_tpd_avail txq := by
  obtain ⟨_, _, hcase⟩ := xmit_cases txq stopped skb dma_map hwf
  have hreq : alx_tpd_req skb ≤ alx_tpd_avail txq := by
    rcases hcase with ⟨_, _, _, _, hn⟩ | ⟨hreq, _⟩
    · exact absurd hacc hn
    · exact hreq
  have he := tx_map_events { txq with tpd_hdr := txq.tpd_hdr.set txq.pidx (alx_xmit_offload skb).2 }
    skb dma_map
  obtain ⟨_, _, hidx⟩ :=
    tx_map_index { txq with tpd_hdr := txq.tpd_hdr.set txq.pidx (alx_xmit_offload skb).2 } skb dma_map
  unfold alx_start_xmit_ring at hacc ⊢
  dsimp only at hacc ⊢
  rw [if_neg (by omega)] at hacc ⊢
  unfold alx_start_xmit_ring_conti at hacc ⊢
  dsimp only at hacc ⊢
  by_cases hoff : (alx_xmit_offload skb).1 = true
  · rw [if_pos hoff] at hacc
    simp [xmit_accepted, alx_xmit_drop] at hacc
  · rw [if_neg hoff] at hacc ⊢
    by_cases hm : (alx_tx_map { txq with tpd_hdr := txq.tpd_hdr.set txq.pidx (alx_xmit_offload skb).2 }
        skb dma_map).1 < 0
    · rw [if_pos hm] at hacc
      exfalso
      simp only [xmit_accepted, alx_xmit_drop, List.nil_append, List.mem_append,
        List.mem_singleton] at hacc
      rcases hacc with h | h
      · have := he _ h
        simp [Event.is_release] at this
      · simp at h
    · rw [if_neg hm]
      refine ⟨?_, rfl, rfl, hreq⟩
      rcases hidx with ⟨h, _⟩ | ⟨h, _⟩
      · exact h
      · rw [h] at hm; simp at hm

/-- C6 (amended). From a well-formed TX ring with `pidx = cidx` and all slot
records empty, a packet with non-empty head and fragments that
`alx_start_xmit_ring` accepts occupies `N = xmit_slots` descriptors; the slot
records holding a mapping are then exactly those of the `N` descriptors but
the leading metadata-only LSOv2 descriptor (`N - 1` records for an LSOv2
packet, `N` otherwise). A following `alx_clean_tx_irq` pass with `HALT` clear,
a positive reclaim budget and the hardware consumer index equal to the new
`pidx` returns true, restores `alx_tpd_avail` to its value before the
submission and leaves every slot record empty. -/
theorem xmit_clean_roundtrip (P : alx_params) (txq : alx_tx_queue) (stopped : Bool)
    (skb : sk_buff) (dma_map : Nat → Option Nat) (fuel : Nat) (carrier_ok : Bool)
    (hwf : tx_wf txq) (hidx : txq.pidx = txq.cidx)
    (hempty : ∀ b ∈ txq.bf_info, slot_empty b)
    (hB : 1 ≤ P.ALX_DEFAULT_TX_WORK) (hfuel : txq.count ≤ fuel)
    (hhead : 0 < skb.headlen ∧ skb.headlen < 65536)
    (hfr : ∀ i, i < skb.frags.length → 0 < skb.frags.getD i 0 ∧ skb.frags.getD i 0 < 65536)
    (hacc : xmit_accepted (alx_start_xmit_ring txq stopped skb dma_map)) :
    tx_in_flight (alx_start_xmit_ring txq stopped skb dma_map).txq = xmit_slots skb ∧
      (∀ x, (tx_slot (alx_start_xmit_ring txq stopped skb dma_map).txq x).size ≠ 0 ↔
        ∃ i, xmit_lso skb ≤ i ∧ i < xmit_slots skb ∧ x = ring_pos txq.count txq.pidx i) ∧
      ∃ r, alx_clean_tx_irq P fuel false carrier_ok
            (alx_start_xmit_ring txq stopped skb dma_map).txq.pidx
            (alx_start_xmit_ring txq stopped skb dma_map).txq
            (alx_start_xmit_ring txq stopped skb dma_map).stopped = some r ∧
        r.ret = true ∧ alx_tpd_avail r.txq = alx_tpd_avail txq ∧
        ∀ x, slot_empty (tx_slot r.txq x) := by
  have hall : ∀ x, slot_empty (tx_slot txq x) :=
    slot_of_mem txq slot_empty (by simp [slot_empty, alx_buffer.zero]) hempty
  have hw0 := hwf
  obtain ⟨hc1, hc16, hp, hci, hbl, htl⟩ := hw0
  obtain ⟨hpw, hpl, hps⟩ := xmit_prepared txq skb hwf
  obtain ⟨hm0, hmeq, _, hreq⟩ := xmit_accepted_eq txq stopped skb dma_map hwf hacc
  have hle := xmit_slots_le_req skb
  obtain ⟨hreq0, hpx, hcx, hcnt0⟩ := xmit_accepted_advance txq stopped skb dma_map hwf hacc
  have hfl := (avail_advance txq (alx_start_xmit_ring txq stopped skb dma_map).txq
    (xmit_slots skb) hwf (by omega) hcnt0 hcx hpx).2.2.1
  have hxw := xmit_wf txq stopped skb dma_map hwf
  have hav := avail_le txq hwf
  have hN : xmit_slots skb = skb.frags.length + 1 + xmit_lso skb := rfl
  have hNlt : xmit_slots skb < txq.count := by omega
  have hL : xmit_lso skb ≤ 1 := by unfold xmit_lso; split_ifs <;> omega
  have hfit : skb.frags.length + 1 +
      tx_lso { txq with tpd_hdr := txq.tpd_hdr.set txq.pidx (alx_xmit_offload skb).2 } <
        txq.count := by rw [hpl]; omega
  obtain ⟨k1, k2, k3, k4, k5⟩ := tx_map_ok_spec _ skb dma_map hpw hfit hm0
  rw [hpl] at k1 k2 k3 k4 k5
  rw [← hmeq] at k1 k2 k3 k4 k5
  dsimp only at k1 k2 k3 k4 k5
  simp only [hps] at k1 k2 k5
  have hflight0 : tx_in_flight txq = 0 := by
    unfold tx_in_flight; rw [hidx]; simp
  -- sizes after the submission
  have hsize_in : ∀ i, i < xmit_slots skb →
      ((tx_slot (alx_start_xmit_ring txq stopped skb dma_map).txq
        (ring_pos txq.count txq.pidx i)).size ≠ 0 ↔ xmit_lso skb ≤ i) := by
    intro i hi
    by_cases h1 : i < xmit_lso skb
    · rw [k2 i h1, (hall _).1]
      constructor
      · intro h; exact absurd rfl h
      · intro h; omega
    · by_cases h2 : i = xmit_lso skb
      · subst h2
        rw [k3, u16_of_lt hhead.2]
        constructor
        · intro _; omega
        · intro _; omega
      · obtain ⟨i2, hi2⟩ : ∃ i2, i = xmit_lso skb + (i2 + 1) := ⟨i - xmit_lso skb - 1, by omega⟩
        subst hi2
        rw [k4 i2 (by omega), u16_of_lt (hfr i2 (by omega)).2]
        have := (hfr i2 (by omega)).1
        constructor
        · intro _; omega
        · intro _; omega
  have hsize_out : ∀ x, (∀ i, i < xmit_slots skb → x ≠ ring_pos txq.count txq.pidx i) →
      (tx_slot (alx_start_xmit_ring txq stopped skb dma_map).txq x).size = 0 := by
    intro x hx
    rw [k1 x (by rw [← hN]; exact hx), (hall x).1]
  refine ⟨by rw [hfl, hflight0]; simp, ?_, ?_⟩
  · intro x
    constructor
    · intro hne
      by_contra hcon
      push_neg at hcon
      by_cases hin : ∀ i, i < xmit_slots skb → x ≠ ring_pos txq.count txq.pidx i
      · exact hne (hsize_out x hin)
      · push_neg at hin
        obtain ⟨i, hi, hxi⟩ := hin
        subst hxi
        have := (hsize_in i hi).1 hne
        exact hcon i this hi rfl
    · rintro ⟨i, h1, h2, rfl⟩
      exact (hsize_in i h2).2 h1
  · have hhw : (alx_start_xmit_ring txq stopped skb dma_map).txq.pidx <
        (alx_start_xmit_ring txq stopped skb dma_map).txq.count := hxw.1.2.2.1
    obtain ⟨r, j, hr, hj, hc, hs, hpi, _, hempty, hframe, hfull, hret, _, _⟩ :=
      clean_irq_spec P fuel carrier_ok (alx_start_xmit_ring txq stopped skb dma_map).txq.pidx
        (alx_start_xmit_ring txq stopped skb dma_map).txq
        (alx_start_xmit_ring txq stopped skb dma_map).stopped hxw.1 hhw
        (by rw [hxw.2]; exact hfuel)
    rw [hxw.2, hcx, ← hidx] at hj hc hempty hframe hfull
    have hdist : ring_dist txq.count txq.pidx
        (alx_start_xmit_ring txq stopped skb dma_map).txq.pidx = xmit_slots skb := by
      rw [hpx]
      exact ring_dist_pos hp hNlt
    rw [hdist] at hj hfull
    have hpk : pkt_slots (alx_start_xmit_ring txq stopped skb dma_map).txq txq.pidx
        (xmit_slots skb - 1) = 0 := by
      apply pkt_slots_zero txq.count hc16 _ hxw.2 _ _ hp
      intro i hi
      rw [k5, if_neg, (hall _).2]
      intro h
      have := ring_pos_inj hp (by omega) (by omega) h
      omega
    have hjN : j = xmit_slots skb := hfull (Or.inr (by rw [hpk]; simpa using hB))
    subst hjN
    have hcp : r.txq.cidx = r.txq.pidx := by
      rw [hc, hpi, hpx]; rfl
    have hrwf : tx_wf r.txq := wf_of_shape hxw.1 hs (by rw [hpi]; exact hhw)
      (by rw [hc, hxw.2]; exact ring_pos_lt hc1)
    refine ⟨r, hr, hret.2 (by rw [hcp, hpi]), ?_, ?_⟩
    · have a1 := tpd_avail_empty r.txq hrwf.2.1 hrwf.2.2.2.1 hcp.symm
      have a2 := tpd_avail_empty txq hc16 hci hidx
      rw [a1, a2, hs.1, hxw.2]
    · intro x
      by_cases hin : ∀ i, i < xmit_slots skb → x ≠ ring_pos txq.count txq.pidx i
      · rw [hframe x hin]
        refine ⟨hsize_out x hin, ?_⟩
        rw [k5 x, if_neg, (hall x).2]
        exact hin (xmit_lso skb + skb.frags.length) (by omega)
      · push_neg at hin
        obtain ⟨i, hi, hxi⟩ := hin
        rw [hxi]
        exact hempty i hi

/-! ### The refill loop `alx_alloc_rxring_buf` -/

theorem rx_same_shape_refl (a : alx_rx_queue) : rx_same_shape a a := by
  simp [rx_same_shape]

theorem rx_same_shape_trans {a b c : alx_rx_queue} (h1 : rx_same_shape a b)
    (h2 : rx_same_shape b c) : rx_same_shape a c := by
  unfold rx_same_shape at *
  obtain ⟨a1, a2, a3, a4, a5, a6, a7, a8, a9, a10⟩ := h1
  obtain ⟨b1, b2, b3, b4, b5, b6, b7, b8, b9, b10⟩ := h2
  exact ⟨by omega, by omega, by omega, by omega, by omega, by rw [b6, a6], by rw [b7, a7],
    by rw [b8, a8], by omega, by omega⟩

theorem alloc_loop_spec (size count p cidx D : Nat) (h16 : count < 65536) (hp : p < count)
    (hD2 : D ≤ count)
    (hDc : ∀ j, 1 ≤ j → j ≤ count → (ring_pos count p j = cidx ↔ j = D)) :
    ∀ (oracle : List rx_alloc) (a : Nat) (rxq : alx_rx_queue) (ev : List Event),
      rxq.count = count → rxq.cidx = cidx → rxq.bf_info.length = count →
      rxq.rfd_hdr.length = count → a < D →
      ∃ m, a + m < D ∧
        (alx_alloc_rxring_loop size oracle (ring_pos count p a) (ring_pos count p (a + 1)) a
          rxq ev).1 = ring_pos count p (a + m) ∧
        (alx_alloc_rxring_loop size oracle (ring_pos count p a) (ring_pos count p (a + 1)) a
          rxq ev).2.1 = a + m ∧
        rx_same_shape rxq (alx_alloc_rxring_loop size oracle (ring_pos count p a)
          (ring_pos count p (a + 1)) a rxq ev).2.2.1 ∧
        (alx_alloc_rxring_loop size oracle (ring_pos count p a) (ring_pos count p (a + 1)) a
          rxq ev).2.2.1.pidx = rxq.pidx ∧
        (∀ j, j < m → ∃ s d, oracle[j]? = some (rx_alloc.ok s d) ∧
          (rx_slot rxq (ring_pos count p (a + j))).skb = none ∧
          a + j + 1 ≠ D ∧
          rx_slot (alx_alloc_rxring_loop size oracle (ring_pos count p a)
              (ring_pos count p (a + 1)) a rxq ev).2.2.1 (ring_pos count p (a + j)) =
            { rx_slot rxq (ring_pos count p (a + j)) with skb := some s, size := size, dma := d } ∧
          rx_rfd (alx_alloc_rxring_loop size oracle (ring_pos count p a)
              (ring_pos count p (a + 1)) a rxq ev).2.2.1 (ring_pos count p (a + j)) = d) ∧
        (∀ x, (∀ j, j < m → x ≠ ring_pos count p (a + j)) →
          rx_slot (alx_alloc_rxring_loop size oracle (ring_pos count p a)
              (ring_pos count p (a + 1)) a rxq ev).2.2.1 x = rx_slot rxq x ∧
          rx_rfd (alx_alloc_rxring_loop size oracle (ring_pos count p a)
              (ring_pos count p (a + 1)) a rxq ev).2.2.1 x = rx_rfd rxq x) ∧
        (((rx_slot rxq (ring_pos count p (a + m))).skb ≠ none ∨ a + m + 1 = D) ∧
            (alx_alloc_rxring_loop size oracle (ring_pos count p a) (ring_pos count p (a + 1)) a
              rxq ev).2.2.2.1 = ev ∧
            (alx_alloc_rxring_loop size oracle (ring_pos count p a) (ring_pos count p (a + 1)) a
              rxq ev).2.2.2.2 = oracle.drop m
          ∨
          ((rx_slot rxq (ring_pos count p (a + m))).skb = none ∧ a + m + 1 ≠ D ∧
            (∀ o, oracle[m]? = some o → o.is_ok = false) ∧
            (alx_alloc_rxring_loop size oracle (ring_pos count p a) (ring_pos count p (a + 1)) a
              rxq ev).2.2.2.1 = ev ++ rx_alloc_fail_events oracle[m]? ∧
            (alx_alloc_rxring_loop size oracle (ring_pos count p a) (ring_pos count p (a + 1)) a
              rxq ev).2.2.2.2 = oracle.drop (m + 1))) := by
  have hc1 : 1 ≤ count := by omega
  have hcond : ∀ (a : Nat) (rxq : alx_rx_queue), rxq.cidx = cidx → a < D →
      (((rxq.bf_info.getD (ring_pos count p a) alx_buffer.zero).skb = none ∧
        ring_pos count p (a + 1) ≠ rxq.cidx) ↔
      ((rx_slot rxq (ring_pos count p a)).skb = none ∧ a + 1 ≠ D)) := by
    intro a rxq hci ha
    rw [hci]
    unfold rx_slot
    have := hDc (a + 1) (by omega) (by omega)
    constructor
    · rintro ⟨h1, h2⟩; exact ⟨h1, fun h => h2 (this.2 h)⟩
    · rintro ⟨h1, h2⟩; exact ⟨h1, fun h => h2 (this.1 h)⟩
  intro oracle
  induction oracle with
  | nil =>
    intro a rxq ev hcnt hci hbl hrl ha
    unfold alx_alloc_rxring_loop
    by_cases hc : (rxq.bf_info.getD (ring_pos count p a) alx_buffer.zero).skb = none ∧
        ring_pos count p (a + 1) ≠ rxq.cidx
    · rw [if_pos hc]
      have hc2 := (hcond a rxq hci ha).1 hc
      refine ⟨0, by omega, rfl, rfl, rx_same_shape_refl _, rfl, by simp, fun x _ => ⟨rfl, rfl⟩,
        Or.inr ⟨hc2.1, by omega, by simp, by simp [rx_alloc_fail_events], by simp⟩⟩
    · rw [if_neg hc]
      have hc2 := fun h => hc ((hcond a rxq hci ha).2 h)
      refine ⟨0, by omega, rfl, rfl, rx_same_shape_refl _, rfl, by simp, fun x _ => ⟨rfl, rfl⟩,
        Or.inl ⟨?_, rfl, rfl⟩⟩
      by_contra hcon
      push_neg at hcon
      exact hc2 ⟨hcon.1, by omega⟩
  | cons o rest ih =>
    intro a rxq ev hcnt hci hbl hrl ha
    unfold alx_alloc_rxring_loop
    by_cases hc : (rxq.bf_info.getD (ring_pos count p a) alx_buffer.zero).skb = none ∧
        ring_pos count p (a + 1) ≠ rxq.cidx
    · rw [if_pos hc]
      have hc2 := (hcond a rxq hci ha).1 hc
      cases o with
      | alloc_fail =>
        dsimp only
        refine ⟨0, by omega, rfl, rfl, rx_same_shape_refl _, rfl, by simp,
          fun x _ => ⟨rfl, rfl⟩,
          Or.inr ⟨hc2.1, by omega, by simp [rx_alloc.is_ok], by simp [rx_alloc_fail_events],
            by simp⟩⟩
      | map_fail s =>
        dsimp only
        refine ⟨0, by omega, rfl, rfl, rx_same_shape_refl _, rfl, by simp,
          fun x _ => ⟨rfl, rfl⟩,
          Or.inr ⟨hc2.1, by omega, by simp [rx_alloc.is_ok], by simp [rx_alloc_fail_events],
            by simp⟩⟩
      | ok s d =>
        dsimp only
        have ha1 : a + 1 < D := by omega
        have hpa : ring_pos count p a < count := ring_pos_lt hc1
        rw [hcnt, ring_inc_pos h16 hc1, u16_of_lt (by omega)]
        obtain ⟨m, hm, e1, e2, e3, e4, e5, e6, e7⟩ := ih (a + 1)
          (alx_rx_post size rxq (ring_pos count p a) s d) ev
          hcnt hci (by simpa [alx_rx_post] using hbl) (by simpa [alx_rx_post] using hrl) ha1
        have hsl_other : ∀ x, ring_pos count p a ≠ x →
            rx_slot (alx_rx_post size rxq (ring_pos count p a) s d) x = rx_slot rxq x ∧
            rx_rfd (alx_rx_post size rxq (ring_pos count p a) s d) x = rx_rfd rxq x := by
          intro x hx
          unfold rx_slot rx_rfd alx_rx_post
          exact ⟨getD_set_other _ _ _ _ _ hx, getD_set_other _ _ _ _ _ hx⟩
        have hpost_pidx : (alx_rx_post size rxq (ring_pos count p a) s d).pidx = rxq.pidx := rfl
        have hdist : ∀ j, j < m + 1 → 0 < j → ring_pos count p a ≠ ring_pos count p (a + j) := by
          intro j hj hj0 h
          have := ring_pos_inj hp (by omega) (by omega) h
          omega
        refine ⟨m + 1, by omega, ?_, ?_, ?_, by rw [e4, hpost_pidx], ?_, ?_, ?_⟩
        · rw [e1]; congr 1; omega
        · rw [e2]; omega
        · refine rx_same_shape_trans ?_ e3
          simp [rx_same_shape, alx_rx_post]
        · intro j hj
          cases j with
          | zero =>
            refine ⟨s, d, by simp, hc2.1, hc2.2, ?_, ?_⟩
            · rw [(e6 _ ?_).1]
              · unfold rx_slot alx_rx_post
                exact getD_set_self _ _ _ _ (by omega)
              · intro j2 hj2 h
                have := ring_pos_inj hp (by omega) (by omega) h
                omega
            · rw [(e6 _ ?_).2]
              · unfold rx_rfd alx_rx_post
                exact getD_set_self _ _ _ _ (by omega)
              · intro j2 hj2 h
                have := ring_pos_inj hp (by omega) (by omega) h
                omega
          | succ j2 =>
            obtain ⟨s2, d2, g1, g2, g3, g4, g5⟩ := e5 j2 (by omega)
            have hne := hdist (j2 + 1) (by omega) (by omega)
            have hre : a + 1 + j2 = a + (j2 + 1) := by omega
            rw [hre] at g2 g3 g4 g5
            rw [(hsl_other _ hne).1] at g2 g4
            exact ⟨s2, d2, by simpa using g1, g2, by omega, g4, g5⟩
        · intro x hx
          have h0 := hx 0 (by omega)
          have := e6 x (fun j hj => by
            rw [show a + 1 + j = a + (j + 1) by omega]
            exact hx (j + 1) (by omega))
          rw [(hsl_other x (fun h => h0 h.symm)).1, (hsl_other x (fun h => h0 h.symm)).2] at this
          exact this
        · rw [show a + 1 + m = a + (m + 1) by omega] at e7
          have hne : m = m → ring_pos count p a ≠ ring_pos count p (a + (m + 1)) := by
            intro _ h
            have := ring_pos_inj hp (by omega) (by omega) h
            omega
          rw [(hsl_other _ (hne rfl)).1] at e7
          simpa using e7
    · rw [if_neg hc]
      have hc2 := fun h => hc ((hcond a rxq hci ha).2 h)
      refine ⟨0, by omega, rfl, rfl, rx_same_shape_refl _, rfl, by simp, fun x _ => ⟨rfl, rfl⟩,
        Or.inl ⟨?_, rfl, rfl⟩⟩
      by_contra hcon
      push_neg at hcon
      exact hc2 ⟨hcon.1, by omega⟩

theorem ring_pos_count {count p : Nat} (hp : p < count) : ring_pos count p count = p := by
  unfold ring_pos
  rw [Nat.add_mod_right, Nat.mod_eq_of_lt hp]

theorem rx_cidx_distance (rxq : alx_rx_queue) (hwf : rx_wf rxq) :
    ∃ D, 1 ≤ D ∧ D ≤ rxq.count ∧
      ∀ j, 1 ≤ j → j ≤ rxq.count → (ring_pos rxq.count rxq.pidx j = rxq.cidx ↔ j = D) := by
  obtain ⟨hc1, hc16, hp, hci, _⟩ := hwf
  by_cases h : rxq.pidx = rxq.cidx
  · refine ⟨rxq.count, hc1, le_refl _, ?_⟩
    intro j hj1 hj2
    constructor
    · intro hj
      by_contra hne
      have hj2 : ring_pos rxq.count rxq.pidx j = ring_pos rxq.count rxq.pidx 0 := by
        rw [ring_pos_zero hp, hj, h]
      have := ring_pos_inj hp (by omega) (by omega) hj2
      omega
    · intro hj; rw [hj, ring_pos_count hp, h]
  · have hd := ring_pos_dist hp hci
    have hlt : ring_dist rxq.count rxq.pidx rxq.cidx < rxq.count := ring_dist_lt hc1
    have hne : ring_dist rxq.count rxq.pidx rxq.cidx ≠ 0 := by
      intro h0
      rw [h0, ring_pos_zero hp] at hd
      exact h hd
    refine ⟨ring_dist rxq.count rxq.pidx rxq.cidx, by omega, by omega, ?_⟩
    intro j hj1 hj2
    constructor
    · intro hj
      by_cases hjc : j = rxq.count
      · rw [hjc, ring_pos_count hp] at hj
        exact absurd hj h
      · rw [← hd] at hj
        exact ring_pos_inj hp (by omega) hlt hj
    · intro hj; rw [hj, hd]

/-- C8. On a well-formed RX ring `alx_alloc_rxring_buf` posts buffers into the
consecutive slots `pidx, pidx + 1, ..` and stops at the first slot `n` where
the next index equals `cidx`, or the slot already holds a buffer, or the
allocator or the DMA mapping fails (a buffer whose mapping failed is freed);
it returns `n`, sets `pidx` to `(pidx + n) mod count`, leaves the `n` posted
slots filled and the other slots untouched, and writes the producer register
exactly when `n > 0`. From `pidx = cidx`, all slots empty and `count - 1`
successful answers, `n = count - 1` and `(pidx + 1) mod count = cidx`. -/
theorem alloc_rxring_buf_spec (size : Nat) (rxq : alx_rx_queue) (oracle : List rx_alloc)
    (hwf : rx_wf rxq) :
    (alx_alloc_rxring_buf size rxq oracle).1 < rxq.count ∧
      (alx_alloc_rxring_buf size rxq oracle).2.1.pidx =
        (rxq.pidx + (alx_alloc_rxring_buf size rxq oracle).1) % rxq.count ∧
      rx_same_shape rxq (alx_alloc_rxring_buf size rxq oracle).2.1 ∧
      (∀ j, j < (alx_alloc_rxring_buf size rxq oracle).1 →
        ∃ s d, oracle[j]? = some (rx_alloc.ok s d) ∧
          (rx_slot rxq (ring_pos rxq.count rxq.pidx j)).skb = none ∧
          ring_pos rxq.count rxq.pidx (j + 1) ≠ rxq.cidx ∧
          rx_slot (alx_alloc_rxring_buf size rxq oracle).2.1 (ring_pos rxq.count rxq.pidx j) =
            { rx_slot rxq (ring_pos rxq.count rxq.pidx j) with
                skb := some s, size := size, dma := d } ∧
          rx_rfd (alx_alloc_rxring_buf size rxq oracle).2.1 (ring_pos rxq.count rxq.pidx j) = d) ∧
      (∀ x, (∀ j, j < (alx_alloc_rxring_buf size rxq oracle).1 →
            x ≠ ring_pos rxq.count rxq.pidx j) →
        rx_slot (alx_alloc_rxring_buf size rxq oracle).2.1 x = rx_slot rxq x ∧
          rx_rfd (alx_alloc_rxring_buf size rxq oracle).2.1 x = rx_rfd rxq x) ∧
      (ring_pos rxq.count rxq.pidx ((alx_alloc_rxring_buf size rxq oracle).1 + 1) = rxq.cidx ∨
        (rx_slot rxq (ring_pos rxq.count rxq.pidx (alx_alloc_rxring_buf size rxq oracle).1)).skb
          ≠ none ∨
        ((∀ o, oracle[(alx_alloc_rxring_buf size rxq oracle).1]? = some o → o.is_ok = false) ∧
          ∀ s, oracle[(alx_alloc_rxring_buf size rxq oracle).1]? = some (rx_alloc.map_fail s) →
            Event.kfree_skb s ∈ (alx_alloc_rxring_buf size rxq oracle).2.2.1)) ∧
      ((∃ reg v, Event.mem_w16 reg v ∈ (alx_alloc_rxring_buf size rxq oracle).2.2.1) ↔
        0 < (alx_alloc_rxring_buf size rxq oracle).1) ∧
      (0 < (alx_alloc_rxring_buf size rxq oracle).1 →
        Event.mem_w16 rxq.p_reg (alx_alloc_rxring_buf size rxq oracle).2.1.pidx ∈
          (alx_alloc_rxring_buf size rxq oracle).2.2.1) ∧
      (rxq.pidx = rxq.cidx → (∀ x, (rx_slot rxq x).skb = none) →
        (∀ j, j < rxq.count - 1 → ∃ s d, oracle[j]? = some (rx_alloc.ok s d)) →
        (alx_alloc_rxring_buf size rxq oracle).1 = rxq.count - 1 ∧
          ((alx_alloc_rxring_buf size rxq oracle).2.1.pidx + 1) % rxq.count = rxq.cidx) := by
  obtain ⟨D, hD1, hD2, hDc⟩ := rx_cidx_distance rxq hwf
  obtain ⟨hc1, hc16, hp, hci, hrc, hbl, hrl, hdl⟩ := hwf
  have hup : u16 rxq.pidx = rxq.pidx := u16_of_lt (by omega)
  obtain ⟨m, hm, e1, e2, e3, e4, e5, e6, e7⟩ :=
    alloc_loop_spec size rxq.count rxq.pidx rxq.cidx D hc16 hp hD2 hDc oracle 0 rxq []
      rfl rfl hbl hrl (by omega)
  have h0 : ring_pos rxq.count rxq.pidx 0 = rxq.pidx := ring_pos_zero hp
  have h1 : ring_pos rxq.count rxq.pidx (0 + 1) = ring_inc rxq.count rxq.pidx := by
    rw [← ring_inc_pos hc16 hc1, h0]
  rw [h0, h1] at e1 e2 e3 e4 e5 e6 e7
  simp only [Nat.zero_add] at e1 e2 e3 e4 e5 e6 e7 hm
  have hn : (alx_alloc_rxring_buf size rxq oracle).1 = m := by
    unfold alx_alloc_rxring_buf
    dsimp only
    rw [hup]
    split_ifs <;> exact e2
  have hev : (alx_alloc_rxring_buf size rxq oracle).2.2.1 =
      (alx_alloc_rxring_loop size oracle rxq.pidx (ring_inc rxq.count rxq.pidx) 0 rxq []).2.2.2.1 ++
        (if m ≠ 0 then [Event.wmb, Event.mem_w16 rxq.p_reg (ring_pos rxq.count rxq.pidx m)]
         else []) := by
    unfold alx_alloc_rxring_buf
    dsimp only
    rw [hup, e2, e1]
    split_ifs <;> simp
  have hslot : ∀ x, rx_slot (alx_alloc_rxring_buf size rxq oracle).2.1 x =
      rx_slot (alx_alloc_rxring_loop size oracle rxq.pidx (ring_inc rxq.count rxq.pidx) 0 rxq []).2.2.1 x ∧
      rx_rfd (alx_alloc_rxring_buf size rxq oracle).2.1 x =
      rx_rfd (alx_alloc_rxring_loop size oracle rxq.pidx (ring_inc rxq.count rxq.pidx) 0 rxq []).2.2.1 x := by
    intro x
    unfold alx_alloc_rxring_buf
    dsimp only
    rw [hup]
    split_ifs <;> exact ⟨rfl, rfl⟩
  have hpidx : (alx_alloc_rxring_buf size rxq oracle).2.1.pidx = ring_pos rxq.count rxq.pidx m := by
    unfold alx_alloc_rxring_buf
    dsimp only
    rw [hup, e2, e1]
    split_ifs with hm0
    · rfl
    · have : m = 0 := by omega
      rw [e4, this, h0]
  have hshape : rx_same_shape rxq (alx_alloc_rxring_buf size rxq oracle).2.1 := by
    unfold alx_alloc_rxring_buf
    dsimp only
    rw [hup]
    split_ifs
    · unfold rx_same_shape at e3 ⊢
      exact e3
    · exact e3
  have hloop_ev : ∀ reg v, Event.mem_w16 reg v ∉
      (alx_alloc_rxring_loop size oracle rxq.pidx (ring_inc rxq.count rxq.pidx) 0 rxq []).2.2.2.1 := by
    intro reg v hmem
    rcases e7 with ⟨_, h, _⟩ | ⟨_, _, _, h, _⟩
    · rw [h] at hmem; simp at hmem
    · rw [h] at hmem
      unfold rx_alloc_fail_events at hmem
      split at hmem <;> simp at hmem
  rw [hn]
  refine ⟨by omega, hpidx, hshape, ?_, ?_, ?_, ?_, ?_, ?_⟩
  · intro j hj
    obtain ⟨s, d, g1, g2, g3, g4, g5⟩ := e5 j hj
    refine ⟨s, d, g1, g2, ?_, by rw [(hslot _).1]; exact g4, by rw [(hslot _).2]; exact g5⟩
    intro h
    exact g3 ((hDc (j + 1) (by omega) (by omega)).1 h)
  · intro x hx
    rw [(hslot x).1, (hslot x).2]
    exact e6 x hx
  · rcases e7 with ⟨h | h, _, _⟩ | ⟨_, _, h3, h4, _⟩
    · right; left; exact h
    · left; exact (hDc (m + 1) (by omega) (by omega)).2 h
    · right; right
      refine ⟨h3, ?_⟩
      intro s hs
      rw [hev, h4, hs]
      simp [rx_alloc_fail_events]
  · rw [hev]
    constructor
    · rintro ⟨reg, v, hmem⟩
      rw [List.mem_append] at hmem
      rcases hmem with h | h
      · exact absurd h (hloop_ev reg v)
      · split_ifs at h with hm0
        · omega
        · simp at h
    · intro hm0
      refine ⟨rxq.p_reg, ring_pos rxq.count rxq.pidx m, ?_⟩
      rw [List.mem_append]
      right
      rw [if_pos (by omega)]
      simp
  · intro hm0
    rw [hev, hpidx, List.mem_append]
    right
    rw [if_pos (by omega)]
    simp
  · intro hpc hemp hok
    have hDcount : D = rxq.count := by
      have := (hDc rxq.count hc1 (le_refl _)).1 (by rw [ring_pos_count hp, hpc])
      exact this.symm
    have hm1 : m = rxq.count - 1 := by
      rcases e7 with ⟨h | h, _, _⟩ | ⟨_, _, h3, _, _⟩
      · exact absurd (hemp _) h
      · omega
      · by_contra hne
        obtain ⟨s, d, hsd⟩ := hok m (by omega)
        have := h3 _ hsd
        simp [rx_alloc.is_ok] at this
    refine ⟨hm1, ?_⟩
    rw [hpidx, hm1]
    unfold ring_pos
    rw [Nat.mod_add_mod, ← hpc, show rxq.pidx + (rxq.count - 1) + 1 = rxq.pidx + rxq.count by omega,
      Nat.add_mod_right, Nat.mod_eq_of_lt hp]

/-! ### Releasing the buffers of an RX ring -/

theorem list_ext_getD {α : Type} (l1 l2 : List α) (d : α) (hl : l1.length = l2.length)
    (h : ∀ x, l1.getD x d = l2.getD x d) : l1 = l2 := by
  apply List.ext_getElem hl
  intro n h1 h2
  have := h n
  rw [List.getD_eq_getElem _ _ h1, List.getD_eq_getElem _ _ h2] at this
  exact this

theorem free_rx_loop_spec :
    ∀ (n i : Nat) (q : alx_rx_queue) (ev : List Event),
      rx_same_shape q (alx_free_rxring_loop n i q ev).1 ∧
        (alx_free_rxring_loop n i q ev).1.pidx = q.pidx ∧
        (alx_free_rxring_loop n i q ev).1.rfd_hdr = q.rfd_hdr ∧
        ∀ x, rx_slot (alx_free_rxring_loop n i q ev).1 x =
          (if i ≤ x ∧ x < i + n then rx_clear (rx_slot q x) else rx_slot q x) := by
  intro n
  induction n with
  | zero =>
    intro i q ev
    refine ⟨rx_same_shape_refl _, rfl, rfl, ?_⟩
    intro x
    rw [if_neg (by omega)]
    rfl
  | succ n ih =>
    intro i q ev
    unfold alx_free_rxring_loop
    dsimp only
    cases hs : (q.bf_info.getD i alx_buffer.zero).skb with
    | none =>
      dsimp only
      obtain ⟨h1, h2, h3, h4⟩ := ih (i + 1) q ev
      refine ⟨h1, h2, h3, ?_⟩
      intro x
      rw [h4 x]
      by_cases hx : x = i
      · subst hx
        rw [if_neg (by omega), if_pos (by omega)]
        unfold rx_clear rx_slot
        rw [hs]
      · by_cases hin : i + 1 ≤ x ∧ x < i + 1 + n
        · rw [if_pos hin, if_pos (by omega)]
        · rw [if_neg hin, if_neg (by omega)]
    | some s =>
      dsimp only
      obtain ⟨h1, h2, h3, h4⟩ := ih (i + 1)
        { q with bf_info := (q.bf_info.set i
            ⟨none, 0, 0, (q.bf_info.getD i alx_buffer.zero).firstfrag⟩) }
        (ev ++ [Event.dma_unmap_rx (q.bf_info.getD i alx_buffer.zero).dma
          (q.bf_info.getD i alx_buffer.zero).size, Event.kfree_skb s])
      refine ⟨?_, h2, h3, ?_⟩
      · refine rx_same_shape_trans ?_ h1
        simp [rx_same_shape]
      · intro x
        rw [h4 x]
        have hlen : i < q.bf_info.length := by
          by_contra hcon
          rw [List.getD_eq_getElem?_getD, List.getElem?_eq_none (by omega)] at hs
          simp [alx_buffer.zero] at hs
        by_cases hx : x = i
        · subst hx
          rw [if_neg (by omega), if_pos (by omega)]
          unfold rx_slot
          dsimp only
          rw [getD_set_self _ _ _ _ hlen]
          unfold rx_clear
          rw [hs]
        · have hget : rx_slot { q with bf_info := (q.bf_info.set i
              ⟨none, 0, 0, (q.bf_info.getD i alx_buffer.zero).firstfrag⟩) } x =
              rx_slot q x := by
            unfold rx_slot
            exact getD_set_other _ _ _ _ _ (fun h => hx h.symm)
          rw [hget]
          by_cases hin : i + 1 ≤ x ∧ x < i + 1 + n
          · rw [if_pos hin, if_pos (by omega)]
          · rw [if_neg hin, if_neg (by omega)]

theorem free_rx_loop_clean :
    ∀ (n i : Nat) (q : alx_rx_queue) (ev : List Event), (∀ x, (rx_slot q x).skb = none) →
      alx_free_rxring_loop n i q ev = (q, ev) := by
  intro n
  induction n with
  | zero => intro i q ev _; rfl
  | succ n ih =>
    intro i q ev h
    unfold alx_free_rxring_loop
    dsimp only
    have := h i
    unfold rx_slot at this
    rw [this]
    exact ih (i + 1) q ev h

theorem rx_clear_skb (b : alx_buffer) :
    (rx_clear b).skb = none ∧ (rx_clear b).firstfrag = b.firstfrag ∧
      (b.skb = none → rx_clear b = b) := by
  unfold rx_clear
  cases h : b.skb <;> simp [h]

theorem free_rx_spec (q : alx_rx_queue) (hl : q.bf_info.length ≤ q.count) :
    rx_clean (alx_free_rxring_buf q).1 ∧
      (alx_free_rxring_buf q).1.count = q.count ∧
      (alx_free_rxring_buf q).1.qidx = q.qidx ∧
      (alx_free_rxring_buf q).1.p_reg = q.p_reg ∧
      (alx_free_rxring_buf q).1.rrd_hdr = q.rrd_hdr ∧
      (alx_free_rxring_buf q).1.flag_using = q.flag_using ∧
      (alx_free_rxring_buf q).1.rfd_hdr = q.rfd_hdr ∧
      (alx_free_rxring_buf q).1.bf_info.length = q.bf_info.length ∧
      (∀ x, (rx_slot (alx_free_rxring_buf q).1 x).firstfrag = (rx_slot q x).firstfrag) ∧
      (∀ x, (rx_slot q x).skb = none → rx_slot (alx_free_rxring_buf q).1 x = rx_slot q x) := by
  obtain ⟨h1, h2, h3, h4⟩ := free_rx_loop_spec q.count 0 q []
  have hslot : ∀ x, rx_slot (alx_free_rxring_buf q).1 x =
      rx_slot (alx_free_rxring_loop q.count 0 q []).1 x := fun x => rfl
  have hout : ∀ x, q.count ≤ x → rx_slot q x = alx_buffer.zero := by
    intro x hx
    unfold rx_slot
    rw [List.getD_eq_getElem?_getD, List.getElem?_eq_none (by omega)]
    rfl
  refine ⟨⟨?_, rfl, rfl, rfl, rfl⟩, h1.1, h1.2.1, h1.2.2.1, h1.2.2.2.2.2.1, h1.2.2.2.2.2.2.1, h3,
    h1.2.2.2.2.2.2.2.2.1, ?_, ?_⟩
  · intro x
    rw [hslot, h4 x]
    split_ifs with hx
    · exact (rx_clear_skb _).1
    · rw [hout x (by omega)]; rfl
  · intro x
    rw [hslot, h4 x]
    split_ifs
    · exact (rx_clear_skb _).2.1
    · rfl
  · intro x hx
    rw [hslot, h4 x]
    split_ifs
    · exact (rx_clear_skb _).2.2 hx
    · rfl

theorem free_rx_of_clean (q : alx_rx_queue) (h : rx_clean q) :
    (alx_free_rxring_buf q).1 = q := by
  obtain ⟨h1, h2, h3, h4, h5⟩ := h
  unfold alx_free_rxring_buf
  dsimp only
  rw [free_rx_loop_clean q.count 0 q [] h1]
  dsimp only
  cases q
  simp only at h2 h3 h4 h5
  subst h2 h3 h4 h5
  rfl

/-! ### The refill loop on two rings with the same free slots -/

theorem post_slot (size : Nat) (q : alx_rx_queue) (cur s d x : Nat) :
    rx_slot (alx_rx_post size q cur s d) x =
        (if x = cur ∧ cur < q.bf_info.length then
          { rx_slot q cur with skb := some s, size := size, dma := d }
         else rx_slot q x) ∧
      rx_rfd (alx_rx_post size q cur s d) x =
        (if x = cur ∧ cur < q.rfd_hdr.length then d else rx_rfd q x) := by
  unfold rx_slot rx_rfd alx_rx_post
  dsimp only
  constructor
  · by_cases h : x = cur
    · subst h
      by_cases hl : x < q.bf_info.length
      · rw [if_pos ⟨rfl, hl⟩, getD_set_self _ _ _ _ hl]
      · rw [if_neg (by tauto), List.set_eq_of_length_le (by omega)]
    · rw [if_neg (by tauto), getD_set_other _ _ _ _ _ (fun h2 => h h2.symm)]
  · by_cases h : x = cur
    · subst h
      by_cases hl : x < q.rfd_hdr.length
      · rw [if_pos ⟨rfl, hl⟩, getD_set_self _ _ _ _ hl]
      · rw [if_neg (by tauto), List.set_eq_of_length_le (by omega)]
    · rw [if_neg (by tauto), getD_set_other _ _ _ _ _ (fun h2 => h h2.symm)]

theorem post_parallel (size : Nat) (q q2 : alx_rx_queue) (cur s d : Nat)
    (h : rx_parallel q q2) :
    rx_parallel (alx_rx_post size q cur s d) (alx_rx_post size q2 cur s d) ∧
      (∀ x, (rx_slot (alx_rx_post size q2 cur s d) x = rx_slot (alx_rx_post size q cur s d) x ∨
          (rx_slot (alx_rx_post size q cur s d) x = rx_slot q x ∧
            rx_slot (alx_rx_post size q2 cur s d) x = rx_slot q2 x)) ∧
        (rx_rfd (alx_rx_post size q2 cur s d) x = rx_rfd (alx_rx_post size q cur s d) x ∨
          (rx_rfd (alx_rx_post size q cur s d) x = rx_rfd q x ∧
            rx_rfd (alx_rx_post size q2 cur s d) x = rx_rfd q2 x))) := by
  obtain ⟨a1, a2, a3, a4, a5, a6, a7, a8, a9, a10, a11, a12, a13⟩ := h
  have hs := fun x => (post_slot size q cur s d x).1
  have hs2 := fun x => (post_slot size q2 cur s d x).1
  have hr := fun x => (post_slot size q cur s d x).2
  have hr2 := fun x => (post_slot size q2 cur s d x).2
  refine ⟨⟨a1, a2, a3, a4, a5, a6, a7, a8, a9, ?_, ?_, ?_, ?_⟩, ?_⟩
  · simpa [alx_rx_post] using a10
  · simpa [alx_rx_post] using a11
  · intro x
    rw [hs x, hs2 x, a10]
    split_ifs
    · simp
    · exact a12 x
  · intro x
    rw [hs x, hs2 x, a10]
    split_ifs
    · exact a13 cur
    · exact a13 x
  · intro x
    rw [hs x, hs2 x, hr x, hr2 x, a10, a11]
    constructor
    · split_ifs
      · left
        have := a13 cur
        cases hq : rx_slot q cur
        cases hq2 : rx_slot q2 cur
        rw [hq, hq2] at this
        simp only at this
        simp [this]
      · right; exact ⟨rfl, rfl⟩
    · split_ifs
      · left; rfl
      · right; exact ⟨rfl, rfl⟩

theorem alloc_loop_lockstep (size : Nat) :
    ∀ (oracle : List rx_alloc) (cur next n : Nat) (q q2 : alx_rx_queue) (ev : List Event),
      rx_parallel q q2 →
      (alx_alloc_rxring_loop size oracle cur next n q2 ev).1 =
          (alx_alloc_rxring_loop size oracle cur next n q ev).1 ∧
        (alx_alloc_rxring_loop size oracle cur next n q2 ev).2.1 =
          (alx_alloc_rxring_loop size oracle cur next n q ev).2.1 ∧
        (alx_alloc_rxring_loop size oracle cur next n q2 ev).2.2.2 =
          (alx_alloc_rxring_loop size oracle cur next n q ev).2.2.2 ∧
        rx_parallel (alx_alloc_rxring_loop size oracle cur next n q ev).2.2.1
          (alx_alloc_rxring_loop size oracle cur next n q2 ev).2.2.1 ∧
        ∀ x,
          (rx_slot (alx_alloc_rxring_loop size oracle cur next n q2 ev).2.2.1 x =
              rx_slot (alx_alloc_rxring_loop size oracle cur next n q ev).2.2.1 x ∨
            (rx_slot (alx_alloc_rxring_loop size oracle cur next n q ev).2.2.1 x = rx_slot q x ∧
              rx_slot (alx_alloc_rxring_loop size oracle cur next n q2 ev).2.2.1 x = rx_slot q2 x)) ∧
          (rx_rfd (alx_alloc_rxring_loop size oracle cur next n q2 ev).2.2.1 x =
              rx_rfd (alx_alloc_rxring_loop size oracle cur next n q ev).2.2.1 x ∨
            (rx_rfd (alx_alloc_rxring_loop size oracle cur next n q ev).2.2.1 x = rx_rfd q x ∧
              rx_rfd (alx_alloc_rxring_loop size oracle cur next n q2 ev).2.2.1 x = rx_rfd q2 x)) := by
  intro oracle
  induction oracle with
  | nil =>
    intro cur next n q q2 ev h
    have hcond : ((q2.bf_info.getD cur alx_buffer.zero).skb = none ∧ next ≠ q2.cidx) ↔
        ((q.bf_info.getD cur alx_buffer.zero).skb = none ∧ next ≠ q.cidx) := by
      have := h.2.2.2.2.2.2.2.2.2.2.2.1 cur
      unfold rx_slot at this
      rw [this, h.2.2.2.2.1]
    unfold alx_alloc_rxring_loop
    by_cases hc : (q.bf_info.getD cur alx_buffer.zero).skb = none ∧ next ≠ q.cidx
    · rw [if_pos hc, if_pos (hcond.2 hc)]
      exact ⟨rfl, rfl, rfl, h, fun x => ⟨Or.inr ⟨rfl, rfl⟩, Or.inr ⟨rfl, rfl⟩⟩⟩
    · rw [if_neg hc, if_neg (fun h2 => hc (hcond.1 h2))]
      exact ⟨rfl, rfl, rfl, h, fun x => ⟨Or.inr ⟨rfl, rfl⟩, Or.inr ⟨rfl, rfl⟩⟩⟩
  | cons o rest ih =>
    intro cur next n q q2 ev h
    have hcond : ((q2.bf_info.getD cur alx_buffer.zero).skb = none ∧ next ≠ q2.cidx) ↔
        ((q.bf_info.getD cur alx_buffer.zero).skb = none ∧ next ≠ q.cidx) := by
      have := h.2.2.2.2.2.2.2.2.2.2.2.1 cur
      unfold rx_slot at this
      rw [this, h.2.2.2.2.1]
    unfold alx_alloc_rxring_loop
    by_cases hc : (q.bf_info.getD cur alx_buffer.zero).skb = none ∧ next ≠ q.cidx
    · rw [if_pos hc, if_pos (hcond.2 hc)]
      cases o with
      | alloc_fail => exact ⟨rfl, rfl, rfl, h, fun x => ⟨Or.inr ⟨rfl, rfl⟩, Or.inr ⟨rfl, rfl⟩⟩⟩
      | map_fail s => exact ⟨rfl, rfl, rfl, h, fun x => ⟨Or.inr ⟨rfl, rfl⟩, Or.inr ⟨rfl, rfl⟩⟩⟩
      | ok s d =>
        dsimp only
        obtain ⟨hp1, hp2⟩ := post_parallel size q q2 cur s d h
        rw [h.1]
        obtain ⟨i1, i2, i3, i4, i5⟩ := ih next (ring_inc q.count next) (u16 (n + 1))
          (alx_rx_post size q cur s d) (alx_rx_post size q2 cur s d) ev hp1
        refine ⟨i1, i2, i3, i4, ?_⟩
        intro x
        obtain ⟨j1, j2⟩ := i5 x
        obtain ⟨k1, k2⟩ := hp2 x
        constructor
        · rcases j1 with j1 | ⟨j1, j1b⟩
          · exact Or.inl j1
          · rcases k1 with k1 | ⟨k1, k1b⟩
            · left; rw [j1, j1b, k1]
            · right; exact ⟨j1.trans k1, j1b.trans k1b⟩
        · rcases j2 with j2 | ⟨j2, j2b⟩
          · exact Or.inl j2
          · rcases k2 with k2 | ⟨k2, k2b⟩
            · left; rw [j2, j2b, k2]
            · right; exact ⟨j2.trans k2, j2b.trans k2b⟩
    · rw [if_neg hc, if_neg (fun h2 => hc (hcond.1 h2))]
      exact ⟨rfl, rfl, rfl, h, fun x => ⟨Or.inr ⟨rfl, rfl⟩, Or.inr ⟨rfl, rfl⟩⟩⟩

theorem alloc_loop_keeps (size : Nat) :
    ∀ (oracle : List rx_alloc) (cur next n : Nat) (q : alx_rx_queue) (ev : List Event),
      rx_same_shape q (alx_alloc_rxring_loop size oracle cur next n q ev).2.2.1 ∧
        (alx_alloc_rxring_loop size oracle cur next n q ev).2.2.1.pidx = q.pidx ∧
        ∀ x, (rx_slot (alx_alloc_rxring_loop size oracle cur next n q ev).2.2.1 x).firstfrag =
          (rx_slot q x).firstfrag := by
  intro oracle
  induction oracle with
  | nil =>
    intro cur next n q ev
    unfold alx_alloc_rxring_loop
    split_ifs <;> exact ⟨rx_same_shape_refl _, rfl, fun x => rfl⟩
  | cons o rest ih =>
    intro cur next n q ev
    unfold alx_alloc_rxring_loop
    split_ifs
    · cases o with
      | alloc_fail => exact ⟨rx_same_shape_refl _, rfl, fun x => rfl⟩
      | map_fail s => exact ⟨rx_same_shape_refl _, rfl, fun x => rfl⟩
      | ok s d =>
        dsimp only
        obtain ⟨h1, h2, h3⟩ := ih next (ring_inc q.count next) (u16 (n + 1))
          (alx_rx_post size q cur s d) ev
        refine ⟨rx_same_shape_trans ?_ h1, by rw [h2]; rfl, ?_⟩
        · simp [rx_same_shape, alx_rx_post]
        · intro x
          rw [h3 x, (post_slot size q cur s d x).1]
          split_ifs with hx
          · rw [hx.1]
          · rfl
    · exact ⟨rx_same_shape_refl _, rfl, fun x => rfl⟩

theorem alloc_buf_keeps (size : Nat) (q : alx_rx_queue) (oracle : List rx_alloc) :
    rx_same_shape q (alx_alloc_rxring_buf size q oracle).2.1 ∧
      ∀ x, (rx_slot (alx_alloc_rxring_buf size q oracle).2.1 x).firstfrag =
        (rx_slot q x).firstfrag := by
  obtain ⟨h1, _, h3⟩ := alloc_loop_keeps size oracle (u16 q.pidx) (ring_inc q.count (u16 q.pidx)) 0 q []
  unfold alx_alloc_rxring_buf
  dsimp only
  split_ifs
  · refine ⟨?_, h3⟩
    unfold rx_same_shape at h1 ⊢
    exact h1
  · exact ⟨h1, h3⟩

theorem alloc_buf_lockstep (size : Nat) (q q2 : alx_rx_queue) (oracle : List rx_alloc)
    (h : rx_parallel q q2) :
    (alx_alloc_rxring_buf size q2 oracle).1 = (alx_alloc_rxring_buf size q oracle).1 ∧
      (alx_alloc_rxring_buf size q2 oracle).2.2 = (alx_alloc_rxring_buf size q oracle).2.2 ∧
      rx_parallel (alx_alloc_rxring_buf size q oracle).2.1 (alx_alloc_rxring_buf size q2 oracle).2.1 ∧
      ∀ x,
        (rx_slot (alx_alloc_rxring_buf size q2 oracle).2.1 x =
            rx_slot (alx_alloc_rxring_buf size q oracle).2.1 x ∨
          (rx_slot (alx_alloc_rxring_buf size q oracle).2.1 x = rx_slot q x ∧
            rx_slot (alx_alloc_rxring_buf size q2 oracle).2.1 x = rx_slot q2 x)) ∧
        (rx_rfd (alx_alloc_rxring_buf size q2 oracle).2.1 x =
            rx_rfd (alx_alloc_rxring_buf size q oracle).2.1 x ∨
          (rx_rfd (alx_alloc_rxring_buf size q oracle).2.1 x = rx_rfd q x ∧
            rx_rfd (alx_alloc_rxring_buf size q2 oracle).2.1 x = rx_rfd q2 x)) := by
  obtain ⟨l1, l2, l3, l4, l5⟩ := alloc_loop_lockstep size oracle (u16 q.pidx)
    (ring_inc q.count (u16 q.pidx)) 0 q q2 [] h
  unfold alx_alloc_rxring_buf
  dsimp only
  rw [h.2.2.2.1, h.1, h.2.2.1, l1, l2]
  by_cases hn : (alx_alloc_rxring_loop size oracle (u16 q.pidx) (ring_inc q.count (u16 q.pidx)) 0
      q []).2.1 ≠ 0
  · rw [if_pos hn, if_pos hn]
    dsimp only
    refine ⟨rfl, by rw [l3], ?_, l5⟩
    unfold rx_parallel at l4 ⊢
    obtain ⟨a1, a2, a3, a4, a5, a6, a7, a8, a9, a10, a11, a12, a13⟩ := l4
    exact ⟨a1, a2, a3, rfl, a5, a6, a7, a8, a9, a10, a11, a12, a13⟩
  · rw [if_neg hn, if_neg hn]
    exact ⟨rfl, by rw [l3], l4, l5⟩

theorem rx_eq_of_parallel (a b : alx_rx_queue) (h : rx_parallel a b)
    (hs : ∀ x, rx_slot b x = rx_slot a x) (hr : ∀ x, rx_rfd b x = rx_rfd a x) : b = a := by
  obtain ⟨a1, a2, a3, a4, a5, a6, a7, a8, a9, a10, a11, _, _⟩ := h
  have e1 : b.bf_info = a.bf_info := list_ext_getD _ _ alx_buffer.zero a10 hs
  have e2 : b.rfd_hdr = a.rfd_hdr := list_ext_getD _ _ 0 a11 hr
  cases a
  cases b
  simp only at a1 a2 a3 a4 a5 a6 a7 a8 a9 e1 e2
  subst a1 a2 a3 a4 a5 a6 a7 a8 a9 e1 e2
  rfl

theorem alloc_after_free_fix (size : Nat) (f : alx_rx_queue) (oracle : List rx_alloc)
    (hclean : rx_clean f) (hl : f.bf_info.length ≤ f.count) :
    alx_alloc_rxring_buf size
        (alx_free_rxring_buf (alx_free_rxring_buf (alx_alloc_rxring_buf size f oracle).2.1).1).1
        oracle =
      alx_alloc_rxring_buf size f oracle := by
  obtain ⟨ks, kf⟩ := alloc_buf_keeps size f oracle
  have hls : (alx_alloc_rxring_buf size f oracle).2.1.bf_info.length ≤
      (alx_alloc_rxring_buf size f oracle).2.1.count := by
    rw [ks.1, ks.2.2.2.2.2.2.2.2.1]; exact hl
  obtain ⟨c1, c2, c3, c4, c5, c6, c7, c8, c9, c10⟩ :=
    free_rx_spec (alx_alloc_rxring_buf size f oracle).2.1 hls
  rw [free_rx_of_clean _ c1]
  have hpar : rx_parallel f (alx_free_rxring_buf (alx_alloc_rxring_buf size f oracle).2.1).1 := by
    obtain ⟨d1, d2, d3, d4, d5⟩ := c1
    obtain ⟨g1, g2, g3, g4, g5⟩ := hclean
    refine ⟨by rw [c2, ks.1], by rw [c3, ks.2.1], by rw [c4, ks.2.2.1], by rw [d2, g2],
      by rw [d3, g3], by rw [d4, g4], by rw [c5, ks.2.2.2.2.2.1], by rw [c6, ks.2.2.2.2.2.2.1],
      by rw [d5, g5], by rw [c8, ks.2.2.2.2.2.2.2.2.1], by rw [c7, ks.2.2.2.2.2.2.2.2.2], ?_, ?_⟩
    · intro x; rw [d1 x, g1 x]
    · intro x; rw [c9 x, kf x]
  obtain ⟨m1, m2, m3, m4⟩ := alloc_buf_lockstep size f _ oracle hpar
  have hq : (alx_alloc_rxring_buf size
      (alx_free_rxring_buf (alx_alloc_rxring_buf size f oracle).2.1).1 oracle).2.1 =
      (alx_alloc_rxring_buf size f oracle).2.1 := by
    apply rx_eq_of_parallel _ _ m3
    · intro x
      rcases (m4 x).1 with h | ⟨h1, h2⟩
      · exact h
      · rw [h2, c10 x]
        rw [h1]
        exact hclean.1 x
    · intro x
      rcases (m4 x).2 with h | ⟨h1, h2⟩
      · exact h
      · rw [h2]
        unfold rx_rfd
        rw [c7]
  apply Prod.ext m1
  apply Prod.ext hq m2

/-! ### Reset: `alx_halt`, `alx_activate`, `alx_reinit` -/

theorem free_all_rx_map (qs : List alx_rx_queue) :
    (alx_free_all_rxrings qs).1 = qs.map (fun q => (alx_free_rxring_buf q).1) := by
  induction qs with
  | nil => rfl
  | cons q qs ih =>
    unfold alx_free_all_rxrings
    simp [ih]

theorem free_all_tx_map (qs : List alx_tx_queue) :
    (alx_free_all_txrings qs).1 = qs.map (fun q => (alx_free_txring_buf q).1) := by
  induction qs with
  | nil => rfl
  | cons q qs ih =>
    unfold alx_free_all_txrings
    simp [ih]

theorem free_tx_closed (q : alx_tx_queue) :
    (alx_free_txring_buf q).1 =
      { qidx := q.qidx, p_reg := q.p_reg, c_reg := q.c_reg, count := q.count, pidx := 0, cidx := 0
        bf_info := List.replicate q.count alx_buffer.zero
        tpd_hdr := List.replicate q.count tpd_desc.zero } := by
  have h := free_txring_loop_shape q.count 0 q []
  unfold alx_free_txring_buf
  dsimp only
  rw [h.1, h.2.1, h.2.2.1, h.2.2.2.1]

theorem free_tx_idem (q : alx_tx_queue) :
    (alx_free_txring_buf (alx_free_txring_buf q).1).1 = (alx_free_txring_buf q).1 := by
  rw [free_tx_closed (alx_free_txring_buf q).1, free_tx_closed q]

theorem reinit_loop_fix (size : Nat) :
    ∀ (fs : List alx_rx_queue) (oracle : List rx_alloc),
      (∀ f ∈ fs, rx_clean f ∧ f.bf_info.length ≤ f.count) →
      alx_reinit_rings_loop size
          (((alx_reinit_rings_loop size fs oracle).2.1).map
            (fun q => (alx_free_rxring_buf (alx_free_rxring_buf q).1).1)) oracle =
        alx_reinit_rings_loop size fs oracle := by
  intro fs
  induction fs with
  | nil => intro oracle _; rfl
  | cons f fs ih =>
    intro oracle h
    have hf := h f (by simp)
    have hfs : ∀ g ∈ fs, rx_clean g ∧ g.bf_info.length ≤ g.count :=
      fun g hg => h g (by simp [hg])
    have hfix := alloc_after_free_fix size f oracle hf.1 hf.2
    have hid : fs.map (fun q => (alx_free_rxring_buf (alx_free_rxring_buf q).1).1) = fs := by
      conv_rhs => rw [← List.map_id fs]
      apply List.map_congr_left
      intro g hg
      rw [free_rx_of_clean g (hfs g hg).1, free_rx_of_clean g (hfs g hg).1]
      rfl
    by_cases h0 : (alx_alloc_rxring_buf size f oracle).1 = 0
    · have e1 : alx_reinit_rings_loop size (f :: fs) oracle =
          (-ENOMEM, (alx_alloc_rxring_buf size f oracle).2.1 :: fs,
            (alx_alloc_rxring_buf size f oracle).2.2.1,
            (alx_alloc_rxring_buf size f oracle).2.2.2) := by
        simp only [alx_reinit_rings_loop, h0, if_true]
      rw [e1]
      dsimp only
      rw [List.map_cons, hid]
      simp only [alx_reinit_rings_loop, hfix, h0, if_true]
    · have e1 : alx_reinit_rings_loop size (f :: fs) oracle =
          ((alx_reinit_rings_loop size fs (alx_alloc_rxring_buf size f oracle).2.2.2).1,
            (alx_alloc_rxring_buf size f oracle).2.1 ::
              (alx_reinit_rings_loop size fs (alx_alloc_rxring_buf size f oracle).2.2.2).2.1,
            (alx_alloc_rxring_buf size f oracle).2.2.1 ++
              (alx_reinit_rings_loop size fs (alx_alloc_rxring_buf size f oracle).2.2.2).2.2.1,
            (alx_reinit_rings_loop size fs (alx_alloc_rxring_buf size f oracle).2.2.2).2.2.2) := by
        simp only [alx_reinit_rings_loop, h0, if_false]
      rw [e1]
      dsimp only
      rw [List.map_cons]
      have ih2 := ih (alx_alloc_rxring_buf size f oracle).2.2.2 hfs
      simp only [alx_reinit_rings_loop, hfix, h0, if_false, ih2]

theorem reinit_loop_idx (size : Nat) :
    ∀ (fs : List alx_rx_queue) (oracle : List rx_alloc),
      (∀ f ∈ fs, f.cidx = 0 ∧ f.rrd_cidx = 0) →
      ∀ q ∈ (alx_reinit_rings_loop size fs oracle).2.1, q.cidx = 0 ∧ q.rrd_cidx = 0 := by
  intro fs
  induction fs with
  | nil => intro oracle _ q hq; simp [alx_reinit_rings_loop] at hq
  | cons f fs ih =>
    intro oracle h q hq
    have hf := h f (by simp)
    have hfs : ∀ g ∈ fs, g.cidx = 0 ∧ g.rrd_cidx = 0 := fun g hg => h g (by simp [hg])
    have hk := (alloc_buf_keeps size f oracle).1
    have hA : (alx_alloc_rxring_buf size f oracle).2.1.cidx = 0 ∧
        (alx_alloc_rxring_buf size f oracle).2.1.rrd_cidx = 0 := by
      rw [hk.2.2.2.1, hk.2.2.2.2.1]; exact hf
    unfold alx_reinit_rings_loop at hq
    dsimp only at hq
    split_ifs at hq
    · simp only [List.mem_cons] at hq
      rcases hq with hq | hq
      · rw [hq]; exact hA
      · exact hfs q hq
    · simp only [List.mem_cons] at hq
      rcases hq with hq | hq
      · rw [hq]; exact hA
      · exact ih _ hfs q hq

theorem reinit_form (a : alx_adapter) (in_task : Bool) (jiffies : Nat) (oracle : List rx_alloc)
    (fuel : Nat) (hH : a.flags.HALT = false) (hR : a.flags.RESETING = false) :
    (alx_reinit (fuel + 1) a in_task jiffies oracle).map (fun r => (r.1, r.2.2)) =
      some (reinit_state a jiffies oracle,
        (alx_reinit_rings_loop a.rxbuf_size
          (a.rxq.map (fun q => (alx_free_rxring_buf (alx_free_rxring_buf q).1).1)) oracle).2.2.2) := by
  unfold alx_reinit
  rw [if_neg (by simp [hR])]
  dsimp only
  rw [if_neg (by simp [hH])]
  unfold alx_activate alx_reinit_rings alx_halt alx_free_all_rings_buf alx_netif_stop
  dsimp only
  by_cases hc : a.netdev.carrier_ok = true
  · simp only [hc, if_true, free_all_rx_map, free_all_tx_map, List.map_map, Option.map_some']
    unfold reinit_state netdev_stopped
    simp only [hc, if_true]
    rfl
  · simp only [hc, if_false, free_all_rx_map, free_all_tx_map, List.map_map, Option.map_some']
    unfold reinit_state netdev_stopped
    simp only [hc, if_false]
    rfl

theorem reinit_blocked (a : alx_adapter) (in_task : Bool) (jiffies : Nat)
    (oracle : List rx_alloc) (hR : a.flags.RESETING = true) :
    ∀ fuel, alx_reinit fuel a in_task jiffies oracle = none := by
  intro fuel
  induction fuel with
  | zero => rfl
  | succ n ih =>
    unfold alx_reinit
    rw [if_pos hR, ih]
    rfl

theorem netdev_stopped_twice (nd : net_device) (j1 j2 : Nat) :
    netdev_stopped (netdev_stopped nd j1) j2 =
      { netdev_stopped nd j1 with trans_start := j2 } := by
  unfold netdev_stopped
  by_cases h : nd.carrier_ok = true
  · simp [h]
  · simp [h]

theorem free_rx_twice_clean (q : alx_rx_queue) (h : rx_wf q) :
    rx_clean (alx_free_rxring_buf (alx_free_rxring_buf q).1).1 ∧
      (alx_free_rxring_buf (alx_free_rxring_buf q).1).1.bf_info.length ≤
        (alx_free_rxring_buf (alx_free_rxring_buf q).1).1.count := by
  obtain ⟨_, _, _, _, _, hbl, _, _⟩ := h
  obtain ⟨c1, c2, _, _, _, _, _, c8, _, _⟩ := free_rx_spec q (by omega)
  rw [free_rx_of_clean _ c1]
  exact ⟨c1, by rw [c2, c8]; omega⟩

theorem reinit_state_twice (a : alx_adapter) (j1 j2 : Nat) (oracle : List rx_alloc)
    (hrx : ∀ q ∈ a.rxq, rx_wf q) :
    reinit_state (reinit_state a j1 oracle) j2 oracle =
        { reinit_state a j1 oracle with
            netdev := { (reinit_state a j1 oracle).netdev with trans_start := j2 } } ∧
      (alx_reinit_rings_loop (reinit_state a j1 oracle).rxbuf_size
          ((reinit_state a j1 oracle).rxq.map
            (fun q => (alx_free_rxring_buf (alx_free_rxring_buf q).1).1)) oracle).2.2.2 =
        (alx_reinit_rings_loop a.rxbuf_size
          (a.rxq.map (fun q => (alx_free_rxring_buf (alx_free_rxring_buf q).1).1)) oracle).2.2.2 := by
  have hfs : ∀ f ∈ a.rxq.map (fun q => (alx_free_rxring_buf (alx_free_rxring_buf q).1).1),
      rx_clean f ∧ f.bf_info.length ≤ f.count := by
    intro f hf
    rw [List.mem_map] at hf
    obtain ⟨q, hq, rfl⟩ := hf
    exact free_rx_twice_clean q (hrx q hq)
  have hfix := reinit_loop_fix a.rxbuf_size _ oracle hfs
  have htx : (a.txq.map (fun q => (alx_free_txring_buf (alx_free_txring_buf q).1).1)).map
      (fun q => (alx_free_txring_buf (alx_free_txring_buf q).1).1) =
      a.txq.map (fun q => (alx_free_txring_buf (alx_free_txring_buf q).1).1) := by
    rw [List.map_map]
    apply List.map_congr_left
    intro q _
    simp only [Function.comp, free_tx_idem]
  constructor
  · unfold reinit_state
    dsimp only
    rw [htx, hfix, netdev_stopped_twice]
  · unfold reinit_state
    dsimp only
    rw [hfix]

/-- C10. For every non-halted adapter state with well-formed RX rings, and with
the buffer allocator answering identically each time: whenever `alx_reinit`
returns (it does whenever `RESETING` is clear on entry), a second `alx_reinit`
right after it returns too and leaves the same adapter state but for the time
stamp `trans_start`; in that state every TX ring has `pidx = cidx = 0` and all
slot records zeroed, every RX ring has `cidx = rrd_cidx = 0`, `link_up` is
false, `link_speed` is `SPEED_0`, and `HALT` and `RESETING` are clear. -/
theorem reinit_twice_same (a : alx_adapter) (in_task1 in_task2 : Bool) (j1 j2 : Nat)
    (oracle : List rx_alloc) (hH : a.flags.HALT = false) (hrx : ∀ q ∈ a.rxq, rx_wf q) :
    (a.flags.RESETING = false → (alx_reinit 1 a in_task1 j1 oracle).isSome = true) ∧
      ∀ fuel r1, alx_reinit fuel a in_task1 j1 oracle = some r1 →
        ∃ r2, alx_reinit 1 r1.1 in_task2 j2 oracle = some r2 ∧
          r2.1 = { r1.1 with netdev := { r1.1.netdev with trans_start := j2 } } ∧
          r2.2.2 = r1.2.2 ∧
          (∀ q ∈ r1.1.txq, q.pidx = 0 ∧ q.cidx = 0 ∧ ∀ x, tx_slot q x = alx_buffer.zero) ∧
          (∀ q ∈ r1.1.rxq, q.cidx = 0 ∧ q.rrd_cidx = 0) ∧
          r1.1.hw.link_up = false ∧ r1.1.hw.link_speed = SPEED_0 ∧
          r1.1.flags.HALT = false ∧ r1.1.flags.RESETING = false := by
  constructor
  · intro hR
    have := reinit_form a in_task1 j1 oracle 0 hH hR
    cases h : alx_reinit (0 + 1) a in_task1 j1 oracle with
    | none => rw [h] at this; simp at this
    | some r => simp at h; simp [h]
  · intro fuel r1 h1
    have hR : a.flags.RESETING = false := by
      by_contra hcon
      have := reinit_blocked a in_task1 j1 oracle (by simpa using hcon) fuel
      rw [this] at h1
      simp at h1
    cases fuel with
    | zero => simp [alx_reinit] at h1
    | succ n =>
      have f1 := reinit_form a in_task1 j1 oracle n hH hR
      rw [h1] at f1
      simp only [Option.map_some', Option.some.injEq, Prod.mk.injEq] at f1
      obtain ⟨f1a, f1b⟩ := f1
      have hH1 : r1.1.flags.HALT = false := by rw [f1a]; rfl
      have hR1 : r1.1.flags.RESETING = false := by rw [f1a]; rfl
      have f2 := reinit_form r1.1 in_task2 j2 oracle 0 hH1 hR1
      obtain ⟨t1, t2⟩ := reinit_state_twice a j1 j2 oracle hrx
      cases h2 : alx_reinit (0 + 1) r1.1 in_task2 j2 oracle with
      | none => rw [h2] at f2; simp at f2
      | some r2 =>
        rw [h2] at f2
        simp only [Option.map_some', Option.some.injEq, Prod.mk.injEq] at f2
        obtain ⟨f2a, f2b⟩ := f2
        refine ⟨r2, rfl, ?_, ?_, ?_, ?_, ?_, ?_, hH1, hR1⟩
        · rw [f2a, f1a, t1]
        · rw [f2b, f1b, f1a, t2]
        · intro q hq
          rw [f1a] at hq
          unfold reinit_state at hq
          dsimp only at hq
          rw [List.mem_map] at hq
          obtain ⟨q0, _, rfl⟩ := hq
          rw [free_tx_idem, free_tx_closed]
          refine ⟨rfl, rfl, ?_⟩
          intro x
          unfold tx_slot
          dsimp only
          rw [List.getD_eq_getElem?_getD, List.getElem?_replicate]
          split_ifs <;> rfl
        · intro q hq
          rw [f1a] at hq
          unfold reinit_state at hq
          dsimp only at hq
          refine reinit_loop_idx _ _ _ ?_ q hq
          intro f hf
          rw [List.mem_map] at hf
          obtain ⟨q0, hq0, rfl⟩ := hf
          have := (free_rx_twice_clean q0 (hrx q0 hq0)).1
          exact ⟨this.2.2.1, this.2.2.2.1⟩
        · rw [f1a]; rfl
        · rw [f1a]; rfl

/-! ### RX dispatch on a desynchronised ring -/

/-- C7 (amended). When `ALX_RQ_USING` is clear on entry and the result entry at
`rrd_cidx` has the updated bit set while its `RRD_SI` differs from `cidx` or
its `RRD_NOR` differs from 1, `alx_dispatch_skb` returns true having set
`TASK_RESET`; it clears the updated bit of that entry and changes nothing
else in the ring but `ALX_RQ_USING`: `cidx`, `rrd_cidx`, `pidx`, every slot
record and every other result entry are as before, no buffer is unmapped,
queued or refilled, and the only calls are the error message and
`alx_schedule_work`. -/
theorem dispatch_desync_requests_reset (P : alx_params) (E : rx_env) (fuel : Nat)
    (rxq : alx_rx_queue) (oracle : List rx_alloc)
    (hflag : rxq.flag_using = false)
    (hupd : (rxq.rrd_hdr.getD rxq.rrd_cidx rrd_desc.zero).word3.updated = true)
    (hbad : (rxq.rrd_hdr.getD rxq.rrd_cidx rrd_desc.zero).si ≠ rxq.cidx ∨
      (rxq.rrd_hdr.getD rxq.rrd_cidx rrd_desc.zero).nor ≠ 1) :
    alx_dispatch_skb P E (fuel + 1) rxq oracle =
      some { ret := true
             rxq := { rxq with
                        flag_using := true
                        rrd_hdr := rxq.rrd_hdr.set rxq.rrd_cidx
                          ({ rxq.rrd_hdr.getD rxq.rrd_cidx rrd_desc.zero with
                              word3 := { (rxq.rrd_hdr.getD rxq.rrd_cidx rrd_desc.zero).word3 with
                                          updated := false } }) }
             task_reset := true
             oracle := oracle
             ev := [Event.netif_err_si_nor] ++ alx_schedule_work E.halt } := by
  unfold alx_dispatch_skb
  rw [if_neg (by simp [hflag])]
  unfold alx_dispatch_loop
  dsimp only
  rw [if_neg (by rw [hupd]; simp), if_pos hbad]
  simp

/-- C7, witness: consumer index 4, result entry with sequence index 5. -/
theorem dispatch_desync_requests_reset_witness :
    (ex_rxq_desync false).flag_using = false ∧
      ((ex_rxq_desync false).rrd_hdr.getD (ex_rxq_desync false).rrd_cidx rrd_desc.zero).si = 5 ∧
      (ex_rxq_desync false).cidx = 4 ∧
      alx_dispatch_skb ex_params ex_rx_env (0 + 1) (ex_rxq_desync false) ex_oracle =
        some { ret := true
               rxq := { ex_rxq_desync false with
                          flag_using := true
                          rrd_hdr := (ex_rxq_desync false).rrd_hdr.set (ex_rxq_desync false).rrd_cidx
                            ({ (ex_rxq_desync false).rrd_hdr.getD (ex_rxq_desync false).rrd_cidx
                                  rrd_desc.zero with
                                word3 := { ((ex_rxq_desync false).rrd_hdr.getD
                                    (ex_rxq_desync false).rrd_cidx rrd_desc.zero).word3 with
                                            updated := false } }) }
               task_reset := true
               oracle := ex_oracle
               ev := [Event.netif_err_si_nor] ++ alx_schedule_work ex_rx_env.halt } :=
  ⟨by decide, by decide, by decide,
    dispatch_desync_requests_reset ex_params ex_rx_env 0 (ex_rxq_desync false) ex_oracle
      (by decide) (by decide) (by decide)⟩

/-- C7, counterexample to the claim as stated: with `ALX_RQ_USING` already set
on entry, the same desynchronised entry (`SI = 5`, `cidx = 4`) makes
`alx_dispatch_skb` return false without setting `TASK_RESET`. -/
theorem dispatch_desync_using_counterexample :
    ((ex_rxq_desync true).rrd_hdr.getD (ex_rxq_desync true).rrd_cidx rrd_desc.zero).word3.updated
        = true ∧
      ((ex_rxq_desync true).rrd_hdr.getD (ex_rxq_desync true).rrd_cidx rrd_desc.zero).si ≠
        (ex_rxq_desync true).cidx ∧
      alx_dispatch_skb ex_params ex_rx_env 8 (ex_rxq_desync true) ex_oracle =
        some { ret := false, rxq := ex_rxq_desync true, task_reset := false,
               oracle := ex_oracle, ev := [] } := by
  decide

/-! ### Concrete instances and counterexamples of the TX theorems -/

/-- C1, witness: a run of five calls from the reset state of an eight-slot ring. -/
theorem tx_ring_index_invariant_witness :
    tx_ops_ok ex_params (tx_reset_world (ex_ring8 0) false) ex_ops ∧
      ∃ w, tx_run ex_params (tx_reset_world (ex_ring8 0) false) ex_ops = some w ∧
        w.txq.count = (ex_ring8 0).count ∧ w.txq.pidx < w.txq.count ∧
        w.txq.cidx < w.txq.count ∧
        alx_tpd_avail w.txq + tx_in_flight w.txq = (w.txq.count : Int) - 1 :=
  ⟨by decide,
    tx_ring_index_invariant ex_params (ex_ring8 0) false (by decide) (by decide) ex_ops
      (by decide)⟩

/-- C2, witness: eight slots, `pidx = 5`, `cidx = 0`, two slots available. -/
theorem alx_tpd_avail_spec_witness :
    (1 ≤ ex_ring8_busy.count ∧ ex_ring8_busy.pidx < ex_ring8_busy.count ∧
        ex_ring8_busy.cidx < ex_ring8_busy.count) ∧
      alx_tpd_avail ex_ring8_busy = 2 ∧
      alx_tpd_avail ex_ring8_busy =
        ((ex_ring8_busy.cidx : Int) - ex_ring8_busy.pidx - 1) % ex_ring8_busy.count ∧
      0 ≤ alx_tpd_avail ex_ring8_busy ∧
      alx_tpd_avail ex_ring8_busy ≤ (ex_ring8_busy.count : Int) - 1 ∧
      (alx_tpd_avail ex_ring8_busy = (ex_ring8_busy.count : Int) - 1 ↔
        ex_ring8_busy.pidx = ex_ring8_busy.cidx) :=
  ⟨by decide, by decide,
    (alx_tpd_avail_spec ex_ring8_busy (by decide) (by decide) (by decide) (by decide)).2⟩

/-- C3, witness: an LSOv2 packet with one fragment takes three slots of an
empty eight-slot ring. -/
theorem xmit_accepted_keeps_one_slot_witness :
    tx_wf (ex_ring8 0) ∧
      xmit_accepted (alx_start_xmit_ring (ex_ring8 0) false (ex_skb_lso 2) ex_dma_ok) ∧
      xmit_slots (ex_skb_lso 2) = 3 ∧
      (alx_start_xmit_ring (ex_ring8 0) false (ex_skb_lso 2) ex_dma_ok).txq.pidx ≠
        (alx_start_xmit_ring (ex_ring8 0) false (ex_skb_lso 2) ex_dma_ok).txq.cidx ∧
      0 ≤ alx_tpd_avail (alx_start_xmit_ring (ex_ring8 0) false (ex_skb_lso 2) ex_dma_ok).txq :=
  ⟨by decide, by decide, by decide,
    (xmit_accepted_keeps_one_slot (ex_ring8 0) false (ex_skb_lso 2) ex_dma_ok (by decide)
      (by decide)).2.2.2.2.2.1,
    (xmit_accepted_keeps_one_slot (ex_ring8 0) false (ex_skb_lso 2) ex_dma_ok (by decide)
      (by decide)).2.2.2.2.2.2.2⟩

/-- C4, witness: eight slots, two available, a packet needing three. -/
theorem xmit_busy_leaves_ring_witness :
    alx_tpd_avail ex_ring8_busy = 2 ∧ alx_tpd_req (ex_skb 9) = 3 ∧
      (alx_start_xmit_ring ex_ring8_busy false (ex_skb 9) ex_dma_ok).ret =
        netdev_tx_t.NETDEV_TX_BUSY ∧
      (alx_start_xmit_ring ex_ring8_busy false (ex_skb 9) ex_dma_ok).txq = ex_ring8_busy ∧
      (alx_start_xmit_ring ex_ring8_busy false (ex_skb 9) ex_dma_ok).stopped = true ∧
      (alx_start_xmit_ring ex_ring8_busy false (ex_skb 9) ex_dma_ok).ev =
        (if false = true then [] else [Event.netif_tx_stop_queue]) :=
  ⟨by decide, by decide, xmit_busy_leaves_ring ex_ring8_busy false (ex_skb 9) ex_dma_ok (by decide)⟩

/-- C5, witness: the mapping of the second fragment fails on an empty ring. -/
theorem xmit_map_failure_drops_witness :
    tx_wf (ex_ring8 2) ∧ ex_dma_fail 2 = none ∧
      (alx_start_xmit_ring (ex_ring8 2) false (ex_skb 3) ex_dma_fail).ret =
        netdev_tx_t.NETDEV_TX_OK ∧
      (alx_start_xmit_ring (ex_ring8 2) false (ex_skb 3) ex_dma_fail).txq.pidx = (ex_ring8 2).pidx ∧
      (alx_start_xmit_ring (ex_ring8 2) false (ex_skb 3) ex_dma_fail).ev.count
        (Event.kfree_skb (ex_skb 3).id) = 1 :=
  ⟨by decide, by decide,
    (xmit_map_failure_drops (ex_ring8 2) false (ex_skb 3) ex_dma_fail 2 (by decide) (by decide)
      (by decide) (by decide) (by decide) (by decide) (by decide)).1,
    (xmit_map_failure_drops (ex_ring8 2) false (ex_skb 3) ex_dma_fail 2 (by decide) (by decide)
      (by decide) (by decide) (by decide) (by decide) (by decide)).2.1,
    (xmit_map_failure_drops (ex_ring8 2) false (ex_skb 3) ex_dma_fail 2 (by decide) (by decide)
      (by decide) (by decide) (by decide) (by decide) (by decide)).2.2.2.2.2.2.1⟩

/-- C6, witness: an LSOv2 packet of three descriptors submitted to an empty
ring and reclaimed. -/
theorem xmit_clean_roundtrip_witness :
    tx_wf (ex_ring8 0) ∧
      xmit_accepted (alx_start_xmit_ring (ex_ring8 0) false (ex_skb_lso 2) ex_dma_ok) ∧
      tx_in_flight (alx_start_xmit_ring (ex_ring8 0) false (ex_skb_lso 2) ex_dma_ok).txq =
        xmit_slots (ex_skb_lso 2) ∧
      ∃ r, alx_clean_tx_irq ex_params 8 false true
            (alx_start_xmit_ring (ex_ring8 0) false (ex_skb_lso 2) ex_dma_ok).txq.pidx
            (alx_start_xmit_ring (ex_ring8 0) false (ex_skb_lso 2) ex_dma_ok).txq
            (alx_start_xmit_ring (ex_ring8 0) false (ex_skb_lso 2) ex_dma_ok).stopped = some r ∧
        r.ret = true ∧ alx_tpd_avail r.txq = alx_tpd_avail (ex_ring8 0) ∧
        ∀ x, slot_empty (tx_slot r.txq x) :=
  ⟨by decide, by decide,
    (xmit_clean_roundtrip ex_params (ex_ring8 0) false (ex_skb_lso 2) ex_dma_ok 8 true
      (by decide) (by decide) (by decide) (by decide) (by decide) (by decide) (by decide)
      (by decide)).1,
    (xmit_clean_roundtrip ex_params (ex_ring8 0) false (ex_skb_lso 2) ex_dma_ok 8 true
      (by decide) (by decide) (by decide) (by decide) (by decide) (by decide) (by decide)
      (by decide)).2.2⟩

/-- C6, counterexample to the claim as stated: an accepted LSOv2 packet is
encoded into `N = 3` descriptors, yet only two slot records hold a mapping
before the reclaim pass and only two DMA unmaps are made by it, because the
leading descriptor carries no buffer. -/
theorem roundtrip_lso_counterexample :
    xmit_accepted (alx_start_xmit_ring (ex_ring8 0) false (ex_skb_lso 2) ex_dma_ok) ∧
      tx_in_flight (alx_start_xmit_ring (ex_ring8 0) false (ex_skb_lso 2) ex_dma_ok).txq = 3 ∧
      mapped_records (alx_start_xmit_ring (ex_ring8 0) false (ex_skb_lso 2) ex_dma_ok).txq = 2 ∧
      (alx_clean_tx_irq ex_params 8 false true 3
          (alx_start_xmit_ring (ex_ring8 0) false (ex_skb_lso 2) ex_dma_ok).txq false).map
        (fun r => (r.ret, r.txq.cidx, mapped_records r.txq, r.ev.countP Event.is_unmap)) =
        some (true, 3, 0, 2) := by
  decide

/-- C8, witness: an empty four-slot ring is filled with three buffers. -/
theorem alloc_rxring_buf_spec_witness :
    rx_wf ex_rxq4 ∧ (alx_alloc_rxring_buf 1536 ex_rxq4 ex_oracle).1 = 3 ∧
      (alx_alloc_rxring_buf 1536 ex_rxq4 ex_oracle).1 < ex_rxq4.count ∧
      (alx_alloc_rxring_buf 1536 ex_rxq4 ex_oracle).2.1.pidx =
        (ex_rxq4.pidx + (alx_alloc_rxring_buf 1536 ex_rxq4 ex_oracle).1) % ex_rxq4.count :=
  ⟨by decide, by decide, (alloc_rxring_buf_spec 1536 ex_rxq4 ex_oracle (by decide)).1,
    (alloc_rxring_buf_spec 1536 ex_rxq4 ex_oracle (by decide)).2.1⟩

/-- C10, witness: a running adapter with packets in flight is reinitialised
twice. -/
theorem reinit_twice_same_witness :
    ex_adapter.flags.HALT = false ∧ (∀ q ∈ ex_adapter.rxq, rx_wf q) ∧
      (ex_adapter.flags.RESETING = false →
        (alx_reinit 1 ex_adapter true 7 ex_oracle).isSome = true) ∧
      ∀ fuel r1, alx_reinit fuel ex_adapter true 7 ex_oracle = some r1 →
        ∃ r2, alx_reinit 1 r1.1 false 9 ex_oracle = some r2 ∧
          r2.1 = { r1.1 with netdev := { r1.1.netdev with trans_start := 9 } } ∧
          r2.2.2 = r1.2.2 ∧
          (∀ q ∈ r1.1.txq, q.pidx = 0 ∧ q.cidx = 0 ∧ ∀ x, tx_slot q x = alx_buffer.zero) ∧
          (∀ q ∈ r1.1.rxq, q.cidx = 0 ∧ q.rrd_cidx = 0) ∧
          r1.1.hw.link_up = false ∧ r1.1.hw.link_speed = SPEED_0 ∧
          r1.1.flags.HALT = false ∧ r1.1.flags.RESETING = false :=
  ⟨by decide, by decide,
    reinit_twice_same ex_adapter true false 7 9 ex_oracle (by decide) (by decide)⟩

/-! ### The order of the stages of a reset -/

theorem release_is_buffer_call (e : Event) (h : e.is_release = true) : e.is_buffer_call = true := by
  cases e <;> simp_all [Event.is_release, Event.is_buffer_call]

theorem stage_of_buffer_call (e : Event) (h : e.is_buffer_call = true) :
    (Effect.ext e).stage = none := by
  cases e <;> simp_all [Event.is_buffer_call, Effect.stage]

theorem filterMap_stage_ext (l : List Event) (h : ∀ e ∈ l, (Effect.ext e).stage = none) :
    (l.map Effect.ext).filterMap Effect.stage = [] := by
  induction l with
  | nil => rfl
  | cons x xs ih =>
    rw [List.map_cons, List.filterMap_cons, h x (List.mem_cons_self _ _)]
    exact ih (fun e he => h e (List.mem_cons_of_mem _ he))

theorem filterMap_event_ext (l : List Event) :
    (l.map Effect.ext).filterMap Effect.event = l := by
  induction l with
  | nil => rfl
  | cons x xs ih => simp [Effect.event, ih]

theorem free_tx_loop_calls (n : Nat) :
    ∀ (i : Nat) (txq : alx_tx_queue) (ev : List Event),
      (∀ e ∈ ev, e.is_buffer_call = true) →
      ∀ e ∈ (alx_free_txring_loop n i txq ev).2, e.is_buffer_call = true := by
  induction n with
  | zero => intro i txq ev h; simpa [alx_free_txring_loop] using h
  | succ n ih =>
    intro i txq ev h
    unfold alx_free_txring_loop
    apply ih
    intro e he
    rcases List.mem_append.1 he with h1 | h1
    · exact h e h1
    · exact release_is_buffer_call e (unmap_events txq i e h1)

theorem free_tx_calls (txq : alx_tx_queue) :
    ∀ e ∈ (alx_free_txring_buf txq).2, e.is_buffer_call = true := by
  intro e he
  unfold alx_free_txring_buf at he
  rcases List.mem_append.1 he with h1 | h1
  · exact free_tx_loop_calls _ _ _ _ (by simp) e h1
  · simp at h1; subst h1; rfl

theorem free_rx_loop_calls (n : Nat) :
    ∀ (i : Nat) (rxq : alx_rx_queue) (ev : List Event),
      (∀ e ∈ ev, e.is_buffer_call = true) →
      ∀ e ∈ (alx_free_rxring_loop n i rxq ev).2, e.is_buffer_call = true := by
  induction n with
  | zero => intro i rxq ev h; simpa [alx_free_rxring_loop] using h
  | succ n ih =>
    intro i rxq ev h
    unfold alx_free_rxring_loop
    dsimp only
    split
    · apply ih
      intro e he
      rcases List.mem_append.1 he with h1 | h1
      · exact h e h1
      · simp at h1
        rcases h1 with h1 | h1 <;> subst h1 <;> rfl
    · exact ih _ _ _ h

theorem free_rx_calls (rxq : alx_rx_queue) :
    ∀ e ∈ (alx_free_rxring_buf rxq).2, e.is_buffer_call = true := by
  intro e he
  unfold alx_free_rxring_buf at he
  rcases List.mem_append.1 he with h1 | h1
  · exact free_rx_loop_calls _ _ _ _ (by simp) e h1
  · unfold free_pending at h1
    rw [List.mem_filterMap] at h1
    obtain ⟨p, _, hp⟩ := h1
    cases hid : p.id with
    | none => rw [hid] at hp; simp at hp
    | some s => rw [hid] at hp; simp at hp; subst hp; rfl

theorem free_all_calls (a : alx_adapter) :
    ∀ e ∈ (alx_free_all_rings_buf a).2, e.is_buffer_call = true := by
  have ht : ∀ l : List alx_tx_queue, ∀ e ∈ (alx_free_all_txrings l).2, e.is_buffer_call = true := by
    intro l
    induction l with
    | nil => simp [alx_free_all_txrings]
    | cons q qs ih =>
      intro e he
      unfold alx_free_all_txrings at he
      rcases List.mem_append.1 he with h1 | h1
      · exact free_tx_calls q e h1
      · exact ih e h1
  have hr : ∀ l : List alx_rx_queue, ∀ e ∈ (alx_free_all_rxrings l).2, e.is_buffer_call = true := by
    intro l
    induction l with
    | nil => simp [alx_free_all_rxrings]
    | cons q qs ih =>
      intro e he
      unfold alx_free_all_rxrings at he
      rcases List.mem_append.1 he with h1 | h1
      · exact free_rx_calls q e h1
      · exact ih e h1
  intro e he
  unfold alx_free_all_rings_buf at he
  rcases List.mem_append.1 he with h1 | h1
  · exact ht _ e h1
  · exact hr _ e h1

theorem alloc_loop_calls (size : Nat) (o : List rx_alloc) :
    ∀ (cur next count : Nat) (rxq : alx_rx_queue) (ev : List Event),
      (∀ e ∈ ev, e.is_buffer_call = true) →
      ∀ e ∈ (alx_alloc_rxring_loop size o cur next count rxq ev).2.2.2.1,
        e.is_buffer_call = true := by
  induction o with
  | nil =>
    intro cur next count rxq ev h e he
    unfold alx_alloc_rxring_loop at he
    split_ifs at he
    · rcases List.mem_append.1 he with h1 | h1
      · exact h e h1
      · simp at h1; subst h1; rfl
    · exact h e he
  | cons x rest ih =>
    intro cur next count rxq ev h e he
    unfold alx_alloc_rxring_loop at he
    split_ifs at he
    · cases x with
      | alloc_fail =>
        rcases List.mem_append.1 he with h1 | h1
        · exact h e h1
        · simp at h1; subst h1; rfl
      | map_fail s =>
        rcases List.mem_append.1 he with h1 | h1
        · exact h e h1
        · simp at h1
          rcases h1 with h1 | h1 <;> subst h1 <;> rfl
      | ok s d => exact ih _ _ _ _ _ h e he
    · exact h e he

theorem alloc_calls (size : Nat) (rxq : alx_rx_queue) (o : List rx_alloc) :
    ∀ e ∈ (alx_alloc_rxring_buf size rxq o).2.2.1, e.is_buffer_call = true := by
  intro e he
  unfold alx_alloc_rxring_buf at he
  dsimp only at he
  split_ifs at he
  · rcases List.mem_append.1 he with h1 | h1
    · exact alloc_loop_calls size o _ _ _ _ _ (by simp) e h1
    · simp at h1
      rcases h1 with h1 | h1 <;> subst h1 <;> rfl
  · exact alloc_loop_calls size o _ _ _ _ _ (by simp) e he

theorem loop_trace_stages (size : Nat) (qs : List alx_rx_queue) :
    ∀ (i : Nat) (o : List rx_alloc),
      ∃ k, (alx_reinit_rings_loop_trace size i qs o).filterMap Effect.stage =
          List.replicate k reset_stage.post_rx ∧
        k ≤ qs.length ∧ (qs ≠ [] → 1 ≤ k) := by
  induction qs with
  | nil => intro i o; exact ⟨0, rfl, le_refl _, fun h => absurd rfl h⟩
  | cons q qs ih =>
    intro i o
    unfold alx_reinit_rings_loop_trace
    dsimp only
    have hev := filterMap_stage_ext (alx_alloc_rxring_buf size q o).2.2.1
      (fun e he => stage_of_buffer_call e (alloc_calls size q o e he))
    by_cases h0 : (alx_alloc_rxring_buf size q o).1 = 0
    · refine ⟨1, ?_, by simp, fun _ => le_refl _⟩
      rw [if_pos h0, List.append_nil, List.filterMap_append, hev]
      rfl
    · obtain ⟨k, hk, hle, _⟩ := ih (i + 1) (alx_alloc_rxring_buf size q o).2.2.2
      refine ⟨k + 1, ?_, by simp; omega, fun _ => by omega⟩
      rw [if_neg h0, List.filterMap_append, List.filterMap_append, hev, hk]
      simp [Effect.stage, List.replicate_succ]

theorem loop_trace_events (size : Nat) (qs : List alx_rx_queue) :
    ∀ (i : Nat) (o : List rx_alloc),
      (alx_reinit_rings_loop_trace size i qs o).filterMap Effect.event =
        (alx_reinit_rings_loop size qs o).2.2.1 := by
  induction qs with
  | nil => intro i o; rfl
  | cons q qs ih =>
    intro i o
    unfold alx_reinit_rings_loop_trace alx_reinit_rings_loop
    dsimp only
    by_cases h0 : (alx_alloc_rxring_buf size q o).1 = 0
    · rw [if_pos h0, if_pos h0, List.append_nil, List.filterMap_append, filterMap_event_ext]
      rfl
    · rw [if_neg h0, if_neg h0, List.filterMap_append, List.filterMap_append, filterMap_event_ext,
        ih]
      rfl

theorem netif_stop_stages (a : alx_adapter) (j : Nat) :
    ((alx_netif_stop a j).2.map Effect.ext).filterMap Effect.stage = [] := by
  apply filterMap_stage_ext
  intro e he
  unfold alx_netif_stop at he
  dsimp only at he
  split_ifs at he
  · simp at he
    rcases he with h | h | ⟨i, _, h⟩ <;> subst h <;> rfl
  · simp at he

theorem free_all_rxq_length (a : alx_adapter) :
    (alx_free_all_rings_buf a).1.rxq.length = a.rxq.length := by
  have hr : ∀ l : List alx_rx_queue, (alx_free_all_rxrings l).1.length = l.length := by
    intro l
    induction l with
    | nil => rfl
    | cons q qs ih => simp [alx_free_all_rxrings, ih]
  unfold alx_free_all_rings_buf
  exact hr _

theorem netif_stop_rxq (a : alx_adapter) (j : Nat) : (alx_netif_stop a j).1.rxq = a.rxq := by
  unfold alx_netif_stop
  dsimp only
  split_ifs <;> rfl

theorem halt_rxq_length (a : alx_adapter) (in_task : Bool) (j : Nat) :
    (alx_halt a in_task j).1.rxq.length = a.rxq.length := by
  unfold alx_halt
  dsimp only
  rw [free_all_rxq_length]
  dsimp only
  rw [netif_stop_rxq]

theorem halt_trace_stages (a : alx_adapter) (in_task : Bool) (j : Nat) :
    (alx_halt_trace a in_task j).filterMap Effect.stage =
      [reset_stage.set_halt, reset_stage.stop_traffic, reset_stage.reset_mac,
       reset_stage.free_buffers] := by
  unfold alx_halt_trace
  dsimp only
  have h1 : ((if in_task = false then alx_cancel_work.map Effect.ext else []) :
      List Effect).filterMap Effect.stage = [] := by
    split_ifs <;> rfl
  simp only [List.filterMap_append, h1, netif_stop_stages,
    filterMap_stage_ext _ (fun e he => stage_of_buffer_call e (free_all_calls _ e he))]
  simp [Effect.stage]

theorem halt_trace_events (a : alx_adapter) (in_task : Bool) (j : Nat) :
    (alx_halt_trace a in_task j).filterMap Effect.event = (alx_halt a in_task j).2 := by
  unfold alx_halt_trace alx_halt
  dsimp only
  have h1 : ((if in_task = false then alx_cancel_work.map Effect.ext else []) :
      List Effect).filterMap Effect.event = (if in_task = false then alx_cancel_work else []) := by
    split_ifs <;> rfl
  simp only [List.filterMap_append, h1, filterMap_event_ext]
  simp [Effect.event]

theorem activate_trace_stages (a : alx_adapter) (o : List rx_alloc) :
    ∃ k, (alx_activate_trace a o).filterMap Effect.stage =
        [reset_stage.free_buffers, reset_stage.ring_ptrs] ++
          List.replicate k reset_stage.post_rx ++
          [reset_stage.configure, reset_stage.clear_halt, reset_stage.irq_enable] ∧
      k ≤ a.rxq.length ∧ (a.rxq ≠ [] → 1 ≤ k) := by
  obtain ⟨k, hk, hle, hpos⟩ := loop_trace_stages a.rxbuf_size (alx_free_all_rings_buf a).1.rxq 0 o
  rw [free_all_rxq_length] at hle
  refine ⟨k, ?_, hle, fun hne => hpos (fun h => hne ?_)⟩
  · unfold alx_activate_trace alx_reinit_rings_trace
    dsimp only
    have h2 : ((alx_schedule_work false).map Effect.ext).filterMap Effect.stage = [] := by
      decide
    have h3 : ((alx_configure (alx_reinit_rings a o).2.1).map Effect.ext).filterMap Effect.stage
        = [] := by
      apply filterMap_stage_ext
      intro e he
      simp [alx_configure] at he
      rcases he with h | h | h | h <;> subst h <;> rfl
    simp only [List.filterMap_append, h2, h3, hk,
      filterMap_stage_ext _ (fun e he => stage_of_buffer_call e (free_all_calls _ e he))]
    simp [Effect.stage]
  · have := free_all_rxq_length a
    rw [h] at this
    exact List.length_eq_zero.1 this.symm

theorem activate_trace_events (a : alx_adapter) (o : List rx_alloc) :
    (alx_activate_trace a o).filterMap Effect.event = (alx_activate a o).2.1 := by
  unfold alx_activate_trace alx_activate alx_reinit_rings_trace alx_reinit_rings
  dsimp only
  simp only [List.filterMap_append, filterMap_event_ext, loop_trace_events]
  simp [Effect.event]

theorem reinit_trace_form (a : alx_adapter) (in_task : Bool) (jiffies : Nat)
    (oracle : List rx_alloc) (hH : a.flags.HALT = false) (hR : a.flags.RESETING = false) :
    alx_reinit_trace 1 a in_task jiffies oracle =
      some ([Effect.flag_set flag_bit.RESETING] ++
        alx_halt_trace { a with flags := { a.flags with RESETING := true } } in_task jiffies ++
        alx_activate_trace
          (alx_halt { a with flags := { a.flags with RESETING := true } } in_task jiffies).1
          oracle ++
        [Effect.flag_clear flag_bit.RESETING]) := by
  unfold alx_reinit_trace
  rw [if_neg (by simp [hR]), if_neg (by simp [hH])]

/-- C11 (amended). For a non-halted adapter with `RESETING` clear `alx_reinit`
returns, and the stages of its trace are, in this order: `HALT` set,
`alx_netif_stop`, `alx_reset_mac`, `alx_free_all_rings_buf` (once in
`alx_halt`, once more in `alx_reinit_rings`), `alx_init_ring_ptrs`, one
`alx_alloc_rxring_buf` for each RX queue up to the first that got no buffer,
`alx_configure`, `HALT` cleared, and only then `alx_irq_enable`. The
collaborator calls of the trace are those `alx_reinit` makes. -/
theorem reinit_stage_order (a : alx_adapter) (in_task : Bool) (jiffies : Nat)
    (oracle : List rx_alloc) (hH : a.flags.HALT = false) (hR : a.flags.RESETING = false) :
    ∃ t k, alx_reinit_trace 1 a in_task jiffies oracle = some t ∧
      t.filterMap Effect.stage =
        [reset_stage.set_halt, reset_stage.stop_traffic, reset_stage.reset_mac,
         reset_stage.free_buffers, reset_stage.free_buffers, reset_stage.ring_ptrs] ++
          List.replicate k reset_stage.post_rx ++
          [reset_stage.configure, reset_stage.clear_halt, reset_stage.irq_enable] ∧
      k ≤ a.rxq.length ∧ (a.rxq ≠ [] → 1 ≤ k) ∧
      (alx_reinit 1 a in_task jiffies oracle).map (fun r => r.2.1) =
        some (t.filterMap Effect.event) := by
  obtain ⟨k, hk, hle, hpos⟩ := activate_trace_stages
    (alx_halt { a with flags := { a.flags with RESETING := true } } in_task jiffies).1 oracle
  rw [halt_rxq_length] at hle
  refine ⟨_, k, reinit_trace_form a in_task jiffies oracle hH hR, ?_, hle, ?_, ?_⟩
  · simp only [List.filterMap_append, halt_trace_stages, hk]
    simp [Effect.stage]
  · intro hne
    apply hpos
    intro h
    have := halt_rxq_length { a with flags := { a.flags with RESETING := true } } in_task jiffies
    rw [h] at this
    exact hne (List.length_eq_zero.1 this.symm)
  · unfold alx_reinit
    rw [if_neg (by simp [hR]), if_neg (by simp [hH])]
    simp only [Option.map_some', List.filterMap_append, halt_trace_events, activate_trace_events]
    simp [Effect.event]

/-- C11, witness: the reset of a running adapter with packets in flight. -/
theorem reinit_stage_order_witness :
    ex_adapter.flags.HALT = false ∧ ex_adapter.flags.RESETING = false ∧
      ∃ t k, alx_reinit_trace 1 ex_adapter true 7 ex_oracle = some t ∧
        t.filterMap Effect.stage =
          [reset_stage.set_halt, reset_stage.stop_traffic, reset_stage.reset_mac,
           reset_stage.free_buffers, reset_stage.free_buffers, reset_stage.ring_ptrs] ++
            List.replicate k reset_stage.post_rx ++
            [reset_stage.configure, reset_stage.clear_halt, reset_stage.irq_enable] ∧
        k ≤ ex_adapter.rxq.length ∧ (ex_adapter.rxq ≠ [] → 1 ≤ k) ∧
        (alx_reinit 1 ex_adapter true 7 ex_oracle).map (fun r => r.2.1) =
          some (t.filterMap Effect.event) :=
  ⟨by decide, by decide,
    reinit_stage_order ex_adapter true 7 ex_oracle (by decide) (by decide)⟩

/-- C11, counterexample to the claim as stated: in the reset of a running
adapter `HALT` is cleared once and `alx_irq_enable` is called once, and the
clearing of `HALT` comes first; likewise the RX buffers are posted before
`alx_configure` programs the hardware configuration. -/
theorem reinit_halt_cleared_first_counterexample :
    (alx_reinit_trace 1 ex_adapter true 7 ex_oracle).map
      (fun t =>
        (t.count (Effect.flag_clear flag_bit.HALT), t.count (Effect.ext Event.irq_enable),
         decide (t.indexOf (Effect.flag_clear flag_bit.HALT) <
           t.indexOf (Effect.ext Event.irq_enable)),
         decide (t.indexOf (Effect.enter (alx_fn.alx_alloc_rxring_buf 0)) <
           t.indexOf (Effect.enter alx_fn.alx_configure)))) =
      some (1, 1, true, true) := by
  decide

/-! ### The link check `alx_check_link` -/

/-- C12. With `HALT` set `alx_check_link` returns at once, whatever the PHY
would report: the adapter (link state, `imask`, task flags, rings, netdev
state) is unchanged and the trace is empty, so the PHY is not read, the MAC is
neither started nor reset, the rings are not reinitialised and upper-layer
traffic is neither started nor stopped. -/
theorem check_link_halted_noop (B : alx_isr) (C : alx_caps) (E : link_env) (a : alx_adapter)
    (oracle : List rx_alloc) (hH : a.flags.HALT = true) :
    alx_check_link B C E a oracle = (a, [], oracle) := by
  unfold alx_check_link
  rw [if_pos hH]

theorem netif_stop_hw (a : alx_adapter) (j : Nat) : (alx_netif_stop a j).1.hw = a.hw := by
  unfold alx_netif_stop
  dsimp only
  split_ifs <;> rfl

theorem netif_stop_flags (a : alx_adapter) (j : Nat) :
    (alx_netif_stop a j).1.flags = a.flags := by
  unfold alx_netif_stop
  dsimp only
  split_ifs <;> rfl

theorem reinit_rings_hw (a : alx_adapter) (o : List rx_alloc) :
    (alx_reinit_rings a o).2.1.hw = a.hw := by
  unfold alx_reinit_rings alx_free_all_rings_buf
  rfl

theorem reinit_rings_flags (a : alx_adapter) (o : List rx_alloc) :
    (alx_reinit_rings a o).2.1.flags = a.flags := by
  unfold alx_reinit_rings alx_free_all_rings_buf
  rfl

theorem ext_is_ring_step (l : List Event) : ∀ x ∈ l.map Effect.ext, x.is_ring_step = true := by
  intro x hx
  rw [List.mem_map] at hx
  obtain ⟨e, _, rfl⟩ := hx
  rfl

theorem loop_trace_ring_steps (size : Nat) (qs : List alx_rx_queue) :
    ∀ (i : Nat) (o : List rx_alloc),
      ∀ x ∈ alx_reinit_rings_loop_trace size i qs o, x.is_ring_step = true := by
  induction qs with
  | nil => intro i o x hx; simp [alx_reinit_rings_loop_trace] at hx
  | cons q qs ih =>
    intro i o x hx
    unfold alx_reinit_rings_loop_trace at hx
    dsimp only at hx
    rcases List.mem_append.1 hx with h | h
    · rcases List.mem_append.1 h with h | h
      · simp at h; subst h; rfl
      · exact ext_is_ring_step _ x h
    · split_ifs at h
      · simp at h
      · exact ih _ _ x h

theorem reinit_rings_trace_steps (a : alx_adapter) (o : List rx_alloc) :
    ∀ x ∈ alx_reinit_rings_trace a o, x.is_ring_step = true := by
  intro x hx
  unfold alx_reinit_rings_trace at hx
  dsimp only at hx
  rcases List.mem_append.1 hx with h | h
  · rcases List.mem_append.1 h with h | h
    · rcases List.mem_append.1 h with h | h
      · simp at h
        rcases h with h | h <;> subst h <;> rfl
      · exact ext_is_ring_step _ x h
    · simp at h; subst h; rfl
  · exact loop_trace_ring_steps _ _ _ _ x h

theorem u16_idem (n : Nat) : u16 (u16 n) = u16 n := by
  unfold u16
  omega

theorem speed_split (s : Nat) : s - s % 10 + s % 10 = s := by
  omega

/-- C13. With `HALT` clear and a successful PHY read: if the reading equals
the stored link state (both down, or both up with the `u16` sum
`link_speed + link_duplex` equal to the speed read), `alx_check_link` only
clears the PHY interrupt, reads the PHY and opens `ALX_ISR_PHY` in `imask`;
`link_up`, `link_speed`, `link_duplex`, the flags, the rings and the netdev
state are unchanged and there is no MAC start or reset, no ring
reinitialisation and no traffic start or stop. After any call with a reading
that has the link up, the stored state equals the reading, so a second call
with the same reading is such a no-op. -/
theorem check_link_same_reading_noop (B : alx_isr) (C : alx_caps) (E : link_env)
    (a : alx_adapter) (oracle : List rx_alloc)
    (hH : a.flags.HALT = false) (hphy : E.phy_err = 0) :
    (((E.phy_link_up = false ∧ a.hw.link_up = false) ∨
        (E.phy_link_up = true ∧ a.hw.link_up = true ∧
          u16 (a.hw.link_speed + a.hw.link_duplex) = u16 E.phy_speed)) →
      alx_check_link B C E a oracle =
        ({ a with hw := { a.hw with imask := u32 (a.hw.imask ||| B.ALX_ISR_PHY) } },
         [Effect.ext Event.clear_phy_intr, Effect.ext Event.get_phy_link,
          Effect.ext (Event.mem_w32_imr (u32 (a.hw.imask ||| B.ALX_ISR_PHY)))], oracle)) ∧
      (E.phy_link_up = true →
        (alx_check_link B C E a oracle).1.flags.HALT = false ∧
        (alx_check_link B C E a oracle).1.hw.link_up = true ∧
        u16 ((alx_check_link B C E a oracle).1.hw.link_speed +
          (alx_check_link B C E a oracle).1.hw.link_duplex) = u16 E.phy_speed ∧
        ∀ E2 : link_env, E2.phy_err = 0 → E2.phy_link_up = true →
          u16 E2.phy_speed = u16 E.phy_speed →
          alx_check_link B C E2 (alx_check_link B C E a oracle).1
              (alx_check_link B C E a oracle).2.2 =
            ({ (alx_check_link B C E a oracle).1 with
                hw := { (alx_check_link B C E a oracle).1.hw with
                  imask := u32 ((alx_check_link B C E a oracle).1.hw.imask |||
                    B.ALX_ISR_PHY) } },
             [Effect.ext Event.clear_phy_intr, Effect.ext Event.get_phy_link,
              Effect.ext (Event.mem_w32_imr
                (u32 ((alx_check_link B C E a oracle).1.hw.imask ||| B.ALX_ISR_PHY)))],
             (alx_check_link B C E a oracle).2.2)) := by
  have key : ∀ (E1 : link_env) (b : alx_adapter) (o : List rx_alloc),
      b.flags.HALT = false → E1.phy_err = 0 →
      ((E1.phy_link_up = false ∧ b.hw.link_up = false) ∨
        (E1.phy_link_up = true ∧ b.hw.link_up = true ∧
          u16 (b.hw.link_speed + b.hw.link_duplex) = u16 E1.phy_speed)) →
      alx_check_link B C E1 b o =
        ({ b with hw := { b.hw with imask := u32 (b.hw.imask ||| B.ALX_ISR_PHY) } },
         [Effect.ext Event.clear_phy_intr, Effect.ext Event.get_phy_link,
          Effect.ext (Event.mem_w32_imr (u32 (b.hw.imask ||| B.ALX_ISR_PHY)))], o) := by
    intro E1 b o hb he hs
    unfold alx_check_link
    rw [if_neg (by simp [hb]), if_neg (by simp [he])]
    dsimp only
    rcases hs with ⟨h1, h2⟩ | ⟨h1, h2, h3⟩
    · rw [if_pos ⟨h1, h2⟩]
      simp [alx_check_link_out]
    · rw [if_neg (by simp [h1]), if_pos h1, if_pos ⟨h2, h3⟩]
      simp [alx_check_link_out]
  refine ⟨key E a oracle hH hphy, ?_⟩
  intro hup
  have hst : (alx_check_link B C E a oracle).1.flags.HALT = false ∧
      (alx_check_link B C E a oracle).1.hw.link_up = true ∧
      u16 ((alx_check_link B C E a oracle).1.hw.link_speed +
        (alx_check_link B C E a oracle).1.hw.link_duplex) = u16 E.phy_speed := by
    by_cases hs : a.hw.link_up = true ∧
        u16 (a.hw.link_speed + a.hw.link_duplex) = u16 E.phy_speed
    · rw [key E a oracle hH hphy (Or.inr ⟨hup, hs.1, hs.2⟩)]
      exact ⟨hH, hs.1, hs.2⟩
    · unfold alx_check_link
      rw [if_neg (by simp [hH]), if_neg (by simp [hphy])]
      dsimp only
      rw [if_neg (by simp [hup]), if_pos hup, if_neg hs]
      unfold alx_check_link_up
      dsimp only
      split_ifs <;>
        simp [alx_check_link_out, alx_netif_start, hH, speed_split, u16_idem]
  refine ⟨hst.1, hst.2.1, hst.2.2, ?_⟩
  intro E2 he2 hu2 hsp
  exact key E2 _ _ hst.1 he2 (Or.inr ⟨hu2, hst.2.1, by rw [hst.2.2, hsp]⟩)

theorem enter_not_in_ext (f : alx_fn) (l : List Event) : Effect.enter f ∉ l.map Effect.ext := by
  intro h
  rw [List.mem_map] at h
  obtain ⟨e, _, he⟩ := h
  cases he

theorem flag_not_in_ext (b : flag_bit) (l : List Event) :
    Effect.flag_set b ∉ l.map Effect.ext := by
  intro h
  rw [List.mem_map] at h
  obtain ⟨e, _, he⟩ := h
  cases he

theorem check_link_out_spec (a : alx_adapter) (tr : List Effect) (err : Int)
    (o : List rx_alloc) :
    (alx_check_link_out a tr err o).1.hw = a.hw ∧
      (alx_check_link_out a tr err o).1.txq = a.txq ∧
      (alx_check_link_out a tr err o).1.rxq = a.rxq ∧
      (err ≠ 0 → (alx_check_link_out a tr err o).1.flags.TASK_RESET = true) ∧
      (err = 0 → (alx_check_link_out a tr err o).1 = a ∧ (alx_check_link_out a tr err o).2.1 = tr) ∧
      (∀ x ∈ tr, x ∈ (alx_check_link_out a tr err o).2.1) ∧
      (∀ f, Effect.enter f ∈ (alx_check_link_out a tr err o).2.1 → Effect.enter f ∈ tr) ∧
      (Effect.flag_set flag_bit.TASK_RESET ∈ (alx_check_link_out a tr err o).2.1 ↔
        (err ≠ 0 ∨ Effect.flag_set flag_bit.TASK_RESET ∈ tr)) := by
  unfold alx_check_link_out
  by_cases h : err ≠ 0
  · rw [if_pos h]
    refine ⟨rfl, rfl, rfl, fun _ => rfl, fun h0 => absurd h0 h, ?_, ?_, ?_⟩
    · intro x hx
      simp [hx]
    · intro f hf
      simp only [List.mem_append] at hf
      rcases hf with (hf | hf) | hf
      · exact hf
      · simp at hf
      · exact absurd hf (enter_not_in_ext f _)
    · simp [h]
  · rw [if_neg h]
    push_neg at h
    refine ⟨rfl, rfl, rfl, fun h1 => absurd h h1, fun _ => ⟨rfl, rfl⟩, fun x hx => hx,
      fun f hf => hf, ?_⟩
    simp [h]

theorem netif_stop_txq (a : alx_adapter) (j : Nat) : (alx_netif_stop a j).1.txq = a.txq := by
  unfold alx_netif_stop
  dsimp only
  split_ifs <;> rfl

theorem check_link_up_spec (C : alx_caps) (a : alx_adapter) (tr : List Effect) (speed : Nat)
    (old : Bool) (o : List rx_alloc)
    (htr : Effect.enter alx_fn.alx_netif_start ∉ tr) :
    (alx_check_link_up C a tr speed old o).1.hw.link_duplex = speed % 10 ∧
      (alx_check_link_up C a tr speed old o).1.hw.link_speed = speed - speed % 10 ∧
      (alx_check_link_up C a tr speed old o).1.hw.link_up = true ∧
      Effect.ext Event.start_mac ∈ (alx_check_link_up C a tr speed old o).2.1 ∧
      (Effect.enter alx_fn.alx_netif_start ∈ (alx_check_link_up C a tr speed old o).2.1 ↔
        old = false) := by
  unfold alx_check_link_up
  dsimp only
  by_cases ho : old = true
  · rw [if_pos ho]
    simp [alx_check_link_out, htr, ho]
  · rw [if_neg ho]
    simp [alx_check_link_out, alx_netif_start, ho]

theorem check_link_down_spec (C : alx_caps) (E : link_env) (a : alx_adapter)
    (tr : List Effect) (o : List rx_alloc)
    (h1 : Effect.enter alx_fn.alx_netif_start ∉ tr)
    (h2 : Effect.enter alx_fn.alx_reinit_rings ∉ tr)
    (h3 : Effect.flag_set flag_bit.TASK_RESET ∉ tr) :
    Effect.enter alx_fn.alx_netif_stop ∈ (alx_check_link_down C E a tr o).2.1 ∧
      (alx_check_link_down C E a tr o).1.hw.link_up = false ∧
      (alx_check_link_down C E a tr o).1.hw.link_speed = SPEED_0 ∧
      Effect.ext Event.reset_mac ∈ (alx_check_link_down C E a tr o).2.1 ∧
      Effect.enter alx_fn.alx_netif_start ∉ (alx_check_link_down C E a tr o).2.1 ∧
      (Effect.enter alx_fn.alx_reinit_rings ∈ (alx_check_link_down C E a tr o).2.1 ↔
        E.reset_mac_err = 0) ∧
      (E.reset_mac_err ≠ 0 →
        (alx_check_link_down C E a tr o).1.txq = a.txq ∧
        (alx_check_link_down C E a tr o).1.rxq = a.rxq) ∧
      (Effect.flag_set flag_bit.TASK_RESET ∈ (alx_check_link_down C E a tr o).2.1 ↔
        (E.reset_mac_err ≠ 0 ∨
          (alx_reinit_rings
            { (alx_netif_stop a E.jiffies).1 with
                hw := { (alx_netif_stop a E.jiffies).1.hw with
                  link_up := false, link_speed := SPEED_0 } } o).1 ≠ 0)) ∧
      ((E.reset_mac_err ≠ 0 ∨
          (alx_reinit_rings
            { (alx_netif_stop a E.jiffies).1 with
                hw := { (alx_netif_stop a E.jiffies).1.hw with
                  link_up := false, link_speed := SPEED_0 } } o).1 ≠ 0) →
        (alx_check_link_down C E a tr o).1.flags.TASK_RESET = true) := by
  unfold alx_check_link_down
  dsimp only
  by_cases hr : E.reset_mac_err ≠ 0
  · rw [if_pos hr]
    have hs := check_link_out_spec
      { (alx_netif_stop a E.jiffies).1 with
          hw := { (alx_netif_stop a E.jiffies).1.hw with link_up := false, link_speed := SPEED_0 } }
      (tr ++ [Effect.enter alx_fn.alx_netif_stop] ++ (alx_netif_stop a E.jiffies).2.map Effect.ext ++
        [Effect.ext Event.reset_mac] ++ [Effect.ext Event.netif_err_reset_mac]) (- EIO) o
    obtain ⟨s1, s2, s3, s4, _, s6, s7, s8⟩ := hs
    have hne : (- EIO : Int) ≠ 0 := by decide
    refine ⟨s6 _ (by simp), by rw [s1], by rw [s1], s6 _ (by simp), ?_, ?_, ?_, ?_, ?_⟩
    · intro h
      have := s7 _ h
      simp [h1, enter_not_in_ext] at this
    · constructor
      · intro h
        have := s7 _ h
        simp [h2, enter_not_in_ext] at this
      · intro h; exact absurd h hr
    · intro _
      rw [s2, s3]
      exact ⟨netif_stop_txq a E.jiffies, netif_stop_rxq a E.jiffies⟩
    · rw [s8]
      simp [hr, hne]
    · intro _
      exact s4 hne
  · rw [if_neg hr]
    push_neg at hr
    have hin : Effect.enter alx_fn.alx_reinit_rings ∈
        alx_reinit_rings_trace
          { (alx_netif_stop a E.jiffies).1 with
              hw := { (alx_netif_stop a E.jiffies).1.hw with
                link_up := false, link_speed := SPEED_0 } } o := by
      unfold alx_reinit_rings_trace
      simp
    have hno1 : Effect.enter alx_fn.alx_netif_start ∉
        alx_reinit_rings_trace
          { (alx_netif_stop a E.jiffies).1 with
              hw := { (alx_netif_stop a E.jiffies).1.hw with
                link_up := false, link_speed := SPEED_0 } } o := by
      intro h
      have := reinit_rings_trace_steps _ _ _ h
      simp [Effect.is_ring_step] at this
    have hno3 : Effect.flag_set flag_bit.TASK_RESET ∉
        alx_reinit_rings_trace
          { (alx_netif_stop a E.jiffies).1 with
              hw := { (alx_netif_stop a E.jiffies).1.hw with
                link_up := false, link_speed := SPEED_0 } } o := by
      intro h
      have := reinit_rings_trace_steps _ _ _ h
      simp [Effect.is_ring_step] at this
    by_cases hi : (alx_reinit_rings
        { (alx_netif_stop a E.jiffies).1 with
            hw := { (alx_netif_stop a E.jiffies).1.hw with
              link_up := false, link_speed := SPEED_0 } } o).1 ≠ 0
    · rw [if_pos hi]
      obtain ⟨s1, _, _, s4, _, s6, s7, s8⟩ := check_link_out_spec
        (alx_reinit_rings
          { (alx_netif_stop a E.jiffies).1 with
              hw := { (alx_netif_stop a E.jiffies).1.hw with
                link_up := false, link_speed := SPEED_0 } } o).2.1
        (tr ++ [Effect.enter alx_fn.alx_netif_stop] ++
          (alx_netif_stop a E.jiffies).2.map Effect.ext ++ [Effect.ext Event.reset_mac] ++
          [Effect.ext Event.irq_disable] ++
          alx_reinit_rings_trace
            { (alx_netif_stop a E.jiffies).1 with
                hw := { (alx_netif_stop a E.jiffies).1.hw with
                  link_up := false, link_speed := SPEED_0 } } o)
        (alx_reinit_rings
          { (alx_netif_stop a E.jiffies).1 with
              hw := { (alx_netif_stop a E.jiffies).1.hw with
                link_up := false, link_speed := SPEED_0 } } o).1
        (alx_reinit_rings
          { (alx_netif_stop a E.jiffies).1 with
              hw := { (alx_netif_stop a E.jiffies).1.hw with
                link_up := false, link_speed := SPEED_0 } } o).2.2.2
      refine ⟨s6 _ (by simp), by rw [s1, reinit_rings_hw], by rw [s1, reinit_rings_hw],
        s6 _ (by simp), ?_, ?_, fun h => absurd hr h, ?_, fun _ => s4 hi⟩
      · intro h
        have := s7 _ h
        simp [h1, enter_not_in_ext, hno1] at this
      · exact ⟨fun _ => hr, fun _ => s6 _ (by simp [hin])⟩
      · rw [s8]
        simp [hi]
    · rw [if_neg hi]
      push_neg at hi
      obtain ⟨s1, _, _, _, _, s6, s7, s8⟩ := check_link_out_spec
        (alx_reinit_rings
          { (alx_netif_stop a E.jiffies).1 with
              hw := { (alx_netif_stop a E.jiffies).1.hw with
                link_up := false, link_speed := SPEED_0 } } o).2.1
        (tr ++ [Effect.enter alx_fn.alx_netif_stop] ++
          (alx_netif_stop a E.jiffies).2.map Effect.ext ++ [Effect.ext Event.reset_mac] ++
          [Effect.ext Event.irq_disable] ++
          alx_reinit_rings_trace
            { (alx_netif_stop a E.jiffies).1 with
                hw := { (alx_netif_stop a E.jiffies).1.hw with
                  link_up := false, link_speed := SPEED_0 } } o ++
          [Effect.enter alx_fn.alx_configure] ++
          (alx_configure (alx_reinit_rings
            { (alx_netif_stop a E.jiffies).1 with
                hw := { (alx_netif_stop a E.jiffies).1.hw with
                  link_up := false, link_speed := SPEED_0 } } o).2.1).map Effect.ext ++
          [Effect.ext (Event.enable_aspm false C.L1), Effect.ext (Event.post_phy_link SPEED_0 C.AZ),
           Effect.ext Event.irq_enable])
        0
        (alx_reinit_rings
          { (alx_netif_stop a E.jiffies).1 with
              hw := { (alx_netif_stop a E.jiffies).1.hw with
                link_up := false, link_speed := SPEED_0 } } o).2.2.2
      refine ⟨s6 _ (by simp), by rw [s1, reinit_rings_hw], by rw [s1, reinit_rings_hw],
        s6 _ (by simp), ?_, ?_, fun h => absurd hr h, ?_, ?_⟩
      · intro h
        have := s7 _ h
        simp [h1, enter_not_in_ext, hno1] at this
      · exact ⟨fun _ => hr, fun _ => s6 _ (by simp [hin])⟩
      · rw [s8]
        simp [hi, hr, h3, hno3, flag_not_in_ext]
      · intro h
        rcases h with h | h
        · exact absurd hr h
        · exact absurd hi h

/-- C14 (amended). With `HALT` clear and a successful PHY read:
`alx_check_link` calls `alx_netif_start` exactly when the stored link was down
and the reading is up; on a reading up with a changed speed while the stored
link is up it stores `link_duplex = speed % 10`, `link_speed = speed -
link_duplex`, calls `alx_start_mac` and does not call `alx_netif_start`; on a
stored link up and a reading down it calls `alx_netif_stop`, sets `link_up`
false and `link_speed` to `SPEED_0`, calls `alx_reset_mac` and, exactly when
that reset succeeded, `alx_reinit_rings` (after a failed reset the rings are
as before); it sets `TASK_RESET` exactly when the MAC reset or the ring
reinitialisation failed. -/
theorem check_link_transitions (B : alx_isr) (C : alx_caps) (E : link_env) (a : alx_adapter)
    (oracle : List rx_alloc) (hH : a.flags.HALT = false) (hphy : E.phy_err = 0) :
    (Effect.enter alx_fn.alx_netif_start ∈ (alx_check_link B C E a oracle).2.1 ↔
        (a.hw.link_up = false ∧ E.phy_link_up = true)) ∧
      (a.hw.link_up = true → E.phy_link_up = true →
        u16 (a.hw.link_speed + a.hw.link_duplex) ≠ u16 E.phy_speed →
        (alx_check_link B C E a oracle).1.hw.link_duplex = u16 E.phy_speed % 10 ∧
        (alx_check_link B C E a oracle).1.hw.link_speed =
          u16 E.phy_speed - u16 E.phy_speed % 10 ∧
        (alx_check_link B C E a oracle).1.hw.link_up = true ∧
        Effect.ext Event.start_mac ∈ (alx_check_link B C E a oracle).2.1) ∧
      (a.hw.link_up = true → E.phy_link_up = false →
        Effect.enter alx_fn.alx_netif_stop ∈ (alx_check_link B C E a oracle).2.1 ∧
        (alx_check_link B C E a oracle).1.hw.link_up = false ∧
        (alx_check_link B C E a oracle).1.hw.link_speed = SPEED_0 ∧
        Effect.ext Event.reset_mac ∈ (alx_check_link B C E a oracle).2.1 ∧
        (Effect.enter alx_fn.alx_reinit_rings ∈ (alx_check_link B C E a oracle).2.1 ↔
          E.reset_mac_err = 0) ∧
        (E.reset_mac_err ≠ 0 →
          (alx_check_link B C E a oracle).1.txq = a.txq ∧
          (alx_check_link B C E a oracle).1.rxq = a.rxq) ∧
        (Effect.flag_set flag_bit.TASK_RESET ∈ (alx_check_link B C E a oracle).2.1 ↔
          (E.reset_mac_err ≠ 0 ∨
            (alx_reinit_rings (link_down_state B E a) oracle).1 ≠ 0)) ∧
        ((E.reset_mac_err ≠ 0 ∨ (alx_reinit_rings (link_down_state B E a) oracle).1 ≠ 0) →
          (alx_check_link B C E a oracle).1.flags.TASK_RESET = true)) := by
  have hpre : ∀ f, Effect.enter f ∉
      [Effect.ext Event.clear_phy_intr, Effect.ext Event.get_phy_link,
       Effect.ext (Event.mem_w32_imr (u32 (a.hw.imask ||| B.ALX_ISR_PHY)))] := by
    intro f; simp
  have hpre2 : Effect.flag_set flag_bit.TASK_RESET ∉
      [Effect.ext Event.clear_phy_intr, Effect.ext Event.get_phy_link,
       Effect.ext (Event.mem_w32_imr (u32 (a.hw.imask ||| B.ALX_ISR_PHY)))] := by
    simp
  unfold alx_check_link
  rw [if_neg (by simp [hH]), if_neg (by simp [hphy])]
  dsimp only
  by_cases hdd : E.phy_link_up = false ∧ a.hw.link_up = false
  · rw [if_pos hdd]
    simp [alx_check_link_out, hdd.1, hdd.2]
  · rw [if_neg hdd]
    by_cases hup : E.phy_link_up = true
    · rw [if_pos hup]
      by_cases hs : a.hw.link_up = true ∧
          u16 (a.hw.link_speed + a.hw.link_duplex) = u16 E.phy_speed
      · rw [if_pos hs]
        simp [alx_check_link_out, hup, hs.1, hs.2]
      · rw [if_neg hs]
        obtain ⟨u1, u2, u3, u4, u5⟩ := check_link_up_spec C
          { a with hw := { a.hw with imask := u32 (a.hw.imask ||| B.ALX_ISR_PHY) } }
          [Effect.ext Event.clear_phy_intr, Effect.ext Event.get_phy_link,
           Effect.ext (Event.mem_w32_imr (u32 (a.hw.imask ||| B.ALX_ISR_PHY)))]
          (u16 E.phy_speed) a.hw.link_up oracle (hpre _)
        refine ⟨?_, fun _ _ _ => ⟨u1, u2, u3, u4⟩, fun _ h => ?_⟩
        · exact u5.trans (by simp [hup])
        · rw [hup] at h
          cases h
    · have hdn : E.phy_link_up = false := by simpa using hup
      have hst : a.hw.link_up = true := by
        by_contra h
        exact hdd ⟨hdn, by simpa using h⟩
      rw [if_neg hup]
      obtain ⟨d1, d2, d3, d4, d5, d6, d7, d8, d9⟩ := check_link_down_spec C E
        { a with hw := { a.hw with imask := u32 (a.hw.imask ||| B.ALX_ISR_PHY) } }
        [Effect.ext Event.clear_phy_intr, Effect.ext Event.get_phy_link,
         Effect.ext (Event.mem_w32_imr (u32 (a.hw.imask ||| B.ALX_ISR_PHY)))]
        oracle (hpre _) (hpre _) hpre2
      refine ⟨?_, fun _ h => ?_, fun _ _ => ⟨d1, d2, d3, d4, d6, d7, d8, d9⟩⟩
      · constructor
        · intro h; exact absurd h d5
        · intro h; rw [hst] at h; cases h.1
      · rw [hdn] at h
        cases h

/-- C12, witness: a halted adapter with the stored link down and a PHY that
would report the link up. -/
theorem check_link_halted_noop_witness :
    ex_adapter_halted.flags.HALT = true ∧ ex_adapter_halted.hw.link_up = false ∧
      ex_link_up_env.phy_link_up = true ∧
      alx_check_link ex_isr ex_caps ex_link_up_env ex_adapter_halted ex_oracle =
        (ex_adapter_halted, [], ex_oracle) :=
  ⟨by decide, by decide, by decide,
    check_link_halted_noop ex_isr ex_caps ex_link_up_env ex_adapter_halted ex_oracle (by decide)⟩

/-- C13, witness: a link-up update at 1000 Mb/s full duplex followed by a
second check with the same reading. -/
theorem check_link_same_reading_noop_witness :
    ex_adapter_down.flags.HALT = false ∧ ex_link_up_env.phy_err = 0 ∧
      (alx_check_link ex_isr ex_caps ex_link_up_env ex_adapter_down ex_oracle).1.hw.link_up
        = true ∧
      u16 ((alx_check_link ex_isr ex_caps ex_link_up_env ex_adapter_down ex_oracle).1.hw.link_speed +
        (alx_check_link ex_isr ex_caps ex_link_up_env ex_adapter_down ex_oracle).1.hw.link_duplex)
        = u16 ex_link_up_env.phy_speed ∧
      alx_check_link ex_isr ex_caps ex_link_up_env
          (alx_check_link ex_isr ex_caps ex_link_up_env ex_adapter_down ex_oracle).1
          (alx_check_link ex_isr ex_caps ex_link_up_env ex_adapter_down ex_oracle).2.2 =
        ({ (alx_check_link ex_isr ex_caps ex_link_up_env ex_adapter_down ex_oracle).1 with
            hw := { (alx_check_link ex_isr ex_caps ex_link_up_env ex_adapter_down ex_oracle).1.hw with
              imask := u32 ((alx_check_link ex_isr ex_caps ex_link_up_env ex_adapter_down
                ex_oracle).1.hw.imask ||| ex_isr.ALX_ISR_PHY) } },
         [Effect.ext Event.clear_phy_intr, Effect.ext Event.get_phy_link,
          Effect.ext (Event.mem_w32_imr
            (u32 ((alx_check_link ex_isr ex_caps ex_link_up_env ex_adapter_down
              ex_oracle).1.hw.imask ||| ex_isr.ALX_ISR_PHY)))],
         (alx_check_link ex_isr ex_caps ex_link_up_env ex_adapter_down ex_oracle).2.2) :=
  ⟨by decide, by decide,
    ((check_link_same_reading_noop ex_isr ex_caps ex_link_up_env ex_adapter_down ex_oracle
      (by decide) (by decide)).2 (by decide)).2.1,
    ((check_link_same_reading_noop ex_isr ex_caps ex_link_up_env ex_adapter_down ex_oracle
      (by decide) (by decide)).2 (by decide)).2.2.1,
    ((check_link_same_reading_noop ex_isr ex_caps ex_link_up_env ex_adapter_down ex_oracle
      (by decide) (by decide)).2 (by decide)).2.2.2 ex_link_up_env (by decide) (by decide) rfl⟩

/-- C14, witness: the link of a running adapter goes down and the MAC reset
succeeds. -/
theorem check_link_transitions_witness :
    ex_adapter.flags.HALT = false ∧ (ex_link_down_env 0).phy_err = 0 ∧
      ex_adapter.hw.link_up = true ∧ (ex_link_down_env 0).phy_link_up = false ∧
      Effect.enter alx_fn.alx_netif_stop ∈
        (alx_check_link ex_isr ex_caps (ex_link_down_env 0) ex_adapter ex_oracle).2.1 ∧
      (alx_check_link ex_isr ex_caps (ex_link_down_env 0) ex_adapter ex_oracle).1.hw.link_up
        = false ∧
      (alx_check_link ex_isr ex_caps (ex_link_down_env 0) ex_adapter ex_oracle).1.hw.link_speed
        = SPEED_0 ∧
      Effect.ext Event.reset_mac ∈
        (alx_check_link ex_isr ex_caps (ex_link_down_env 0) ex_adapter ex_oracle).2.1 ∧
      (Effect.enter alx_fn.alx_reinit_rings ∈
          (alx_check_link ex_isr ex_caps (ex_link_down_env 0) ex_adapter ex_oracle).2.1 ↔
        (ex_link_down_env 0).reset_mac_err = 0) :=
  ⟨by decide, by decide, by decide, by decide,
    ((check_link_transitions ex_isr ex_caps (ex_link_down_env 0) ex_adapter ex_oracle
      (by decide) (by decide)).2.2 (by decide) (by decide)).1,
    ((check_link_transitions ex_isr ex_caps (ex_link_down_env 0) ex_adapter ex_oracle
      (by decide) (by decide)).2.2 (by decide) (by decide)).2.1,
    ((check_link_transitions ex_isr ex_caps (ex_link_down_env 0) ex_adapter ex_oracle
      (by decide) (by decide)).2.2 (by decide) (by decide)).2.2.1,
    ((check_link_transitions ex_isr ex_caps (ex_link_down_env 0) ex_adapter ex_oracle
      (by decide) (by decide)).2.2 (by decide) (by decide)).2.2.2.1,
    ((check_link_transitions ex_isr ex_caps (ex_link_down_env 0) ex_adapter ex_oracle
      (by decide) (by decide)).2.2 (by decide) (by decide)).2.2.2.2.1⟩

/-- C14, counterexample to the claim as stated: the stored link is up, the
reading is down and `alx_reset_mac` fails; `alx_check_link` sets `TASK_RESET`
and returns without reinitialising the rings: `alx_reinit_rings` and
`alx_init_ring_ptrs` are not called and both rings are as before. -/
theorem check_link_reset_fail_counterexample :
    ex_adapter.flags.HALT = false ∧ (ex_link_down_env (-1)).phy_err = 0 ∧
      ex_adapter.hw.link_up = true ∧ (ex_link_down_env (-1)).phy_link_up = false ∧
      Effect.ext Event.reset_mac ∈
        (alx_check_link ex_isr ex_caps (ex_link_down_env (-1)) ex_adapter ex_oracle).2.1 ∧
      Effect.enter alx_fn.alx_reinit_rings ∉
        (alx_check_link ex_isr ex_caps (ex_link_down_env (-1)) ex_adapter ex_oracle).2.1 ∧
      Effect.ext Event.init_ring_ptrs ∉
        (alx_check_link ex_isr ex_caps (ex_link_down_env (-1)) ex_adapter ex_oracle).2.1 ∧
      (alx_check_link ex_isr ex_caps (ex_link_down_env (-1)) ex_adapter ex_oracle).1.txq =
        ex_adapter.txq ∧
      (alx_check_link ex_isr ex_caps (ex_link_down_env (-1)) ex_adapter ex_oracle).1.rxq =
        ex_adapter.rxq ∧
      Effect.flag_set flag_bit.TASK_RESET ∈
        (alx_check_link ex_isr ex_caps (ex_link_down_env (-1)) ex_adapter ex_oracle).2.1 := by
  decide

/-! ### Interrupt classification and the deferred task -/

theorem u32_testBit (x i : Nat) : (u32 x).testBit i = (decide (i < 32) && x.testBit i) := by
  unfold u32
  rw [show (4294967296 : Nat) = 2 ^ 32 by norm_num, Nat.testBit_mod_two_pow]

theorem u32_not_testBit (p i : Nat) :
    (u32_not p).testBit i = (decide (i < 32) && !p.testBit i) := by
  unfold u32_not
  rw [Nat.testBit_xor, u32_testBit, show (4294967295 : Nat) = 2 ^ 32 - 1 by norm_num,
    Nat.testBit_two_pow_sub_one]
  by_cases h : i < 32 <;> simp [h]

theorem and_not_and (x p : Nat) : (x &&& u32_not p) &&& p = 0 := by
  apply Nat.eq_of_testBit_eq
  intro i
  rw [Nat.testBit_and, Nat.testBit_and, u32_not_testBit, Nat.zero_testBit]
  cases x.testBit i <;> cases p.testBit i <;> simp

theorem or_and_self (x p : Nat) : u32 (x ||| p) &&& p = u32 p := by
  apply Nat.eq_of_testBit_eq
  intro i
  rw [Nat.testBit_and, u32_testBit, u32_testBit, Nat.testBit_or]
  cases x.testBit i <;> cases p.testBit i <;> simp

theorem check_link_imask (B : alx_isr) (C : alx_caps) (E : link_env) (b : alx_adapter)
    (o : List rx_alloc) (hH : b.flags.HALT = false) (hphy : E.phy_err = 0) :
    (alx_check_link B C E b o).1.hw.imask = u32 (b.hw.imask ||| B.ALX_ISR_PHY) := by
  unfold alx_check_link
  rw [if_neg (by simp [hH]), if_neg (by simp [hphy])]
  dsimp only
  split_ifs
  · rw [(check_link_out_spec _ _ _ _).1]
  · rw [(check_link_out_spec _ _ _ _).1]
  · unfold alx_check_link_up
    dsimp only
    split_ifs
    · rw [(check_link_out_spec _ _ _ _).1]
    · rw [(check_link_out_spec _ _ _ _).1]
      rfl
  · unfold alx_check_link_down
    dsimp only
    split_ifs
    · rw [(check_link_out_spec _ _ _ _).1]
      dsimp only
      rw [netif_stop_hw]
    · rw [(check_link_out_spec _ _ _ _).1, reinit_rings_hw]
      dsimp only
      rw [netif_stop_hw]
    · rw [(check_link_out_spec _ _ _ _).1, reinit_rings_hw]
      dsimp only
      rw [netif_stop_hw]

/-- C16. `alx_handle_intr_misc` on a status word with a bit of `ALX_ISR_FATAL`
sets `TASK_RESET` and returns true; it sets neither `TASK_UPDATE_SMB` nor
`TASK_CHK_LINK` and leaves `hw->imask` as it was. Otherwise it returns false
without setting `TASK_RESET`, sets `TASK_UPDATE_SMB` exactly when a bit of
`ALX_ISR_SMB` is set, and exactly when a bit of `ALX_ISR_PHY` is set it sets
`TASK_CHK_LINK` and clears `ALX_ISR_PHY` from `hw->imask` (which else keeps
its value). Every later `alx_check_link` with `HALT` clear and a successful
PHY read sets `ALX_ISR_PHY` in `hw->imask` again. -/
theorem handle_intr_misc_classifies (B : alx_isr) (a : alx_adapter) (intr : Nat) :
    (intr &&& B.ALX_ISR_FATAL ≠ 0 →
        (alx_handle_intr_misc B a intr).1 = true ∧
        (alx_handle_intr_misc B a intr).2.1 =
          { a with flags := { a.flags with TASK_RESET := true } } ∧
        Effect.flag_set flag_bit.TASK_RESET ∈ (alx_handle_intr_misc B a intr).2.2 ∧
        Effect.flag_set flag_bit.TASK_UPDATE_SMB ∉ (alx_handle_intr_misc B a intr).2.2 ∧
        Effect.flag_set flag_bit.TASK_CHK_LINK ∉ (alx_handle_intr_misc B a intr).2.2) ∧
      (intr &&& B.ALX_ISR_FATAL = 0 →
        (alx_handle_intr_misc B a intr).1 = false ∧
        Effect.flag_set flag_bit.TASK_RESET ∉ (alx_handle_intr_misc B a intr).2.2 ∧
        (alx_handle_intr_misc B a intr).2.1.flags.TASK_RESET = a.flags.TASK_RESET ∧
        (Effect.flag_set flag_bit.TASK_UPDATE_SMB ∈ (alx_handle_intr_misc B a intr).2.2 ↔
          intr &&& B.ALX_ISR_SMB ≠ 0) ∧
        (alx_handle_intr_misc B a intr).2.1.flags.TASK_UPDATE_SMB =
          (a.flags.TASK_UPDATE_SMB || decide (intr &&& B.ALX_ISR_SMB ≠ 0)) ∧
        (Effect.flag_set flag_bit.TASK_CHK_LINK ∈ (alx_handle_intr_misc B a intr).2.2 ↔
          intr &&& B.ALX_ISR_PHY ≠ 0) ∧
        (alx_handle_intr_misc B a intr).2.1.flags.TASK_CHK_LINK =
          (a.flags.TASK_CHK_LINK || decide (intr &&& B.ALX_ISR_PHY ≠ 0)) ∧
        (intr &&& B.ALX_ISR_PHY ≠ 0 →
          (alx_handle_intr_misc B a intr).2.1.hw.imask = a.hw.imask &&& u32_not B.ALX_ISR_PHY ∧
          (alx_handle_intr_misc B a intr).2.1.hw.imask &&& B.ALX_ISR_PHY = 0) ∧
        (intr &&& B.ALX_ISR_PHY = 0 →
          (alx_handle_intr_misc B a intr).2.1.hw.imask = a.hw.imask)) ∧
      (∀ (C : alx_caps) (E : link_env) (b : alx_adapter) (o : List rx_alloc),
        b.flags.HALT = false → E.phy_err = 0 →
        (alx_check_link B C E b o).1.hw.imask = u32 (b.hw.imask ||| B.ALX_ISR_PHY) ∧
        (alx_check_link B C E b o).1.hw.imask &&& B.ALX_ISR_PHY = u32 B.ALX_ISR_PHY) := by
  refine ⟨?_, ?_, ?_⟩
  · intro hf
    unfold alx_handle_intr_misc
    rw [if_pos hf]
    simp [flag_not_in_ext]
  · intro hf
    unfold alx_handle_intr_misc
    rw [if_neg (by simp [hf])]
    dsimp only
    by_cases h1 : intr &&& B.ALX_ISR_ALERT ≠ 0 <;> by_cases h2 : intr &&& B.ALX_ISR_SMB ≠ 0 <;>
      by_cases h3 : intr &&& B.ALX_ISR_PHY ≠ 0 <;>
      simp [h1, h2, h3, flag_not_in_ext, and_not_and]
  · intro C E b o hH hphy
    rw [check_link_imask B C E b o hH hphy]
    exact ⟨rfl, or_and_self _ _⟩

theorem reinit_rings_trace_no_reinit (a : alx_adapter) (o : List rx_alloc) :
    Effect.enter alx_fn.alx_reinit ∉ alx_reinit_rings_trace a o := by
  intro h
  have := reinit_rings_trace_steps _ _ _ h
  simp [Effect.is_ring_step] at this

theorem halt_trace_no_reinit (a : alx_adapter) (in_task : Bool) (j : Nat) :
    Effect.enter alx_fn.alx_reinit ∉ alx_halt_trace a in_task j := by
  unfold alx_halt_trace
  dsimp only
  simp only [List.mem_append, not_or]
  refine ⟨⟨⟨⟨⟨by simp, ?_⟩, by simp⟩, enter_not_in_ext _ _⟩, by simp⟩, enter_not_in_ext _ _⟩
  split_ifs
  · exact enter_not_in_ext _ _
  · simp

theorem activate_trace_no_reinit (a : alx_adapter) (o : List rx_alloc) :
    Effect.enter alx_fn.alx_reinit ∉ alx_activate_trace a o := by
  unfold alx_activate_trace
  dsimp only
  simp only [List.mem_append, not_or]
  exact ⟨⟨⟨⟨reinit_rings_trace_no_reinit a o, by simp⟩, enter_not_in_ext _ _⟩, by simp⟩,
    enter_not_in_ext _ _⟩

theorem reinit_trace_blocked (a : alx_adapter) (in_task : Bool) (j : Nat) (o : List rx_alloc)
    (hR : a.flags.RESETING = true) :
    ∀ fuel, alx_reinit_trace fuel a in_task j o = none := by
  intro fuel
  induction fuel with
  | zero => rfl
  | succ n ih =>
    unfold alx_reinit_trace
    rw [if_pos hR, ih]
    rfl

theorem reinit_trace_no_reinit (fuel : Nat) (a : alx_adapter) (in_task : Bool) (j : Nat)
    (o : List rx_alloc) (t : List Effect)
    (h : alx_reinit_trace fuel a in_task j o = some t) :
    Effect.enter alx_fn.alx_reinit ∉ t := by
  by_cases hR : a.flags.RESETING = true
  · rw [reinit_trace_blocked a in_task j o hR fuel] at h
    cases h
  · cases fuel with
    | zero => simp [alx_reinit_trace] at h
    | succ n =>
      unfold alx_reinit_trace at h
      rw [if_neg hR] at h
      dsimp only at h
      split_ifs at h
      · cases h
        simp
      · cases h
        simp only [List.mem_append, not_or]
        exact ⟨⟨⟨by simp, halt_trace_no_reinit _ _ _⟩, activate_trace_no_reinit _ _⟩, by simp⟩

theorem check_link_no_reinit (B : alx_isr) (C : alx_caps) (E : link_env) (a : alx_adapter)
    (o : List rx_alloc) :
    Effect.enter alx_fn.alx_reinit ∉ (alx_check_link B C E a o).2.1 := by
  intro h
  unfold alx_check_link at h
  by_cases hH : a.flags.HALT = true
  · rw [if_pos hH] at h
    simp at h
  · rw [if_neg hH] at h
    dsimp only at h
    by_cases hp : E.phy_err ≠ 0
    · rw [if_pos hp] at h
      have := (check_link_out_spec _ _ _ _).2.2.2.2.2.2.1 _ h
      simp at this
    · rw [if_neg hp] at h
      split_ifs at h
      · have := (check_link_out_spec _ _ _ _).2.2.2.2.2.2.1 _ h
        simp at this
      · have := (check_link_out_spec _ _ _ _).2.2.2.2.2.2.1 _ h
        simp at this
      · unfold alx_check_link_up at h
        dsimp only at h
        split_ifs at h
        · have := (check_link_out_spec _ _ _ _).2.2.2.2.2.2.1 _ h
          simp at this
        · have := (check_link_out_spec _ _ _ _).2.2.2.2.2.2.1 _ h
          simp [enter_not_in_ext] at this
      · unfold alx_check_link_down at h
        dsimp only at h
        split_ifs at h
        · have := (check_link_out_spec _ _ _ _).2.2.2.2.2.2.1 _ h
          simp [enter_not_in_ext] at this
        · have := (check_link_out_spec _ _ _ _).2.2.2.2.2.2.1 _ h
          simp [enter_not_in_ext, reinit_rings_trace_no_reinit] at this
        · have := (check_link_out_spec _ _ _ _).2.2.2.2.2.2.1 _ h
          simp [enter_not_in_ext, reinit_rings_trace_no_reinit] at this

theorem request_flags (B : alx_isr) (a : alx_adapter) (q : reset_request) (hq : q.fatal B) :
    (request_reset B a q).flags = { a.flags with TASK_RESET := true } := by
  cases q with
  | intr_misc intr =>
    simp only [reset_request.fatal] at hq
    simp [request_reset, alx_handle_intr_misc, hq]
  | rx_desync rxq => rfl
  | tx_timeout => rfl

theorem requests_flags (B : alx_isr) (reqs : List reset_request) :
    ∀ a : alx_adapter, reqs ≠ [] → (∀ q ∈ reqs, q.fatal B) →
      (reqs.foldl (request_reset B) a).flags = { a.flags with TASK_RESET := true } := by
  induction reqs with
  | nil => intro a h; exact absurd rfl h
  | cons q qs ih =>
    intro a _ hf
    rw [List.foldl_cons]
    by_cases hqs : qs = []
    · subst hqs
      exact request_flags B a q (hf q (List.mem_cons_self _ _))
    · rw [ih _ hqs (fun x hx => hf x (List.mem_cons_of_mem _ hx)),
        request_flags B a q (hf q (List.mem_cons_self _ _))]

theorem task_blocked (B : alx_isr) (C : alx_caps) (E : link_env) (a : alx_adapter)
    (o : List rx_alloc) (rfuel : Nat) (hP : a.flags.TASK_PENDING = true) :
    ∀ fuel, alx_task B C fuel rfuel E a o = none := by
  intro fuel
  induction fuel with
  | zero => rfl
  | succ n ih =>
    unfold alx_task
    rw [if_pos hP, ih]
    rfl

theorem task_smb_no_reinit (a : alx_adapter) :
    Effect.enter alx_fn.alx_reinit ∉ (alx_task_smb a).2 := by
  unfold alx_task_smb
  split_ifs <;> simp

theorem task_link_no_reinit (B : alx_isr) (C : alx_caps) (E : link_env) (a : alx_adapter)
    (o : List rx_alloc) :
    Effect.enter alx_fn.alx_reinit ∉ (alx_task_link B C E a o).2.1 := by
  unfold alx_task_link
  split_ifs
  · simp [check_link_no_reinit]
  · simp

theorem flags_pending_eta (a : alx_adapter) (h : a.flags.TASK_PENDING = false) :
    { a with flags := { ({ a with flags := { a.flags with TASK_PENDING := true } } :
        alx_adapter).flags with TASK_PENDING := false } } = a := by
  cases a with
  | mk flags hw netdev nr_rxq nr_napi rxbuf_size cap_mrq txq rxq =>
    cases flags
    simp_all

theorem task_reset_spec (rfuel : Nat) (E : link_env) (a : alx_adapter) (o : List rx_alloc)
    (hT : a.flags.TASK_RESET = true)
    (s : alx_adapter × List Effect × List rx_alloc)
    (h : alx_task_reset rfuel E a o = some s) :
    ∃ t, s.2.1 = [Effect.flag_clear flag_bit.TASK_RESET, Effect.enter alx_fn.alx_reinit] ++ t ∧
      Effect.enter alx_fn.alx_reinit ∉ t := by
  unfold alx_task_reset at h
  rw [if_pos hT] at h
  dsimp only at h
  cases h1 : alx_reinit rfuel { a with flags := { a.flags with TASK_RESET := false } } true
      E.jiffies o with
  | none => rw [h1] at h; simp at h
  | some r =>
    cases h2 : alx_reinit_trace rfuel { a with flags := { a.flags with TASK_RESET := false } } true
        E.jiffies o with
    | none => rw [h1, h2] at h; simp at h
    | some t =>
      rw [h1, h2] at h
      simp only [Option.some.injEq] at h
      subst h
      exact ⟨t, rfl, reinit_trace_no_reinit _ _ _ _ _ t h2⟩

theorem reinit_returns (a : alx_adapter) (in_task : Bool) (j : Nat) (o : List rx_alloc)
    (hH : a.flags.HALT = false) (hR : a.flags.RESETING = false) :
    ∃ r, alx_reinit 1 a in_task j o = some r := by
  unfold alx_reinit
  rw [if_neg (by simp [hR])]
  dsimp only
  rw [if_neg (by simp [hH])]
  exact ⟨_, rfl⟩

theorem task_reset_returns (E : link_env) (a : alx_adapter) (o : List rx_alloc)
    (hH : a.flags.HALT = false) (hR : a.flags.RESETING = false) :
    (alx_task_reset 1 E a o).isSome = true := by
  unfold alx_task_reset
  split_ifs
  · obtain ⟨r, hr⟩ := reinit_returns { a with flags := { a.flags with TASK_RESET := false } }
      true E.jiffies o hH hR
    have ht := reinit_trace_form { a with flags := { a.flags with TASK_RESET := false } }
      true E.jiffies o hH hR
    show (match alx_reinit 1 { a with flags := { a.flags with TASK_RESET := false } } true
        E.jiffies o,
      alx_reinit_trace 1 { a with flags := { a.flags with TASK_RESET := false } } true
        E.jiffies o with
      | some r, some t =>
        some (r.1, [Effect.flag_clear flag_bit.TASK_RESET, Effect.enter alx_fn.alx_reinit] ++ t,
          r.2.2)
      | _, _ => none).isSome = true
    rw [hr, ht]
    rfl
  · rfl

theorem task_pass_running (B : alx_isr) (C : alx_caps) (E : link_env) (a : alx_adapter)
    (o : List rx_alloc) (hT : a.flags.TASK_RESET = true) (hH : a.flags.HALT = false) :
    (a.flags.TASK_PENDING = false → a.flags.RESETING = false →
        (alx_task B C 1 1 E a o).isSome = true) ∧
      ∀ fuel rfuel r, alx_task B C fuel rfuel E a o = some r →
        r.2.1.count (Effect.enter alx_fn.alx_reinit) = 1 ∧
        (∃ l, r.2.1 = [Effect.flag_set flag_bit.TASK_PENDING,
          Effect.flag_clear flag_bit.TASK_RESET, Effect.enter alx_fn.alx_reinit] ++ l) ∧
        r.1.flags.TASK_PENDING = false := by
  constructor
  · intro hP hR
    unfold alx_task
    rw [if_neg (by simp [hP])]
    dsimp only
    rw [if_neg (by simp [hH])]
    have hs := task_reset_returns E { a with flags := { a.flags with TASK_PENDING := true } } o
      hH hR
    cases h1 : alx_task_reset 1 E { a with flags := { a.flags with TASK_PENDING := true } } o with
    | none => rw [h1] at hs; simp at hs
    | some s1 => rfl
  · intro fuel rfuel r h
    by_cases hP : a.flags.TASK_PENDING = true
    · rw [task_blocked B C E a o rfuel hP fuel] at h
      cases h
    · cases fuel with
      | zero => simp [alx_task] at h
      | succ n =>
        unfold alx_task at h
        rw [if_neg hP] at h
        dsimp only at h
        rw [if_neg (by simp [hH])] at h
        cases h1 : alx_task_reset rfuel E
            { a with flags := { a.flags with TASK_PENDING := true } } o with
        | none => rw [h1] at h; simp at h
        | some s1 =>
          rw [h1] at h
          simp only [Option.some.injEq] at h
          obtain ⟨t, ht, hnt⟩ := task_reset_spec rfuel E
            { a with flags := { a.flags with TASK_PENDING := true } } o hT s1 h1
          subst h
          dsimp only
          rw [ht]
          refine ⟨?_, ⟨t ++ ((alx_task_smb s1.1).2 ++
            ((alx_task_link B C E (alx_task_smb s1.1).1 s1.2.2).2.1 ++
              [Effect.flag_clear flag_bit.TASK_PENDING])), by simp [List.append_assoc]⟩, rfl⟩
          simp only [List.count_append, List.count_cons, List.count_nil,
            List.count_eq_zero_of_not_mem hnt,
            List.count_eq_zero_of_not_mem (task_smb_no_reinit _),
            List.count_eq_zero_of_not_mem (task_link_no_reinit B C E _ _)]
          simp

theorem task_pass_halted (B : alx_isr) (C : alx_caps) (E : link_env) (a : alx_adapter)
    (o : List rx_alloc) (hH : a.flags.HALT = true) :
    (a.flags.TASK_PENDING = false → (alx_task B C 1 0 E a o).isSome = true) ∧
      ∀ fuel rfuel r, alx_task B C fuel rfuel E a o = some r →
        r = (a, [Effect.flag_set flag_bit.TASK_PENDING,
          Effect.flag_clear flag_bit.TASK_PENDING], o) := by
  constructor
  · intro hP
    unfold alx_task
    rw [if_neg (by simp [hP])]
    dsimp only
    rw [if_pos hH]
    rfl
  · intro fuel rfuel r h
    by_cases hP : a.flags.TASK_PENDING = true
    · rw [task_blocked B C E a o rfuel hP fuel] at h
      cases h
    · cases fuel with
      | zero => simp [alx_task] at h
      | succ n =>
        unfold alx_task at h
        rw [if_neg hP] at h
        dsimp only at h
        rw [if_pos hH] at h
        simp only [Option.some.injEq] at h
        subst h
        rw [flags_pending_eta a (by simpa using hP)]

/-- C15. Let `n >= 1` reset requests (fatal status words handled by
`alx_handle_intr_misc`, SI/NOR faults of `alx_dispatch_skb`, calls of
`alx_tx_timeout`) be made on an adapter. If `HALT` is clear, a following
`alx_task` pass returns when `TASK_PENDING` and `RESETING` are clear, and
whenever it returns it has entered `alx_reinit` exactly once, right after
clearing `TASK_RESET`, and `TASK_PENDING` is clear. If `HALT` is set, the pass
returns when `TASK_PENDING` is clear, and whenever it returns it has only set
and cleared `TASK_PENDING`: no reset, no statistics update, no link check, the
adapter with its request flags as before. -/
theorem task_collapses_reset_requests (B : alx_isr) (C : alx_caps) (E : link_env)
    (a0 : alx_adapter) (oracle : List rx_alloc) (reqs : List reset_request)
    (hne : reqs ≠ []) (hfatal : ∀ q ∈ reqs, q.fatal B) :
    (after_requests B a0 reqs).flags = { a0.flags with TASK_RESET := true } ∧
      (a0.flags.HALT = false →
        (a0.flags.TASK_PENDING = false → a0.flags.RESETING = false →
          (alx_task B C 1 1 E (after_requests B a0 reqs) oracle).isSome = true) ∧
        ∀ fuel rfuel r, alx_task B C fuel rfuel E (after_requests B a0 reqs) oracle = some r →
          r.2.1.count (Effect.enter alx_fn.alx_reinit) = 1 ∧
          (∃ l, r.2.1 = [Effect.flag_set flag_bit.TASK_PENDING,
            Effect.flag_clear flag_bit.TASK_RESET, Effect.enter alx_fn.alx_reinit] ++ l) ∧
          r.1.flags.TASK_PENDING = false) ∧
      (a0.flags.HALT = true →
        (a0.flags.TASK_PENDING = false →
          (alx_task B C 1 0 E (after_requests B a0 reqs) oracle).isSome = true) ∧
        ∀ fuel rfuel r, alx_task B C fuel rfuel E (after_requests B a0 reqs) oracle = some r →
          r = (after_requests B a0 reqs, [Effect.flag_set flag_bit.TASK_PENDING,
            Effect.flag_clear flag_bit.TASK_PENDING], oracle)) := by
  have hfl := requests_flags B reqs a0 hne hfatal
  refine ⟨hfl, ?_, ?_⟩
  · intro hH
    have hT : (after_requests B a0 reqs).flags.TASK_RESET = true := by
      unfold after_requests; rw [hfl]
    have hH2 : (after_requests B a0 reqs).flags.HALT = false := by
      unfold after_requests; rw [hfl]; exact hH
    obtain ⟨p1, p2⟩ := task_pass_running B C E _ oracle hT hH2
    refine ⟨fun hP hR => p1 ?_ ?_, p2⟩
    · unfold after_requests; rw [hfl]; exact hP
    · unfold after_requests; rw [hfl]; exact hR
  · intro hH
    have hH2 : (after_requests B a0 reqs).flags.HALT = true := by
      unfold after_requests; rw [hfl]; exact hH
    obtain ⟨p1, p2⟩ := task_pass_halted B C E _ oracle hH2
    refine ⟨fun hP => p1 ?_, p2⟩
    unfold after_requests; rw [hfl]; exact hP

/-- C15, witness: three reset requests on a running adapter, then one pass of
the task. -/
theorem task_collapses_reset_requests_witness :
    ex_requests ≠ [] ∧ (∀ q ∈ ex_requests, q.fatal ex_isr) ∧
      (after_requests ex_isr ex_adapter_idle ex_requests).flags =
        { ex_adapter_idle.flags with TASK_RESET := true } ∧
      (alx_task ex_isr ex_caps 1 1 ex_link_up_env
        (after_requests ex_isr ex_adapter_idle ex_requests) ex_oracle).isSome = true ∧
      ∀ fuel rfuel r,
        alx_task ex_isr ex_caps fuel rfuel ex_link_up_env
          (after_requests ex_isr ex_adapter_idle ex_requests) ex_oracle = some r →
        r.2.1.count (Effect.enter alx_fn.alx_reinit) = 1 ∧
        (∃ l, r.2.1 = [Effect.flag_set flag_bit.TASK_PENDING,
          Effect.flag_clear flag_bit.TASK_RESET, Effect.enter alx_fn.alx_reinit] ++ l) ∧
        r.1.flags.TASK_PENDING = false :=
  ⟨by decide, by decide,
    (task_collapses_reset_requests ex_isr ex_caps ex_link_up_env ex_adapter_idle ex_oracle
      ex_requests (by decide) (by decide)).1,
    ((task_collapses_reset_requests ex_isr ex_caps ex_link_up_env ex_adapter_idle ex_oracle
      ex_requests (by decide) (by decide)).2.1 (by decide)).1 (by decide) (by decide),
    ((task_collapses_reset_requests ex_isr ex_caps ex_link_up_env ex_adapter_idle ex_oracle
      ex_requests (by decide) (by decide)).2.1 (by decide)).2⟩

/-- C16, witness: a status word with the PHY and the statistics timer bits,
and one with a fatal bit. -/
theorem handle_intr_misc_classifies_witness :
    (4097 &&& ex_isr.ALX_ISR_FATAL = 0 ∧ 4097 &&& ex_isr.ALX_ISR_PHY ≠ 0 ∧
        1024 &&& ex_isr.ALX_ISR_FATAL ≠ 0) ∧
      (alx_handle_intr_misc ex_isr ex_adapter_idle 4097).1 = false ∧
      (Effect.flag_set flag_bit.TASK_CHK_LINK ∈
          (alx_handle_intr_misc ex_isr ex_adapter_idle 4097).2.2 ↔
        4097 &&& ex_isr.ALX_ISR_PHY ≠ 0) ∧
      (alx_handle_intr_misc ex_isr ex_adapter_idle 1024).1 = true :=
  ⟨by decide,
    ((handle_intr_misc_classifies ex_isr ex_adapter_idle 4097).2.1 (by decide)).1,
    ((handle_intr_misc_classifies ex_isr ex_adapter_idle 4097).2.1 (by decide)).2.2.2.2.2.1,
    ((handle_intr_misc_classifies ex_isr ex_adapter_idle 1024).1 (by decide)).1⟩

/-! ### The single wake-up of `alx_clean_tx_irq` -/

theorem clean_loop_events (hw : Nat) (fuel : Nat) :
    ∀ (sw : Nat) (b : Int) (pk : Nat) (t : alx_tx_queue) (ev : List Event)
      (res : Nat × Nat × alx_tx_queue × List Event),
      alx_clean_tx_loop hw fuel sw b pk t ev = some res →
      ∀ e ∈ res.2.2.2, e ∈ ev ∨ e.is_release = true := by
  induction fuel with
  | zero =>
    intro sw b pk t ev res h e he
    unfold alx_clean_tx_loop at h
    split_ifs at h
    cases h
    exact Or.inl he
  | succ n ih =>
    intro sw b pk t ev res h e he
    unfold alx_clean_tx_loop at h
    split_ifs at h
    · rcases ih _ _ _ _ _ res h e he with h1 | h1
      · rcases List.mem_append.1 h1 with h2 | h2
        · exact Or.inl h2
        · exact Or.inr (unmap_events t sw e h2)
      · exact Or.inr h1
    · cases h
      exact Or.inl he

theorem clean_wake_spec (P : alx_params) (fuel : Nat) (halt carrier_ok : Bool) (hw : Nat)
    (txq : alx_tx_queue) (stopped : Bool) (r : clean_result)
    (h : alx_clean_tx_irq P fuel halt carrier_ok hw txq stopped = some r) :
    r.ev.count Event.netif_tx_wake_queue ≤ 1 ∧
      (Event.netif_tx_wake_queue ∈ r.ev ↔
        (stopped = true ∧ carrier_ok = true ∧ halt = false ∧
          alx_tpd_avail r.txq > P.ALX_TX_WAKEUP_THRESH r.txq)) ∧
      (Event.netif_tx_wake_queue ∈ r.ev → r.stopped = false) ∧
      (Event.netif_tx_wake_queue ∉ r.ev → r.stopped = stopped) := by
  unfold alx_clean_tx_irq at h
  by_cases hh : halt = true
  · rw [if_pos hh] at h
    cases h
    simp [hh]
  · rw [if_neg hh] at h
    have hh2 : halt = false := by simpa using hh
    dsimp only at h
    have key : ∀ (sw : Nat) (t : alx_tx_queue) (e : List Event),
        Event.netif_tx_wake_queue ∉ e →
        (if stopped = true ∧ carrier_ok = true ∧ alx_tpd_avail t > P.ALX_TX_WAKEUP_THRESH t
            ∧ halt = false then
          some ({ ret := decide (sw = u16 hw), txq := t, stopped := false,
                  ev := e ++ [Event.netif_tx_wake_queue] } : clean_result)
        else
          some { ret := decide (sw = u16 hw), txq := t, stopped := stopped, ev := e }) = some r →
        r.ev.count Event.netif_tx_wake_queue ≤ 1 ∧
          (Event.netif_tx_wake_queue ∈ r.ev ↔
            (stopped = true ∧ carrier_ok = true ∧ halt = false ∧
              alx_tpd_avail r.txq > P.ALX_TX_WAKEUP_THRESH r.txq)) ∧
          (Event.netif_tx_wake_queue ∈ r.ev → r.stopped = false) ∧
          (Event.netif_tx_wake_queue ∉ r.ev → r.stopped = stopped) := by
      intro sw t e hne hr
      split_ifs at hr with hc
      · cases hr
        dsimp only
        refine ⟨?_, ?_, fun _ => rfl, fun hn => absurd (by simp) hn⟩
        · rw [List.count_append, List.count_eq_zero_of_not_mem hne]
          simp
        · simp [hc.1, hc.2.1, hc.2.2.1, hh2]
      · cases hr
        dsimp only
        refine ⟨?_, ?_, fun hm => absurd hm hne, fun _ => rfl⟩
        · rw [List.count_eq_zero_of_not_mem hne]
          omega
        · constructor
          · intro hm; exact absurd hm hne
          · intro hc2
            exact absurd ⟨hc2.1, hc2.2.1, hc2.2.2.2, hc2.2.2.1⟩ hc
    by_cases hne : u16 txq.cidx ≠ u16 hw
    · rw [if_pos hne] at h
      cases hl : alx_clean_tx_loop (u16 hw) fuel (u16 txq.cidx) P.ALX_DEFAULT_TX_WORK 0 txq [] with
      | none => rw [hl] at h; simp at h
      | some res =>
        obtain ⟨sw, pk, t, e⟩ := res
        rw [hl] at h
        dsimp only at h
        refine key sw { t with cidx := sw } (e ++ [Event.netdev_tx_completed_queue pk]) ?_ h
        intro hm
        rcases List.mem_append.1 hm with h1 | h1
        · rcases clean_loop_events _ _ _ _ _ _ _ _ hl _ h1 with h2 | h2
          · simp at h2
          · simp [Event.is_release] at h2
        · simp at h1
    · rw [if_neg hne] at h
      dsimp only at h
      exact key (u16 txq.cidx) txq [] (by simp) h
/-- C17. On a well-formed ring an `alx_clean_tx_irq` pass returns and calls
`netif_tx_wake_queue` at most once, whatever the number of slots reclaimed;
it calls it exactly when the queue is stopped, the carrier is on, `HALT` is
clear and, after the reclaim, `alx_tpd_avail(txq) > ALX_TX_WAKEUP_THRESH(txq)`.
The wake-up leaves the queue not stopped (otherwise the stopped state is
unchanged), and every following pass on the ring and queue state it left
returns without waking the queue again. -/
theorem clean_tx_wakes_once (P : alx_params) (fuel : Nat) (halt carrier_ok : Bool) (hw : Nat)
    (txq : alx_tx_queue) (stopped : Bool) (hwf : tx_wf txq) (hhw : hw < txq.count)
    (hfuel : txq.count ≤ fuel) :
    ∃ r, alx_clean_tx_irq P fuel halt carrier_ok hw txq stopped = some r ∧
      r.ev.count Event.netif_tx_wake_queue ≤ 1 ∧
      (Event.netif_tx_wake_queue ∈ r.ev ↔
        (stopped = true ∧ carrier_ok = true ∧ halt = false ∧
          alx_tpd_avail r.txq > P.ALX_TX_WAKEUP_THRESH r.txq)) ∧
      (Event.netif_tx_wake_queue ∈ r.ev → r.stopped = false) ∧
      (Event.netif_tx_wake_queue ∉ r.ev → r.stopped = stopped) ∧
      ∀ (halt2 carrier2 : Bool) (hw2 : Nat), hw2 < txq.count →
        Event.netif_tx_wake_queue ∈ r.ev →
        ∃ r2, alx_clean_tx_irq P fuel halt2 carrier2 hw2 r.txq r.stopped = some r2 ∧
          Event.netif_tx_wake_queue ∉ r2.ev ∧ r2.stopped = false := by
  obtain ⟨r, hr, hrwf, hrc⟩ := clean_wf P fuel halt carrier_ok hw txq stopped hwf hhw hfuel
  obtain ⟨w1, w2, w3, w4⟩ := clean_wake_spec P fuel halt carrier_ok hw txq stopped r hr
  refine ⟨r, hr, w1, w2, w3, w4, ?_⟩
  intro halt2 carrier2 hw2 hhw2 hwake
  obtain ⟨r2, hr2, _, _⟩ := clean_wf P fuel halt2 carrier2 hw2 r.txq r.stopped hrwf
    (by rw [hrc]; exact hhw2) (by rw [hrc]; exact hfuel)
  obtain ⟨_, v2, _, v4⟩ := clean_wake_spec P fuel halt2 carrier2 hw2 r.txq r.stopped r2 hr2
  have hns : Event.netif_tx_wake_queue ∉ r2.ev := by
    intro hm
    have := (v2.1 hm).1
    rw [w3 hwake] at this
    cases this
  exact ⟨r2, hr2, hns, by rw [v4 hns, w3 hwake]⟩

/-- C17, witness: a stopped queue with five packets in flight on eight slots;
the pass reclaims three of them, which lifts the available slots above the
threshold of two, and wakes the queue once. -/
theorem clean_tx_wakes_once_witness :
    tx_wf ex_ring8_busy ∧
      (alx_clean_tx_irq ex_params 8 false true 3 ex_ring8_busy true).map
        (fun r => (r.ev.count Event.netif_tx_wake_queue, r.stopped)) = some (1, false) ∧
      ∃ r, alx_clean_tx_irq ex_params 8 false true 3 ex_ring8_busy true = some r ∧
        r.ev.count Event.netif_tx_wake_queue ≤ 1 ∧
        (Event.netif_tx_wake_queue ∈ r.ev ↔
          (true = true ∧ true = true ∧ false = false ∧
            alx_tpd_avail r.txq > ex_params.ALX_TX_WAKEUP_THRESH r.txq)) ∧
        (Event.netif_tx_wake_queue ∈ r.ev → r.stopped = false) ∧
        (Event.netif_tx_wake_queue ∉ r.ev → r.stopped = true) ∧
        ∀ (halt2 carrier2 : Bool) (hw2 : Nat), hw2 < ex_ring8_busy.count →
          Event.netif_tx_wake_queue ∈ r.ev →
          ∃ r2, alx_clean_tx_irq ex_params 8 halt2 carrier2 hw2 r.txq r.stopped = some r2 ∧
            Event.netif_tx_wake_queue ∉ r2.ev ∧ r2.stopped = false :=
  ⟨by decide, by decide,
    clean_tx_wakes_once ex_params 8 false true 3 ex_ring8_busy true (by decide) (by decide)
      (by decide)⟩

/-! ### Descriptors written by an accepted submission -/

theorem copy_word1 (txq : alx_tx_queue) (first p x : Nat) (hp : p < txq.tpd_hdr.length) :
    (tx_desc (alx_tx_map_copy txq first p) x).word1 =
      (if x = p then (tx_desc txq first).word1 else (tx_desc txq x).word1) := by
  unfold tx_desc alx_tx_map_copy
  dsimp only
  by_cases h : x = p
  · subst h
    rw [if_pos rfl, getD_set_self _ _ _ _ hp]
  · rw [if_neg h, getD_set_other _ _ _ _ _ (fun h2 => h h2.symm)]

theorem store_word1 (txq : alx_tx_queue) (p maplen dma x : Nat) :
    (tx_desc (alx_tx_map_store txq p maplen dma) x).word1 = (tx_desc txq x).word1 := by
  unfold tx_desc alx_tx_map_store
  dsimp only
  by_cases h : p = x
  · subst h
    by_cases hl : p < txq.tpd_hdr.length
    · rw [getD_set_self _ _ _ _ hl]
    · rw [List.set_eq_of_length_le (by omega)]
  · rw [getD_set_other _ _ _ _ _ h]

theorem last_word1 (txq : alx_tx_queue) (skb : sk_buff) (first last x : Nat)
    (hl : last < txq.tpd_hdr.length) :
    (tx_desc (alx_tx_map_last txq skb first last) x).word1 =
      (if x = last then { (tx_desc txq last).word1 with eop := true }
       else (tx_desc txq x).word1) := by
  unfold tx_desc alx_tx_map_last
  dsimp only
  by_cases h : x = last
  · subst h
    rw [if_pos rfl, getD_set_self _ _ _ _ hl]
  · rw [if_neg h, getD_set_other _ _ _ _ _ (fun h2 => h h2.symm)]

theorem lso_word1 (txq : alx_tx_queue) (hwf : tx_wf txq) (x : Nat) :
    (tx_desc (alx_tx_map_lso txq).1 x).word1 =
      (if tx_lso txq = 1 ∧ x = ring_pos txq.count txq.pidx 1 then (tx_desc txq txq.pidx).word1
       else (tx_desc txq x).word1) := by
  obtain ⟨hc1, hc16, hp, hci, hbl, htl⟩ := hwf
  have hup : u16 txq.pidx = txq.pidx := u16_of_lt (by omega)
  have hp1 : ring_inc txq.count txq.pidx = ring_pos txq.count txq.pidx 1 := by
    rw [ring_pos_succ hc16 hp, ring_pos_zero (ring_inc_lt hc16 hp)]
  unfold alx_tx_map_lso tx_lso
  dsimp only
  rw [hup]
  unfold tx_desc
  by_cases hl : (txq.tpd_hdr.getD txq.pidx tpd_desc.zero).word1.lso_v2 = true
  · rw [if_pos hl, if_pos hl]
    dsimp only
    have := copy_word1 txq txq.pidx (ring_inc txq.count txq.pidx) x
      (by rw [htl]; exact ring_inc_lt hc16 hp)
    unfold tx_desc at this
    rw [this, hp1]
    simp
  · rw [if_neg hl, if_neg hl]
    simp
theorem frags_word1 (dma_map : Nat → Option Nat) (first count : Nat) (h16 : count < 65536) :
    ∀ (frags : List Nat) (f : Nat) (txq : alx_tx_queue) (b : Nat),
      txq.count = count → txq.tpd_hdr.length = count → b < count → frags.length < count →
      (∀ i, i < frags.length → first ≠ ring_pos count b (i + 1)) →
      (alx_tx_map_frags dma_map first frags f txq b).1 = true →
      (∀ x, (∀ i, i < frags.length → x ≠ ring_pos count b (i + 1)) →
          (tx_desc (alx_tx_map_frags dma_map first frags f txq b).2.1 x).word1 =
            (tx_desc txq x).word1) ∧
        (∀ i, i < frags.length →
          (tx_desc (alx_tx_map_frags dma_map first frags f txq b).2.1
            (ring_pos count b (i + 1))).word1 = (tx_desc txq first).word1) := by
  intro frags
  induction frags with
  | nil =>
    intro f txq b _ _ _ _ _ _
    simp [alx_tx_map_frags]
  | cons a rest ih =>
    intro f txq b hcnt hlen hb hl hfirst hok
    have hl2 : rest.length + 1 < count := by simpa using hl
    unfold alx_tx_map_frags at hok ⊢
    dsimp only at hok ⊢
    rw [hcnt] at hok ⊢
    have hb1 : ring_inc count b < count := ring_inc_lt h16 hb
    have hp1 : ring_inc count b = ring_pos count b 1 := by
      rw [ring_pos_succ h16 hb, ring_pos_zero hb1]
    cases hd : dma_map (f + 1) with
    | none => rw [hd] at hok; simp at hok
    | some dma =>
      rw [hd] at hok
      dsimp only at hok ⊢
      have hcs := copy_shape txq first (ring_inc count b)
      have hss := store_shape (alx_tx_map_copy txq first (ring_inc count b)) (ring_inc count b)
        (u16 a) dma
      have hcnt2 : (alx_tx_map_store (alx_tx_map_copy txq first (ring_inc count b))
          (ring_inc count b) (u16 a) dma).count = count := by
        rw [hss.1.1, hcs.1.1, hcnt]
      have hlen2 : (alx_tx_map_store (alx_tx_map_copy txq first (ring_inc count b))
          (ring_inc count b) (u16 a) dma).tpd_hdr.length = count := by
        rw [hss.1.2.2.2.2.2, hcs.1.2.2.2.2.2, hlen]
      have hw : ∀ x, (tx_desc (alx_tx_map_store (alx_tx_map_copy txq first (ring_inc count b))
          (ring_inc count b) (u16 a) dma) x).word1 =
          (if x = ring_inc count b then (tx_desc txq first).word1 else (tx_desc txq x).word1) := by
        intro x
        rw [store_word1, copy_word1 _ _ _ _ (by rw [hlen]; exact hb1)]
      have hf0 : first ≠ ring_inc count b := by
        rw [hp1]; exact hfirst 0 (by simp)
      obtain ⟨ih1, ih2⟩ := ih (f + 1) _ (ring_inc count b) hcnt2 hlen2 hb1 (by omega)
        (fun i hi => by
          rw [← ring_pos_succ h16 hb]
          exact hfirst (i + 1) (by simpa using hi)) hok
      refine ⟨?_, ?_⟩
      · intro x hx
        rw [ih1 x, hw x, if_neg]
        · have := hx 0 (by simp)
          rw [← hp1] at this
          exact this
        · intro i hi
          rw [← ring_pos_succ h16 hb]
          exact hx (i + 1) (by simpa using hi)
      · intro i hi
        cases i with
        | zero =>
          rw [← hp1, ih1 _ ?_, hw, if_pos rfl]
          intro j hj h
          rw [← ring_pos_succ h16 hb, hp1] at h
          have := ring_pos_inj hb (by omega) (by omega) h
          omega
        | succ j =>
          have := ih2 j (by simpa using hi)
          rw [← ring_pos_succ h16 hb, hw, if_neg hf0] at this
          exact this
theorem tx_map_ok_word1 (txq : alx_tx_queue) (skb : sk_buff) (dma_map : Nat → Option Nat)
    (hwf : tx_wf txq) (hfit : skb.frags.length + 1 + tx_lso txq < txq.count)
    (hok : (alx_tx_map txq skb dma_map).1 = 0) :
    ∀ i, i < skb.frags.length + 1 + tx_lso txq →
      (tx_desc (alx_tx_map txq skb dma_map).2.1 (ring_pos txq.count txq.pidx i)).word1 =
        (if i + 1 = skb.frags.length + 1 + tx_lso txq then
          { (tx_desc txq txq.pidx).word1 with eop := true }
         else (tx_desc txq txq.pidx).word1) := by
  have hwf0 := hwf
  obtain ⟨hc1, hc16, hp, hci, hbl, htl⟩ := hwf
  have hl := lso_shape txq
  have hL := tx_lso_le_one txq
  have hup : u16 txq.pidx = txq.pidx := u16_of_lt (by omega)
  have hlw := lso_word1 txq hwf0
  have hr0 : ring_pos txq.count txq.pidx 0 = txq.pidx := ring_pos_zero hp
  unfold alx_tx_map at hok ⊢
  dsimp only at hok ⊢
  rw [hup, ring_inc_iterate hc16 _ _ hp] at hl
  rw [hup] at hok ⊢
  generalize alx_tx_map_lso txq = s1 at hl hok hlw ⊢
  obtain ⟨t1, b⟩ := s1
  obtain ⟨hsh1, hpi1, hci1, hbf1, hb⟩ := hl
  dsimp only at hsh1 hpi1 hci1 hbf1 hb hok hlw ⊢
  change b = ring_pos txq.count txq.pidx (tx_lso txq) at hb
  subst hb
  have hcnt1 : t1.count = txq.count := hsh1.1
  have hlen1 : t1.tpd_hdr.length = txq.count := by rw [hsh1.2.2.2.2.2, htl]
  have hF1 : (tx_desc t1 txq.pidx).word1 = (tx_desc txq txq.pidx).word1 := by
    rw [hlw, if_neg]
    intro h
    have h2 := h.2
    nth_rewrite 1 [← hr0] at h2
    have := ring_pos_inj hp (by omega) (by omega) h2
    omega
  have hFb : (tx_desc t1 (ring_pos txq.count txq.pidx (tx_lso txq))).word1 =
      (tx_desc txq txq.pidx).word1 := by
    rw [hlw]
    by_cases h1 : tx_lso txq = 1
    · rw [if_pos ⟨h1, by rw [h1]⟩]
    · have h0 : tx_lso txq = 0 := by omega
      rw [if_neg (fun h => h1 h.1), h0, hr0]
  cases hd : dma_map 0 with
  | none =>
    rw [hd] at hok
    simp at hok
  | some dma =>
    rw [hd] at hok
    dsimp only at hok ⊢
    have hss := store_shape t1 (ring_pos txq.count txq.pidx (tx_lso txq)) (u16 skb.headlen) dma
    have hcnt2 : (alx_tx_map_store t1 (ring_pos txq.count txq.pidx (tx_lso txq))
        (u16 skb.headlen) dma).count = txq.count := by rw [hss.1.1, hcnt1]
    have hlen2 : (alx_tx_map_store t1 (ring_pos txq.count txq.pidx (tx_lso txq))
        (u16 skb.headlen) dma).tpd_hdr.length = txq.count := by rw [hss.1.2.2.2.2.2, hlen1]
    have hb : ring_pos txq.count txq.pidx (tx_lso txq) < txq.count := ring_pos_lt hc1
    have hsw := store_word1 t1 (ring_pos txq.count txq.pidx (tx_lso txq)) (u16 skb.headlen) dma
    have hfs := frags_shape dma_map txq.pidx skb.frags 0
      (alx_tx_map_store t1 (ring_pos txq.count txq.pidx (tx_lso txq)) (u16 skb.headlen) dma)
      (ring_pos txq.count txq.pidx (tx_lso txq))
    have hfp := (frags_producer dma_map txq.pidx skb.frags 0
      (alx_tx_map_store t1 (ring_pos txq.count txq.pidx (tx_lso txq)) (u16 skb.headlen) dma)
      (ring_pos txq.count txq.pidx (tx_lso txq))).1
    have hfw := frags_word1 dma_map txq.pidx txq.count hc16 skb.frags 0
      (alx_tx_map_store t1 (ring_pos txq.count txq.pidx (tx_lso txq)) (u16 skb.headlen) dma)
      (ring_pos txq.count txq.pidx (tx_lso txq)) hcnt2 hlen2 hb (by omega)
      (fun i hi h => by
        rw [ring_pos_add] at h
        nth_rewrite 1 [← hr0] at h
        have := ring_pos_inj hp (by omega) (by omega) h
        omega)
    have hfsp := (frags_spec dma_map txq.pidx txq.count hc16 skb.frags 0
      (alx_tx_map_store t1 (ring_pos txq.count txq.pidx (tx_lso txq)) (u16 skb.headlen) dma)
      (ring_pos txq.count txq.pidx (tx_lso txq)) hcnt2
      (by rw [hss.1.2.2.2.2.1, hsh1.2.2.2.2.1, hbl]) hb (by omega)).2.1
    generalize alx_tx_map_frags dma_map txq.pidx skb.frags 0
      (alx_tx_map_store t1 (ring_pos txq.count txq.pidx (tx_lso txq)) (u16 skb.headlen) dma)
      (ring_pos txq.count txq.pidx (tx_lso txq)) = fr at hfs hfp hfw hfsp hok ⊢
    obtain ⟨ok, t3, p3⟩ := fr
    dsimp only at hfs hfp hfw hfsp hok ⊢
    cases ok with
    | false => simp at hok
    | true =>
      rw [if_pos rfl]
      dsimp only
      obtain ⟨g1, g2⟩ := hfw rfl
      obtain ⟨q1, _, _⟩ := hfsp rfl
      subst q1
      rw [ring_pos_add] at *
      have hlen3 : t3.tpd_hdr.length = txq.count := by rw [hfs.1.2.2.2.2.2, hlen2]
      have hG : ∀ i, i < skb.frags.length + 1 + tx_lso txq →
          (tx_desc t3 (ring_pos txq.count txq.pidx i)).word1 = (tx_desc txq txq.pidx).word1 := by
        intro i hi
        by_cases h1 : i < tx_lso txq
        · have hi0 : i = 0 := by omega
          subst hi0
          rw [hr0, g1 _ ?_, hsw, hF1]
          intro j hj h
          rw [ring_pos_add] at h
          nth_rewrite 1 [← hr0] at h
          have := ring_pos_inj hp (by omega) (by omega) h
          omega
        · by_cases h2 : i = tx_lso txq
          · subst h2
            rw [g1 _ ?_, hsw, hFb]
            intro j hj h
            rw [ring_pos_add] at h
            have := ring_pos_inj hp (by omega) (by omega) h
            omega
          · obtain ⟨j, hj⟩ : ∃ j, i = tx_lso txq + (j + 1) := ⟨i - tx_lso txq - 1, by omega⟩
            subst hj
            have := g2 j (by omega)
            rw [ring_pos_add] at this
            rw [this, hsw, hF1]
      intro i hi
      rw [last_word1 t3 skb txq.pidx _ _ (by rw [hlen3]; exact ring_pos_lt hc1)]
      by_cases hlast : i + 1 = skb.frags.length + 1 + tx_lso txq
      · have hieq : i = tx_lso txq + skb.frags.length := by omega
        subst hieq
        rw [if_pos rfl, if_pos hlast, hG _ hi]
      · rw [if_neg hlast, if_neg, hG i hi]
        intro h
        have := ring_pos_inj hp (by omega) (by omega) h
        omega
theorem first_eop (skb : sk_buff) : (alx_xmit_first skb).word1.eop = false := by
  unfold alx_xmit_first
  dsimp only
  split_ifs <;> split <;> rfl

theorem tso_eop (skb : sk_buff) (d : tpd_desc) :
    (alx_tso skb d).2.word1.eop = d.word1.eop := by
  unfold alx_tso
  dsimp only
  split_ifs <;> rfl

theorem csum_eop (skb : sk_buff) (d : tpd_desc) :
    (alx_tx_csum skb d).2.word1.eop = d.word1.eop := by
  unfold alx_tx_csum
  dsimp only
  split_ifs <;> rfl

theorem offload_eop (skb : sk_buff) : (alx_xmit_offload skb).2.word1.eop = false := by
  unfold alx_xmit_offload
  dsimp only
  split_ifs
  · rw [tso_eop, first_eop]
  · rw [csum_eop, tso_eop, first_eop]
  · rw [tso_eop, first_eop]

/-- C18. For every packet `alx_start_xmit_ring` accepts on a well-formed ring
that does not hold the packet yet, with `N = xmit_slots` descriptors
`d_1 .. d_N` starting at the old `pidx`: the first descriptor was prepared
with `TPD_EOP` clear; every descriptor of the packet carries the control
word `word1` of the prepared first descriptor, the last one with `TPD_EOP`
set in addition, so `TPD_EOP` is set in `d_N` and in no other descriptor of
the packet; and the slot record of `d_N` is the only slot record of the ring
that holds the packet. -/
theorem xmit_descriptor_chain (txq : alx_tx_queue) (stopped : Bool) (skb : sk_buff)
    (dma_map : Nat → Option Nat) (hwf : tx_wf txq)
    (hnew : ∀ b ∈ txq.bf_info, b.skb ≠ some skb.id)
    (hacc : xmit_accepted (alx_start_xmit_ring txq stopped skb dma_map)) :
    1 ≤ xmit_slots skb ∧ (alx_xmit_offload skb).2.word1.eop = false ∧
      (∀ i, i < xmit_slots skb →
        (tx_desc (alx_start_xmit_ring txq stopped skb dma_map).txq
            (ring_pos txq.count txq.pidx i)).word1 =
          (if i + 1 = xmit_slots skb then { (alx_xmit_offload skb).2.word1 with eop := true }
           else (alx_xmit_offload skb).2.word1)) ∧
      (∀ i, i < xmit_slots skb →
        ((tx_desc (alx_start_xmit_ring txq stopped skb dma_map).txq
            (ring_pos txq.count txq.pidx i)).word1.eop = true ↔ i + 1 = xmit_slots skb)) ∧
      (∀ x, (tx_slot (alx_start_xmit_ring txq stopped skb dma_map).txq x).skb = some skb.id ↔
        x = ring_pos txq.count txq.pidx (xmit_slots skb - 1)) := by
  have hfresh : ∀ x, (tx_slot txq x).skb ≠ some skb.id :=
    slot_of_mem txq (fun b => b.skb ≠ some skb.id) (by simp [alx_buffer.zero]) hnew
  obtain ⟨hpw, hpl, hps⟩ := xmit_prepared txq skb hwf
  obtain ⟨hm0, hmeq, _, hreq⟩ := xmit_accepted_eq txq stopped skb dma_map hwf hacc
  have hav := avail_le txq hwf
  have hsl := xmit_slots_le_req skb
  have hN : xmit_slots skb = skb.frags.length + 1 + xmit_lso skb := by
    unfold xmit_slots xmit_lso
    rfl
  have hfit : skb.frags.length + 1 +
      tx_lso { txq with tpd_hdr := txq.tpd_hdr.set txq.pidx (alx_xmit_offload skb).2 } <
        txq.count := by
    rw [hpl]
    omega
  have hF : (tx_desc { txq with tpd_hdr := txq.tpd_hdr.set txq.pidx (alx_xmit_offload skb).2 }
      txq.pidx).word1 = (alx_xmit_offload skb).2.word1 := by
    unfold tx_desc
    dsimp only
    rw [getD_set_self _ _ _ _ (by rw [hwf.2.2.2.2.2]; exact hwf.2.2.1)]
  have hw := tx_map_ok_word1 _ skb dma_map hpw hfit hm0
  have hs := (tx_map_ok_spec _ skb dma_map hpw hfit hm0).2.2.2.2
  rw [hpl] at hw hs
  dsimp only at hw hs
  rw [hF] at hw
  have hword : ∀ i, i < xmit_slots skb →
      (tx_desc (alx_start_xmit_ring txq stopped skb dma_map).txq
          (ring_pos txq.count txq.pidx i)).word1 =
        (if i + 1 = xmit_slots skb then { (alx_xmit_offload skb).2.word1 with eop := true }
         else (alx_xmit_offload skb).2.word1) := by
    intro i hi
    rw [hmeq, hN, hw i (by omega)]
  refine ⟨by omega, offload_eop skb, hword, ?_, ?_⟩
  · intro i hi
    rw [hword i hi]
    by_cases h : i + 1 = xmit_slots skb
    · rw [if_pos h]
      simp [h]
    · rw [if_neg h, offload_eop]
      simp [h]
  · intro x
    rw [hmeq, hs x, hps x]
    have hpos : xmit_lso skb + skb.frags.length = xmit_slots skb - 1 := by omega
    rw [hpos]
    by_cases hx : x = ring_pos txq.count txq.pidx (xmit_slots skb - 1)
    · rw [if_pos hx]
      simp [hx]
    · rw [if_neg hx]
      simp [hx, hfresh x]

/-- C18, witness: an LSOv2 packet with one fragment, encoded into three
descriptors of an empty eight-slot ring. -/
theorem xmit_descriptor_chain_witness :
    tx_wf (ex_ring8 0) ∧ (∀ b ∈ (ex_ring8 0).bf_info, b.skb ≠ some (ex_skb_lso 2).id) ∧
      xmit_accepted (alx_start_xmit_ring (ex_ring8 0) false (ex_skb_lso 2) ex_dma_ok) ∧
      xmit_slots (ex_skb_lso 2) = 3 ∧
      (∀ i, i < xmit_slots (ex_skb_lso 2) →
        ((tx_desc (alx_start_xmit_ring (ex_ring8 0) false (ex_skb_lso 2) ex_dma_ok).txq
            (ring_pos (ex_ring8 0).count (ex_ring8 0).pidx i)).word1.eop = true ↔
          i + 1 = xmit_slots (ex_skb_lso 2))) ∧
      (∀ x, (tx_slot (alx_start_xmit_ring (ex_ring8 0) false (ex_skb_lso 2) ex_dma_ok).txq x).skb =
          some (ex_skb_lso 2).id ↔
        x = ring_pos (ex_ring8 0).count (ex_ring8 0).pidx (xmit_slots (ex_skb_lso 2) - 1)) :=
  ⟨by decide, by decide, by decide, by decide,
    (xmit_descriptor_chain (ex_ring8 0) false (ex_skb_lso 2) ex_dma_ok (by decide) (by decide)
      (by decide)).2.2.2.1,
    (xmit_descriptor_chain (ex_ring8 0) false (ex_skb_lso 2) ex_dma_ok (by decide) (by decide)
      (by decide)).2.2.2.2⟩

/-! ### Slot records outside the in-flight range -/

theorem in_flight_dist (txq : alx_tx_queue) (hwf : tx_wf txq) :
    tx_in_flight txq = (ring_dist txq.count txq.cidx txq.pidx : Int) := by
  obtain ⟨hc1, hc16, hp, hci, _, _⟩ := hwf
  unfold tx_in_flight ring_dist
  rw [mod_wrap (by omega)]
  by_cases h : txq.pidx + txq.count - txq.cidx < txq.count
  · rw [if_pos h]
    have e : ((txq.pidx : Int) - txq.cidx) = ((txq.pidx : Int) - txq.cidx + txq.count) +
        (-1) * txq.count := by ring
    rw [e, Int.add_mul_emod_self, Int.emod_eq_of_lt (by omega) (by omega)]
    omega
  · rw [if_neg h, Int.emod_eq_of_lt (by omega) (by omega)]
    omega

theorem conti_slots (txq : alx_tx_queue) (stopped : Bool) (skb : sk_buff)
    (dma_map : Nat → Option Nat) (ev0 : List Event) (hwf : tx_wf txq)
    (hreq : alx_tpd_req skb ≤ alx_tpd_avail txq) :
    ((alx_start_xmit_ring_conti txq stopped skb dma_map ev0).txq.count = txq.count ∧
      (alx_start_xmit_ring_conti txq stopped skb dma_map ev0).txq.cidx = txq.cidx) ∧
    (((alx_start_xmit_ring_conti txq stopped skb dma_map ev0).txq.pidx = txq.pidx ∧
        ∀ x, slot_empty (tx_slot txq x) →
          slot_empty (tx_slot (alx_start_xmit_ring_conti txq stopped skb dma_map ev0).txq x)) ∨
      ((alx_start_xmit_ring_conti txq stopped skb dma_map ev0).txq.pidx =
          (txq.pidx + xmit_slots skb) % txq.count ∧
        ∀ x, (∀ i, i < xmit_slots skb → x ≠ ring_pos txq.count txq.pidx i) →
          (tx_slot (alx_start_xmit_ring_conti txq stopped skb dma_map ev0).txq x).size =
              (tx_slot txq x).size ∧
            (tx_slot (alx_start_xmit_ring_conti txq stopped skb dma_map ev0).txq x).skb =
              (tx_slot txq x).skb)) := by
  obtain ⟨hpw, hpl, hps⟩ := xmit_prepared txq skb hwf
  have hav := avail_le txq hwf
  have hsl := xmit_slots_le_req skb
  have hN : xmit_slots skb = skb.frags.length + 1 + xmit_lso skb := by
    unfold xmit_slots xmit_lso
    rfl
  have hfit : skb.frags.length + 1 +
      tx_lso { txq with tpd_hdr := txq.tpd_hdr.set txq.pidx (alx_xmit_offload skb).2 } <
        txq.count := by
    rw [hpl]
    omega
  have hup : u16 txq.pidx = txq.pidx := u16_of_lt (by have := hwf.2.1; have := hwf.2.2.1; omega)
  unfold alx_start_xmit_ring_conti
  dsimp only
  by_cases hoff : (alx_xmit_offload skb).1 = true
  · rw [if_pos hoff]
    refine ⟨⟨rfl, rfl⟩, ?_⟩
    left
    exact ⟨rfl, fun x hx => hx⟩
  · rw [if_neg hoff]
    obtain ⟨hsh, hcx, hcase⟩ := tx_map_index
      { txq with tpd_hdr := txq.tpd_hdr.set txq.pidx (alx_xmit_offload skb).2 } skb dma_map
    rcases hcase with ⟨h0, _, hpi, _⟩ | ⟨hm1, hpi, _⟩
    · rw [if_neg (by rw [h0]; decide)]
      refine ⟨⟨hsh.1, hcx⟩, ?_⟩
      right
      dsimp only
      refine ⟨?_, ?_⟩
      · rw [hpi, hpl, ← hN]
        dsimp only
        rw [hup, ring_inc_iterate hwf.2.1 _ _ hwf.2.2.1]
      · intro x hx
        obtain ⟨s1, _, _, _, s5⟩ := tx_map_ok_spec _ skb dma_map hpw hfit h0
        rw [hpl] at s1 s5
        dsimp only at s1 s5
        have h1 := s1 x (fun i hi => hx i (by omega))
        rw [h1, s5 x, hps x, if_neg]
        · exact ⟨rfl, rfl⟩
        · exact hx _ (by omega)
    · rw [if_pos (by rw [hm1]; decide)]
      refine ⟨⟨hsh.1, hcx⟩, ?_⟩
      left
      refine ⟨hpi, ?_⟩
      intro x hx
      obtain ⟨k, _, _, _, f1, f2, _⟩ := tx_map_fail_spec _ skb dma_map hpw hfit hm1
      dsimp only at f1 f2
      show slot_empty (tx_slot (alx_tx_map
        { txq with tpd_hdr := txq.tpd_hdr.set txq.pidx (alx_xmit_offload skb).2 } skb dma_map).2.1 x)
      by_cases hin : ∀ i, i < tx_lso
          { txq with tpd_hdr := txq.tpd_hdr.set txq.pidx (alx_xmit_offload skb).2 } + k →
          x ≠ ring_pos txq.count txq.pidx i
      · rw [f2 x hin, hps x]
        exact hx
      · push_neg at hin
        obtain ⟨i, hi, rfl⟩ := hin
        exact f1 i hi
theorem outside_keep (txq t2 : alx_tx_queue) (hout : tx_outside_empty txq)
    (hc : t2.count = txq.count) (hci : t2.cidx = txq.cidx) (hp : t2.pidx = txq.pidx)
    (h : ∀ x, slot_empty (tx_slot txq x) → slot_empty (tx_slot t2 x)) :
    tx_outside_empty t2 := by
  intro x hx
  rw [hc, hci, hp] at hx
  exact h x (hout x hx)

theorem outside_advance (txq t2 : alx_tx_queue) (n : Nat) (hwf : tx_wf txq)
    (hout : tx_outside_empty txq) (hn : (n : Int) ≤ alx_tpd_avail txq)
    (hc : t2.count = txq.count) (hci : t2.cidx = txq.cidx)
    (hp : t2.pidx = (txq.pidx + n) % txq.count)
    (h : ∀ x, (∀ i, i < n → x ≠ ring_pos txq.count txq.pidx i) →
      (tx_slot t2 x).size = (tx_slot txq x).size ∧ (tx_slot t2 x).skb = (tx_slot txq x).skb) :
    tx_outside_empty t2 := by
  have hsum := avail_plus_in_flight txq hwf
  rw [in_flight_dist txq hwf] at hsum
  obtain ⟨hc1, hc16, hpl, hcl, _, _⟩ := hwf
  have hd : ring_dist txq.count txq.cidx txq.pidx + n < txq.count := by omega
  have hpd : ring_pos txq.count txq.cidx (ring_dist txq.count txq.cidx txq.pidx) = txq.pidx :=
    ring_pos_dist hcl hpl
  have hp2 : t2.pidx = ring_pos txq.count txq.cidx (ring_dist txq.count txq.cidx txq.pidx + n) := by
    rw [hp, ← ring_pos_add, hpd]
    rfl
  intro x hx
  rw [hc, hci, hp2, ring_dist_pos hcl hd] at hx
  have h1 := hout x (fun i hi => hx i (by omega))
  have h2 := h x (fun i hi => by
    have := hx (ring_dist txq.count txq.cidx txq.pidx + i) (by omega)
    rw [← ring_pos_add, hpd] at this
    exact this)
  unfold slot_empty at h1 ⊢
  rw [h2.1, h2.2]
  exact h1

theorem xmit_outside (txq : alx_tx_queue) (stopped : Bool) (skb : sk_buff)
    (dma_map : Nat → Option Nat) (hwf : tx_wf txq) (hout : tx_outside_empty txq) :
    tx_outside_empty (alx_start_xmit_ring txq stopped skb dma_map).txq := by
  have key : ∀ ev0 st, alx_tpd_req skb ≤ alx_tpd_avail txq →
      tx_outside_empty (alx_start_xmit_ring_conti txq st skb dma_map ev0).txq := by
    intro ev0 st hreq
    obtain ⟨⟨hc, hci⟩, hcase⟩ := conti_slots txq st skb dma_map ev0 hwf hreq
    rcases hcase with ⟨hp, h⟩ | ⟨hp, h⟩
    · exact outside_keep txq _ hout hc hci hp h
    · exact outside_advance txq _ (xmit_slots skb) hwf hout
        (le_trans (xmit_slots_le_req skb) hreq) hc hci hp h
  unfold alx_start_xmit_ring
  dsimp only
  by_cases hb : alx_tpd_avail txq < alx_tpd_req skb
  · rw [if_pos hb]
    have hge : ¬ (alx_tpd_avail txq ≥ alx_tpd_req skb) := by omega
    rw [if_neg hge]
    split_ifs <;> exact hout
  · rw [if_neg hb]
    exact key [] stopped (by omega)
theorem clean_outside (P : alx_params) (fuel : Nat) (halt carrier_ok : Bool) (hw : Nat)
    (txq : alx_tx_queue) (stopped : Bool) (hwf : tx_wf txq) (hout : tx_outside_empty txq)
    (hbt : hw_cidx_between txq hw) (hfuel : txq.count ≤ fuel) :
    ∃ r, alx_clean_tx_irq P fuel halt carrier_ok hw txq stopped = some r ∧
      tx_outside_empty r.txq := by
  cases halt with
  | true =>
    refine ⟨⟨true, txq, stopped, []⟩, ?_, hout⟩
    simp [alx_clean_tx_irq]
  | false =>
    obtain ⟨r, j, hr, hj, hc, hs, hp, _, hempty, hframe, _⟩ :=
      clean_irq_spec P fuel carrier_ok hw txq stopped hwf hbt.1 hfuel
    refine ⟨r, hr, ?_⟩
    obtain ⟨hc1, hc16, hpl, hcl, _, _⟩ := hwf
    have hjd : j ≤ ring_dist txq.count txq.cidx txq.pidx := le_trans hj hbt.2
    have hdl : ring_dist txq.count txq.cidx txq.pidx < txq.count := ring_dist_lt hc1
    have hpd : ring_pos txq.count txq.cidx (ring_dist txq.count txq.cidx txq.pidx) = txq.pidx :=
      ring_pos_dist hcl hpl
    have hp2 : r.txq.pidx = ring_pos txq.count (ring_pos txq.count txq.cidx j)
        (ring_dist txq.count txq.cidx txq.pidx - j) := by
      rw [hp, ring_pos_add, show j + (ring_dist txq.count txq.cidx txq.pidx - j) =
        ring_dist txq.count txq.cidx txq.pidx by omega, hpd]
    intro x hx
    rw [hs.1, hc, hp2, ring_dist_pos (ring_pos_lt hc1) (by omega)] at hx
    by_cases hin : ∀ i, i < j → x ≠ ring_pos txq.count txq.cidx i
    · rw [hframe x hin]
      apply hout x
      intro i hi
      by_cases hij : i < j
      · exact hin i hij
      · have := hx (i - j) (by omega)
        rw [ring_pos_add, show j + (i - j) = i by omega] at this
        exact this
    · push_neg at hin
      obtain ⟨i, hi, rfl⟩ := hin
      exact hempty i hi

theorem tx_run_outside (P : alx_params) :
    ∀ (ops : List tx_op) (w : tx_world), tx_wf w.txq → tx_outside_empty w.txq →
      tx_ops_ok P w ops →
      ∃ w2, tx_run P w ops = some w2 ∧ tx_wf w2.txq ∧ tx_outside_empty w2.txq := by
  intro ops
  induction ops with
  | nil => intro w hwf hout _; exact ⟨w, rfl, hwf, hout⟩
  | cons op ops ih =>
    intro w hwf hout hok
    obtain ⟨hop, hrest⟩ := hok
    cases op with
    | xmit skb dma_map =>
      have hw2 := (xmit_wf w.txq w.stopped skb dma_map hwf).1
      have ho2 := xmit_outside w.txq w.stopped skb dma_map hwf hout
      have hstep : tx_step P w (tx_op.xmit skb dma_map) =
          some ⟨(alx_start_xmit_ring w.txq w.stopped skb dma_map).txq,
            (alx_start_xmit_ring w.txq w.stopped skb dma_map).stopped,
            w.trace ++ (alx_start_xmit_ring w.txq w.stopped skb dma_map).ev⟩ := rfl
      rw [hstep] at hrest
      obtain ⟨w3, h3, h4, h5⟩ := ih _ hw2 ho2 hrest
      exact ⟨w3, by unfold tx_run; rw [hstep]; exact h3, h4, h5⟩
    | clean fuel halt carrier_ok hw =>
      obtain ⟨hfuel, hbt⟩ := hop
      obtain ⟨r, hr, hrwf, _⟩ := clean_wf P fuel halt carrier_ok hw w.txq w.stopped hwf hbt.1 hfuel
      obtain ⟨r2, hr2, hro⟩ := clean_outside P fuel halt carrier_ok hw w.txq w.stopped hwf hout
        hbt hfuel
      rw [hr] at hr2
      cases hr2
      have hstep : tx_step P w (tx_op.clean fuel halt carrier_ok hw) =
          some ⟨r.txq, r.stopped, w.trace ++ r.ev⟩ := by
        simp only [tx_step, hr]
      rw [hstep] at hrest
      obtain ⟨w3, h3, h4, h5⟩ := ih _ hrwf hro hrest
      exact ⟨w3, by unfold tx_run; rw [hstep]; exact h3, h4, h5⟩

/-- C20. In every TX ring state reached from the state `alx_free_txring_buf`
leaves by `alx_start_xmit_ring` submissions (accepted, busy or dropped) and
`alx_clean_tx_irq` passes whose hardware index lies between `cidx` and `pidx`,
every slot record outside the in-flight range `cidx .. pidx` is empty; so if
`alx_tpd_avail(txq) = count - 1` then no slot record holds an attached skb or
a non-zero mapped length. -/
theorem tx_empty_ring_holds_nothing (P : alx_params) (q : alx_tx_queue) (stopped : Bool)
    (hc : 1 ≤ q.count) (h16 : q.count < 65536) (ops : List tx_op)
    (hok : tx_ops_ok P (tx_reset_world q stopped) ops) :
    ∃ w, tx_run P (tx_reset_world q stopped) ops = some w ∧
      tx_outside_empty w.txq ∧
      (alx_tpd_avail w.txq = (w.txq.count : Int) - 1 →
        (∀ x, slot_empty (tx_slot w.txq x)) ∧
        ∀ b ∈ w.txq.bf_info, b.skb = none ∧ b.size = 0) := by
  obtain ⟨h0, _, _, _, hz⟩ := free_txring_wf q hc h16
  have hout0 : tx_outside_empty (tx_reset_world q stopped).txq := by
    intro x _
    show slot_empty (tx_slot (alx_free_txring_buf q).1 x)
    rw [hz x]
    exact ⟨rfl, rfl⟩
  obtain ⟨w, h1, hwf, hout⟩ := tx_run_outside P ops (tx_reset_world q stopped) h0 hout0 hok
  refine ⟨w, h1, hout, ?_⟩
  intro hav
  have hsum := avail_plus_in_flight w.txq hwf
  rw [in_flight_dist w.txq hwf] at hsum
  have hd : ring_dist w.txq.count w.txq.cidx w.txq.pidx = 0 := by omega
  have hall : ∀ x, slot_empty (tx_slot w.txq x) := by
    intro x
    apply hout x
    intro i hi
    rw [hd] at hi
    omega
  refine ⟨hall, ?_⟩
  intro b hb
  obtain ⟨i, hi, rfl⟩ := List.getElem_of_mem hb
  have := hall i
  unfold tx_slot at this
  rw [List.getD_eq_getElem _ _ hi] at this
  exact ⟨this.2, this.1⟩

/-- C20, witness: a packet is submitted, a second one is dropped on a mapping
failure, and a reclaim pass drains the ring. -/
theorem tx_empty_ring_holds_nothing_witness :
    tx_ops_ok ex_params (tx_reset_world (ex_ring8 0) false) ex_ops_drain ∧
      (tx_run ex_params (tx_reset_world (ex_ring8 0) false) ex_ops_drain).map
        (fun w => (alx_tpd_avail w.txq, mapped_records w.txq)) = some (7, 0) ∧
      ∃ w, tx_run ex_params (tx_reset_world (ex_ring8 0) false) ex_ops_drain = some w ∧
        tx_outside_empty w.txq ∧
        (alx_tpd_avail w.txq = (w.txq.count : Int) - 1 →
          (∀ x, slot_empty (tx_slot w.txq x)) ∧
          ∀ b ∈ w.txq.bf_info, b.skb = none ∧ b.size = 0) :=
  ⟨by decide, by decide,
    tx_empty_ring_holds_nothing ex_params (ex_ring8 0) false (by decide) (by decide) ex_ops_drain
      (by decide)⟩

/-! ### NAPI poll -/

theorem countP_set_lt {α : Type} (p : α → Bool) :
    ∀ (l : List α) (i : Nat) (v : α) (h : i < l.length), p (l.get ⟨i, h⟩) = true → p v = false →
      (l.set i v).countP p + 1 = l.countP p := by
  intro l
  induction l with
  | nil => intro i v h; simp at h
  | cons a rest ih =>
    intro i v h hp hv
    cases i with
    | zero =>
      simp only [List.get_eq_getElem, List.getElem_cons_zero] at hp
      simp [List.set, List.countP_cons, hp, hv]
    | succ j =>
      simp only [List.get_eq_getElem, List.getElem_cons_succ] at hp
      have := ih j v (by simpa using h) (by simpa using hp) hv
      simp only [List.set, List.countP_cons]
      omega

theorem countP_set_le {α : Type} (p : α → Bool) (l : List α) (i : Nat) (v : α)
    (hv : p v = false) : (l.set i v).countP p ≤ l.countP p := by
  induction l generalizing i with
  | nil => simp
  | cons a rest ih =>
    cases i with
    | zero => simp [List.set, List.countP_cons, hv]
    | succ j =>
      have := ih j
      simp only [List.set, List.countP_cons]
      omega

theorem pending_step (q : alx_rx_queue)
    (hu : (q.rrd_hdr.getD q.rrd_cidx rrd_desc.zero).word3.updated ≠ false) (v : rrd_desc)
    (hv : v.word3.updated = false) :
    (q.rrd_hdr.set q.rrd_cidx v).countP (fun d => d.word3.updated) + 1 = rrd_pending q := by
  have hl : q.rrd_cidx < q.rrd_hdr.length := by
    by_contra h
    rw [List.getD_eq_default _ _ (by omega)] at hu
    exact hu rfl
  rw [List.getD_eq_getElem _ _ hl] at hu
  exact countP_set_lt _ _ _ _ hl (by simpa using hu) hv

theorem dispatch_loop_returns (P : alx_params) (E : rx_env) :
    ∀ (fuel : Nat) (s : dispatch_state), rrd_pending s.rxq < fuel →
      (alx_dispatch_loop P E fuel s).isSome = true := by
  intro fuel
  induction fuel with
  | zero => intro s h; omega
  | succ n ih =>
    intro s h
    unfold alx_dispatch_loop
    dsimp only
    by_cases hu : (s.rxq.rrd_hdr.getD s.rxq.rrd_cidx rrd_desc.zero).word3.updated = false
    · rw [if_pos hu]; rfl
    · rw [if_neg hu]
      have hstep := fun v hv => pending_step s.rxq hu v hv
      have h1 := hstep { s.rxq.rrd_hdr.getD s.rxq.rrd_cidx rrd_desc.zero with
        word3 := { (s.rxq.rrd_hdr.getD s.rxq.rrd_cidx rrd_desc.zero).word3 with
          updated := false } } rfl
      have h2 : ∀ v : rrd_desc, v.word3.updated = false →
          ((s.rxq.rrd_hdr.set s.rxq.rrd_cidx
            { s.rxq.rrd_hdr.getD s.rxq.rrd_cidx rrd_desc.zero with
              word3 := { (s.rxq.rrd_hdr.getD s.rxq.rrd_cidx rrd_desc.zero).word3 with
                updated := false } }).set s.rxq.rrd_cidx v).countP
            (fun d => d.word3.updated) < n := by
        intro v hv
        have := countP_set_le (fun d : rrd_desc => d.word3.updated)
          (s.rxq.rrd_hdr.set s.rxq.rrd_cidx
            { s.rxq.rrd_hdr.getD s.rxq.rrd_cidx rrd_desc.zero with
              word3 := { (s.rxq.rrd_hdr.getD s.rxq.rrd_cidx rrd_desc.zero).word3 with
                updated := false } }) s.rxq.rrd_cidx v hv
        omega
      have h1' : (s.rxq.rrd_hdr.set s.rxq.rrd_cidx
          { s.rxq.rrd_hdr.getD s.rxq.rrd_cidx rrd_desc.zero with
            word3 := { (s.rxq.rrd_hdr.getD s.rxq.rrd_cidx rrd_desc.zero).word3 with
              updated := false } }).countP (fun d => d.word3.updated) < n := by
        omega
      have h2' := h2 { ({ s.rxq.rrd_hdr.getD s.rxq.rrd_cidx rrd_desc.zero with
            word3 := { (s.rxq.rrd_hdr.getD s.rxq.rrd_cidx rrd_desc.zero).word3 with
              updated := false } } : rrd_desc) with word3 := rrd_word3.zero } rfl
      split_ifs
      · rfl
      all_goals
        apply ih
        unfold rrd_pending
        first
          | exact h1'
          | exact h2'
          | (rw [(alloc_buf_keeps _ _ _).1.2.2.2.2.2.1]; first | exact h1' | exact h2')

theorem buffer_call_not_poll_end (e : Event) (h : e.is_buffer_call = true) :
    e.is_poll_end = false := by
  cases e <;> simp_all [Event.is_buffer_call, Event.is_poll_end]

theorem dispatch_loop_calls (P : alx_params) (E : rx_env) :
    ∀ (fuel : Nat) (s : dispatch_state) (r : Bool × dispatch_state),
      (∀ e ∈ s.ev, e.is_poll_end = false) →
      alx_dispatch_loop P E fuel s = some r → ∀ e ∈ r.2.ev, e.is_poll_end = false := by
  intro fuel
  induction fuel with
  | zero => intro s r _ h; simp [alx_dispatch_loop] at h
  | succ n ih =>
    intro s r hs h
    unfold alx_dispatch_loop at h
    dsimp only at h
    have hal := fun q => fun e he =>
      buffer_call_not_poll_end e (alloc_calls E.rxbuf_size q s.oracle e he)
    have hk : ∀ (o : Option Nat) (e : Event),
        e ∈ (match o with
             | some b => [Event.kfree_skb b]
             | none => []) → e.is_poll_end = false := by
      intro o e he
      cases o <;> simp at he
      subst he; rfl
    split_ifs at h
    · cases h; exact hs
    · cases h
      intro e he
      simp only [List.mem_append] at he
      rcases he with (he | he) | he
      · exact hs e he
      · simp at he; subst he; rfl
      · unfold alx_schedule_work at he
        split_ifs at he
        · simp at he
        · simp at he; subst he; rfl
    all_goals
      refine ih _ r ?_ h
      dsimp only
      intro e he
      simp only [List.mem_append, List.mem_singleton] at he
      casesm* _ ∨ _
      all_goals
        first
          | exact hs e (by assumption)
          | exact hal _ e (by assumption)
          | exact hk _ e (by assumption)
          | (subst_vars; rfl)
          | exact absurd (by assumption : e ∈ []) (List.not_mem_nil e)

theorem release_not_poll_end (e : Event) (h : e.is_release = true) :
    e.is_poll_end = false := by
  cases e <;> simp_all [Event.is_release, Event.is_poll_end]

theorem dispatch_skb_returns (P : alx_params) (E : rx_env) (fuel : Nat) (rxq : alx_rx_queue)
    (oracle : List rx_alloc) (h : rrd_pending rxq < fuel) :
    ∃ d, alx_dispatch_skb P E fuel rxq oracle = some d ∧ ∀ e ∈ d.ev, e.is_poll_end = false := by
  unfold alx_dispatch_skb
  by_cases hu : rxq.flag_using = true
  · rw [if_pos hu]
    exact ⟨_, rfl, by intro e he; simp at he⟩
  · rw [if_neg hu]
    dsimp only
    have hr := dispatch_loop_returns P E fuel
      { rxq := { rxq with flag_using := true }, rfd_cleaned := 0, oracle := oracle, ev := [] } h
    have hc := dispatch_loop_calls P E fuel
      { rxq := { rxq with flag_using := true }, rfd_cleaned := 0, oracle := oracle, ev := [] }
    generalize alx_dispatch_loop P E fuel
      { rxq := { rxq with flag_using := true }, rfd_cleaned := 0, oracle := oracle, ev := [] }
      = o at hr hc
    cases o with
    | none => simp at hr
    | some r =>
      have hev := hc r (by intro e he; simp at he) rfl
      obtain ⟨b, s⟩ := r
      cases b with
      | true => exact ⟨_, rfl, hev⟩
      | false =>
        refine ⟨_, rfl, ?_⟩
        dsimp only
        intro e he
        rw [List.mem_append] at he
        rcases he with he | he
        · exact hev e he
        · split_ifs at he
          · exact buffer_call_not_poll_end e (alloc_calls _ _ _ e he)
          · simp at he

theorem clean_rx_returns (P : alx_params) (E : rx_env) (fuel : Nat) (rxq : alx_rx_queue)
    (hwq : Option alx_rx_queue) (budget : Int) (oracle : List rx_alloc)
    (h : rrd_pending (hwq.getD rxq) < fuel) :
    ∃ r, alx_clean_rx_irq P E fuel rxq hwq budget oracle = some r ∧
      ∀ e ∈ r.ev, e.is_poll_end = false := by
  obtain ⟨d, hd, hev⟩ := dispatch_skb_returns P E fuel (hwq.getD rxq) oracle h
  unfold alx_clean_rx_irq
  rw [hd]
  refine ⟨_, rfl, ?_⟩
  dsimp only
  intro e he
  rw [List.mem_append] at he
  rcases he with he | he
  · exact hev e he
  · rw [List.mem_map] at he
    obtain ⟨p, _, hp⟩ := he
    subst hp
    rfl

theorem clean_tx_calls (P : alx_params) (fuel : Nat) (halt carrier_ok : Bool) (hw : Nat)
    (txq : alx_tx_queue) (stopped : Bool) (r : clean_result)
    (h : alx_clean_tx_irq P fuel halt carrier_ok hw txq stopped = some r) :
    ∀ e ∈ r.ev, e.is_poll_end = false := by
  unfold alx_clean_tx_irq at h
  by_cases hh : halt = true
  · rw [if_pos hh] at h
    cases h
    intro e he
    simp at he
  · rw [if_neg hh] at h
    dsimp only at h
    have key : ∀ (sw : Nat) (t : alx_tx_queue) (ev : List Event),
        (∀ e ∈ ev, e.is_poll_end = false) →
        (if stopped = true ∧ carrier_ok = true ∧ alx_tpd_avail t > P.ALX_TX_WAKEUP_THRESH t
            ∧ halt = false then
          some ({ ret := decide (sw = u16 hw), txq := t, stopped := false,
                  ev := ev ++ [Event.netif_tx_wake_queue] } : clean_result)
        else
          some { ret := decide (sw = u16 hw), txq := t, stopped := stopped, ev := ev }) = some r →
        ∀ e ∈ r.ev, e.is_poll_end = false := by
      intro sw t ev hev hr
      split_ifs at hr with hc
      · cases hr
        intro e he
        simp only [List.mem_append, List.mem_singleton] at he
        rcases he with he | he
        · exact hev e he
        · subst he; rfl
      · cases hr
        exact hev
    by_cases hne : u16 txq.cidx ≠ u16 hw
    · rw [if_pos hne] at h
      cases hl : alx_clean_tx_loop (u16 hw) fuel (u16 txq.cidx) P.ALX_DEFAULT_TX_WORK 0 txq [] with
      | none => rw [hl] at h; simp at h
      | some res =>
        obtain ⟨sw, pk, t, e⟩ := res
        rw [hl] at h
        dsimp only at h
        refine key sw { t with cidx := sw } (e ++ [Event.netdev_tx_completed_queue pk]) ?_ h
        intro x hm
        rcases List.mem_append.1 hm with h1 | h1
        · rcases clean_loop_events _ _ _ _ _ _ _ _ hl _ h1 with h2 | h2
          · simp at h2
          · exact release_not_poll_end x h2
        · simp at h1
          subst h1; rfl
    · rw [if_neg hne] at h
      dsimp only at h
      exact key (u16 txq.cidx) txq [] (by simp) h

theorem poll_tx_spec (P : alx_params) (E : rx_env) (V : poll_env) (s : poll_state)
    (htx : ∀ t, s.np.txq = some t → tx_wf t ∧ V.hw_cidx < t.count ∧ t.count ≤ V.tx_fuel) :
    ∃ (ct : Bool) (s1 : poll_state) (tr : List Effect),
      alx_poll_tx P E V s = some (ct, s1, tr) ∧
      s1.np.rxq = s.np.rxq ∧ s1.np.vec_idx = s.np.vec_idx ∧ s1.hwq = s.hwq ∧
      s1.imask = s.imask ∧ s1.oracle = s.oracle ∧
      (s.np.txq = none → ct = true ∧ tr = []) ∧
      (∀ t, s.np.txq = some t → ∃ rt,
        alx_clean_tx_irq P V.tx_fuel E.halt V.carrier_ok V.hw_cidx t s.tx_stopped = some rt ∧
        ct = rt.ret ∧ tr = [Effect.enter alx_fn.alx_clean_tx_irq] ++ rt.ev.map Effect.ext ∧
        ∀ e ∈ rt.ev, e.is_poll_end = false) := by
  unfold alx_poll_tx
  cases ht : s.np.txq with
  | none =>
    exact ⟨true, s, [], rfl, rfl, rfl, rfl, rfl, rfl, fun _ => ⟨rfl, rfl⟩,
      fun t h => by simp at h⟩
  | some t =>
    obtain ⟨hwf, hhw, hfuel⟩ := htx t ht
    obtain ⟨rt, hrt, _⟩ :=
      clean_wf P V.tx_fuel E.halt V.carrier_ok V.hw_cidx t s.tx_stopped hwf hhw hfuel
    dsimp only
    rw [hrt]
    refine ⟨rt.ret, _, _, rfl, rfl, rfl, rfl, rfl, rfl, fun h => by simp at h, ?_⟩
    intro t2 h2
    cases h2
    exact ⟨rt, hrt, rfl, rfl, clean_tx_calls _ _ _ _ _ _ _ _ hrt⟩

theorem poll_rx_spec (P : alx_params) (E : rx_env) (V : poll_env) (s : poll_state)
    (budget : Int) (c : Bool)
    (hrx : ∀ q, s.np.rxq = some q → rrd_pending (s.hwq.getD q) < V.rx_fuel) :
    ∃ (cr : Bool) (s1 : poll_state) (tr : List Effect),
      alx_poll_rx P E V s budget c = some (c && cr, s1, tr) ∧
      s1.np.vec_idx = s.np.vec_idx ∧ s1.imask = s.imask ∧
      (s.np.rxq = none → cr = true ∧ tr = []) ∧
      (∀ q, s.np.rxq = some q → ∃ rr,
        alx_clean_rx_irq P E V.rx_fuel q s.hwq budget s.oracle = some rr ∧
        cr = rr.empty ∧ tr = [Effect.enter alx_fn.alx_clean_rx_irq] ++ rr.ev.map Effect.ext ∧
        ∀ e ∈ rr.ev, e.is_poll_end = false) := by
  unfold alx_poll_rx
  cases hq : s.np.rxq with
  | none =>
    refine ⟨true, s, [], ?_, rfl, rfl, fun _ => ⟨rfl, rfl⟩, fun q h => by simp at h⟩
    simp
  | some q =>
    obtain ⟨rr, hrr, hev⟩ := clean_rx_returns P E V.rx_fuel q s.hwq budget s.oracle (hrx q hq)
    dsimp only
    rw [hrr]
    refine ⟨rr.empty, _, _, rfl, rfl, rfl, fun h => by simp at h, ?_⟩
    intro q2 h2
    cases h2
    exact ⟨rr, hrr, rfl, rfl, hev⟩

/-- C19 (amended). With the loops of both passes bounded, `alx_poll` returns.
It runs `alx_clean_tx_irq` exactly when the context has a TX ring and
`alx_clean_rx_irq` exactly when it has an RX ring, whatever the TX pass
reported. With `ct` and `cr` the reports of the two passes (`true` for a
missing ring): when both are `true` it returns 0, calls `napi_complete` and,
with `HALT` clear, unmasks the queue interrupts (the vector under MSI-X, the
bits `ALX_ISR_TX_Q0 | ALX_ISR_RX_Q0` of the mask register otherwise); in every
other case it returns `budget`, leaves `hw->imask` as it was and makes none of
the calls `napi_complete`, `alx_mask_msix`, the mask register write or the
flush. -/
theorem poll_reports_drained (P : alx_params) (B : alx_isr) (E : rx_env) (V : poll_env)
    (s : poll_state) (budget : Int)
    (htx : ∀ t, s.np.txq = some t → tx_wf t ∧ V.hw_cidx < t.count ∧ t.count ≤ V.tx_fuel)
    (hrx : ∀ q, s.np.rxq = some q → rrd_pending (s.hwq.getD q) < V.rx_fuel) :
    ∃ (ct cr : Bool) (res : poll_result),
      alx_poll P B E V s budget = some res ∧
      (s.np.txq = none → ct = true) ∧
      (∀ t, s.np.txq = some t → ∃ rt,
        alx_clean_tx_irq P V.tx_fuel E.halt V.carrier_ok V.hw_cidx t s.tx_stopped = some rt ∧
        ct = rt.ret) ∧
      (s.np.rxq = none → cr = true) ∧
      (∀ q, s.np.rxq = some q → ∃ rr,
        alx_clean_rx_irq P E V.rx_fuel q s.hwq budget s.oracle = some rr ∧ cr = rr.empty) ∧
      (Effect.enter alx_fn.alx_clean_tx_irq ∈ res.tr ↔ s.np.txq.isSome = true) ∧
      (Effect.enter alx_fn.alx_clean_rx_irq ∈ res.tr ↔ s.np.rxq.isSome = true) ∧
      ((res.ret = 0 ∧ Effect.ext Event.napi_complete ∈ res.tr) ↔ (ct = true ∧ cr = true)) ∧
      ((ct = true ∧ cr = true) →
        res.ret = 0 ∧ Effect.ext Event.napi_complete ∈ res.tr ∧
        (E.halt = false → V.using_msix = true →
          Effect.ext (Event.mask_msix s.np.vec_idx false) ∈ res.tr ∧
          Effect.ext Event.mem_flush ∈ res.tr) ∧
        (E.halt = false → V.using_msix = false →
          res.st.imask = u32 (s.imask ||| (B.ALX_ISR_TX_Q0 ||| B.ALX_ISR_RX_Q0)) ∧
          Effect.ext (Event.mem_w32_imr res.st.imask) ∈ res.tr ∧
          Effect.ext Event.mem_flush ∈ res.tr) ∧
        (E.halt = true → res.st.imask = s.imask ∧
          ∀ e, Effect.ext e ∈ res.tr → e.is_poll_end = true → e = Event.napi_complete)) ∧
      (¬(ct = true ∧ cr = true) →
        res.ret = budget ∧ res.st.imask = s.imask ∧
        ∀ e, Effect.ext e ∈ res.tr → e.is_poll_end = false) := by
  obtain ⟨ct, s1, tr1, h1, hq1, hv1, hh1, hi1, ho1, hn1, hs1⟩ := poll_tx_spec P E V s htx
  obtain ⟨cr, s2, tr2, h2, hv2, hi2, hn2, hs2⟩ :=
    poll_rx_spec P E V s1 budget ct (by rw [hq1, hh1]; exact hrx)
  -- entries and calls of the two passes
  have e1 : (Effect.enter alx_fn.alx_clean_tx_irq ∈ tr1 ↔ s.np.txq.isSome = true) ∧
      Effect.enter alx_fn.alx_clean_rx_irq ∉ tr1 ∧
      ∀ e, Effect.ext e ∈ tr1 → e.is_poll_end = false := by
    cases ht : s.np.txq with
    | none =>
      rw [(hn1 ht).2]
      simp
    | some t =>
      obtain ⟨rt, _, _, htr, hev⟩ := hs1 t ht
      rw [htr]
      refine ⟨by simp, by simp, ?_⟩
      intro e he
      simp only [List.mem_append, List.mem_singleton, List.mem_map] at he
      rcases he with he | ⟨x, hx, hxe⟩
      · cases he
      · cases hxe
        exact hev e hx
  have e2 : (Effect.enter alx_fn.alx_clean_rx_irq ∈ tr2 ↔ s.np.rxq.isSome = true) ∧
      Effect.enter alx_fn.alx_clean_tx_irq ∉ tr2 ∧
      ∀ e, Effect.ext e ∈ tr2 → e.is_poll_end = false := by
    rw [← hq1]
    cases hq : s1.np.rxq with
    | none =>
      rw [(hn2 hq).2]
      simp
    | some q =>
      obtain ⟨rr, _, _, htr, hev⟩ := hs2 q hq
      rw [htr]
      refine ⟨by simp, by simp, ?_⟩
      intro e he
      simp only [List.mem_append, List.mem_singleton, List.mem_map] at he
      rcases he with he | ⟨x, hx, hxe⟩
      · cases he
      · cases hxe
        exact hev e hx
  have hrxrep : ∀ q, s.np.rxq = some q → ∃ rr,
      alx_clean_rx_irq P E V.rx_fuel q s.hwq budget s.oracle = some rr ∧ cr = rr.empty := by
    intro q hq
    obtain ⟨rr, hrr, hc, _⟩ := hs2 q (by rw [hq1]; exact hq)
    rw [hh1, ho1] at hrr
    exact ⟨rr, hrr, hc⟩
  have htxrep : ∀ t, s.np.txq = some t → ∃ rt,
      alx_clean_tx_irq P V.tx_fuel E.halt V.carrier_ok V.hw_cidx t s.tx_stopped = some rt ∧
      ct = rt.ret := by
    intro t ht
    obtain ⟨rt, hrt, hc, _⟩ := hs1 t ht
    exact ⟨rt, hrt, hc⟩
  have hcr0 : s.np.rxq = none → cr = true := fun h => (hn2 (by rw [hq1]; exact h)).1
  by_cases hc : ct = true ∧ cr = true
  · -- both passes report drained
    have hpoll : alx_poll P B E V s budget =
        some { ret := 0, st := (alx_poll_complete B E V s2).1,
               tr := tr1 ++ tr2 ++ (alx_poll_complete B E V s2).2 } := by
      unfold alx_poll
      rw [h1]
      dsimp only
      rw [h2]
      dsimp only
      rw [if_neg (by simp [hc.1, hc.2])]
    have hnc : Effect.ext Event.napi_complete ∈ (alx_poll_complete B E V s2).2 := by
      unfold alx_poll_complete
      split_ifs <;> simp
    refine ⟨ct, cr, _, hpoll, fun h => (hn1 h).1, htxrep, hcr0, hrxrep, ?_, ?_, ?_, ?_, ?_⟩
    · have hno : Effect.enter alx_fn.alx_clean_tx_irq ∉ (alx_poll_complete B E V s2).2 := by
        unfold alx_poll_complete
        split_ifs <;> simp
      simp only [List.mem_append]
      rw [← e1.1]
      constructor
      · rintro ((h | h) | h)
        · exact h
        · exact absurd h e2.2.1
        · exact absurd h hno
      · intro h; exact Or.inl (Or.inl h)
    · have hno : Effect.enter alx_fn.alx_clean_rx_irq ∉ (alx_poll_complete B E V s2).2 := by
        unfold alx_poll_complete
        split_ifs <;> simp
      simp only [List.mem_append]
      rw [← e2.1]
      constructor
      · rintro ((h | h) | h)
        · exact absurd h e1.2.1
        · exact h
        · exact absurd h hno
      · intro h; exact Or.inl (Or.inr h)
    · exact ⟨fun _ => hc, fun _ => ⟨rfl, List.mem_append_right _ hnc⟩⟩
    · intro _
      refine ⟨rfl, List.mem_append_right _ hnc, ?_, ?_, ?_⟩
      · intro hh hm
        have hE : E.halt ≠ true := by simp [hh]
        dsimp only
        unfold alx_poll_complete
        rw [if_neg hE, if_pos hm, hv2, hv1]
        exact ⟨List.mem_append_right _ (by simp), List.mem_append_right _ (by simp)⟩
      · intro hh hm
        have hE : E.halt ≠ true := by simp [hh]
        have hM : V.using_msix ≠ true := by simp [hm]
        dsimp only
        unfold alx_poll_complete
        rw [if_neg hE, if_neg hM, hi2, hi1]
        exact ⟨rfl, List.mem_append_right _ (by simp), List.mem_append_right _ (by simp)⟩
      · intro hh
        dsimp only
        unfold alx_poll_complete
        rw [if_pos hh]
        refine ⟨by rw [hi2, hi1], ?_⟩
        intro e he hp
        simp only [List.mem_append, List.mem_singleton] at he
        rcases he with (he | he) | he
        · rw [e1.2.2 e he] at hp; cases hp
        · rw [e2.2.2 e he] at hp; cases hp
        · cases he; rfl
    · intro hn
      exact absurd hc hn
  · -- a pass reports more work
    have hpoll : alx_poll P B E V s budget =
        some { ret := budget, st := s2, tr := tr1 ++ tr2 } := by
      unfold alx_poll
      rw [h1]
      dsimp only
      rw [h2]
      dsimp only
      rw [if_pos]
      cases ct <;> cases cr <;> simp at hc ⊢
    have hev : ∀ e, Effect.ext e ∈ tr1 ++ tr2 → e.is_poll_end = false := by
      intro e he
      rcases List.mem_append.1 he with he | he
      · exact e1.2.2 e he
      · exact e2.2.2 e he
    refine ⟨ct, cr, _, hpoll, fun h => (hn1 h).1, htxrep, hcr0, hrxrep, ?_, ?_, ?_, ?_, ?_⟩
    · simp only [List.mem_append]
      rw [← e1.1]
      constructor
      · rintro (h | h)
        · exact h
        · exact absurd h e2.2.1
      · intro h; exact Or.inl h
    · simp only [List.mem_append]
      rw [← e2.1]
      constructor
      · rintro (h | h)
        · exact absurd h e1.2.1
        · exact h
      · intro h; exact Or.inr h
    · constructor
      · intro h
        have := hev _ h.2
        cases this
      · intro h; exact absurd h hc
    · intro h; exact absurd h hc
    · intro _
      exact ⟨rfl, by rw [hi2, hi1], hev⟩

set_option maxRecDepth 100000 in
/-- C19, witness: the single context of an adapter without MSI-X, as
`alx_init_intr` and `alx_alloc_napis` build it: both rings with `qidx` 0. With
the hardware consumer index at 5 the TX pass reclaims all five packets and the
posted RX ring holds no received frame, so the poll returns 0 and writes the
mask register with the two queue bits added; with a TX work limit of 2 the TX
pass is cut short, the RX pass is still entered and the poll returns the
budget of 64 with the mask unchanged. -/
theorem poll_reports_drained_witness :
    alx_init_intr false false false 2 4 8 true true false = (false, ⟨1, 1, 1, 1, 1⟩) ∧
    alx_napi_layout false ⟨1, 1, 1, 1, 1⟩ 0 = ⟨true, true, 0, 0⟩ ∧
    ex_napi.layout = (true, some 0, some 0, 0) ∧
    (∀ t, (ex_poll_state ex_napi).np.txq = some t →
        tx_wf t ∧ (ex_poll_env 5).hw_cidx < t.count ∧ t.count ≤ (ex_poll_env 5).tx_fuel) ∧
      (∀ q, (ex_poll_state ex_napi).np.rxq = some q →
        rrd_pending ((ex_poll_state ex_napi).hwq.getD q) < (ex_poll_env 5).rx_fuel) ∧
      (alx_poll ex_params ex_isr ex_rx_env (ex_poll_env 5) (ex_poll_state ex_napi) 64).map
        (fun res => (res.ret, res.st.imask)) = some (0, 102400) ∧
      (alx_poll ⟨2, fun t => (t.count : Int) / 4, 32⟩ ex_isr ex_rx_env (ex_poll_env 5)
          (ex_poll_state ex_napi) 64).map
        (fun res => (res.ret, res.st.imask,
          decide (Effect.enter alx_fn.alx_clean_rx_irq ∈ res.tr))) = some (64, 4096, true) ∧
      ∃ (ct cr : Bool) (res : poll_result),
        alx_poll ex_params ex_isr ex_rx_env (ex_poll_env 5) (ex_poll_state ex_napi) 64
          = some res ∧
        ((ex_poll_state ex_napi).np.txq = none → ct = true) ∧
        (∀ t, (ex_poll_state ex_napi).np.txq = some t → ∃ rt,
          alx_clean_tx_irq ex_params (ex_poll_env 5).tx_fuel ex_rx_env.halt
            (ex_poll_env 5).carrier_ok (ex_poll_env 5).hw_cidx t
            (ex_poll_state ex_napi).tx_stopped = some rt ∧
          ct = rt.ret) ∧
        ((ex_poll_state ex_napi).np.rxq = none → cr = true) ∧
        (∀ q, (ex_poll_state ex_napi).np.rxq = some q → ∃ rr,
          alx_clean_rx_irq ex_params ex_rx_env (ex_poll_env 5).rx_fuel q
            (ex_poll_state ex_napi).hwq 64 (ex_poll_state ex_napi).oracle = some rr ∧
          cr = rr.empty) ∧
        (Effect.enter alx_fn.alx_clean_tx_irq ∈ res.tr ↔
          (ex_poll_state ex_napi).np.txq.isSome = true) ∧
        (Effect.enter alx_fn.alx_clean_rx_irq ∈ res.tr ↔
          (ex_poll_state ex_napi).np.rxq.isSome = true) ∧
        ((res.ret = 0 ∧ Effect.ext Event.napi_complete ∈ res.tr) ↔ (ct = true ∧ cr = true)) ∧
        ((ct = true ∧ cr = true) →
          res.ret = 0 ∧ Effect.ext Event.napi_complete ∈ res.tr ∧
          (ex_rx_env.halt = false → (ex_poll_env 5).using_msix = true →
            Effect.ext (Event.mask_msix (ex_poll_state ex_napi).np.vec_idx false) ∈ res.tr ∧
            Effect.ext Event.mem_flush ∈ res.tr) ∧
          (ex_rx_env.halt = false → (ex_poll_env 5).using_msix = false →
            res.st.imask = u32 ((ex_poll_state ex_napi).imask |||
              (ex_isr.ALX_ISR_TX_Q0 ||| ex_isr.ALX_ISR_RX_Q0)) ∧
            Effect.ext (Event.mem_w32_imr res.st.imask) ∈ res.tr ∧
            Effect.ext Event.mem_flush ∈ res.tr) ∧
          (ex_rx_env.halt = true → res.st.imask = (ex_poll_state ex_napi).imask ∧
            ∀ e, Effect.ext e ∈ res.tr → e.is_poll_end = true → e = Event.napi_complete)) ∧
        (¬(ct = true ∧ cr = true) →
          res.ret = 64 ∧ res.st.imask = (ex_poll_state ex_napi).imask ∧
          ∀ e, Effect.ext e ∈ res.tr → e.is_poll_end = false) :=
  ⟨by decide, by decide, by decide,
    fun t h => by obtain rfl : ex_ring8_busy = t := Option.some.inj h; decide,
    fun q h => by obtain rfl : ex_rxq_posted 0 = q := Option.some.inj h; decide,
    by decide, by decide,
    poll_reports_drained ex_params ex_isr ex_rx_env (ex_poll_env 5) (ex_poll_state ex_napi) 64
      (fun t h => by obtain rfl : ex_ring8_busy = t := Option.some.inj h; decide)
      (fun q h => by obtain rfl : ex_rxq_posted 0 = q := Option.some.inj h; decide)⟩

set_option maxRecDepth 100000 in
/-- C19, counterexample to the claim as stated, on a state the set-up builds.
With eight CPUs, tables of four TX and eight RX queues and MSI-X granted,
`alx_init_intr` stores `nr_txq = 4`, `nr_rxq = 8` and `nr_napi = 8`, so
`alx_alloc_napis` gives context 4 an RX ring with `qidx` 4 and no TX ring, on
vector 5. A poll of that context returns 0 after the RX pass alone and unmasks
vector 5: `alx_clean_tx_irq` is never entered. -/
theorem poll_skips_missing_tx_ring_counterexample :
    alx_init_intr true true true 8 4 8 true true true = (true, ⟨4, 8, 9, 8, 8⟩) ∧
      alx_napi_layout true ⟨4, 8, 9, 8, 8⟩ 4 = ⟨false, true, 4, 5⟩ ∧
      ex_napi_rx.layout = (false, none, some 4, 5) ∧
      rx_wf (ex_rxq_posted 4) ∧
      (alx_poll ex_params ex_isr ex_rx_env_msix ex_poll_env_msix (ex_poll_state_msix ex_napi_rx)
          64).map
        (fun res => (res.ret, decide (Effect.enter alx_fn.alx_clean_tx_irq ∈ res.tr),
          decide (Effect.enter alx_fn.alx_clean_rx_irq ∈ res.tr),
          decide (Effect.ext (Event.mask_msix 5 false) ∈ res.tr))) =
        some (0, false, true, true) := by
  decide

/-! ### Packets refused at the entry of the submission path -/

/-- C22. For a packet of length zero, and for any packet submitted while
`HALT` is set, `alx_start_xmit` frees the packet and returns `NETDEV_TX_OK`;
`alx_start_xmit_ring` is not entered, and the ring (indices, descriptors, slot
records) and the state of its netdev queue are as before. In every other case
`alx_start_xmit_ring` is entered. -/
theorem start_xmit_refuses_empty_or_halted (halt : Bool) (txq : alx_tx_queue) (stopped : Bool)
    (skb : sk_buff) (dma_map : Nat → Option Nat) :
    ((halt = true ∨ skb.len ≤ 0) →
      alx_start_xmit halt txq stopped skb dma_map =
        { ret := netdev_tx_t.NETDEV_TX_OK, txq := txq, stopped := stopped,
          tr := [Effect.ext (Event.kfree_skb skb.id)] }) ∧
    (Effect.enter alx_fn.alx_start_xmit_ring ∈ (alx_start_xmit halt txq stopped skb dma_map).tr ↔
      ¬(halt = true ∨ skb.len ≤ 0)) := by
  unfold alx_start_xmit
  by_cases hh : halt = true
  · rw [if_pos hh]
    simp [hh]
  · rw [if_neg hh]
    by_cases hl : skb.len ≤ 0
    · rw [if_pos hl]
      simp [hl]
    · rw [if_neg hl]
      simp [hh, hl]

/-- C22, evaluated: a packet of length zero on a running adapter and an
ordinary packet on a halted one are both freed with the ring untouched, while
the ordinary packet on a running adapter with an empty ring enters
`alx_start_xmit_ring` and moves `pidx` from 0 to 3. -/
theorem start_xmit_refuses_empty_or_halted_witness :
    alx_start_xmit false ex_ring8_busy false (ex_skb_empty 7) ex_dma_ok =
        ⟨netdev_tx_t.NETDEV_TX_OK, ex_ring8_busy, false, [Effect.ext (Event.kfree_skb 7)]⟩ ∧
      alx_start_xmit true ex_ring8_busy false (ex_skb 7) ex_dma_ok =
        ⟨netdev_tx_t.NETDEV_TX_OK, ex_ring8_busy, false, [Effect.ext (Event.kfree_skb 7)]⟩ ∧
      (alx_start_xmit false (ex_ring8 0) false (ex_skb 7) ex_dma_ok).txq.pidx = 3 ∧
      (Effect.enter alx_fn.alx_start_xmit_ring ∈
          (alx_start_xmit false ex_ring8_busy false (ex_skb_empty 7) ex_dma_ok).tr ↔
        ¬(false = true ∨ (ex_skb_empty 7).len ≤ 0)) :=
  ⟨by decide, by decide, by decide,
    (start_xmit_refuses_empty_or_halted false ex_ring8_busy false (ex_skb_empty 7) ex_dma_ok).2⟩

/-! ### Result entries that report a reception error -/

theorem ring_inc_eq_mod (count p : Nat) (h16 : count < 65536) (hp : p < count) :
    ring_inc count p = (p + 1) % count := by
  unfold ring_inc
  have hu : u16 (p + 1) = p + 1 := u16_of_lt (by omega)
  rw [hu]
  by_cases h : p + 1 = count
  · rw [if_pos h, h, Nat.mod_self]
  · rw [if_neg h, Nat.mod_eq_of_lt (by omega)]

/-- C21. In every iteration of the loop of `alx_dispatch_skb` on a well-formed
ring whose result entry at `rrd_cidx` has the updated bit set, `RRD_SI` equal
to `cidx`, `RRD_NOR` equal to 1 and `RRD_ERR_RES` or `RRD_ERR_LEN` set: the
buffer of slot `cidx` is unmapped and freed, nothing is queued for delivery,
the slot record is cleared (no packet, mapped length zero), `word3` of the
entry is zeroed, `cidx` and `rrd_cidx` advance by one modulo `count`, and the
loop goes on with the next entry, after the refill of `alx_alloc_rxring_buf`
when more than `ALX_RX_ALLOC_THRESH` entries were cleaned. -/
theorem dispatch_discards_error_entry (P : alx_params) (E : rx_env) (fuel : Nat)
    (s : dispatch_state) (hwf : rx_wf s.rxq)
    (hu : (s.rxq.rrd_hdr.getD s.rxq.rrd_cidx rrd_desc.zero).word3.updated = true)
    (hsi : (s.rxq.rrd_hdr.getD s.rxq.rrd_cidx rrd_desc.zero).si = s.rxq.cidx)
    (hnor : (s.rxq.rrd_hdr.getD s.rxq.rrd_cidx rrd_desc.zero).nor = 1)
    (herr : (s.rxq.rrd_hdr.getD s.rxq.rrd_cidx rrd_desc.zero).word3.err_res = true ∨
      (s.rxq.rrd_hdr.getD s.rxq.rrd_cidx rrd_desc.zero).word3.err_len = true) :
    ∃ (q : alx_rx_queue) (ev : List Event) (s1 : dispatch_state),
      alx_dispatch_loop P E (fuel + 1) s = alx_dispatch_loop P E fuel s1 ∧
      ev = s.ev ++ [Event.dma_unmap_rx (rx_slot s.rxq s.rxq.cidx).dma (rx_slot s.rxq s.rxq.cidx).size,
                    Event.netdev_warn] ++
             (match (rx_slot s.rxq s.rxq.cidx).skb with
              | some b => [Event.kfree_skb b]
              | none => []) ∧
      slot_empty (rx_slot q s.rxq.cidx) ∧
      (∀ x, x ≠ s.rxq.cidx → rx_slot q x = rx_slot s.rxq x) ∧
      (q.rrd_hdr.getD s.rxq.rrd_cidx rrd_desc.zero).word3 = rrd_word3.zero ∧
      q.list = s.rxq.list ∧ q.count = s.rxq.count ∧ q.pidx = s.rxq.pidx ∧
      q.flag_using = s.rxq.flag_using ∧
      q.cidx = (s.rxq.cidx + 1) % s.rxq.count ∧
      q.rrd_cidx = (s.rxq.rrd_cidx + 1) % s.rxq.count ∧
      s1.rxq.cidx = q.cidx ∧ s1.rxq.rrd_cidx = q.rrd_cidx ∧ s1.rxq.list = q.list ∧
      s1.rxq.rrd_hdr = q.rrd_hdr ∧
      ((u16 (s.rfd_cleaned + 1) ≤ P.ALX_RX_ALLOC_THRESH ∧
          s1 = { rxq := q, rfd_cleaned := u16 (s.rfd_cleaned + 1), oracle := s.oracle, ev := ev }) ∨
        (u16 (s.rfd_cleaned + 1) > P.ALX_RX_ALLOC_THRESH ∧
          s1.rxq = (alx_alloc_rxring_buf E.rxbuf_size q s.oracle).2.1 ∧
          s1.ev = ev ++ (alx_alloc_rxring_buf E.rxbuf_size q s.oracle).2.2.1)) ∧
      (∀ t p, Event.skb_queue_tail t p ∈ s1.ev → Event.skb_queue_tail t p ∈ s.ev) := by
  obtain ⟨hc1, hc16, hp, hci, hrc, hbl, hrl, hdl⟩ := hwf
  have hnu : ¬((s.rxq.rrd_hdr.getD s.rxq.rrd_cidx rrd_desc.zero).word3.updated = false) := by
    rw [hu]; simp
  have hval : ¬((s.rxq.rrd_hdr.getD s.rxq.rrd_cidx rrd_desc.zero).si ≠ s.rxq.cidx ∨
      (s.rxq.rrd_hdr.getD s.rxq.rrd_cidx rrd_desc.zero).nor ≠ 1) := by
    rintro (h | h)
    · exact h hsi
    · exact h hnor
  have hnoq : ∀ (t : Option Nat) (p : rx_skb) (l : List Event),
      Event.skb_queue_tail t p ∈
        s.ev ++ [Event.dma_unmap_rx (rx_slot s.rxq s.rxq.cidx).dma (rx_slot s.rxq s.rxq.cidx).size,
                    Event.netdev_warn] ++
             (match (rx_slot s.rxq s.rxq.cidx).skb with
              | some b => [Event.kfree_skb b]
              | none => []) ++ l →
      (∀ e ∈ l, e.is_buffer_call = true) → Event.skb_queue_tail t p ∈ s.ev := by
    intro t p l hm hl
    simp only [List.mem_append, List.mem_cons, List.mem_singleton, List.not_mem_nil,
      or_false] at hm
    rcases hm with ((hm | hm) | hm) | hm
    · exact hm
    · rcases hm with hm | hm <;> cases hm
    · cases hk : (rx_slot s.rxq s.rxq.cidx).skb with
      | none => rw [hk] at hm; simp at hm
      | some b => rw [hk] at hm; simp at hm
    · have := hl _ hm
      simp [Event.is_buffer_call] at this
  have hq : ∃ q : alx_rx_queue, q =
      { s.rxq with
          cidx := ring_inc s.rxq.count s.rxq.cidx
          rrd_cidx := ring_inc s.rxq.count s.rxq.rrd_cidx
          bf_info := s.rxq.bf_info.set s.rxq.cidx
            { s.rxq.bf_info.getD s.rxq.cidx alx_buffer.zero with size := 0, skb := none }
          rrd_hdr := (s.rxq.rrd_hdr.set s.rxq.rrd_cidx
              { s.rxq.rrd_hdr.getD s.rxq.rrd_cidx rrd_desc.zero with
                word3 := { (s.rxq.rrd_hdr.getD s.rxq.rrd_cidx rrd_desc.zero).word3 with
                  updated := false } }).set s.rxq.rrd_cidx
              { ({ s.rxq.rrd_hdr.getD s.rxq.rrd_cidx rrd_desc.zero with
                    word3 := { (s.rxq.rrd_hdr.getD s.rxq.rrd_cidx rrd_desc.zero).word3 with
                      updated := false } } : rrd_desc) with word3 := rrd_word3.zero } } :=
    ⟨_, rfl⟩
  obtain ⟨q, hqd⟩ := hq
  have hev : ∃ ev : List Event, ev =
      s.ev ++ [Event.dma_unmap_rx (rx_slot s.rxq s.rxq.cidx).dma (rx_slot s.rxq s.rxq.cidx).size,
                    Event.netdev_warn] ++
             (match (rx_slot s.rxq s.rxq.cidx).skb with
              | some b => [Event.kfree_skb b]
              | none => []) := ⟨_, rfl⟩
  obtain ⟨ev, hevd⟩ := hev
  have hstep : alx_dispatch_loop P E (fuel + 1) s =
      if u16 (s.rfd_cleaned + 1) > P.ALX_RX_ALLOC_THRESH then
        alx_dispatch_loop P E fuel
          { rxq := (alx_alloc_rxring_buf E.rxbuf_size q s.oracle).2.1
            rfd_cleaned := u16 (u16 (s.rfd_cleaned + 1) + 65536 -
              (alx_alloc_rxring_buf E.rxbuf_size q s.oracle).1 % 65536)
            oracle := (alx_alloc_rxring_buf E.rxbuf_size q s.oracle).2.2.2
            ev := ev ++ (alx_alloc_rxring_buf E.rxbuf_size q s.oracle).2.2.1 }
      else
        alx_dispatch_loop P E fuel
          { rxq := q, rfd_cleaned := u16 (s.rfd_cleaned + 1), oracle := s.oracle, ev := ev } := by
    rw [alx_dispatch_loop]
    dsimp only
    rw [if_neg hnu, if_neg hval, if_pos herr]
    dsimp only
    have e1 : ev = s.ev ++ [Event.dma_unmap_rx (s.rxq.bf_info.getD s.rxq.cidx alx_buffer.zero).dma
          (s.rxq.bf_info.getD s.rxq.cidx alx_buffer.zero).size] ++ [Event.netdev_warn] ++
        (match (s.rxq.bf_info.getD s.rxq.cidx alx_buffer.zero).skb with
         | some b => [Event.kfree_skb b]
         | none => []) := by
      rw [hevd]
      unfold rx_slot
      simp
    subst hqd
    subst e1
    rfl
  have hslot : slot_empty (rx_slot q s.rxq.cidx) := by
    rw [hqd]
    unfold rx_slot slot_empty
    dsimp only
    rw [getD_set_self _ _ _ _ (by omega)]
    exact ⟨rfl, rfl⟩
  have hother : ∀ x, x ≠ s.rxq.cidx → rx_slot q x = rx_slot s.rxq x := by
    intro x hx
    rw [hqd]
    unfold rx_slot
    dsimp only
    exact getD_set_other _ _ _ _ _ (Ne.symm hx)
  have hw3 : (q.rrd_hdr.getD s.rxq.rrd_cidx rrd_desc.zero).word3 = rrd_word3.zero := by
    rw [hqd]
    dsimp only
    rw [getD_set_self _ _ _ _ (by rw [List.length_set]; omega)]
  have hcq : q.cidx = (s.rxq.cidx + 1) % s.rxq.count := by
    rw [hqd]; exact ring_inc_eq_mod _ _ hc16 hci
  have hrq : q.rrd_cidx = (s.rxq.rrd_cidx + 1) % s.rxq.count := by
    rw [hqd]; exact ring_inc_eq_mod _ _ hc16 hrc
  have hk := (alloc_buf_keeps E.rxbuf_size q s.oracle).1
  by_cases hth : u16 (s.rfd_cleaned + 1) > P.ALX_RX_ALLOC_THRESH
  · rw [if_pos hth] at hstep
    refine ⟨q, ev, _, hstep, hevd, hslot, hother, hw3, by rw [hqd], by rw [hqd], by rw [hqd],
      by rw [hqd], hcq, hrq, hk.2.2.2.1, hk.2.2.2.2.1, hk.2.2.2.2.2.2.2.1, hk.2.2.2.2.2.1,
      Or.inr ⟨hth, rfl, rfl⟩, ?_⟩
    intro t p hm
    dsimp only at hm
    rw [hevd] at hm
    exact hnoq t p _ hm (alloc_calls _ _ _)
  · rw [if_neg hth] at hstep
    refine ⟨q, ev, _, hstep, hevd, hslot, hother, hw3, by rw [hqd], by rw [hqd], by rw [hqd],
      by rw [hqd], hcq, hrq, rfl, rfl, rfl, rfl, Or.inl ⟨by omega, rfl⟩, ?_⟩
    intro t p hm
    dsimp only at hm
    rw [hevd] at hm
    exact hnoq t p [] (by simpa using hm) (by intro e he; simp at he)

set_option maxRecDepth 100000 in
/-- C21, witness: a ring of four slots whose first result entry carries
`RRD_ERR_LEN` and whose second is a valid frame. The pass frees buffer 200 of
slot 0 without queueing it, then delivers the frame of slot 1, and ends with
both indices at 2. -/
theorem dispatch_discards_error_entry_witness :
    rx_wf ex_err_state.rxq ∧
      (alx_dispatch_skb ex_params ex_rx_env 8 (ex_rxq_two (ex_rrd_err 0)) ex_oracle).map
        (fun d => (d.rxq.cidx, d.rxq.rrd_cidx, d.ev.take 4)) =
        some (2, 2, [Event.dma_unmap_rx 4096 1536, Event.netdev_warn, Event.kfree_skb 200,
          Event.dma_unmap_rx 8192 1536]) ∧
      ∃ (q : alx_rx_queue) (ev : List Event) (s1 : dispatch_state),
        alx_dispatch_loop ex_params ex_rx_env (7 + 1) ex_err_state = alx_dispatch_loop ex_params ex_rx_env 7 s1 ∧
        ev = ex_err_state.ev ++ [Event.dma_unmap_rx (rx_slot ex_err_state.rxq ex_err_state.rxq.cidx).dma (rx_slot ex_err_state.rxq ex_err_state.rxq.cidx).size,
                      Event.netdev_warn] ++
               (match (rx_slot ex_err_state.rxq ex_err_state.rxq.cidx).skb with
                | some b => [Event.kfree_skb b]
                | none => []) ∧
        slot_empty (rx_slot q ex_err_state.rxq.cidx) ∧
        (∀ x, x ≠ ex_err_state.rxq.cidx → rx_slot q x = rx_slot ex_err_state.rxq x) ∧
        (q.rrd_hdr.getD ex_err_state.rxq.rrd_cidx rrd_desc.zero).word3 = rrd_word3.zero ∧
        q.list = ex_err_state.rxq.list ∧ q.count = ex_err_state.rxq.count ∧ q.pidx = ex_err_state.rxq.pidx ∧
        q.flag_using = ex_err_state.rxq.flag_using ∧
        q.cidx = (ex_err_state.rxq.cidx + 1) % ex_err_state.rxq.count ∧
        q.rrd_cidx = (ex_err_state.rxq.rrd_cidx + 1) % ex_err_state.rxq.count ∧
        s1.rxq.cidx = q.cidx ∧ s1.rxq.rrd_cidx = q.rrd_cidx ∧ s1.rxq.list = q.list ∧
        s1.rxq.rrd_hdr = q.rrd_hdr ∧
        ((u16 (ex_err_state.rfd_cleaned + 1) ≤ ex_params.ALX_RX_ALLOC_THRESH ∧
            s1 = { rxq := q, rfd_cleaned := u16 (ex_err_state.rfd_cleaned + 1), oracle := ex_err_state.oracle, ev := ev }) ∨
          (u16 (ex_err_state.rfd_cleaned + 1) > ex_params.ALX_RX_ALLOC_THRESH ∧
            s1.rxq = (alx_alloc_rxring_buf ex_rx_env.rxbuf_size q ex_err_state.oracle).2.1 ∧
            s1.ev = ev ++ (alx_alloc_rxring_buf ex_rx_env.rxbuf_size q ex_err_state.oracle).2.2.1)) ∧
        (∀ t p, Event.skb_queue_tail t p ∈ s1.ev → Event.skb_queue_tail t p ∈ ex_err_state.ev) :=
  ⟨by decide, by decide,
    dispatch_discards_error_entry ex_params ex_rx_env 7 ex_err_state (by decide) (by decide)
      (by decide) (by decide) (by decide)⟩

/-! ### Length of a delivered packet -/

/-- C28 (amended). In every iteration of the loop of `alx_dispatch_skb` whose
result entry at `rrd_cidx` is valid (updated bit set, `RRD_SI` equal to
`cidx`, `RRD_NOR` equal to 1), reports no `RRD_ERR_RES` or `RRD_ERR_LEN` and
a length `RRD_PKTLEN` of at least `ETH_FCS_LEN` (and below 65536, as a field
of the descriptor): exactly one packet is handed to `alx_skb_queue_tail`, the
buffer of slot `cidx`, and its length is `RRD_PKTLEN - ETH_FCS_LEN`, hence not
larger than the reported length. -/
theorem dispatch_length_without_fcs (P : alx_params) (E : rx_env) (fuel : Nat)
    (s : dispatch_state)
    (hu : (s.rxq.rrd_hdr.getD s.rxq.rrd_cidx rrd_desc.zero).word3.updated = true)
    (hsi : (s.rxq.rrd_hdr.getD s.rxq.rrd_cidx rrd_desc.zero).si = s.rxq.cidx)
    (hnor : (s.rxq.rrd_hdr.getD s.rxq.rrd_cidx rrd_desc.zero).nor = 1)
    (hres : (s.rxq.rrd_hdr.getD s.rxq.rrd_cidx rrd_desc.zero).word3.err_res = false)
    (hlen : (s.rxq.rrd_hdr.getD s.rxq.rrd_cidx rrd_desc.zero).word3.err_len = false)
    (h4 : ETH_FCS_LEN ≤ (s.rxq.rrd_hdr.getD s.rxq.rrd_cidx rrd_desc.zero).word3.pktlen)
    (h16 : (s.rxq.rrd_hdr.getD s.rxq.rrd_cidx rrd_desc.zero).word3.pktlen < 65536) :
    ∃ (pkt : rx_skb) (warn post : List Event) (s1 : dispatch_state),
      alx_dispatch_loop P E (fuel + 1) s = alx_dispatch_loop P E fuel s1 ∧
      s1.ev = s.ev ++ [Event.dma_unmap_rx (rx_slot s.rxq s.rxq.cidx).dma
                        (rx_slot s.rxq s.rxq.cidx).size] ++ warn ++
                [Event.skb_queue_tail
                  (if E.cap_mrq = true then none
                   else some ((s.rxq.rrd_hdr.getD s.rxq.rrd_cidx rrd_desc.zero).rssq % E.nr_rxq))
                  pkt] ++ post ∧
      (warn = [] ∨ warn = [Event.netdev_warn]) ∧
      (∀ e ∈ post, e.is_buffer_call = true) ∧
      pkt.id = (rx_slot s.rxq s.rxq.cidx).skb ∧
      pkt.len + ETH_FCS_LEN = (s.rxq.rrd_hdr.getD s.rxq.rrd_cidx rrd_desc.zero).word3.pktlen ∧
      pkt.len ≤ (s.rxq.rrd_hdr.getD s.rxq.rrd_cidx rrd_desc.zero).word3.pktlen := by
  have hnu : ¬((s.rxq.rrd_hdr.getD s.rxq.rrd_cidx rrd_desc.zero).word3.updated = false) := by
    rw [hu]; simp
  have hval : ¬((s.rxq.rrd_hdr.getD s.rxq.rrd_cidx rrd_desc.zero).si ≠ s.rxq.cidx ∨
      (s.rxq.rrd_hdr.getD s.rxq.rrd_cidx rrd_desc.zero).nor ≠ 1) := by
    rintro (h | h)
    · exact h hsi
    · exact h hnor
  have hnerr : ¬((s.rxq.rrd_hdr.getD s.rxq.rrd_cidx rrd_desc.zero).word3.err_res = true ∨
      (s.rxq.rrd_hdr.getD s.rxq.rrd_cidx rrd_desc.zero).word3.err_len = true) := by
    rw [hres, hlen]; simp
  have hl : u16 ((s.rxq.rrd_hdr.getD s.rxq.rrd_cidx rrd_desc.zero).word3.pktlen + 65536 -
      ETH_FCS_LEN) + ETH_FCS_LEN =
      (s.rxq.rrd_hdr.getD s.rxq.rrd_cidx rrd_desc.zero).word3.pktlen := by
    unfold u16 ETH_FCS_LEN at *
    omega
  rw [alx_dispatch_loop]
  dsimp only
  rw [if_neg hnu, if_neg hval, if_neg hnerr]
  have hle : u16 ((s.rxq.rrd_hdr.getD s.rxq.rrd_cidx rrd_desc.zero).word3.pktlen + 65536 -
      ETH_FCS_LEN) ≤ (s.rxq.rrd_hdr.getD s.rxq.rrd_cidx rrd_desc.zero).word3.pktlen := by
    omega
  have hwarn : ∀ c : Bool, (if c = true then [Event.netdev_warn] else []) = [] ∨
      (if c = true then [Event.netdev_warn] else []) = [Event.netdev_warn] := by
    intro c
    cases c
    · exact Or.inl rfl
    · exact Or.inr rfl
  by_cases hth : u16 (s.rfd_cleaned + 1) > P.ALX_RX_ALLOC_THRESH
  · rw [if_pos hth]
    by_cases hm : E.cap_mrq = true
    · rw [if_pos hm, if_pos hm]
      exact ⟨_, _, _, _, rfl, rfl, hwarn _, alloc_calls _ _ _, rfl, hl, hle⟩
    · rw [if_neg hm, if_neg hm]
      exact ⟨_, _, _, _, rfl, rfl, hwarn _, alloc_calls _ _ _, rfl, hl, hle⟩
  · rw [if_neg hth]
    by_cases hm : E.cap_mrq = true
    · rw [if_pos hm, if_pos hm]
      exact ⟨_, _, [], _, rfl, (List.append_nil _).symm, hwarn _,
        by intro e he; simp at he, rfl, hl, hle⟩
    · rw [if_neg hm, if_neg hm]
      exact ⟨_, _, [], _, rfl, (List.append_nil _).symm, hwarn _,
        by intro e he; simp at he, rfl, hl, hle⟩

set_option maxRecDepth 100000 in
/-- C28, witness: a valid entry reporting 64 bytes. The packet handed on has
length 60. -/
theorem dispatch_length_without_fcs_witness :
    (alx_dispatch_skb ex_params ex_rx_env 8 (ex_rxq_two (ex_rrd 0)) ex_oracle).map
        (fun d => d.ev.filterMap Event.queued_len) = some [60, 60] ∧
      ∃ (pkt : rx_skb) (warn post : List Event) (s1 : dispatch_state),
        alx_dispatch_loop ex_params ex_rx_env (7 + 1) ex_valid_state = alx_dispatch_loop ex_params ex_rx_env 7 s1 ∧
        s1.ev = ex_valid_state.ev ++ [Event.dma_unmap_rx (rx_slot ex_valid_state.rxq ex_valid_state.rxq.cidx).dma
                          (rx_slot ex_valid_state.rxq ex_valid_state.rxq.cidx).size] ++ warn ++
                  [Event.skb_queue_tail
                    (if ex_rx_env.cap_mrq = true then none
                     else some ((ex_valid_state.rxq.rrd_hdr.getD ex_valid_state.rxq.rrd_cidx rrd_desc.zero).rssq % ex_rx_env.nr_rxq))
                    pkt] ++ post ∧
        (warn = [] ∨ warn = [Event.netdev_warn]) ∧
        (∀ e ∈ post, e.is_buffer_call = true) ∧
        pkt.id = (rx_slot ex_valid_state.rxq ex_valid_state.rxq.cidx).skb ∧
        pkt.len + ETH_FCS_LEN = (ex_valid_state.rxq.rrd_hdr.getD ex_valid_state.rxq.rrd_cidx rrd_desc.zero).word3.pktlen ∧
        pkt.len ≤ (ex_valid_state.rxq.rrd_hdr.getD ex_valid_state.rxq.rrd_cidx rrd_desc.zero).word3.pktlen :=
  ⟨by decide,
    dispatch_length_without_fcs ex_params ex_rx_env 7 ex_valid_state (by decide) (by decide)
      (by decide) (by decide) (by decide) (by decide) (by decide)⟩

set_option maxRecDepth 100000 in
/-- C28, counterexample to the claim as stated: a valid, error-free entry that
reports a length of 2, below `ETH_FCS_LEN`. The 16-bit subtraction wraps and
the packet is handed on with length 65534. -/
theorem dispatch_length_wraps_counterexample :
    (alx_dispatch_skb ex_params ex_rx_env 8 (ex_rxq_two (ex_rrd_len 0 2)) ex_oracle).map
        (fun d => d.ev.filterMap Event.queued_len) = some [65534, 60] := by
  decide

/-! ### The flags that guard the RX pass and the reset -/

theorem dispatch_loop_flag (P : alx_params) (E : rx_env) :
    ∀ (fuel : Nat) (s : dispatch_state) (r : Bool × dispatch_state),
      alx_dispatch_loop P E fuel s = some r → r.2.rxq.flag_using = s.rxq.flag_using := by
  intro fuel
  induction fuel with
  | zero => intro s r h; simp [alx_dispatch_loop] at h
  | succ n ih =>
    intro s r h
    unfold alx_dispatch_loop at h
    dsimp only at h
    split_ifs at h
    · cases h; rfl
    · cases h; rfl
    all_goals
      exact (ih _ r h).trans (by first | rfl | exact (alloc_buf_keeps _ _ _).1.2.2.2.2.2.2.1)

/-- C29. What `alx_dispatch_skb` leaves in bit `ALX_RQ_USING` when it returns.
With the bit set on entry it returns false and changes nothing. With the bit
clear on entry it returns true, and the bit is clear again exactly when the
loop was left by `break`: on the return of the SI/NOR check, the one that sets
`TASK_RESET`, the bit is still set. -/
theorem dispatch_using_on_return (P : alx_params) (E : rx_env) (fuel : Nat)
    (rxq : alx_rx_queue) (oracle : List rx_alloc) (d : dispatch_result)
    (h : alx_dispatch_skb P E fuel rxq oracle = some d) :
    (rxq.flag_using = true →
      d.ret = false ∧ d.rxq = rxq ∧ d.ev = [] ∧ d.oracle = oracle ∧ d.task_reset = false) ∧
    (rxq.flag_using = false →
      d.ret = true ∧ (d.task_reset = false → d.rxq.flag_using = false) ∧
        (d.task_reset = true → d.rxq.flag_using = true)) := by
  unfold alx_dispatch_skb at h
  by_cases hu : rxq.flag_using = true
  · rw [if_pos hu] at h
    cases h
    refine ⟨fun _ => ⟨rfl, rfl, rfl, rfl, rfl⟩, fun hf => ?_⟩
    rw [hu] at hf
    cases hf
  · rw [if_neg hu] at h
    dsimp only at h
    refine ⟨fun ht => absurd ht hu, fun _ => ?_⟩
    have hfl := dispatch_loop_flag P E fuel
      { rxq := { rxq with flag_using := true }, rfd_cleaned := 0, oracle := oracle, ev := [] }
    generalize alx_dispatch_loop P E fuel
      { rxq := { rxq with flag_using := true }, rfd_cleaned := 0, oracle := oracle, ev := [] }
      = o at h hfl
    cases o with
    | none => simp at h
    | some r =>
      obtain ⟨b, s⟩ := r
      have hs := hfl _ rfl
      dsimp only at hs
      cases b with
      | true =>
        cases h
        exact ⟨rfl, fun hf => (by cases hf), fun _ => hs⟩
      | false =>
        cases h
        exact ⟨rfl, fun _ => rfl, fun hf => (by cases hf)⟩

set_option maxRecDepth 100000 in
/-- C29, at the failing input: the result entry at `rrd_cidx` carries sequence
index 5 while `cidx` is 4 and the bit is clear on entry. The pass sets
`TASK_RESET` and returns true with `ALX_RQ_USING` still set; the next pass on
the ring it leaves returns false at once. -/
theorem dispatch_using_on_return_witness :
    ∃ d, alx_dispatch_skb ex_params ex_rx_env 8 (ex_rxq_desync false) ex_oracle = some d ∧
      d.ret = true ∧ d.task_reset = true ∧ d.rxq.flag_using = true ∧
      (alx_dispatch_skb ex_params ex_rx_env 8 d.rxq d.oracle).map
        (fun d2 => (d2.ret, d2.ev)) = some (false, []) := by
  have hs : (alx_dispatch_skb ex_params ex_rx_env 8 (ex_rxq_desync false) ex_oracle).isSome
      = true := by decide
  obtain ⟨d, hd⟩ := Option.isSome_iff_exists.1 hs
  have ht : d.task_reset = true := by
    have : (alx_dispatch_skb ex_params ex_rx_env 8 (ex_rxq_desync false) ex_oracle).map
        (fun d => d.task_reset) = some true := by decide
    rw [hd] at this
    simpa using this
  have h2 : (alx_dispatch_skb ex_params ex_rx_env 8 d.rxq d.oracle).map
      (fun d2 => (d2.ret, d2.ev)) = some (false, []) := by
    have : ((alx_dispatch_skb ex_params ex_rx_env 8 (ex_rxq_desync false) ex_oracle).bind
        (fun d => alx_dispatch_skb ex_params ex_rx_env 8 d.rxq d.oracle)).map
        (fun d2 => (d2.ret, d2.ev)) = some (false, []) := by decide
    rw [hd] at this
    simpa using this
  have hu := (dispatch_using_on_return ex_params ex_rx_env 8 (ex_rxq_desync false) ex_oracle d
    hd).2 rfl
  exact ⟨d, hd, hu.1, ht, hu.2.2 ht, h2⟩

theorem activate_flags (a : alx_adapter) (o : List rx_alloc) :
    (alx_activate a o).1.flags =
      { a.flags with HALT := false, TASK_CHK_LINK := true } := by
  unfold alx_activate
  dsimp only
  rw [reinit_rings_flags]

/-- C30. What `alx_reinit` leaves in `RESETING` when the flag is clear on
entry: the call returns, with the flag clear when `HALT` is clear. With `HALT`
set it returns through `if (ALX_FLAG(adpt, HALT)) return;` with `RESETING`
set and nothing else changed; once `alx_activate` has cleared `HALT` again,
`alx_update_hw_stats` still reads nothing and no later `alx_reinit` gets past
its wait loop, whatever the bound. -/
theorem reinit_resetting_on_return (a : alx_adapter) (in_task : Bool) (j : Nat)
    (o : List rx_alloc) (hR : a.flags.RESETING = false) :
    ∃ r, alx_reinit 1 a in_task j o = some r ∧
      (a.flags.HALT = false → r.1.flags.RESETING = false) ∧
      (a.flags.HALT = true →
        r = ({ a with flags := { a.flags with RESETING := true } }, [], o) ∧
        (alx_activate r.1 r.2.2).1.flags.HALT = false ∧
        (alx_activate r.1 r.2.2).1.flags.RESETING = true ∧
        alx_update_hw_stats (alx_activate r.1 r.2.2).1 = [] ∧
        ∀ fuel in_task2 j2 o2,
          alx_reinit fuel (alx_activate r.1 r.2.2).1 in_task2 j2 o2 = none) := by
  by_cases hH : a.flags.HALT = true
  · have h1 : alx_reinit 1 a in_task j o =
        some ({ a with flags := { a.flags with RESETING := true } }, [], o) := by
      unfold alx_reinit
      rw [if_neg (by simp [hR])]
      dsimp only
      rw [if_pos hH]
    have hf : (alx_activate { a with flags := { a.flags with RESETING := true } } o).1.flags.RESETING
        = true := by rw [activate_flags]
    refine ⟨_, h1, fun h => ?_, fun _ => ⟨rfl, ?_, hf, ?_, ?_⟩⟩
    · rw [hH] at h
      cases h
    · dsimp only
      rw [activate_flags]
    · unfold alx_update_hw_stats
      rw [if_pos (Or.inr hf)]
    · intro fuel in_task2 j2 o2
      exact reinit_blocked _ in_task2 j2 o2 hf fuel
  · have h1 : ∃ r, alx_reinit 1 a in_task j o = some r ∧ r.1.flags.RESETING = false := by
      unfold alx_reinit
      rw [if_neg (by simp [hR])]
      dsimp only
      rw [if_neg hH]
      exact ⟨_, rfl, rfl⟩
    obtain ⟨r, hr, hf⟩ := h1
    exact ⟨r, hr, fun _ => hf, fun h => absurd h hH⟩

/-- C30, at the failing input: the halted sample adapter with `RESETING`
clear. `alx_reinit` returns with `RESETING` set and makes no call. -/
theorem reinit_resetting_on_return_witness :
    ex_adapter_halted.flags.RESETING = false ∧
      (alx_reinit 1 ex_adapter_halted false 50 ex_oracle).map
        (fun r => (r.1.flags.HALT, r.1.flags.RESETING, r.2.1)) = some (true, true, []) ∧
      ∃ r, alx_reinit 1 ex_adapter_halted false 50 ex_oracle = some r ∧
        (ex_adapter_halted.flags.HALT = false → r.1.flags.RESETING = false) ∧
        (ex_adapter_halted.flags.HALT = true →
          r = ({ ex_adapter_halted with
                  flags := { ex_adapter_halted.flags with RESETING := true } }, [], ex_oracle) ∧
          (alx_activate r.1 r.2.2).1.flags.HALT = false ∧
          (alx_activate r.1 r.2.2).1.flags.RESETING = true ∧
          alx_update_hw_stats (alx_activate r.1 r.2.2).1 = [] ∧
          ∀ fuel in_task2 j2 o2,
            alx_reinit fuel (alx_activate r.1 r.2.2).1 in_task2 j2 o2 = none) :=
  ⟨by decide, by decide,
    reinit_resetting_on_return ex_adapter_halted false 50 ex_oracle (by decide)⟩

/-! ### Termination and budget of the reclaim loop -/

theorem unmap_kfree_count (txq : alx_tx_queue) (entry : Nat) :
    (alx_txbuf_unmap_and_free txq entry).2.countP Event.is_kfree_skb =
      if (txq.bf_info.getD entry alx_buffer.zero).skb.isSome = true then 1 else 0 := by
  unfold alx_txbuf_unmap_and_free
  dsimp only
  generalize txq.bf_info.getD entry alx_buffer.zero = txb
  obtain ⟨skb, dma, size, ff⟩ := txb
  cases skb <;> cases ff <;> by_cases h2 : size = 0 <;> simp [h2, Event.is_kfree_skb]

theorem clean_loop_kfree (hw : Nat) (fuel : Nat) :
    ∀ (sw : Nat) (b : Int) (pk : Nat) (t : alx_tx_queue) (ev : List Event)
      (res : Nat × Nat × alx_tx_queue × List Event),
      alx_clean_tx_loop hw fuel sw b pk t ev = some res →
      (res.2.2.2.countP Event.is_kfree_skb : Int) ≤ ev.countP Event.is_kfree_skb + max 0 b := by
  induction fuel with
  | zero =>
    intro sw b pk t ev res h
    unfold alx_clean_tx_loop at h
    split_ifs at h
    cases h
    have := le_max_left (0 : Int) b
    show (ev.countP Event.is_kfree_skb : Int) ≤ _
    omega
  | succ n ih =>
    intro sw b pk t ev res h
    unfold alx_clean_tx_loop at h
    split_ifs at h with hc
    · dsimp only at h
      have := ih _ _ _ _ _ _ h
      rw [List.countP_append, unmap_kfree_count] at this
      cases hs : (t.bf_info.getD sw alx_buffer.zero).skb.isSome with
      | true =>
        simp only [hs, if_true] at this
        have h1 : max 0 (b - 1) = b - 1 := max_eq_right (by omega)
        have h2 : max 0 b = b := max_eq_right (by omega)
        rw [h1] at this
        rw [h2]
        push_cast at this
        omega
      | false =>
        simp only [hs] at this
        simpa using this
    · cases h
      have := le_max_left (0 : Int) b
      show (ev.countP Event.is_kfree_skb : Int) ≤ _
      omega

theorem clean_loop_reach (hw : Nat) :
    ∀ (k fuel sw : Nat) (b : Int) (pk : Nat) (t : alx_tx_queue) (ev : List Event),
      (ring_inc t.count)^[k] sw = hw → k ≤ fuel →
      (alx_clean_tx_loop hw fuel sw b pk t ev).isSome = true := by
  intro k
  induction k with
  | zero =>
    intro fuel sw b pk t ev hk _
    simp only [Function.iterate_zero, id_eq] at hk
    cases fuel with
    | zero =>
      unfold alx_clean_tx_loop
      rw [if_neg (by rintro ⟨h, _⟩; exact h hk)]
      rfl
    | succ n =>
      unfold alx_clean_tx_loop
      rw [if_neg (by rintro ⟨h, _⟩; exact h hk)]
      rfl
  | succ k ih =>
    intro fuel sw b pk t ev hk hf
    cases fuel with
    | zero => omega
    | succ n =>
      unfold alx_clean_tx_loop
      split_ifs with hc
      · dsimp only
        apply ih
        · rw [(unmap_shape t sw).1.1]
          rw [Function.iterate_succ_apply] at hk
          exact hk
        · omega
      · rfl

theorem ring_inc_above {count : Nat} :
    ∀ (n p : Nat), count ≤ p → p + n < 65536 → (ring_inc count)^[n] p = p + n := by
  intro n
  induction n with
  | zero => intro p _ _; rfl
  | succ n ih =>
    intro p hp hn
    rw [Function.iterate_succ_apply]
    have h1 : ring_inc count p = p + 1 := by
      unfold ring_inc
      rw [u16_of_lt (by omega), if_neg (by omega)]
    rw [h1, ih (p + 1) (by omega) (by omega)]
    omega

theorem ring_reach {count sw hw : Nat} (hc : 1 ≤ count) (h16 : count < 65536)
    (hs : sw < 65536) (hh : hw < count) :
    ∃ k, k ≤ 65536 + count ∧ (ring_inc count)^[k] sw = hw := by
  by_cases hlt : sw < count
  · refine ⟨ring_dist count sw hw, ?_, ?_⟩
    · have := @ring_dist_lt count sw hw hc
      omega
    · rw [ring_inc_iterate h16 _ _ hlt]
      exact ring_pos_dist hlt hh
  · refine ⟨hw + (1 + (65535 - sw)), by omega, ?_⟩
    rw [Function.iterate_add_apply, Function.iterate_add_apply,
      ring_inc_above (65535 - sw) sw (by omega) (by omega)]
    have h1 : (ring_inc count)^[1] (sw + (65535 - sw)) = 0 := by
      have e : sw + (65535 - sw) = 65535 := by omega
      rw [e, Function.iterate_one]
      unfold ring_inc u16
      split_ifs <;> rfl
    rw [h1, ring_inc_iterate h16 _ _ (by omega)]
    rw [Nat.zero_add, Nat.mod_eq_of_lt hh]

theorem unmap_keeps_no_skb (t : alx_tx_queue) (entry : Nat)
    (h : ∀ i, (tx_slot t i).skb = none) :
    ∀ i, (tx_slot (alx_txbuf_unmap_and_free t entry).1 i).skb = none := by
  intro i
  by_cases he : entry = i
  · subst he
    by_cases hl : entry < t.bf_info.length
    · exact (unmap_slot_self t entry hl).2
    · unfold tx_slot alx_txbuf_unmap_and_free
      dsimp only
      rw [List.getD_eq_default _ _ (by rw [List.length_set]; omega)]
      rfl
  · rw [unmap_slot_other t entry i he]
    exact h i

theorem clean_loop_spins (hw : Nat) :
    ∀ (fuel sw : Nat) (b : Int) (pk : Nat) (t : alx_tx_queue) (ev : List Event),
      t.count < 65536 → t.count ≤ hw → sw < t.count → 0 < b →
      (∀ i, (tx_slot t i).skb = none) →
      alx_clean_tx_loop hw fuel sw b pk t ev = none := by
  intro fuel
  induction fuel with
  | zero =>
    intro sw b pk t ev _ hge hs hb _
    unfold alx_clean_tx_loop
    rw [if_pos ⟨by omega, hb⟩]
  | succ n ih =>
    intro sw b pk t ev h16 hge hs hb hn
    unfold alx_clean_tx_loop
    rw [if_pos ⟨by omega, hb⟩]
    dsimp only
    have hsk : (t.bf_info.getD sw alx_buffer.zero).skb.isSome = false := by
      have := hn sw
      unfold tx_slot at this
      rw [this]
      rfl
    rw [hsk]
    have hcnt : (alx_txbuf_unmap_and_free t sw).1.count = t.count := (unmap_shape t sw).1.1
    exact ih _ _ _ _ _ (by rw [hcnt]; exact h16) (by rw [hcnt]; exact hge)
      (by rw [hcnt]; exact ring_inc_lt h16 hs) hb (unmap_keeps_no_skb t sw hn)

/-- C26 (amended). For every TX ring with `1 ≤ count` (a 16-bit field) and
every value below `count` read from the consumer register, `alx_clean_tx_irq`
returns once its loop may run `65536 + count` iterations, and the pass frees
at most `ALX_DEFAULT_TX_WORK` packets (none when the constant is not
positive). -/
theorem clean_tx_irq_terminates (P : alx_params) (fuel : Nat) (halt carrier_ok : Bool)
    (hw : Nat) (txq : alx_tx_queue) (stopped : Bool)
    (hc : 1 ≤ txq.count) (h16 : txq.count < 65536) (hh : hw < txq.count)
    (hf : 65536 + txq.count ≤ fuel) :
    ∃ r, alx_clean_tx_irq P fuel halt carrier_ok hw txq stopped = some r ∧
      (r.ev.countP Event.is_kfree_skb : Int) ≤ max 0 P.ALX_DEFAULT_TX_WORK := by
  unfold alx_clean_tx_irq
  by_cases hH : halt = true
  · rw [if_pos hH]
    exact ⟨_, rfl, by simp⟩
  · rw [if_neg hH]
    dsimp only
    have hu : u16 hw = hw := u16_of_lt (by omega)
    rw [hu]
    have key : ∀ (sw : Nat) (t : alx_tx_queue) (ev : List Event),
        (ev.countP Event.is_kfree_skb : Int) ≤ max 0 P.ALX_DEFAULT_TX_WORK →
        ∃ r, (if stopped = true ∧ carrier_ok = true ∧ alx_tpd_avail t > P.ALX_TX_WAKEUP_THRESH t
            ∧ halt = false then
          some ({ ret := decide (sw = hw), txq := t, stopped := false,
                  ev := ev ++ [Event.netif_tx_wake_queue] } : clean_result)
        else
          some { ret := decide (sw = hw), txq := t, stopped := stopped, ev := ev }) = some r ∧
          (r.ev.countP Event.is_kfree_skb : Int) ≤ max 0 P.ALX_DEFAULT_TX_WORK := by
      intro sw t ev hev
      split_ifs
      · refine ⟨_, rfl, ?_⟩
        dsimp only
        rw [List.countP_append]
        simpa [Event.is_kfree_skb] using hev
      · exact ⟨_, rfl, hev⟩
    by_cases hne : u16 txq.cidx ≠ hw
    · rw [if_pos hne]
      obtain ⟨k, hk, hr⟩ := @ring_reach txq.count (u16 txq.cidx) hw hc h16
        (by unfold u16; omega) hh
      have hs := clean_loop_reach hw k fuel (u16 txq.cidx) P.ALX_DEFAULT_TX_WORK 0 txq [] hr
        (by omega)
      cases hl : alx_clean_tx_loop hw fuel (u16 txq.cidx) P.ALX_DEFAULT_TX_WORK 0 txq [] with
      | none => rw [hl] at hs; cases hs
      | some res =>
        obtain ⟨sw, pk, t, e⟩ := res
        dsimp only
        refine key sw { t with cidx := sw } (e ++ [Event.netdev_tx_completed_queue pk]) ?_
        have := clean_loop_kfree hw fuel _ _ _ _ _ _ hl
        rw [List.countP_append]
        simpa [Event.is_kfree_skb] using this
    · rw [if_neg hne]
      dsimp only
      exact key (u16 txq.cidx) txq [] (by simp)

set_option maxRecDepth 100000 in
/-- C26, witness: five packets in flight on eight slots, consumer register at
3 and a work limit of 2. The pass ends after two packets and leaves `cidx`
at 2. -/
theorem clean_tx_irq_terminates_witness :
    (alx_clean_tx_irq ⟨2, fun t => (t.count : Int) / 4, 32⟩ 8 false true 3 ex_ring8_busy false).map
        (fun r => (r.ret, r.txq.cidx, r.ev.countP Event.is_kfree_skb)) = some (false, 2, 2) ∧
      ∃ r, alx_clean_tx_irq ⟨2, fun t => (t.count : Int) / 4, 32⟩ (65536 + 8) false true 3
          ex_ring8_busy false = some r ∧
        (r.ev.countP Event.is_kfree_skb : Int) ≤
          max 0 (⟨2, fun t => (t.count : Int) / 4, 32⟩ : alx_params).ALX_DEFAULT_TX_WORK :=
  ⟨by decide,
    clean_tx_irq_terminates ⟨2, fun t => (t.count : Int) / 4, 32⟩ (65536 + 8) false true 3
      ex_ring8_busy false (by decide) (by decide) (by decide) (le_refl _)⟩

/-- C26, counterexample to the claim as stated: an empty ring of eight slots
and the 16-bit value 8 in the consumer register. The software index wraps at
`count` and never equals 8, no slot holds a packet so the budget never drops:
the loop ends within no bound. -/
theorem clean_tx_irq_spins_counterexample :
    ¬ ∃ fuel, (alx_clean_tx_irq ex_params fuel false true 8 (ex_ring8 0) false).isSome = true := by
  rintro ⟨fuel, h⟩
  have hs := clean_loop_spins 8 fuel 0 ex_params.ALX_DEFAULT_TX_WORK 0 (ex_ring8 0) []
    (by decide) (by decide) (by decide) (by decide) (by
      intro i
      unfold tx_slot ex_ring8
      dsimp only
      by_cases hi : i < 8
      · rw [List.getD_eq_getElem _ _ (by simpa using hi), List.getElem_replicate]
        rfl
      · rw [List.getD_eq_default _ _ (by simp; omega)]
        rfl)
  unfold alx_clean_tx_irq at h
  rw [if_neg (by decide)] at h
  dsimp only at h
  rw [if_pos (by decide)] at h
  have e1 : u16 (ex_ring8 0).cidx = 0 := by decide
  have e2 : u16 8 = 8 := by decide
  rw [e1, e2, hs] at h
  cases h

/-! ### FreeBSD attachment -/

/-- C25. What `alx_init_tx_ring` leaves behind: `pidx`, `cidx` and `count` of
the ring are all zero while the configured size `sc->tx_ringsz` goes to
register `ALX_TPD_RING_SZ`. The ring invariant `pidx < count` therefore fails
after the call, and `count` equals the configured size only when that size is
zero. -/
theorem init_tx_ring_sets_count_zero (sc : alx_softc) :
    (alx_init_tx_ring sc).1.alx_tx_queue.pidx = 0 ∧
      (alx_init_tx_ring sc).1.alx_tx_queue.cidx = 0 ∧
      (alx_init_tx_ring sc).1.alx_tx_queue.count = 0 ∧
      ¬((alx_init_tx_ring sc).1.alx_tx_queue.pidx < (alx_init_tx_ring sc).1.alx_tx_queue.count) ∧
      ¬((alx_init_tx_ring sc).1.alx_tx_queue.cidx < (alx_init_tx_ring sc).1.alx_tx_queue.count) ∧
      bsd_call.mem_w32 alx_reg.ALX_TPD_RING_SZ (u32 sc.tx_ringsz) ∈ (alx_init_tx_ring sc).2 ∧
      ((alx_init_tx_ring sc).1.alx_tx_queue.count = sc.tx_ringsz ↔ sc.tx_ringsz = 0) := by
  unfold alx_init_tx_ring
  dsimp only
  refine ⟨rfl, rfl, rfl, by omega, by omega, by simp, ?_⟩
  constructor
  · intro h; exact h.symm
  · intro h; exact h.symm

/-- C25, at the failing input: a softc configured for 256 descriptors. After
the call `count` is 0, not 256, and `pidx < count` is false. -/
theorem init_tx_ring_sets_count_zero_witness :
    ((alx_init_tx_ring ex_softc).1.alx_tx_queue.pidx,
        (alx_init_tx_ring ex_softc).1.alx_tx_queue.cidx,
        (alx_init_tx_ring ex_softc).1.alx_tx_queue.count, ex_softc.tx_ringsz) = (0, 0, 0, 256) ∧
      (alx_init_tx_ring ex_softc).2 =
        [bsd_call.mem_w32 alx_reg.ALX_TPD_RING_SZ 256,
         bsd_call.mem_w32 alx_reg.ALX_TPD_PRI0_ADDR_LO 1048576,
         bsd_call.mem_w32 alx_reg.ALX_TX_BASE_ADDR_HI 0] ∧
      ¬((alx_init_tx_ring ex_softc).1.alx_tx_queue.pidx <
        (alx_init_tx_ring ex_softc).1.alx_tx_queue.count) :=
  ⟨by decide, by decide, (init_tx_ring_sets_count_zero ex_softc).2.2.2.1⟩

theorem encap_retry_ring (load : Nat → Nat → load_result) (collapse : Nat → Nat → Option Nat)
    (txq : alx_tx_queue) :
    ∀ (fuel k m : Nat) (ev : List bsd_call) (r : encap_result),
      alx_encap_retry load collapse txq fuel k m ev = some r → r.txq = txq := by
  intro fuel
  induction fuel with
  | zero => intro k m ev r h; simp [alx_encap_retry] at h
  | succ n ih =>
    intro k m ev r h
    unfold alx_encap_retry at h
    dsimp only at h
    split_ifs at h
    · cases hc : collapse k m with
      | none => rw [hc] at h; cases h; rfl
      | some m2 => rw [hc] at h; exact ih _ _ _ _ h
    · cases h; rfl

theorem encap_fill_pidx (r : load_result) :
    ∀ (n : Nat) (txq : alx_tx_queue), (alx_encap_fill r n txq).pidx = txq.pidx := by
  intro n
  induction n with
  | zero => intro txq; rfl
  | succ n ih =>
    intro txq
    unfold alx_encap_fill
    dsimp only
    rw [ih]

/-- C24. Whenever `alx_encap` returns, the ring is as it was on entry: no
descriptor is written and `pidx` is not advanced, also when the value returned
is 0. The return happens in `else return (error);` right after the load. The
statements behind it, which nothing reaches, would leave `pidx` unchanged as
well. -/
theorem encap_leaves_ring_untouched (load : Nat → Nat → load_result)
    (collapse : Nat → Nat → Option Nat) (txq : alx_tx_queue) (fuel m : Nat) (r : encap_result)
    (h : alx_encap load collapse txq fuel m = some r) :
    r.txq = txq ∧ r.txq.pidx = txq.pidx ∧ r.txq.tpd_hdr = txq.tpd_hdr ∧
      ∀ (m2 : Nat) (ld : load_result), (alx_encap_tail txq m2 ld).txq.pidx = txq.pidx := by
  have h1 := encap_retry_ring load collapse txq fuel 0 m [] r h
  refine ⟨h1, by rw [h1], by rw [h1], ?_⟩
  intro m2 ld
  unfold alx_encap_tail
  split_ifs
  · rfl
  · rfl
  · exact encap_fill_pidx _ _ _

/-- C24, at the failing input: a packet whose load succeeds at once with one
segment of 60 bytes. `alx_encap` returns 0 with the descriptor at `pidx` and
`pidx` itself unchanged. -/
theorem encap_leaves_ring_untouched_witness :
    alx_encap ex_load_ok ex_collapse_fail ex_ring8_busy 1 7 =
        some ⟨0, some 7, ex_ring8_busy, [bsd_call.dmamap_load 7]⟩ ∧
      ((⟨0, some 7, ex_ring8_busy, [bsd_call.dmamap_load 7]⟩ : encap_result).txq = ex_ring8_busy ∧
        (⟨0, some 7, ex_ring8_busy, [bsd_call.dmamap_load 7]⟩ : encap_result).txq.pidx =
          ex_ring8_busy.pidx ∧
        (⟨0, some 7, ex_ring8_busy, [bsd_call.dmamap_load 7]⟩ : encap_result).txq.tpd_hdr =
          ex_ring8_busy.tpd_hdr ∧
        ∀ (m2 : Nat) (ld : load_result),
          (alx_encap_tail ex_ring8_busy m2 ld).txq.pidx = ex_ring8_busy.pidx) :=
  ⟨by decide,
    encap_leaves_ring_untouched ex_load_ok ex_collapse_fail ex_ring8_busy 1 7 _ (by decide)⟩

theorem encap_retry_spins (load : Nat → Nat → load_result) (collapse : Nat → Nat → Option Nat)
    (txq : alx_tx_queue) (hl : ∀ k m, (load k m).error = EFBIG)
    (hc : ∀ k m, (collapse k m).isSome = true) :
    ∀ (fuel k m : Nat) (ev : List bsd_call),
      alx_encap_retry load collapse txq fuel k m ev = none := by
  intro fuel
  induction fuel with
  | zero => intro k m ev; rfl
  | succ n ih =>
    intro k m ev
    unfold alx_encap_retry
    dsimp only
    rw [if_pos (hl k m)]
    obtain ⟨m2, h2⟩ := Option.isSome_iff_exists.1 (hc k m)
    rw [h2]
    exact ih _ _ _

/-- C27. With a load service that answers `EFBIG` at every attempt and an
`m_collapse` that succeeds every time, `alx_encap` takes `goto retry` after
every attempt: it returns within no bound on the number of attempts. -/
theorem encap_retries_without_bound (load : Nat → Nat → load_result)
    (collapse : Nat → Nat → Option Nat) (txq : alx_tx_queue)
    (hl : ∀ k m, (load k m).error = EFBIG) (hc : ∀ k m, (collapse k m).isSome = true) :
    ¬ ∃ fuel m, (alx_encap load collapse txq fuel m).isSome = true := by
  rintro ⟨fuel, m, h⟩
  unfold alx_encap at h
  rw [encap_retry_spins load collapse txq hl hc] at h
  cases h

/-- C27, at the failing input: the load always answers `EFBIG`, the collapse
always succeeds. Ten attempts are not enough, and no number is. -/
theorem encap_retries_without_bound_witness :
    alx_encap ex_load_efbig ex_collapse_ok ex_ring8_busy 10 7 = none ∧
      ¬ ∃ fuel m, (alx_encap ex_load_efbig ex_collapse_ok ex_ring8_busy fuel m).isSome = true :=
  ⟨by decide,
    encap_retries_without_bound ex_load_efbig ex_collapse_ok ex_ring8_busy (fun _ _ => rfl)
      (fun _ _ => rfl)⟩

/-- C23 (amended). A packet that needs more descriptors than the ring can ever
offer (`alx_tpd_req > count - 1`) is not dropped by `alx_start_xmit_ring` on a
well-formed ring: the call returns `NETDEV_TX_BUSY`, frees nothing, leaves the
ring as it was and stops the queue if it was awake. In the FreeBSD path
`alx_start_locked` puts the packet at the head of the send queue back exactly
when `alx_encap` returned non-zero with `*m_head` still set; when `alx_encap`
cleared `*m_head` the packet is gone from the queue, and when it returned 0
the loop goes on with the next packet. -/
theorem oversized_packet_not_dropped (txq : alx_tx_queue) (stopped : Bool) (skb : sk_buff)
    (dma_map : Nat → Option Nat) (hwf : tx_wf txq)
    (hbig : alx_tpd_req skb > (txq.count : Int) - 1) :
    alx_start_xmit_ring txq stopped skb dma_map =
        { ret := netdev_tx_t.NETDEV_TX_BUSY, txq := txq, stopped := true,
          ev := if stopped = true then [] else [Event.netif_tx_stop_queue] } ∧
      ∀ (load : Nat → Nat → load_result) (collapse : Nat → Nat → Option Nat) (fuel m : Nat)
        (rest : List Nat) (q : alx_tx_queue) (ev : List bsd_call) (r : encap_result),
        alx_encap load collapse q fuel m = some r →
        (r.ret ≠ 0 →
          alx_start_locked_loop load collapse fuel (m :: rest) q ev =
            some { if_snd := r.m_head.toList ++ rest, txq := r.txq,
                   ev := ev ++ r.ev ++ r.m_head.toList.map bsd_call.ifq_prepend }) ∧
        (r.ret = 0 →
          alx_start_locked_loop load collapse fuel (m :: rest) q ev =
            alx_start_locked_loop load collapse fuel rest r.txq
              (ev ++ r.ev ++ r.m_head.toList.map bsd_call.bpf_mtap)) := by
  constructor
  · have hlt : alx_tpd_avail txq < alx_tpd_req skb := by
      have := avail_le txq hwf
      omega
    unfold alx_start_xmit_ring
    dsimp only
    rw [if_pos hlt]
    have hge : ¬ (alx_tpd_avail txq ≥ alx_tpd_req skb) := by omega
    rw [if_neg hge]
    cases stopped <;> simp
  · intro load collapse fuel m rest q ev r hr
    constructor
    · intro hne
      rw [alx_start_locked_loop, hr]
      dsimp only
      rw [if_pos hne]
      cases r.m_head <;> simp
    · intro h0
      rw [alx_start_locked_loop, hr]
      dsimp only
      rw [if_neg (by simp [h0])]

set_option maxRecDepth 100000 in
/-- C23, witness: a packet of nine descriptors on an empty ring of eight
slots, and a FreeBSD packet whose load fails with `ENOMEM`, which
`alx_start_locked` puts back. -/
theorem oversized_packet_not_dropped_witness :
    tx_wf (ex_ring8 0) ∧ alx_tpd_req (ex_skb_wide 7) > (((ex_ring8 0).count : Nat) : Int) - 1 ∧
      (alx_start_locked ex_load_nomem ex_collapse_ok 4 true false [7, 8] ex_ring8_busy).map
        (fun res => (res.if_snd, res.ev)) =
        some ([7, 8], [bsd_call.dmamap_load 7, bsd_call.ifq_prepend 7]) ∧
      alx_start_xmit_ring (ex_ring8 0) false (ex_skb_wide 7) ex_dma_ok =
        { ret := netdev_tx_t.NETDEV_TX_BUSY, txq := ex_ring8 0, stopped := true,
          ev := if false = true then [] else [Event.netif_tx_stop_queue] } :=
  ⟨by decide, by decide, by decide,
    (oversized_packet_not_dropped (ex_ring8 0) false (ex_skb_wide 7) ex_dma_ok (by decide)
      (by decide)).1⟩

set_option maxRecDepth 100000 in
/-- C23, counterexample to the claim as stated: a packet of nine descriptors
submitted to an empty ring of eight slots, which offers seven. The call
returns `NETDEV_TX_BUSY` and does not free the packet. -/
theorem oversized_packet_busy_counterexample :
    alx_tpd_req (ex_skb_wide 7) > (((ex_ring8 0).count : Nat) : Int) - 1 ∧
      (alx_start_xmit_ring (ex_ring8 0) false (ex_skb_wide 7) ex_dma_ok).ret =
        netdev_tx_t.NETDEV_TX_BUSY ∧
      Event.kfree_skb 7 ∉ (alx_start_xmit_ring (ex_ring8 0) false (ex_skb_wide 7) ex_dma_ok).ev := by
  decide

end Alx
